import Mathlib

/-!
# easyrdma: buffer queue, sticky status and credit flow control

A shallow embedding of `core/common/RdmaError.h`, `core/common/tCircularFifo.h`,
`core/common/RdmaBuffer.{h,cpp}` and `core/common/RdmaBufferQueue.{h,cpp}`.

Conventions of the embedding:

* a `RdmaBuffer*` of a queue is the index of the buffer in `buffers`;
* a C++ function that can throw an `RdmaException` returns its outcome in
  `Ret.result` (`Except.error e` is `throw RdmaException(e)`), together with the
  state the queue is left in and the externally visible effects (buffers handed to
  the provider with `connection.QueueToQp`, completion callbacks fired);
* a C `assert` is a checked precondition: an operation whose `assert` fails has no
  result (`none`);
* the provider (`connection.QueueToQp`, `connection.PollForReceive`) and the
  condition variables are outside the queue, so their outcome is an argument of the
  operation that calls them; an operation that waits on a condition variable is
  embedded as the code that runs once the wait has returned.
-/

namespace EasyRDMA

/-! ## core/api/easyrdma.h : error codes -/

def easyrdma_Error_Success : Int := 0
def easyrdma_Error_Timeout : Int := -734001
def easyrdma_Error_InvalidOperation : Int := -734004
def easyrdma_Error_NoBuffersQueued : Int := -734005
def easyrdma_Error_InternalError : Int := -734009
def easyrdma_Error_OperationCancelled : Int := -734011
def easyrdma_Error_Disconnected : Int := -734017
def easyrdma_Error_SendTooLargeForRecvBuffer : Int := -734028

/-! ## core/common/RdmaError.h -/

/-- The class `RdmaError`: code, subcode and the source location that raised it
(`filename` is `none` for `nullptr`). -/
structure RdmaError where
  errorCode : Int
  errorSubCode : Int
  filename : Option String
  fileLineNumber : Int
deriving DecidableEq, Repr

namespace RdmaError

/-- The default constructor `RdmaError()`. -/
def success : RdmaError := ⟨0, 0, none, 0⟩

def GetCode (self : RdmaError) : Int := self.errorCode

def IsError (self : RdmaError) : Bool := self.errorCode != 0

def IsSuccess (self : RdmaError) : Bool := self.errorCode == 0

/-- The overload `Assign(int32_t, int32_t, const char*, int32_t)`. -/
def AssignCode (self : RdmaError) (_errorCode _errorSubCode : Int) (_filename : Option String)
    (_fileLineNumber : Int) : RdmaError :=
  if self.errorCode = 0 then ⟨_errorCode, _errorSubCode, _filename, _fileLineNumber⟩ else self

/-- The overload `Assign(const RdmaError&)`. -/
def Assign (self other : RdmaError) : RdmaError :=
  if self.errorCode = 0 then
    ⟨other.errorCode, other.errorSubCode, other.filename, other.fileLineNumber⟩
  else self

end RdmaError

/-- The value of `__FILE__` inside RdmaBufferQueue.cpp. -/
def fileRdmaBufferQueue : Option String := some "RdmaBufferQueue.cpp"

/-- The error built by `RDMA_THROW(code)` at line `line` of RdmaBufferQueue.cpp. -/
def RDMA_THROW (code : Int) (line : Int) : RdmaError := ⟨code, 0, fileRdmaBufferQueue, line⟩

/-! ## core/common/tCircularFifo.h -/

/-- The class template `tCircularFifo<T>`: `_buffer` is the `std::vector<T>`. -/
structure tCircularFifo (α : Type) where
  _buffer : List α
  _head : Nat
  _size : Nat
deriving DecidableEq, Repr

namespace tCircularFifo

variable {α : Type}

/-- The default constructor `tCircularFifo()`. -/
def empty : tCircularFifo α := ⟨[], 0, 0⟩

def size (self : tCircularFifo α) : Nat := self._size

def capacity (self : tCircularFifo α) : Nat := self._buffer.length

def getWriteIndex (self : tCircularFifo α) (offset : Nat) : Nat :=
  (self._head + self.size + offset) % self.capacity

def getReadIndex (self : tCircularFifo α) (offset : Nat) : Nat :=
  (self._head + offset) % self.capacity

def clear (self : tCircularFifo α) : tCircularFifo α :=
  { self with _head := 0, _size := 0 }

/-- The function `reallocate(size)`: `clear()` then `_buffer.resize(size)`, which keeps the
first `size` elements and appends value-initialised ones. -/
def reallocate [Inhabited α] (self : tCircularFifo α) (size : Nat) : tCircularFifo α :=
  { self.clear with
    _buffer := self._buffer.take size ++ List.replicate (size - self._buffer.length) default }

/-- The function `push(elem)`; `none` when `assert(_size+1 <= capacity())` fails. -/
def push (self : tCircularFifo α) (elem : α) : Option (tCircularFifo α) :=
  if self._size + 1 ≤ self.capacity then
    some { self with _buffer := self._buffer.set (self.getWriteIndex 0) elem,
                     _size := self._size + 1 }
  else none

/-- The function `front()`; `none` when `assert(size() > 0)` fails. -/
def front (self : tCircularFifo α) : Option α :=
  if self.size > 0 then self._buffer[self.getReadIndex 0]? else none

/-- The function `pop()`; `none` when `assert(size() >= 1)` fails. -/
def pop (self : tCircularFifo α) : Option (tCircularFifo α) :=
  if self.size ≥ 1 then
    some { self with _head := (self._head + 1) % self.capacity, _size := self._size - 1 }
  else none

/-- The elements held by the ring, oldest first (the abstraction function: slot
`getReadIndex i` for `i < size()`). -/
def toList (self : tCircularFifo α) : List α :=
  (List.range self._size).filterMap (fun i => self._buffer[self.getReadIndex i]?)

/-- The ring is well formed: it holds no more elements than it has slots. -/
def WF (self : tCircularFifo α) : Prop := self._size ≤ self._buffer.length

end tCircularFifo

/-! ## core/common/RdmaSession.h -/

inductive Direction where
  | Unknown
  | Send
  | Receive
deriving DecidableEq, Repr

/-- The struct `BufferCompletionCallbackData`; `callbackFunction` is `none` for `nullptr`,
otherwise the identity of the function. -/
structure BufferCompletionCallbackData where
  callbackFunction : Option Nat
  context1 : Nat
  context2 : Nat
deriving DecidableEq, Repr

/-- The value `BufferCompletionCallbackData({})`. -/
def BufferCompletionCallbackData.unset : BufferCompletionCallbackData := ⟨none, 0, 0⟩

def BufferCompletionCallbackData.IsSet (self : BufferCompletionCallbackData) : Bool :=
  self.callbackFunction.isSome

/-- What the queue does to the world outside it. -/
inductive Effect where
  /-- One call `callbackFunction(context1, context2, status, completedBytes)`. -/
  | Callback (data : BufferCompletionCallbackData) (status : Int) (completedBytes : Nat)
  /-- One call `connection.QueueToQp(direction, buffer)`. -/
  | QueueToQp (direction : Direction) (buffer : Nat)
deriving DecidableEq, Repr

/-- The function `BufferCompletionCallbackData::Call`: the calls it makes. -/
def BufferCompletionCallbackData.Call (self : BufferCompletionCallbackData) (status : Int)
    (completedBytes : Nat) : List Effect :=
  if self.IsSet then [Effect.Callback self status completedBytes] else []

/-! ## core/common/RdmaBuffer.h, RdmaBuffer.cpp -/

/-- The fields of class `RdmaBuffer` that the queue reads or writes;
`userBufferListNode` is `userBufferListNode.is_linked()`. -/
structure RdmaBuffer where
  bufferIndex : Nat
  bufferSize : Nat
  usedBytes : Nat
  completionCallbackData : BufferCompletionCallbackData
  userBufferListNode : Bool
deriving DecidableEq, Repr

namespace RdmaBuffer

def GetUsed (self : RdmaBuffer) : Nat := self.usedBytes

def GetBufferLen (self : RdmaBuffer) : Nat := self.bufferSize

/-- The function `GetAndClearClearCallbackData()`: the copy returned and the buffer after. -/
def GetAndClearClearCallbackData (self : RdmaBuffer) :
    BufferCompletionCallbackData × RdmaBuffer :=
  (self.completionCallbackData,
   { self with completionCallbackData := BufferCompletionCallbackData.unset })

def SetCompletionCallback (self : RdmaBuffer) (data : BufferCompletionCallbackData) :
    RdmaBuffer :=
  { self with completionCallbackData := data }

/-- The function `SetUsed(size)`; it throws InvalidSize (RdmaBuffer.cpp line 65). -/
def SetUsed (self : RdmaBuffer) (size : Nat) : Except RdmaError RdmaBuffer :=
  if size > self.bufferSize then
    Except.error ⟨-734007, 0, some "RdmaBuffer.cpp", 65⟩
  else Except.ok { self with usedBytes := size }

/-- The constructor `RdmaBufferInternal(connection, queue, size, index)`. -/
def Internal (size index : Nat) : RdmaBuffer :=
  { bufferIndex := index, bufferSize := size, usedBytes := 0,
    completionCallbackData := BufferCompletionCallbackData.unset, userBufferListNode := false }

/-- The constructor `RdmaBufferExternal(connection, queue, memoryRegion, index)`. -/
def External (index : Nat) : RdmaBuffer :=
  { bufferIndex := index, bufferSize := 0, usedBytes := 0,
    completionCallbackData := BufferCompletionCallbackData.unset, userBufferListNode := false }

/-- The function `RdmaBufferExternal::SetBufferRegion(buffer, size)`. -/
def SetBufferRegion (self : RdmaBuffer) (size : Nat) : RdmaBuffer :=
  { self with bufferSize := size, usedBytes := size }

end RdmaBuffer

/-! ## core/common/RdmaBufferQueue.h, RdmaBufferQueue.cpp -/

inductive IgnoreCredits where
  | Yes
  | No
deriving DecidableEq, Repr

/-- The value of `std::cv_status` a timed wait returns. -/
inductive cv_status where
  | no_timeout
  | timeout
deriving DecidableEq, Repr

/-- What one call `connection.PollForReceive(timeoutMs)` does: it throws, or it
dispatches one work completion with `buffer->HandleCompletion(status, bytes)`. -/
inductive PollResult where
  | throws (e : RdmaError)
  | completion (buffer : Nat) (completionStatus : RdmaError) (bytesTransferred : Nat)
deriving DecidableEq, Repr

/-- The data members of class `RdmaBufferQueue` (the mutex and the condition variables
apart). `userBuffers` is the intrusive list, in list order. -/
structure RdmaBufferQueue where
  direction : Direction
  buffers : List RdmaBuffer
  idleBuffers : tCircularFifo Nat
  queuedBuffers : tCircularFifo Nat
  completedBuffers : tCircularFifo Nat
  buffersQueuedWaitingForCredits : tCircularFifo Nat
  userBuffers : List Nat
  queueStatus : RdmaError
  putBackToIdleOnCompletion : Bool
  availableCredits : List Nat
  aborted : Bool
  usePolling : Bool
deriving DecidableEq, Repr

/-- The outcome of a member function: the queue after the call, the value returned or
the `RdmaException` thrown, and the effects in the order they happened. -/
structure Ret (α : Type) where
  queue : RdmaBufferQueue
  result : Except RdmaError α
  effects : List Effect

namespace RdmaBufferQueue

/-- The function `size()`. -/
def size (q : RdmaBufferQueue) : Nat := q.buffers.length

/-- Rewrites the buffer `b` points to. -/
def modifyBuffer (q : RdmaBufferQueue) (b : Nat) (f : RdmaBuffer → RdmaBuffer) :
    RdmaBufferQueue :=
  { q with buffers := q.buffers.modify f b }

/-- The call `userBuffers.push_back(*buffer)`: links the hook at the back of the list. -/
def userPushBack (q : RdmaBufferQueue) (b : Nat) : RdmaBufferQueue :=
  { q with userBuffers := q.userBuffers ++ [b],
           buffers := q.buffers.modify (fun x => { x with userBufferListNode := true }) b }

/-- The call `buffer->userBufferListNode.unlink()`: takes the hook out of the list. -/
def userUnlink (q : RdmaBufferQueue) (b : Nat) : RdmaBufferQueue :=
  { q with userBuffers := q.userBuffers.erase b,
           buffers := q.buffers.modify (fun x => { x with userBufferListNode := false }) b }

/-- The base constructor `RdmaBufferQueue(connection, direction, usePolling)` (the
branch under `_WIN32` is left out). -/
def base (_direction : Direction) (_usePolling : Bool) : Except RdmaError RdmaBufferQueue :=
  if _usePolling && _direction == Direction.Send then
    Except.error (RDMA_THROW easyrdma_Error_InvalidOperation 18)
  else
    Except.ok
      { direction := _direction, buffers := [], idleBuffers := tCircularFifo.empty,
        queuedBuffers := tCircularFifo.empty, completedBuffers := tCircularFifo.empty,
        buffersQueuedWaitingForCredits := tCircularFifo.empty, userBuffers := [],
        queueStatus := RdmaError.success,
        putBackToIdleOnCompletion := (_direction == Direction.Send),
        availableCredits := [], aborted := false, usePolling := _usePolling }

/-- The function `AllocateBufferQueues(numBuffers)`; the `numBuffers` slots of `buffers`
are filled by the constructor that calls it. -/
def AllocateBufferQueues (q : RdmaBufferQueue) (numBuffers : Nat) : RdmaBufferQueue :=
  { q with idleBuffers := q.idleBuffers.reallocate numBuffers,
           queuedBuffers := q.queuedBuffers.reallocate numBuffers,
           completedBuffers := q.completedBuffers.reallocate numBuffers,
           buffersQueuedWaitingForCredits :=
             q.buffersQueuedWaitingForCredits.reallocate numBuffers }

/-- The loop `for(auto& buffer : buffers) { buffer.reset(new ...(index++));
idleBuffers.push(buffer.get()); }` over the slots `index, index+1, ...` still to fill. -/
def fillBuffers (mk : Nat → RdmaBuffer) :
    Nat → Nat → RdmaBufferQueue → Option RdmaBufferQueue
  | 0, _, q => some q
  | n + 1, index, q =>
    match q.idleBuffers.push index with
    | none => none
    | some idle =>
      fillBuffers mk n (index + 1) { q with buffers := q.buffers ++ [mk index],
                                            idleBuffers := idle }

end RdmaBufferQueue

/-- The constructor `RdmaBufferQueueMultipleBuffer(connection, direction, numBuffers,
bufferSize, usePolling)`. -/
def RdmaBufferQueueMultipleBuffer (_direction : Direction) (numBuffers bufferSize : Nat)
    (_usePolling : Bool) : Option (Except RdmaError RdmaBufferQueue) :=
  match RdmaBufferQueue.base _direction _usePolling with
  | Except.error e => some (Except.error e)
  | Except.ok q =>
    (RdmaBufferQueue.fillBuffers (RdmaBuffer.Internal bufferSize) numBuffers 0
      (q.AllocateBufferQueues numBuffers)).map Except.ok

/-- The constructor `RdmaBufferQueueSingleBuffer(connection, direction, buffer, bufferSize,
numOverlapped, usePolling)`. -/
def RdmaBufferQueueSingleBuffer (_direction : Direction) (numOverlapped : Nat)
    (_usePolling : Bool) : Option (Except RdmaError RdmaBufferQueue) :=
  match RdmaBufferQueue.base _direction _usePolling with
  | Except.error e => some (Except.error e)
  | Except.ok q =>
    (RdmaBufferQueue.fillBuffers RdmaBuffer.External numOverlapped 0
      ({ q with putBackToIdleOnCompletion := true }.AllocateBufferQueues numOverlapped)).map
      Except.ok

namespace RdmaBufferQueue

/-- How a call `connection.QueueToQp(direction, buffer)` ends: `qp` is `none` when it
returns and `some e` when it throws `e`. -/
def QueueToQp (qp : Option RdmaError) : Except RdmaError Unit :=
  match qp with
  | none => Except.ok ()
  | some e => Except.error e

/-- The loop of `Abort` over one container `src` (`queuedBuffers`, then
`buffersQueuedWaitingForCredits`): `while(src.size())` take the front buffer, clear its
callback data and keep it in `callbacksToFire` when set, pop it and push it to
`idleBuffers`. The first argument bounds the number of iterations. -/
def abortDrain : Nat → tCircularFifo Nat → tCircularFifo Nat → List RdmaBuffer →
    List BufferCompletionCallbackData →
    Option (tCircularFifo Nat × tCircularFifo Nat × List RdmaBuffer ×
      List BufferCompletionCallbackData)
  | 0, src, idle, bufs, callbacksToFire =>
    if src.size = 0 then some (src, idle, bufs, callbacksToFire) else none
  | fuel + 1, src, idle, bufs, callbacksToFire =>
    if src.size = 0 then some (src, idle, bufs, callbacksToFire)
    else
      match src.front with
      | none => none
      | some buffer =>
        match bufs[buffer]? with
        | none => none
        | some buf =>
          let callbackData := buf.GetAndClearClearCallbackData
          let callbacksToFire :=
            if callbackData.1.IsSet then callbacksToFire ++ [callbackData.1]
            else callbacksToFire
          match src.pop with
          | none => none
          | some src =>
            match idle.push buffer with
            | none => none
            | some idle =>
              abortDrain fuel src idle (bufs.set buffer callbackData.2) callbacksToFire

/-- The function `Abort(errorCode)`. -/
def Abort (q : RdmaBufferQueue) (errorCode : Int) : Option (Ret Unit) :=
  if q.aborted then some ⟨q, Except.ok (), []⟩
  else
    let queueStatus := q.queueStatus.AssignCode errorCode 0 fileRdmaBufferQueue 45
    match abortDrain q.queuedBuffers.size q.queuedBuffers q.idleBuffers q.buffers [] with
    | none => none
    | some (queued, idle, bufs, callbacksToFire) =>
      match abortDrain q.buffersQueuedWaitingForCredits.size
          q.buffersQueuedWaitingForCredits idle bufs callbacksToFire with
      | none => none
      | some (waiting, idle, bufs, callbacksToFire) =>
        some ⟨{ q with aborted := true, queueStatus := queueStatus, queuedBuffers := queued,
                       buffersQueuedWaitingForCredits := waiting, idleBuffers := idle,
                       buffers := bufs },
              Except.ok (),
              (callbacksToFire.map (fun callback => callback.Call errorCode 0)).flatten⟩

/-- The function `WaitForIdleBuffer(timeoutMs)`. `w` is what `idleAvailableCond.wait_for`
returns when it is called; `idleAvailableCond.wait` just returns. -/
def WaitForIdleBuffer (q : RdmaBufferQueue) (timeoutMs : Int) (w : cv_status) :
    Option (Ret Nat) :=
  if q.idleBuffers.size = 0 ∧ !q.queueStatus.IsError ∧ timeoutMs ≠ -1 ∧ w = cv_status.timeout
  then some ⟨q, Except.error (RDMA_THROW easyrdma_Error_Timeout 81), []⟩
  else if q.queueStatus.IsError then some ⟨q, Except.error q.queueStatus, []⟩
  else if q.idleBuffers.size = 0 then
    some ⟨q, Except.error (RDMA_THROW easyrdma_Error_Timeout 90), []⟩
  else
    match q.idleBuffers.front with
    | none => none
    | some buffer =>
      match q.idleBuffers.pop with
      | none => none
      | some idle =>
        some ⟨{ q with idleBuffers := idle }.userPushBack buffer, Except.ok buffer, []⟩

/-- The function `HandleCompletion(buffer, completionStatus, putBackToIdle)`. When
`ASSERT_ALWAYS(&buffer == queuedBuffers.front())` fails it throws InternalError (the
definition of the macro without `_DEBUG`), after the callback data was cleared. -/
def HandleCompletion (q : RdmaBufferQueue) (buffer : Nat) (completionStatus : RdmaError)
    (_putBackToIdle : Bool) : Option (Ret Unit) :=
  if !q.aborted then
    match q.buffers[buffer]? with
    | none => none
    | some buf =>
      let cachedCompletionData := buf.GetAndClearClearCallbackData.1
      let completedBytes := buf.GetUsed
      let q := { q with buffers := q.buffers.set buffer buf.GetAndClearClearCallbackData.2 }
      match q.queuedBuffers.front with
      | none => none
      | some front =>
        if buffer ≠ front then
          some ⟨q, Except.error (RDMA_THROW easyrdma_Error_InternalError 159), []⟩
        else
          match q.queuedBuffers.pop with
          | none => none
          | some queued =>
            let q := { q with queuedBuffers := queued }
            let moved : Option RdmaBufferQueue :=
              if !q.putBackToIdleOnCompletion then
                (q.completedBuffers.push buffer).map
                  (fun completed => { q with completedBuffers := completed })
              else
                (q.idleBuffers.push buffer).map (fun idle => { q with idleBuffers := idle })
            match moved with
            | none => none
            | some q =>
              let q :=
                if completionStatus.IsError then
                  { q with queueStatus := q.queueStatus.Assign completionStatus }
                else q
              some ⟨q, Except.ok (),
                    cachedCompletionData.Call completionStatus.GetCode completedBytes⟩
  else
    some ⟨q, Except.ok (), BufferCompletionCallbackData.unset.Call completionStatus.GetCode 0⟩

/-- The function `RdmaBuffer::HandleCompletion(completionStatus, bytesTransferred)` of
buffer `buffer` of the queue: `usedBytes = bytesTransferred`, then
`bufferQueue.HandleCompletion(*this, completionStatus, false)`. -/
def BufferHandleCompletion (q : RdmaBufferQueue) (buffer : Nat) (completionStatus : RdmaError)
    (bytesTransferred : Nat) : Option (Ret Unit) :=
  (q.modifyBuffer buffer (fun x => { x with usedBytes := bytesTransferred })).HandleCompletion
    buffer completionStatus false

/-- The tail of `WaitForCompletedBuffer`, from the comment "If we have an error in the
queue" on. -/
def takeCompleted (q : RdmaBufferQueue) (effects : List Effect) : Option (Ret Nat) :=
  if q.queueStatus.IsError ∧ q.completedBuffers.size = 0 then
    some ⟨q, Except.error q.queueStatus, effects⟩
  else if q.completedBuffers.size = 0 then
    some ⟨q, Except.error (RDMA_THROW easyrdma_Error_Timeout 133), effects⟩
  else
    match q.completedBuffers.front with
    | none => none
    | some buffer =>
      match q.completedBuffers.pop with
      | none => none
      | some completed =>
        some ⟨{ q with completedBuffers := completed }.userPushBack buffer,
              Except.ok buffer, effects⟩

/-- The function `WaitForCompletedBuffer(timeoutMs)`. `w` is what
`completedAvailableCond.wait_for` returns when it is called and `poll` what
`connection.PollForReceive` does when it is called. -/
def WaitForCompletedBuffer (q : RdmaBufferQueue) (timeoutMs : Int) (w : cv_status)
    (poll : PollResult) : Option (Ret Nat) :=
  if q.putBackToIdleOnCompletion then
    some ⟨q, Except.error (RDMA_THROW easyrdma_Error_InvalidOperation 103), []⟩
  else if q.completedBuffers.size = 0 ∧ !q.queueStatus.IsError then
    if q.queuedBuffers.size = 0 ∧ q.buffersQueuedWaitingForCredits.size = 0 then
      some ⟨q, Except.error (RDMA_THROW easyrdma_Error_NoBuffersQueued 107), []⟩
    else if q.usePolling then
      match poll with
      | PollResult.throws e => some ⟨q, Except.error e, []⟩
      | PollResult.completion buffer completionStatus bytesTransferred =>
        match q.BufferHandleCompletion buffer completionStatus bytesTransferred with
        | none => none
        | some r =>
          match r.result with
          | Except.error e => some ⟨r.queue, Except.error e, r.effects⟩
          | Except.ok _ => r.queue.takeCompleted r.effects
    else if timeoutMs ≠ -1 ∧ w = cv_status.timeout then
      some ⟨q, Except.error (RDMA_THROW easyrdma_Error_Timeout 121), []⟩
    else q.takeCompleted []
  else q.takeCompleted []

/-- The function `QueueBuffer(buffer, ignoreCredits)`. `qp` is what
`connection.QueueToQp` does when it is called: `none` when it returns, `some e` when it
throws `e`. -/
def QueueBuffer (q : RdmaBufferQueue) (buffer : Nat) (ignoreCredits : IgnoreCredits)
    (qp : Option RdmaError) : Option (Ret Unit) :=
  if q.queueStatus.IsError then some ⟨q, Except.error q.queueStatus, []⟩
  else
    match q.buffers[buffer]? with
    | none => none
    | some buf =>
      if !buf.userBufferListNode then
        some ⟨q, Except.error (RDMA_THROW easyrdma_Error_InvalidOperation 189), []⟩
      else
        let toQp (q : RdmaBufferQueue) : Option (Ret Unit) :=
          match q.queuedBuffers.push buffer with
          | none => none
          | some queued =>
            some ⟨{ q with queuedBuffers := queued }.userUnlink buffer, QueueToQp qp,
                  [Effect.QueueToQp q.direction buffer]⟩
        if q.direction = Direction.Send ∧ ignoreCredits = IgnoreCredits.No then
          match q.availableCredits with
          | poppedCreditSize :: rest =>
            if buf.GetUsed > poppedCreditSize then
              let e := RDMA_THROW easyrdma_Error_SendTooLargeForRecvBuffer 197
              some ⟨{ q with queueStatus := q.queueStatus.Assign e }, Except.error e, []⟩
            else toQp { q with availableCredits := rest }
          | [] =>
            match q.buffersQueuedWaitingForCredits.push buffer with
            | none => none
            | some waiting =>
              some ⟨{ q with buffersQueuedWaitingForCredits := waiting }.userUnlink buffer,
                    Except.ok (), []⟩
        else toQp q

/-- The function `AddCredit(bufferSize)`; `qp` as for `QueueBuffer`. -/
def AddCredit (q : RdmaBufferQueue) (bufferSize : Nat) (qp : Option RdmaError) :
    Option (Ret Unit) :=
  let q := { q with availableCredits := q.availableCredits ++ [bufferSize] }
  if q.buffersQueuedWaitingForCredits.size ≠ 0 then
    match q.availableCredits.head? with
    | none => none
    | some poppedCreditSize =>
      match q.buffersQueuedWaitingForCredits.front with
      | none => none
      | some bufferToQueueToQp =>
        match q.buffers[bufferToQueueToQp]? with
        | none => none
        | some buf =>
          if buf.GetUsed > poppedCreditSize then
            let e := RDMA_THROW easyrdma_Error_SendTooLargeForRecvBuffer 236
            some ⟨{ q with queueStatus := q.queueStatus.Assign e }, Except.error e, []⟩
          else
            match q.buffersQueuedWaitingForCredits.pop with
            | none => none
            | some waiting =>
              match q.queuedBuffers.push bufferToQueueToQp with
              | none => none
              | some queued =>
                let q := { q with buffersQueuedWaitingForCredits := waiting,
                                  queuedBuffers := queued,
                                  availableCredits := q.availableCredits.tail }
                match qp with
                | none =>
                  some ⟨q, QueueToQp none, [Effect.QueueToQp q.direction bufferToQueueToQp]⟩
                | some e =>
                  some ⟨{ q with queueStatus := q.queueStatus.Assign e }, QueueToQp (some e),
                        [Effect.QueueToQp q.direction bufferToQueueToQp]⟩
  else some ⟨q, Except.ok (), []⟩

/-- The function `ReleaseBuffer(buffer)`. -/
def ReleaseBuffer (q : RdmaBufferQueue) (buffer : Nat) : Option (Ret Unit) :=
  match q.buffers[buffer]? with
  | none => none
  | some buf =>
    if !buf.userBufferListNode then
      some ⟨q, Except.error (RDMA_THROW easyrdma_Error_InvalidOperation 257), []⟩
    else
      match (q.userUnlink buffer).idleBuffers.push buffer with
      | none => none
      | some idle => some ⟨{ q.userUnlink buffer with idleBuffers := idle }, Except.ok (), []⟩

/-- The function `HasUserBuffersOutstanding()`. -/
def HasUserBuffersOutstanding (q : RdmaBufferQueue) : Bool := !q.userBuffers.isEmpty

/-- The function `GetQueueStatus()`. -/
def GetQueueStatus (q : RdmaBufferQueue) : RdmaError := q.queueStatus

end RdmaBufferQueue

/-! ## Calls on a queue and the states they reach -/

/-- One call on a queue or on one of its buffers, with what the world outside the queue
answers during the call. -/
inductive Call where
  | WaitForIdleBuffer (timeoutMs : Int) (w : cv_status)
  | WaitForCompletedBuffer (timeoutMs : Int) (w : cv_status) (poll : PollResult)
  | QueueBuffer (buffer : Nat) (ignoreCredits : IgnoreCredits) (qp : Option RdmaError)
  | AddCredit (bufferSize : Nat) (qp : Option RdmaError)
  | ReleaseBuffer (buffer : Nat)
  | HandleCompletion (buffer : Nat) (completionStatus : RdmaError) (putBackToIdle : Bool)
  | Abort (errorCode : Int)
  /-- The call `buffer->SetUsed(size)`. -/
  | SetUsed (buffer : Nat) (size : Nat)
  /-- The call `buffer->SetCompletionCallback(data)`. -/
  | SetCompletionCallback (buffer : Nat) (data : BufferCompletionCallbackData)
  /-- The call `buffer->SetBufferRegion(pointer, size)`. -/
  | SetBufferRegion (buffer : Nat) (size : Nat)
  /-- The call `buffer->HandleCompletion(completionStatus, bytesTransferred)`. -/
  | BufferHandleCompletion (buffer : Nat) (completionStatus : RdmaError)
      (bytesTransferred : Nat)
deriving DecidableEq, Repr

/-- What is left of a `Ret` when the returned value is dropped: `error` is the exception
thrown, `none` when the call returned. -/
structure Outcome where
  queue : RdmaBufferQueue
  error : Option RdmaError
  effects : List Effect
deriving DecidableEq, Repr

def Ret.outcome {α : Type} (r : Ret α) : Outcome :=
  ⟨r.queue, (match r.result with
             | Except.ok _ => none
             | Except.error e => some e), r.effects⟩

namespace RdmaBufferQueue

/-- Runs one call. -/
def call (q : RdmaBufferQueue) : Call → Option Outcome
  | Call.WaitForIdleBuffer timeoutMs w => (q.WaitForIdleBuffer timeoutMs w).map Ret.outcome
  | Call.WaitForCompletedBuffer timeoutMs w poll =>
    (q.WaitForCompletedBuffer timeoutMs w poll).map Ret.outcome
  | Call.QueueBuffer buffer ignoreCredits qp =>
    (q.QueueBuffer buffer ignoreCredits qp).map Ret.outcome
  | Call.AddCredit bufferSize qp => (q.AddCredit bufferSize qp).map Ret.outcome
  | Call.ReleaseBuffer buffer => (q.ReleaseBuffer buffer).map Ret.outcome
  | Call.HandleCompletion buffer completionStatus putBackToIdle =>
    (q.HandleCompletion buffer completionStatus putBackToIdle).map Ret.outcome
  | Call.Abort errorCode => (q.Abort errorCode).map Ret.outcome
  | Call.SetUsed buffer size =>
    match q.buffers[buffer]? with
    | none => none
    | some buf =>
      match buf.SetUsed size with
      | Except.error e => some ⟨q, some e, []⟩
      | Except.ok buf => some ⟨{ q with buffers := q.buffers.set buffer buf }, none, []⟩
  | Call.SetCompletionCallback buffer data =>
    match q.buffers[buffer]? with
    | none => none
    | some buf =>
      some ⟨{ q with buffers := q.buffers.set buffer (buf.SetCompletionCallback data) },
            none, []⟩
  | Call.SetBufferRegion buffer size =>
    match q.buffers[buffer]? with
    | none => none
    | some buf =>
      some ⟨{ q with buffers := q.buffers.set buffer (buf.SetBufferRegion size) }, none, []⟩
  | Call.BufferHandleCompletion buffer completionStatus bytesTransferred =>
    (q.BufferHandleCompletion buffer completionStatus bytesTransferred).map Ret.outcome

/-- Runs the calls one after the other; the outcomes in call order. -/
def trace : RdmaBufferQueue → List Call → Option (List Outcome)
  | _, [] => some []
  | q, c :: cs =>
    match q.call c with
    | none => none
    | some o => (trace o.queue cs).map (fun os => o :: os)

/-- The queue after the calls. -/
def exec : RdmaBufferQueue → List Call → Option RdmaBufferQueue
  | q, [] => some q
  | q, c :: cs =>
    match q.call c with
    | none => none
    | some o => exec o.queue cs

/-- The five sets of the buffer state machine, oldest first. -/
def Idle (q : RdmaBufferQueue) : List Nat := q.idleBuffers.toList

def User (q : RdmaBufferQueue) : List Nat := q.userBuffers

def WaitingCredit (q : RdmaBufferQueue) : List Nat := q.buffersQueuedWaitingForCredits.toList

def Queued (q : RdmaBufferQueue) : List Nat := q.queuedBuffers.toList

def Completed (q : RdmaBufferQueue) : List Nat := q.completedBuffers.toList

/-- Whether the hook `userBufferListNode` of buffer `b` is linked. -/
def linked (q : RdmaBufferQueue) (b : Nat) : Bool :=
  match q.buffers[b]? with
  | some buf => buf.userBufferListNode
  | none => false

/-- The number of usedBytes of buffer `b`. -/
def used (q : RdmaBufferQueue) (b : Nat) : Nat :=
  match q.buffers[b]? with
  | some buf => buf.GetUsed
  | none => 0

/-- The completion callback data of buffer `b` of the list `bufs`. -/
def callbackAt (bufs : List RdmaBuffer) (b : Nat) : BufferCompletionCallbackData :=
  match bufs[b]? with
  | some buf => buf.completionCallbackData
  | none => BufferCompletionCallbackData.unset

/-- The completion callback data of buffer `b`. -/
def callbackOf (q : RdmaBufferQueue) (b : Nat) : BufferCompletionCallbackData :=
  callbackAt q.buffers b

/-- How often buffer `b` occurs in the five sets together. -/
def occurrences (q : RdmaBufferQueue) (b : Nat) : Nat :=
  q.Idle.count b + q.User.count b + q.WaitingCredit.count b + q.Queued.count b +
    q.Completed.count b

/-- The invariant of the queue: the four rings have one slot per buffer and are well
formed, every buffer is in exactly one set, and the user list is the set of linked
hooks. -/
structure Inv (q : RdmaBufferQueue) : Prop where
  capIdle : q.idleBuffers._buffer.length = q.buffers.length
  capQueued : q.queuedBuffers._buffer.length = q.buffers.length
  capCompleted : q.completedBuffers._buffer.length = q.buffers.length
  capWaiting : q.buffersQueuedWaitingForCredits._buffer.length = q.buffers.length
  wfIdle : q.idleBuffers.WF
  wfQueued : q.queuedBuffers.WF
  wfCompleted : q.completedBuffers.WF
  wfWaiting : q.buffersQueuedWaitingForCredits.WF
  once : ∀ b, q.occurrences b = if b < q.buffers.length then 1 else 0
  hook : ∀ b, q.linked b = true ↔ b ∈ q.userBuffers

/-- The queue `r` has the waiting ring, the credits and the aborted flag of `q`. -/
def SameFlow (q r : RdmaBufferQueue) : Prop :=
  r.buffersQueuedWaitingForCredits = q.buffersQueuedWaitingForCredits ∧
    r.availableCredits = q.availableCredits ∧ r.aborted = q.aborted

/-- The fields of a queue that no call changes. -/
def Static (q r : RdmaBufferQueue) : Prop :=
  r.buffers.length = q.buffers.length ∧ r.direction = q.direction ∧
    r.putBackToIdleOnCompletion = q.putBackToIdleOnCompletion ∧ r.usePolling = q.usePolling

end RdmaBufferQueue

/-- The buffer a `QueueBuffer` call queues. -/
def Call.queueArg : Call → List Nat
  | Call.QueueBuffer buffer _ _ => [buffer]
  | _ => []

/-- The credit an `AddCredit` call brings. -/
def Call.creditArg : Call → List Nat
  | Call.AddCredit bufferSize _ => [bufferSize]
  | _ => []

/-- The buffer a completion call completes. -/
def Call.completionArg : Call → List Nat
  | Call.HandleCompletion buffer _ _ => [buffer]
  | Call.BufferHandleCompletion buffer _ _ => [buffer]
  | _ => []

/-- The calls of the send path: acquire, fill, queue with credits counted, credit
arrival, completion. -/
def Call.isSendFlow : Call → Bool
  | Call.WaitForIdleBuffer _ _ => true
  | Call.QueueBuffer _ IgnoreCredits.No _ => true
  | Call.AddCredit _ _ => true
  | Call.HandleCompletion _ _ _ => true
  | Call.BufferHandleCompletion _ _ _ => true
  | Call.SetUsed _ _ => true
  | Call.SetCompletionCallback _ _ => true
  | _ => false

/-- The buffers of the `QueueBuffer` calls, in call order. -/
def queueOrder : List Call → List Nat
  | [] => []
  | c :: cs => c.queueArg ++ queueOrder cs

/-- The credits of the `AddCredit` calls, in arrival order. -/
def creditOrder : List Call → List Nat
  | [] => []
  | c :: cs => c.creditArg ++ creditOrder cs

/-- The buffers of the completion calls, in call order. -/
def completionOrder : List Call → List Nat
  | [] => []
  | c :: cs => c.completionArg ++ completionOrder cs

/-- The buffer an effect hands to the provider. -/
def Effect.posted : Effect → Option Nat
  | Effect.QueueToQp _ buffer => some buffer
  | Effect.Callback _ _ _ => none

/-- The buffers handed to the provider by a run, in the order of the `QueueToQp` calls. -/
def postedBy : List Outcome → List Nat
  | [] => []
  | o :: os => o.effects.filterMap Effect.posted ++ postedBy os

/-- The send path after a run: `P` are the buffers handed to the provider so far, `QO` the
buffers queued so far, `CO` the credits that arrived so far, `H` the buffers completed so
far. -/
def RdmaBufferQueue.SendOrder (q : RdmaBufferQueue) (QO CO H P : List Nat) : Prop :=
  P ++ q.WaitingCredit = QO ∧ H ++ q.Queued = P ∧ q.availableCredits = CO.drop P.length ∧
    P.length ≤ CO.length ∧ (q.WaitingCredit ≠ [] → q.availableCredits = [])

/-- The queue `q` was just built with `N` buffers by one of the two constructors. -/
def Constructed (N : Nat) (q : RdmaBufferQueue) : Prop :=
  (∃ d bufferSize p, RdmaBufferQueueMultipleBuffer d N bufferSize p = some (Except.ok q)) ∨
  (∃ d p, RdmaBufferQueueSingleBuffer d N p = some (Except.ok q))

/-- The queue `q` is reached from a construction with `N` buffers by some calls. -/
def Reachable (N : Nat) (q : RdmaBufferQueue) : Prop :=
  ∃ q0 calls, Constructed N q0 ∧ q0.exec calls = some q

/-! ## Sample runs -/

/-- The queue built by `RdmaBufferQueueMultipleBuffer(connection, direction, 2, 100, false)`. -/
def sampleQueue (d : Direction) : RdmaBufferQueue :=
  { direction := d,
    buffers := [RdmaBuffer.Internal 100 0, RdmaBuffer.Internal 100 1],
    idleBuffers := ⟨[0, 1], 0, 2⟩,
    queuedBuffers := ⟨[0, 0], 0, 0⟩,
    completedBuffers := ⟨[0, 0], 0, 0⟩,
    buffersQueuedWaitingForCredits := ⟨[0, 0], 0, 0⟩,
    userBuffers := [],
    queueStatus := RdmaError.success,
    putBackToIdleOnCompletion := (d == Direction.Send),
    availableCredits := [],
    aborted := false,
    usePolling := false }

/-- The queue `q` after `calls`, or `q` itself when an assertion fails on the way. -/
def RdmaBufferQueue.after (q : RdmaBufferQueue) (calls : List Call) : RdmaBufferQueue :=
  (q.exec calls).getD q

/-- A send of 100 bytes parked for want of a credit, then released by a credit of 200,
while the second buffer is held by the user. -/
def sampleCallsC1 : List Call :=
  [Call.WaitForIdleBuffer 0 cv_status.timeout, Call.SetUsed 0 100,
   Call.QueueBuffer 0 IgnoreCredits.No none, Call.WaitForIdleBuffer 0 cv_status.timeout,
   Call.AddCredit 200 none]

/-- A credit of 50 bytes is at hand and the user holds a buffer filled with 100 bytes. -/
def sampleCallsC2 : List Call :=
  [Call.WaitForIdleBuffer 0 cv_status.timeout, Call.SetUsed 0 100, Call.AddCredit 50 none]

/-- A send of 100 bytes is parked for want of a credit; then a credit of 50 bytes
arrives, too small for it (the run of the test FlowControl_AddCredit). -/
def sampleCallsC4 : List Call :=
  [Call.WaitForIdleBuffer 0 cv_status.timeout, Call.SetUsed 0 100,
   Call.QueueBuffer 0 IgnoreCredits.No none, Call.AddCredit 50 none]

/-- A send parked for want of a credit. -/
def sampleCallsParked : List Call :=
  [Call.WaitForIdleBuffer 0 cv_status.timeout, Call.SetUsed 0 100,
   Call.QueueBuffer 0 IgnoreCredits.No none]

/-- Two sends queued before any credit, then two credits, then the two completions. -/
def sampleCallsC3 : List Call :=
  [Call.WaitForIdleBuffer 0 cv_status.timeout, Call.WaitForIdleBuffer 0 cv_status.timeout,
   Call.SetUsed 1 10, Call.QueueBuffer 1 IgnoreCredits.No none, Call.SetUsed 0 20,
   Call.QueueBuffer 0 IgnoreCredits.No none, Call.AddCredit 100 none,
   Call.AddCredit 100 none, Call.HandleCompletion 1 RdmaError.success false,
   Call.WaitForIdleBuffer 0 cv_status.timeout, Call.QueueBuffer 1 IgnoreCredits.No none]

/-- The outcomes of `calls` on `q`, none when an assertion fails on the way. -/
def RdmaBufferQueue.outcomes (q : RdmaBufferQueue) (calls : List Call) : List Outcome :=
  (q.trace calls).getD []

/-- One credit at hand; a first send with a callback takes it and is queued, a second
send with a callback is parked for want of a credit. -/
def sampleCallsC6 : List Call :=
  [Call.AddCredit 100 none, Call.WaitForIdleBuffer 0 cv_status.timeout,
   Call.SetCompletionCallback 0 ⟨some 7, 1, 2⟩, Call.QueueBuffer 0 IgnoreCredits.No none,
   Call.WaitForIdleBuffer 0 cv_status.timeout,
   Call.SetCompletionCallback 1 ⟨some 8, 3, 4⟩, Call.QueueBuffer 1 IgnoreCredits.No none]

/-- Two receives posted, the first one completes with 33 bytes, then the peer
disconnects. -/
def sampleCallsC7 : List Call :=
  [Call.WaitForIdleBuffer 0 cv_status.timeout, Call.QueueBuffer 0 IgnoreCredits.No none,
   Call.WaitForIdleBuffer 0 cv_status.timeout, Call.QueueBuffer 1 IgnoreCredits.No none,
   Call.BufferHandleCompletion 0 RdmaError.success 33,
   Call.Abort easyrdma_Error_Disconnected]

/-- One receive posted, which completes with 33 bytes. -/
def sampleCallsC8 : List Call :=
  [Call.WaitForIdleBuffer 0 cv_status.timeout, Call.QueueBuffer 0 IgnoreCredits.No none,
   Call.BufferHandleCompletion 0 RdmaError.success 33]

end EasyRDMA

/-!
# easyrdma: connection data, credit messages, sessions, the session registry and the
access manager

A shallow embedding of `core/common/RdmaConnectionData.{h,cpp}`,
`core/common/RdmaConnectedSessionBase.{h,cpp}`, `core/api/rdma_api_common.h`, the buffer
release functions of `core/api/rdma_api_c.cpp` and `core/api/tAccessManager.h`.
-/

namespace EasyRDMA

/-! ## core/api/easyrdma.h : further error codes and flags -/

def easyrdma_Error_InvalidSession : Int := -734002
def easyrdma_Error_InvalidArgument : Int := -734003
def easyrdma_Error_InvalidSize : Int := -734007
def easyrdma_Error_NotConnected : Int := -734014
def easyrdma_Error_AlreadyConfigured : Int := -734016
def easyrdma_Error_InvalidDirection : Int := -734020
def easyrdma_Error_IncompatibleProtocol : Int := -734021
def easyrdma_Error_IncompatibleVersion : Int := -734022
def easyrdma_Error_OperationNotSupported : Int := -734026
def easyrdma_CloseFlags_DeferWhileUserBuffersOutstanding : Nat := 0x01

deriving instance DecidableEq for Except

/-! ## core/common/RdmaConnectionData.h, RdmaConnectionData.cpp -/

/-- One `uint8_t`. -/
abbrev Byte : Type := Fin 256

/-- The conversion `static_cast<uint8_t>(direction)` of `enum class Direction`
(`Unknown = 0xFF`, `Send = 0x00`, `Receive = 0x01`). -/
def Direction.toUInt8 : Direction → Byte
  | Direction.Unknown => 0xFF
  | Direction.Send => 0x00
  | Direction.Receive => 0x01

/-- The packed struct `easyrdma_ConnectionData`; `protocolId` is the value of the
`big_uint32_t`. -/
structure easyrdma_ConnectionData where
  protocolId : Nat
  protocolVersion : Byte
  oldestCompatibleVersion : Byte
  direction : Byte
deriving DecidableEq, Repr

def kConnectionDataProtocol : Nat := 0x52444D41

def kDefaultConnectionData : easyrdma_ConnectionData :=
  { protocolId := kConnectionDataProtocol, protocolVersion := 1, oldestCompatibleVersion := 1,
    direction := Direction.Unknown.toUInt8 }

/-- The value of `__FILE__` inside RdmaConnectionData.cpp. -/
def fileRdmaConnectionData : Option String := some "RdmaConnectionData.cpp"

namespace easyrdma_ConnectionData

/-- The value of `sizeof(easyrdma_ConnectionData)` under `#pragma pack(push, 1)`. -/
def sizeof : Nat := 7

/-- The seven bytes of the struct in memory: the `big_uint32_t` most significant byte
first, then the three `uint8_t` fields. -/
def bytes (cd : easyrdma_ConnectionData) : List Byte :=
  [Fin.ofNat (cd.protocolId / 2 ^ 24 % 256), Fin.ofNat (cd.protocolId / 2 ^ 16 % 256),
   Fin.ofNat (cd.protocolId / 2 ^ 8 % 256), Fin.ofNat (cd.protocolId % 256),
   cd.protocolVersion, cd.oldestCompatibleVersion, cd.direction]

/-- The struct read by `reinterpret_cast<const easyrdma_ConnectionData&>(*buffer.data())`
from a buffer of at least `sizeof` bytes. -/
def ofBytes (buffer : List Byte) : easyrdma_ConnectionData :=
  { protocolId := (buffer.getD 0 0).val * 2 ^ 24 + (buffer.getD 1 0).val * 2 ^ 16 +
      (buffer.getD 2 0).val * 2 ^ 8 + (buffer.getD 3 0).val,
    protocolVersion := buffer.getD 4 0,
    oldestCompatibleVersion := buffer.getD 5 0,
    direction := buffer.getD 6 0 }

end easyrdma_ConnectionData

/-- The function `CreateDefaultConnectionData(direction)`. -/
def CreateDefaultConnectionData (direction : Direction) : List Byte :=
  let cd := { kDefaultConnectionData with direction := direction.toUInt8 }
  cd.bytes.take easyrdma_ConnectionData.sizeof

/-- The function `ValidateConnectionData(buffer, myDirection)`: `Except.ok ()` when it
returns, the `RdmaError` of the exception when it throws. `ASSERT_ALWAYS` throws
InternalError (the definition of the macro without `_DEBUG`). -/
def ValidateConnectionData (buffer : List Byte) (myDirection : Direction) :
    Except RdmaError Unit :=
  if buffer.length < easyrdma_ConnectionData.sizeof then
    Except.error ⟨easyrdma_Error_IncompatibleProtocol, 0, fileRdmaConnectionData, 19⟩
  else
    let otherData := easyrdma_ConnectionData.ofBytes buffer
    if otherData.protocolId ≠ kDefaultConnectionData.protocolId then
      Except.error ⟨easyrdma_Error_IncompatibleProtocol, 0, fileRdmaConnectionData, 25⟩
    else if otherData.oldestCompatibleVersion > kDefaultConnectionData.oldestCompatibleVersion
    then Except.error ⟨easyrdma_Error_IncompatibleVersion, 0, fileRdmaConnectionData, 28⟩
    else if myDirection = Direction.Unknown then
      Except.error ⟨easyrdma_Error_InternalError, 0, fileRdmaConnectionData, 30⟩
    else
      let otherDirection :=
        if myDirection = Direction.Receive then Direction.Send else Direction.Receive
      if otherData.direction ≠ otherDirection.toUInt8 then
        Except.error ⟨easyrdma_Error_InvalidDirection, 0, fileRdmaConnectionData, 33⟩
      else Except.ok ()

end EasyRDMA

/-! ## core/common/RdmaConnectedSessionBase.h, RdmaConnectedSessionBase.cpp

A session owns two buffer queues. What the provider and the condition variables answer
during one call on the session is gathered in a `World`. A call on a null
`std::unique_ptr` has no result (`none`), like a failed `assert`. The threads of a session
(`ackHandler`, the completion handlers of the platform classes) are outside the embedding:
what they do arrives as separate calls (`AddCredit`, `BufferHandleCompletion`). -/

namespace EasyRDMA

def easyrdma_Error_BufferWaitInProgress : Int := -734018

def kMaxCreditsPerBuffer : Nat := 100

/-- The value of `__FILE__` inside RdmaConnectedSessionBase.cpp. -/
def fileRdmaConnectedSessionBase : Option String := some "RdmaConnectedSessionBase.cpp"

namespace big_uint64_buf_t

/-- The value of `sizeof(boost::endian::big_uint64_buf_t)`. -/
def sizeof : Nat := 8

/-- The eight bytes of a `big_uint64_buf_t` that was assigned the `uint64_t` value `v`:
most significant byte first. -/
def store (v : Nat) : List Byte :=
  [Fin.ofNat (v / 2 ^ 56 % 256), Fin.ofNat (v / 2 ^ 48 % 256), Fin.ofNat (v / 2 ^ 40 % 256),
   Fin.ofNat (v / 2 ^ 32 % 256), Fin.ofNat (v / 2 ^ 24 % 256), Fin.ofNat (v / 2 ^ 16 % 256),
   Fin.ofNat (v / 2 ^ 8 % 256), Fin.ofNat (v % 256)]

/-- The function `value()` of the `big_uint64_buf_t` that lies in the first eight bytes of
`bytes`. -/
def value (bytes : List Byte) : Nat :=
  (bytes.getD 0 0).val * 2 ^ 56 + (bytes.getD 1 0).val * 2 ^ 48 +
    (bytes.getD 2 0).val * 2 ^ 40 + (bytes.getD 3 0).val * 2 ^ 32 +
    (bytes.getD 4 0).val * 2 ^ 24 + (bytes.getD 5 0).val * 2 ^ 16 +
    (bytes.getD 6 0).val * 2 ^ 8 + (bytes.getD 7 0).val

/-- The assignment `dest[i] = v` for `dest = reinterpret_cast<big_uint64_buf_t*>(memory)`;
`none` when the eight bytes are not inside `memory`. -/
def storeAt (memory : List Byte) (i : Nat) (v : Nat) : Option (List Byte) :=
  if sizeof * i + sizeof ≤ memory.length then
    some (memory.take (sizeof * i) ++ store v ++ memory.drop (sizeof * i + sizeof))
  else none

end big_uint64_buf_t

inductive BufferOwnership where
  | Unknown
  | Internal
  | External
deriving DecidableEq, Repr

inductive BufferType where
  | Unknown
  | Single
  | Multiple
deriving DecidableEq, Repr

/-- The data members of class `RdmaConnectedSessionBase` (the mutex and the thread apart).
`creditMemory` is the memory the buffers of `creditBuffers` point to, by buffer index. -/
structure RdmaConnectedSessionBase where
  direction : Direction
  connectionData : List Byte
  usePolling : Bool
  transferBuffers : Option RdmaBufferQueue
  creditBuffers : Option RdmaBufferQueue
  creditMemory : List (List Byte)
  preConfigureCredits : List Nat
  _closing : Bool
  autoQueueRx : Bool
  bufferOwnership : BufferOwnership
  bufferType : BufferType
  connected : Bool
  bufferWaitInProgress : Bool
deriving DecidableEq, Repr

/-- What is outside a session answers during one call on the session:
`QueueToQp direction buffer` is what `QueueToQp(direction, buffer)` does (`none` when it
returns, `some e` when it throws `e`), `wait` is what a timed wait on a condition variable
returns. -/
structure World where
  QueueToQp : Direction → Nat → Option RdmaError
  wait : cv_status

/-- A provider that accepts every buffer. -/
def World.quiet : World := ⟨fun _ _ => none, cv_status.timeout⟩

/-- What `QueueToQp` does for the buffer that `RdmaBufferQueue::AddCredit` would hand to
it, the oldest buffer of the waiting ring. -/
def World.forAddCredit (world : World) (q : RdmaBufferQueue) : Option RdmaError :=
  match q.buffersQueuedWaitingForCredits.front with
  | some buffer => world.QueueToQp q.direction buffer
  | none => none

/-- The outcome of a member function of a session: the session after the call, the value
returned or the `RdmaException` thrown, and the effects in the order they happened. -/
structure SessionRet (α : Type) where
  session : RdmaConnectedSessionBase
  result : Except RdmaError α
  effects : List Effect

/-- Statement sequencing in C++: when the first statement throws, the exception leaves the
function; otherwise the rest runs on the state the first one left. -/
def SessionRet.andThen {α β : Type} (r : Option (SessionRet α))
    (rest : RdmaConnectedSessionBase → α → Option (SessionRet β)) : Option (SessionRet β) :=
  match r with
  | none => none
  | some r =>
    match r.result with
    | Except.error e => some ⟨r.session, Except.error e, r.effects⟩
    | Except.ok a =>
      match rest r.session a with
      | none => none
      | some r2 => some ⟨r2.session, r2.result, r.effects ++ r2.effects⟩

namespace RdmaConnectedSessionBase

/-- The constructor `RdmaConnectedSessionBase(_connectionData)`; the default constructor
is the case of an empty `_connectionData`. -/
def ctor (_connectionData : List Byte) : RdmaConnectedSessionBase :=
  { direction := Direction.Unknown, connectionData := _connectionData, usePolling := false,
    transferBuffers := none, creditBuffers := none, creditMemory := [],
    preConfigureCredits := [], _closing := false, autoQueueRx := false,
    bufferOwnership := BufferOwnership.Unknown, bufferType := BufferType.Unknown,
    connected := false, bufferWaitInProgress := false }

/-- A call `transferBuffers->op(...)`. -/
def onTransfer {α : Type} (s : RdmaConnectedSessionBase)
    (op : RdmaBufferQueue → Option (Ret α)) : Option (SessionRet α) :=
  match s.transferBuffers with
  | none => none
  | some q =>
    (op q).map (fun r => ⟨{ s with transferBuffers := some r.queue }, r.result, r.effects⟩)

/-- A call `creditBuffers->op(...)`. -/
def onCredit {α : Type} (s : RdmaConnectedSessionBase)
    (op : RdmaBufferQueue → Option (Ret α)) : Option (SessionRet α) :=
  match s.creditBuffers with
  | none => none
  | some q =>
    (op q).map (fun r => ⟨{ s with creditBuffers := some r.queue }, r.result, r.effects⟩)

/-- The function `Cancel()` (joining the thread apart). -/
def Cancel (s : RdmaConnectedSessionBase) : Option (SessionRet Unit) :=
  SessionRet.andThen
    (if s.creditBuffers.isSome then
      s.onCredit (fun q => q.Abort easyrdma_Error_OperationCancelled)
     else some ⟨s, Except.ok (), []⟩)
    (fun s _ =>
      if s.transferBuffers.isSome then
        s.onTransfer (fun q => q.Abort easyrdma_Error_OperationCancelled)
      else some ⟨s, Except.ok (), []⟩)

/-- The function `PostConnect()`. -/
def PostConnect (s : RdmaConnectedSessionBase) : RdmaConnectedSessionBase :=
  { s with connected := true }

/-- The function `HandleDisconnect()`. -/
def HandleDisconnect (s : RdmaConnectedSessionBase) : Option (SessionRet Unit) :=
  SessionRet.andThen
    (if s.transferBuffers.isSome then
      { s with connected := false }.onTransfer (fun q => q.Abort easyrdma_Error_Disconnected)
     else some ⟨{ s with connected := false }, Except.ok (), []⟩)
    (fun s _ =>
      if s.creditBuffers.isSome then
        s.onCredit (fun q => q.Abort easyrdma_Error_Disconnected)
      else some ⟨s, Except.ok (), []⟩)

/-- The function `AddCredit(bufferSize)`. -/
def AddCredit (s : RdmaConnectedSessionBase) (bufferSize : Nat) (world : World) :
    Option (SessionRet Unit) :=
  if s.transferBuffers.isSome then
    s.onTransfer (fun q => q.AddCredit bufferSize (world.forAddCredit q))
  else
    some ⟨{ s with preConfigureCredits := s.preConfigureCredits ++ [bufferSize] },
          Except.ok (), []⟩

/-- The loop of `ProcessPreConfigureCredits` over the credits still in
`preConfigureCredits`: `transferBuffers->AddCredit(preConfigureCredits.front())`, then
`preConfigureCredits.pop()`. -/
def processPreConfigureCredits (world : World) :
    List Nat → RdmaConnectedSessionBase → Option (SessionRet Unit)
  | [], s => some ⟨s, Except.ok (), []⟩
  | front :: rest, s =>
    SessionRet.andThen (s.onTransfer (fun q => q.AddCredit front (world.forAddCredit q)))
      (fun s _ => processPreConfigureCredits world rest { s with preConfigureCredits := rest })

/-- The function `ProcessPreConfigureCredits()`. -/
def ProcessPreConfigureCredits (s : RdmaConnectedSessionBase) (world : World) :
    Option (SessionRet Unit) :=
  processPreConfigureCredits world s.preConfigureCredits s

/-- The loop `for(size_t i = 0; i < numBuffers; ++i) dest[i] = bufferLengths[i];` of
`SendCreditUpdate`, from index `i` on, with `count` iterations to go; `none` when it reads
outside `bufferLengths` or writes outside the memory of the credit buffer. -/
def writeCredits : Nat → Nat → List Nat → List Byte → Option (List Byte)
  | 0, _, _, memory => some memory
  | count + 1, i, bufferLengths, memory =>
    match bufferLengths[i]? with
    | none => none
    | some bufferLength =>
      match big_uint64_buf_t.storeAt memory i bufferLength with
      | none => none
      | some memory => writeCredits count (i + 1) bufferLengths memory

/-- The part of `SendCreditUpdate` that fills the credit buffer it obtained: `SetUsed`,
then the loop that writes the lengths. It gives the buffer and its memory as they are
handed to `creditBuffers->QueueBuffer`. -/
def fillCreditBuffer (creditBuffer : RdmaBuffer) (memory : List Byte)
    (bufferLengths : List Nat) (numBuffers : Nat) :
    Option (Except RdmaError (RdmaBuffer × List Byte)) :=
  match creditBuffer.SetUsed (numBuffers * big_uint64_buf_t.sizeof) with
  | Except.error e => some (Except.error e)
  | Except.ok creditBuffer =>
    (writeCredits numBuffers 0 bufferLengths memory).map
      (fun memory => Except.ok (creditBuffer, memory))

/-- The function `SendCreditUpdate(bufferLengths, numBuffers)`. -/
def SendCreditUpdate (s : RdmaConnectedSessionBase) (bufferLengths : List Nat)
    (numBuffers : Nat) (world : World) : Option (SessionRet Unit) :=
  if numBuffers ≤ kMaxCreditsPerBuffer then
    SessionRet.andThen (s.onCredit (fun q => q.WaitForIdleBuffer (-1) world.wait))
      (fun s creditBuffer =>
        match s.creditBuffers with
        | none => none
        | some q =>
          match q.buffers[creditBuffer]?, s.creditMemory[creditBuffer]? with
          | some buf, some memory =>
            match fillCreditBuffer buf memory bufferLengths numBuffers with
            | none => none
            | some (Except.error e) => some ⟨s, Except.error e, []⟩
            | some (Except.ok (buf, memory)) =>
              { s with
                creditBuffers := some { q with buffers := q.buffers.set creditBuffer buf },
                creditMemory := s.creditMemory.set creditBuffer memory }.onCredit
                (fun q => q.QueueBuffer creditBuffer IgnoreCredits.Yes
                  (world.QueueToQp q.direction creditBuffer))
          | _, _ => none)
  else none

/-- The function `QueueRecvBuffer(buffer, sendCreditUpdate)`. -/
def QueueRecvBuffer (s : RdmaConnectedSessionBase) (buffer : Nat) (sendCreditUpdate : Bool)
    (world : World) : Option (SessionRet Unit) :=
  if s.direction = Direction.Receive then
    SessionRet.andThen
      (s.onTransfer (fun q => q.QueueBuffer buffer IgnoreCredits.No
        (world.QueueToQp q.direction buffer)))
      (fun s _ =>
        if sendCreditUpdate then
          match s.transferBuffers with
          | none => none
          | some q =>
            match q.buffers[buffer]? with
            | none => none
            | some buf => s.SendCreditUpdate [buf.GetBufferLen] 1 world
        else some ⟨s, Except.ok (), []⟩)
  else none

/-- The function `QueueSendBuffer(buffer)`. -/
def QueueSendBuffer (s : RdmaConnectedSessionBase) (buffer : Nat) (world : World) :
    Option (SessionRet Unit) :=
  if s.direction = Direction.Send then
    s.onTransfer (fun q => q.QueueBuffer buffer IgnoreCredits.No
      (world.QueueToQp q.direction buffer))
  else none

/-- The function `QueueBuffer(buffer)`. -/
def QueueBuffer (s : RdmaConnectedSessionBase) (buffer : Nat) (world : World) :
    Option (SessionRet Unit) :=
  if !s.connected then
    some ⟨s, Except.error ⟨easyrdma_Error_Disconnected, 0, fileRdmaConnectedSessionBase, 211⟩,
          []⟩
  else if s.direction = Direction.Receive then s.QueueRecvBuffer buffer true world
  else s.QueueSendBuffer buffer world

/-- The first loop of `PostConfigure`, with `n` iterations to go: take an idle buffer,
note its length at the end of `bufferLengths`, post it. -/
def postAllReceives (world : World) :
    Nat → RdmaConnectedSessionBase → List Nat → Option (SessionRet (List Nat))
  | 0, s, bufferLengths => some ⟨s, Except.ok bufferLengths, []⟩
  | n + 1, s, bufferLengths =>
    SessionRet.andThen (s.onTransfer (fun q => q.WaitForIdleBuffer 0 world.wait))
      (fun s buffer =>
        match s.transferBuffers with
        | none => none
        | some q =>
          match q.buffers[buffer]? with
          | none => none
          | some buf =>
            SessionRet.andThen (s.QueueRecvBuffer buffer false world)
              (fun s _ => postAllReceives world n s (bufferLengths ++ [buf.GetBufferLen])))

/-- The loop `while (creditsLeft) { ... }` of `PostConfigure`: the calls
`SendCreditUpdate(bufferLengthsPtr, creditsToSend)` it makes, each as the offset of
`bufferLengthsPtr` in `bufferLengths` and `creditsToSend`. The first argument bounds the
number of iterations; `none` when it is too small. -/
def creditUpdates : Nat → Nat → Nat → Option (List (Nat × Nat))
  | 0, creditsLeft, _ => if creditsLeft = 0 then some [] else none
  | fuel + 1, creditsLeft, bufferLengthsPtr =>
    if creditsLeft = 0 then some []
    else
      let creditsToSend := min creditsLeft kMaxCreditsPerBuffer
      (creditUpdates fuel (creditsLeft - creditsToSend) (bufferLengthsPtr + creditsToSend)).map
        (fun rest => (bufferLengthsPtr, creditsToSend) :: rest)

/-- The calls `SendCreditUpdate` of the second loop of `PostConfigure`, one after the
other until one throws. -/
def sendCreditUpdates (world : World) (bufferLengths : List Nat) :
    List (Nat × Nat) → RdmaConnectedSessionBase → Option (SessionRet Unit)
  | [], s => some ⟨s, Except.ok (), []⟩
  | (bufferLengthsPtr, creditsToSend) :: rest, s =>
    SessionRet.andThen
      (s.SendCreditUpdate (bufferLengths.drop bufferLengthsPtr) creditsToSend world)
      (fun s _ => sendCreditUpdates world bufferLengths rest s)

/-- The function `PostConfigure()`. -/
def PostConfigure (s : RdmaConnectedSessionBase) (world : World) : Option (SessionRet Unit) :=
  if s.direction = Direction.Receive ∧ s.autoQueueRx then
    match s.transferBuffers with
    | none => none
    | some q =>
      SessionRet.andThen (postAllReceives world q.size s [])
        (fun s bufferLengths =>
          match creditUpdates q.size q.size 0 with
          | none => none
          | some updates => sendCreditUpdates world bufferLengths updates s)
  else some ⟨s, Except.ok (), []⟩

/-- The function `ConfigureExternalBuffer(externalBuffer, bufferSize,
maxConcurrentTransactions)`. -/
def ConfigureExternalBuffer (s : RdmaConnectedSessionBase)
    (_bufferSize maxConcurrentTransactions : Nat) (world : World) :
    Option (SessionRet Unit) :=
  if s.transferBuffers.isSome then
    some ⟨s, Except.error ⟨easyrdma_Error_AlreadyConfigured, 0, fileRdmaConnectedSessionBase,
      156⟩, []⟩
  else if s.usePolling then
    some ⟨s, Except.error ⟨easyrdma_Error_OperationNotSupported, 0,
      fileRdmaConnectedSessionBase, 159⟩, []⟩
  else
    let s := { s with bufferOwnership := BufferOwnership.External,
                      bufferType := BufferType.Single }
    match RdmaBufferQueueSingleBuffer s.direction maxConcurrentTransactions s.usePolling with
    | none => none
    | some (Except.error e) => some ⟨s, Except.error e, []⟩
    | some (Except.ok q) =>
      SessionRet.andThen ({ s with transferBuffers := some q }.ProcessPreConfigureCredits world)
        (fun s _ => s.PostConfigure world)

/-- The function `ConfigureBuffers(maxTransactionSize, maxConcurrentTransactions)`. -/
def ConfigureBuffers (s : RdmaConnectedSessionBase)
    (maxTransactionSize maxConcurrentTransactions : Nat) (world : World) :
    Option (SessionRet Unit) :=
  if s.transferBuffers.isSome then
    some ⟨s, Except.error ⟨easyrdma_Error_AlreadyConfigured, 0, fileRdmaConnectedSessionBase,
      174⟩, []⟩
  else if !s.connected then
    some ⟨s, Except.error ⟨easyrdma_Error_NotConnected, 0, fileRdmaConnectedSessionBase,
      177⟩, []⟩
  else
    let s := { s with bufferOwnership := BufferOwnership.Internal,
                      bufferType := BufferType.Multiple, autoQueueRx := true }
    match RdmaBufferQueueMultipleBuffer s.direction maxConcurrentTransactions
        maxTransactionSize s.usePolling with
    | none => none
    | some (Except.error e) => some ⟨s, Except.error e, []⟩
    | some (Except.ok q) =>
      SessionRet.andThen ({ s with transferBuffers := some q }.ProcessPreConfigureCredits world)
        (fun s _ => s.PostConfigure world)

/-- The loop of `PreConnect` over the credit buffers, with `n` iterations to go: take an
idle credit buffer and post it. -/
def postAllCreditReceives (world : World) :
    Nat → RdmaConnectedSessionBase → Option (SessionRet Unit)
  | 0, s => some ⟨s, Except.ok (), []⟩
  | n + 1, s =>
    SessionRet.andThen (s.onCredit (fun q => q.WaitForIdleBuffer 0 world.wait))
      (fun s buffer =>
        SessionRet.andThen
          (s.onCredit (fun q => q.QueueBuffer buffer IgnoreCredits.Yes
            (world.QueueToQp q.direction buffer)))
          (fun s _ => postAllCreditReceives world n s))

/-- The function `PreConnect(_direction)` (starting the thread apart). `setupQueuePair` is
what `SetupQueuePair()` does (`none` when it returns) and `memory` what the memory of the
fresh credit buffers holds. -/
def PreConnect (s : RdmaConnectedSessionBase) (_direction : Direction)
    (setupQueuePair : Option RdmaError) (memory : List (List Byte)) (world : World) :
    Option (SessionRet Unit) :=
  let s := { s with direction := _direction }
  let s :=
    if s.connectionData.length = 0 then
      { s with connectionData := CreateDefaultConnectionData s.direction }
    else s
  match setupQueuePair with
  | some e => some ⟨s, Except.error e, []⟩
  | none =>
    match RdmaBufferQueueMultipleBuffer
        (if s.direction = Direction.Receive then Direction.Send else Direction.Receive) 100
        (kMaxCreditsPerBuffer * 8) false with
    | none => none
    | some (Except.error e) => some ⟨s, Except.error e, []⟩
    | some (Except.ok q) =>
      let s := { s with creditBuffers := some q, creditMemory := memory }
      if s.direction = Direction.Send then postAllCreditReceives world q.size s
      else some ⟨s, Except.ok (), []⟩

/-- The function `AcquireSendRegion(timeoutMs)`; the suspension of the access of the
caller by `BufferWaitAccessSuspender` left out. -/
def AcquireSendRegion (s : RdmaConnectedSessionBase) (timeoutMs : Int) (world : World) :
    Option (SessionRet Nat) :=
  if s.direction = Direction.Receive ∧ s.autoQueueRx then
    some ⟨s, Except.error ⟨easyrdma_Error_InvalidOperation, 0, fileRdmaConnectedSessionBase,
      254⟩, []⟩
  else if s.bufferOwnership = BufferOwnership.External then
    some ⟨s, Except.error ⟨easyrdma_Error_InvalidOperation, 0, fileRdmaConnectedSessionBase,
      257⟩, []⟩
  else if s.bufferWaitInProgress then
    some ⟨s, Except.error ⟨easyrdma_Error_BufferWaitInProgress, 0,
      fileRdmaConnectedSessionBase, 22⟩, []⟩
  else s.onTransfer (fun q => q.WaitForIdleBuffer timeoutMs world.wait)

/-- The function `AcquireReceivedRegion(timeoutMs)`; `poll` is what
`connection.PollForReceive` does when the queue calls it. -/
def AcquireReceivedRegion (s : RdmaConnectedSessionBase) (timeoutMs : Int) (world : World)
    (poll : PollResult) : Option (SessionRet Nat) :=
  if s.bufferWaitInProgress then
    some ⟨s, Except.error ⟨easyrdma_Error_BufferWaitInProgress, 0,
      fileRdmaConnectedSessionBase, 22⟩, []⟩
  else s.onTransfer (fun q => q.WaitForCompletedBuffer timeoutMs world.wait poll)

/-- The function `CheckDeferredDestructionConditionsMet()`. -/
def CheckDeferredDestructionConditionsMet (s : RdmaConnectedSessionBase) : Bool :=
  match s.transferBuffers with
  | some q => !q.HasUserBuffersOutstanding
  | none => true

/-- The function `RdmaBuffer::Requeue()` of buffer `buffer` of the transfer queue. -/
def Requeue (s : RdmaConnectedSessionBase) (buffer : Nat) (world : World) :
    Option (SessionRet Unit) :=
  s.QueueBuffer buffer world

/-- The function `RdmaBuffer::Release()` of buffer `buffer` of the transfer queue. -/
def Release (s : RdmaConnectedSessionBase) (buffer : Nat) : Option (SessionRet Unit) :=
  s.onTransfer (fun q => q.ReleaseBuffer buffer)

/-- One call of a configure function. -/
inductive ConfigureCall where
  | ConfigureBuffers (maxTransactionSize maxConcurrentTransactions : Nat)
  | ConfigureExternalBuffer (bufferSize maxConcurrentTransactions : Nat)
deriving DecidableEq, Repr

/-- Runs one configure call. -/
def configure (s : RdmaConnectedSessionBase) (world : World) :
    ConfigureCall → Option (SessionRet Unit)
  | ConfigureCall.ConfigureBuffers maxTransactionSize maxConcurrentTransactions =>
    s.ConfigureBuffers maxTransactionSize maxConcurrentTransactions world
  | ConfigureCall.ConfigureExternalBuffer bufferSize maxConcurrentTransactions =>
    s.ConfigureExternalBuffer bufferSize maxConcurrentTransactions world

/-- Runs configure calls one after the other: the session after them and what each call
returned or threw, in call order. -/
def configureAll (world : World) :
    RdmaConnectedSessionBase → List ConfigureCall →
      Option (RdmaConnectedSessionBase × List (Except RdmaError Unit))
  | s, [] => some (s, [])
  | s, call :: rest =>
    match s.configure world call with
    | none => none
    | some r => (configureAll world r.session rest).map (fun x => (x.1, r.result :: x.2))

/-- The transfer queue of the session, when there is one, was built for the direction of
the session. -/
def Aligned (s : RdmaConnectedSessionBase) : Prop :=
  ∀ q, s.transferBuffers = some q → q.direction = s.direction

/-- The session `r` has the staged credits and the configuration of `s`, and its transfer
queue, when there is one, has the credits and the direction of the one of `s`. -/
def SameCredits (s r : RdmaConnectedSessionBase) : Prop :=
  r.preConfigureCredits = s.preConfigureCredits ∧ r.direction = s.direction ∧
  r.autoQueueRx = s.autoQueueRx ∧ r.bufferOwnership = s.bufferOwnership ∧
  r.bufferType = s.bufferType ∧ r.connected = s.connected ∧ r.usePolling = s.usePolling ∧
  r.transferBuffers.map (fun q => (q.availableCredits, q.direction)) =
    s.transferBuffers.map (fun q => (q.availableCredits, q.direction))

/-- From an aligned session `s`, the session `r` keeps the credits. -/
def Keeps (s r : RdmaConnectedSessionBase) : Prop := s.Aligned → s.SameCredits r

/-- Both queues of the session satisfy the invariant of a queue. -/
def WF (s : RdmaConnectedSessionBase) : Prop :=
  (∀ q, s.transferBuffers = some q → q.Inv) ∧ (∀ q, s.creditBuffers = some q → q.Inv)

end RdmaConnectedSessionBase

end EasyRDMA

/-! ## core/api/rdma_api_common.h, core/api/rdma_api_c.cpp

The registry of sessions and the functions of the C API that release a buffer region. A
`std::shared_ptr<RdmaSession>` held by a table is embedded as the state of the session it
points to, so a function that changes a session through a reference stores the new state
in the table the reference came from. `RdmaSessionRef` acquires the access manager of the
session when it is built and releases it when it is destroyed; the functions below are
embedded for a caller that is granted access at once, and the access manager itself is
embedded further down. -/

namespace EasyRDMA

/-- A `std::map<easyrdma_Session, T>` as the list of its entries in key order. -/
abbrev tMap (α : Type) : Type := List (Nat × α)

namespace tMap

variable {α : Type}

/-- The function `find(key)`: the mapped value, `none` for `end()`. -/
def find : tMap α → Nat → Option α
  | [], _ => none
  | (k, v) :: rest, key => if k = key then some v else find rest key

/-- The function `erase(key)`. -/
def erase : tMap α → Nat → tMap α
  | [], _ => []
  | (k, v) :: rest, key => if k = key then erase rest key else (k, v) :: erase rest key

/-- The assignment `m[key] = v`. -/
def assign : tMap α → Nat → α → tMap α
  | [], key, v => [(key, v)]
  | (k, x) :: rest, key, v =>
    if key < k then (key, v) :: (k, x) :: rest
    else if key = k then (key, v) :: rest
    else (k, x) :: assign rest key v

/-- The function `size()`. -/
def size (m : tMap α) : Nat := m.length

/-- The keys are in strictly increasing order. -/
def Sorted (m : tMap α) : Prop := (m.map Prod.fst).Pairwise (fun a b => a < b)

end tMap

/-- The value of `__FILE__` inside rdma_api_common.h and inside rdma_api_c.cpp. -/
def fileRdmaApiCommon : Option String := some "rdma_api_common.h"

def fileRdmaApiC : Option String := some "rdma_api_c.cpp"

/-- The object behind a `std::shared_ptr<RdmaSession>`: a listener (class `RdmaListener`,
which keeps `CheckDeferredDestructionConditionsMet` of `RdmaSession` and whose `Cancel`
only wakes the waits of the event manager) or a connected session. -/
inductive RdmaSession where
  | Listener
  | Connected (s : RdmaConnectedSessionBase)
deriving DecidableEq, Repr

namespace RdmaSession

/-- The virtual function `CheckDeferredDestructionConditionsMet()`. -/
def CheckDeferredDestructionConditionsMet : RdmaSession → Bool
  | Listener => true
  | Connected s => s.CheckDeferredDestructionConditionsMet

/-- The virtual function `Cancel()`: the session after the call, what it throws, and the
callbacks it fires. -/
def Cancel : RdmaSession → Option (RdmaSession × Except RdmaError Unit × List Effect)
  | Listener => some (Listener, Except.ok (), [])
  | Connected s => s.Cancel.map (fun r => (Connected r.session, r.result, r.effects))

/-- The buffers of the transfer queue of the session that the user holds, oldest first. -/
def User : RdmaSession → List Nat
  | Listener => []
  | Connected s =>
    match s.transferBuffers with
    | some q => q.User
    | none => []

/-- The idle buffers of the transfer queue of the session, oldest first. -/
def Idle : RdmaSession → List Nat
  | Listener => []
  | Connected s =>
    match s.transferBuffers with
    | some q => q.Idle
    | none => []

/-- The queues of the session satisfy the invariant of the queue. -/
def WF : RdmaSession → Prop
  | Listener => True
  | Connected s => s.WF

end RdmaSession

/-- The data members of class `SessionManager` (the mutex apart); a handle
`easyrdma_Session` is the number it was made from. -/
structure SessionManager where
  sessionMap : tMap RdmaSession
  deferredCloseSessionMap : tMap RdmaSession
  nextSession : Nat
deriving DecidableEq, Repr

/-- The outcome of a member function of the registry. -/
structure ManagerRet (α : Type) where
  manager : SessionManager
  result : Except RdmaError α
  effects : List Effect

namespace SessionManager

/-- The global `sessionManager` before any call. -/
def init : SessionManager := ⟨[], [], 1⟩

/-- The function `RegisterSession(session)`: the handle returned and the registry after.
`nextSession` is a `uintptr_t` of 64 bits. -/
def RegisterSession (m : SessionManager) (session : RdmaSession) : Nat × SessionManager :=
  let sessionHandle := m.nextSession
  (sessionHandle,
   { m with nextSession := (m.nextSession + 1) % 2 ^ 64,
            sessionMap := m.sessionMap.assign sessionHandle session })

/-- The function `GetSession(session, access, checkDeferredCloseTable)`: the session the
reference points to and the flag `destructionPending` of the reference. -/
def GetSession (m : SessionManager) (session : Nat) (checkDeferredCloseTable : Bool) :
    Except RdmaError (RdmaSession × Bool) :=
  match m.sessionMap.find session with
  | some resource => Except.ok (resource, false)
  | none =>
    match (if checkDeferredCloseTable then m.deferredCloseSessionMap.find session
           else none) with
    | some resource => Except.ok (resource, true)
    | none => Except.error ⟨easyrdma_Error_InvalidSession, 0, fileRdmaApiCommon, 41⟩

/-- Stores the state of the session a reference points to in the table the reference came
from. -/
def store (m : SessionManager) (session : Nat) (destructionPending : Bool)
    (resource : RdmaSession) : SessionManager :=
  if destructionPending then
    { m with deferredCloseSessionMap := m.deferredCloseSessionMap.assign session resource }
  else { m with sessionMap := m.sessionMap.assign session resource }

/-- The function `DestroySession(session, flags)`. A session that is not deferred is
destroyed once `ReleaseAndWaitForAllReferencesGone` has returned and is in no table any
more. -/
def DestroySession (m : SessionManager) (session : Nat) (flags : Nat) :
    Option (ManagerRet Unit) :=
  match m.sessionMap.find session with
  | none =>
    some ⟨m, Except.error ⟨easyrdma_Error_InvalidSession, 0, fileRdmaApiCommon, 61⟩, []⟩
  | some erasedSession =>
    let sessionMap := m.sessionMap.erase session
    let deferredDestruction :=
      flags &&& easyrdma_CloseFlags_DeferWhileUserBuffersOutstanding ≠ 0 ∧
        !erasedSession.CheckDeferredDestructionConditionsMet
    match erasedSession.Cancel with
    | none => none
    | some (cancelled, result, effects) =>
      some ⟨{ m with sessionMap := sessionMap,
                     deferredCloseSessionMap :=
                       if deferredDestruction then
                         m.deferredCloseSessionMap.assign session cancelled
                       else m.deferredCloseSessionMap },
            result, effects⟩

/-- The function `CheckDeferredSessionDestructionReady(sessionRef, sessionHandle)`; `none`
when one of its two `assert`s fails. -/
def CheckDeferredSessionDestructionReady (m : SessionManager)
    (sessionRef : RdmaSession × Bool) (sessionHandle : Nat) : Option SessionManager :=
  if !sessionRef.2 then none
  else if sessionRef.1.CheckDeferredDestructionConditionsMet then
    if (m.deferredCloseSessionMap.find sessionHandle).isSome then
      some { m with deferredCloseSessionMap := m.deferredCloseSessionMap.erase sessionHandle }
    else none
  else some m

/-- The function `GetOpenedSessions()`. -/
def GetOpenedSessions (m : SessionManager) : Nat := m.sessionMap.size

/-- The function `GetDeferredCloseSessions()`. -/
def GetDeferredCloseSessions (m : SessionManager) : Nat := m.deferredCloseSessionMap.size

/-- The invariant of the registry: both tables are in key order, no handle is null, every
handle was handed out by `RegisterSession`, the counter has not wrapped, and no handle is
in both tables. -/
structure Inv (m : SessionManager) : Prop where
  sortedOpen : m.sessionMap.Sorted
  sortedDeferred : m.deferredCloseSessionMap.Sorted
  next : 0 < m.nextSession ∧ m.nextSession < 2 ^ 64
  boundOpen : ∀ h, (m.sessionMap.find h).isSome → 0 < h ∧ h < m.nextSession
  boundDeferred : ∀ h, (m.deferredCloseSessionMap.find h).isSome → 0 < h ∧ h < m.nextSession
  disjoint : ∀ h, ¬ ((m.sessionMap.find h).isSome ∧ (m.deferredCloseSessionMap.find h).isSome)

end SessionManager

/-- The fields of `easyrdma_InternalBufferRegion` that the release functions read:
`internalReference1` is the session handle (0 for `nullptr`) and `internalReference2` the
buffer of the transfer queue of that session (`none` for `nullptr`). -/
structure easyrdma_InternalBufferRegion where
  internalReference1 : Nat
  internalReference2 : Option Nat
deriving DecidableEq, Repr

/-- The outcome of a function of the C API: the registry after the call, the local
`status` at the end (the function returns `status.GetCode()`), and the effects. -/
structure ApiRet where
  manager : SessionManager
  status : RdmaError
  effects : List Effect
deriving DecidableEq, Repr

/-- The error `status` holds after `API_CATCH_EXCEPTION(status)` caught the exception `e`.
-/
def API_CATCH_EXCEPTION (e : RdmaError) : RdmaError := RdmaError.success.Assign e

/-- The function `easyrdma_CloseSession(session, flags)`. -/
def easyrdma_CloseSession (m : SessionManager) (session : Nat) (flags : Nat) :
    Option ApiRet :=
  if session ≠ 0 then
    match m.DestroySession session flags with
    | none => none
    | some r =>
      match r.result with
      | Except.ok _ => some ⟨r.manager, RdmaError.success, r.effects⟩
      | Except.error e => some ⟨r.manager, API_CATCH_EXCEPTION e, r.effects⟩
  else some ⟨m, RdmaError.success, []⟩

/-- The function `easyrdma_ReleaseReceivedBufferRegion(session, bufferRegion)`;
`bufferRegion` is `none` for `nullptr`. It has no result when the region is not a buffer
of the transfer queue of the session it names. -/
def easyrdma_ReleaseReceivedBufferRegion (m : SessionManager) (session : Nat)
    (bufferRegion : Option easyrdma_InternalBufferRegion) (world : World) : Option ApiRet :=
  match bufferRegion with
  | none =>
    some ⟨m, API_CATCH_EXCEPTION ⟨easyrdma_Error_InvalidArgument, 0, fileRdmaApiC, 287⟩, []⟩
  | some region =>
    if region.internalReference1 = 0 ∨ region.internalReference2 = none then
      some ⟨m, API_CATCH_EXCEPTION ⟨easyrdma_Error_InvalidArgument, 0, fileRdmaApiC, 287⟩, []⟩
    else if region.internalReference1 ≠ session then
      some ⟨m, API_CATCH_EXCEPTION ⟨easyrdma_Error_InvalidArgument, 0, fileRdmaApiC, 291⟩, []⟩
    else
      match m.GetSession session false with
      | Except.error e => some ⟨m, API_CATCH_EXCEPTION e, []⟩
      | Except.ok (sessionRef, destructionPending) =>
        match sessionRef, region.internalReference2 with
        | RdmaSession.Connected s, some buffer =>
          match s.Requeue buffer world with
          | none => none
          | some r =>
            match r.result with
            | Except.ok _ =>
              some ⟨m.store session destructionPending (RdmaSession.Connected r.session),
                    RdmaError.success, r.effects⟩
            | Except.error e =>
              if e.GetCode = easyrdma_Error_Disconnected then
                match r.session.Release buffer with
                | none => none
                | some r2 =>
                  some ⟨m.store session destructionPending (RdmaSession.Connected r2.session),
                        (match r2.result with
                         | Except.ok _ => RdmaError.success
                         | Except.error e2 => API_CATCH_EXCEPTION e2),
                        r.effects ++ r2.effects⟩
              else
                some ⟨m.store session destructionPending (RdmaSession.Connected r.session),
                      API_CATCH_EXCEPTION e, r.effects⟩
        | _, _ => none

/-- The function `easyrdma_ReleaseUserBufferRegionToIdle(session, bufferRegion)`;
`bufferRegion` is `none` for `nullptr`. It has no result when the region is not a buffer
of the transfer queue of the session it names. -/
def easyrdma_ReleaseUserBufferRegionToIdle (m : SessionManager) (session : Nat)
    (bufferRegion : Option easyrdma_InternalBufferRegion) : Option ApiRet :=
  match bufferRegion with
  | none =>
    some ⟨m, API_CATCH_EXCEPTION ⟨easyrdma_Error_InvalidArgument, 0, fileRdmaApiC, 317⟩, []⟩
  | some region =>
    if region.internalReference1 = 0 ∨ region.internalReference2 = none then
      some ⟨m, API_CATCH_EXCEPTION ⟨easyrdma_Error_InvalidArgument, 0, fileRdmaApiC, 317⟩, []⟩
    else if region.internalReference1 ≠ session then
      some ⟨m, API_CATCH_EXCEPTION ⟨easyrdma_Error_InvalidArgument, 0, fileRdmaApiC, 321⟩, []⟩
    else
      match m.GetSession session true with
      | Except.error e => some ⟨m, API_CATCH_EXCEPTION e, []⟩
      | Except.ok (sessionRef, destructionPending) =>
        match sessionRef, region.internalReference2 with
        | RdmaSession.Connected s, some buffer =>
          match s.Release buffer with
          | none => none
          | some r =>
            let m := m.store session destructionPending (RdmaSession.Connected r.session)
            match r.result with
            | Except.error e => some ⟨m, API_CATCH_EXCEPTION e, r.effects⟩
            | Except.ok _ =>
              if destructionPending then
                match m.CheckDeferredSessionDestructionReady
                    (RdmaSession.Connected r.session, destructionPending) session with
                | none => none
                | some m => some ⟨m, RdmaError.success, r.effects⟩
              else some ⟨m, RdmaError.success, r.effects⟩
        | _, _ => none

/-- One call that reads or changes the registry: the three functions of the API that
register a session come down to `RegisterSession`; `Use` stands for every other function
of the API, which gets a reference with `GetSession` (it returns when that throws) and
leaves the session in the state `resource`. -/
inductive RegistryCall where
  | RegisterSession (session : RdmaSession)
  | CloseSession (session flags : Nat)
  | ReleaseReceivedBufferRegion (session : Nat)
      (bufferRegion : Option easyrdma_InternalBufferRegion) (world : World)
  | ReleaseUserBufferRegionToIdle (session : Nat)
      (bufferRegion : Option easyrdma_InternalBufferRegion)
  | Use (session : Nat) (checkDeferredCloseTable : Bool) (resource : RdmaSession)

namespace SessionManager

/-- The registry after one call; `none` when the call has no result. -/
def call (m : SessionManager) : RegistryCall → Option SessionManager
  | RegistryCall.RegisterSession session => some (m.RegisterSession session).2
  | RegistryCall.CloseSession session flags =>
    (easyrdma_CloseSession m session flags).map (fun r => r.manager)
  | RegistryCall.ReleaseReceivedBufferRegion session bufferRegion world =>
    (easyrdma_ReleaseReceivedBufferRegion m session bufferRegion world).map
      (fun r => r.manager)
  | RegistryCall.ReleaseUserBufferRegionToIdle session bufferRegion =>
    (easyrdma_ReleaseUserBufferRegionToIdle m session bufferRegion).map (fun r => r.manager)
  | RegistryCall.Use session checkDeferredCloseTable resource =>
    match m.GetSession session checkDeferredCloseTable with
    | Except.ok (_, destructionPending) => some (m.store session destructionPending resource)
    | Except.error _ => some m

/-- The registry after the calls, in order. -/
def run : SessionManager → List RegistryCall → Option SessionManager
  | m, [] => some m
  | m, c :: cs =>
    match m.call c with
    | none => none
    | some m => run m cs

end SessionManager

/-- How many of the calls register a session. -/
def registrations : List RegistryCall → Nat
  | [] => 0
  | RegistryCall.RegisterSession _ :: cs => registrations cs + 1
  | _ :: cs => registrations cs

/-- The registry `m` is what some calls, fewer than 2^64 - 1 of them registrations, made of
the registry the library starts with. -/
def Registry (m : SessionManager) : Prop :=
  ∃ calls, SessionManager.init.run calls = some m ∧ registrations calls + 1 < 2 ^ 64

/-- The outcomes of releasing the buffers `buffers` of session `session` to idle with
`easyrdma_ReleaseUserBufferRegionToIdle`, one after the other, each call on the registry
the one before left; `none` when a call has no result. -/
def releaseAll (session : Nat) : SessionManager → List Nat → Option (List ApiRet)
  | _, [] => some []
  | m, b :: bs =>
    match easyrdma_ReleaseUserBufferRegionToIdle m session (some ⟨session, some b⟩) with
    | none => none
    | some r => (releaseAll session r.manager bs).map (fun rest => r :: rest)

end EasyRDMA

/-! ## core/api/tAccessManager.h

The access manager for the calls of the threads `tid`. A `tRequest*` is embedded as the
request it points to and a `tRequestList` as the list of its requests from `head` on. The
counters are `uint32_t`. The memory of a request is not initialised when it is allocated
and is used again after `operator delete`, so a request is built in a block of memory that
holds the fields of an earlier request (`raw` where a block is freshly allocated). -/

namespace EasyRDMA

def kMaxNestLevel : Nat := 32

def kInitialNumberOfRequestsInAccessManager : Nat := 32

inductive tRequestType where
  | kShared
  | kExclusive
  | kYieldedTo
deriving DecidableEq, Repr

/-- The data members of class `tRequest` (`next` apart); `signal` is the field `signalled`
of the event `signal` points to. -/
structure tRequest where
  tid : Nat
  shared : Nat
  exclusive : Nat
  nesting : Nat
  yieldedTo : Bool
  signal : Bool
deriving DecidableEq, Repr

namespace tRequest

def Count (r : tRequest) : Nat := (r.shared + r.exclusive) % 2 ^ 32

def CountExclusive (r : tRequest) : Nat := r.exclusive

def CountShared (r : tRequest) : Nat := r.shared

def GetTid (r : tRequest) : Nat := r.tid

/-- The branch `case kExclusive:` of `Add`, which `case kYieldedTo:` falls through to. -/
def AddExclusive (r : tRequest) (type : tRequestType) : Option tRequest :=
  if r.yieldedTo then some { r with yieldedTo := false }
  else if (r.shared + r.exclusive) % 2 ^ 32 < 32 then
    some { r with exclusive := (r.exclusive + 1) % 2 ^ 32,
                  nesting := ((r.nesting <<< 1) ||| 0) % 2 ^ 32,
                  yieldedTo := (type == tRequestType.kYieldedTo) }
  else none

/-- The function `Add(type)`; `none` when an `assert` fails. -/
def Add (r : tRequest) (type : tRequestType) : Option tRequest :=
  match type with
  | tRequestType.kShared =>
    if (r.shared + r.exclusive) % 2 ^ 32 < 32 then
      some { r with shared := (r.shared + 1) % 2 ^ 32,
                    nesting := ((r.nesting <<< 1) ||| 1) % 2 ^ 32 }
    else none
  | tRequestType.kYieldedTo => if r.exclusive ≠ 0 then some r else r.AddExclusive type
  | tRequestType.kExclusive => r.AddExclusive type

/-- The function `RemoveLast()`: the value returned and the request after; `none` when
the `assert` fails. -/
def RemoveLast (r : tRequest) : Option (Bool × tRequest) :=
  if r.yieldedTo then none
  else if r.nesting &&& 1 ≠ 0 then
    some (false, { r with shared := (r.shared + 2 ^ 32 - 1) % 2 ^ 32,
                          nesting := r.nesting >>> 1 })
  else
    some (true, { r with exclusive := (r.exclusive + 2 ^ 32 - 1) % 2 ^ 32,
                         nesting := r.nesting >>> 1 })

/-- The constructor `tRequest(_tid, type)` run in the block of memory `block`: `nesting`
and the event keep what the block holds. -/
def ctor (block : tRequest) (_tid : Nat) (type : tRequestType) : Option tRequest :=
  { block with tid := _tid, shared := 0, exclusive := 0, yieldedTo := false }.Add type

end tRequest

/-- The data members of class `tRequestList`. -/
structure tRequestList where
  head : List tRequest
  shared : Nat
  exclusive : Nat
deriving DecidableEq, Repr

namespace tRequestList

/-- The constructor `tRequestList()`. -/
def empty : tRequestList := ⟨[], 0, 0⟩

/-- The function `RemoveHead()`: the request returned (`none` for `NULL`) and the list
after. -/
def RemoveHead (l : tRequestList) : Option tRequest × tRequestList :=
  match l.head with
  | [] => (none, l)
  | retval :: rest =>
    (some retval,
     { head := rest,
       shared := (l.shared + (2 ^ 32 - retval.CountShared % 2 ^ 32)) % 2 ^ 32,
       exclusive := (l.exclusive + (2 ^ 32 - retval.CountExclusive % 2 ^ 32)) % 2 ^ 32 })

/-- The function `Remove(tid)`: the request returned (`none` for `NULL`) and the list
after. -/
def Remove (l : tRequestList) (tid : Nat) : Option tRequest × tRequestList :=
  match l.head.find? (fun r => r.GetTid == tid) with
  | none => (none, l)
  | some retval =>
    (some retval,
     { head := l.head.eraseP (fun r => r.GetTid == tid),
       shared := (l.shared + (2 ^ 32 - retval.CountShared % 2 ^ 32)) % 2 ^ 32,
       exclusive := (l.exclusive + (2 ^ 32 - retval.CountExclusive % 2 ^ 32)) % 2 ^ 32 })

/-- The function `AddAtHead(request)`. -/
def AddAtHead (l : tRequestList) (request : tRequest) : tRequestList :=
  { head := request :: l.head,
    shared := (l.shared + request.CountShared) % 2 ^ 32,
    exclusive := (l.exclusive + request.CountExclusive) % 2 ^ 32 }

/-- The function `AddAtTail(request)`. -/
def AddAtTail (l : tRequestList) (request : tRequest) : tRequestList :=
  { head := l.head ++ [request],
    shared := (l.shared + request.CountShared) % 2 ^ 32,
    exclusive := (l.exclusive + request.CountExclusive) % 2 ^ 32 }

def Count (l : tRequestList) : Nat := (l.shared + l.exclusive) % 2 ^ 32

def CountExclusive (l : tRequestList) : Nat := l.exclusive

def CountShared (l : tRequestList) : Nat := l.shared

end tRequestList

/-- The data members of class `tAccessManager` (the critical section apart);
`allRefsReleased` is the field `signalled` of the event. -/
structure tAccessManager where
  refcount : Nat
  activeRequests : tRequestList
  pendingRequests : tRequestList
  suspendedRequests : tRequestList
  emptyRequests : tRequestList
  allRefsReleased : Bool
deriving DecidableEq, Repr

namespace tAccessManager

/-- The function `MakeNewRequest()` when the allocation succeeds: `raw` is what the fresh
memory holds, `InitSignal` gives it an event that is not signalled. -/
def MakeNewRequest (raw : tRequest) : tRequest := { raw with signal := false }

/-- The loop of the constructor, with `n` requests still to make; `raw i` is what the
memory of the `i`-th request holds. -/
def ctorLoop (raw : Nat → tRequest) : Nat → Nat → tAccessManager → tAccessManager
  | 0, _, m => m
  | n + 1, i, m =>
    ctorLoop raw n (i + 1)
      { m with emptyRequests := m.emptyRequests.AddAtHead (MakeNewRequest (raw i)) }

/-- The constructor `tAccessManager()` when every allocation succeeds. -/
def ctor (raw : Nat → tRequest) : tAccessManager :=
  ctorLoop raw kInitialNumberOfRequestsInAccessManager 0
    { refcount := 0, activeRequests := tRequestList.empty,
      pendingRequests := tRequestList.empty, suspendedRequests := tRequestList.empty,
      emptyRequests := tRequestList.empty, allRefsReleased := true }

/-- The function `IncRef()`. -/
def IncRef (m : tAccessManager) : tAccessManager :=
  let refcount := (m.refcount + 1) % 2 ^ 32
  if refcount = 1 then { m with refcount := refcount, allRefsReleased := false }
  else { m with refcount := refcount }

/-- The function `DecRef()`; `none` when the `assert` fails. -/
def DecRef (m : tAccessManager) : Option tAccessManager :=
  if m.refcount ≠ 0 then
    let refcount := m.refcount - 1
    if refcount = 0 then some { m with refcount := refcount, allRefsReleased := true }
    else some { m with refcount := refcount }
  else none

/-- The placement `operator new` of `tRequest`: the block of memory it returns and the
manager after. -/
def operatorNew (m : tAccessManager) (raw : tRequest) : tRequest × tAccessManager :=
  match m.emptyRequests.RemoveHead with
  | (some newedRequest, list) => (newedRequest, { m with emptyRequests := list })
  | (none, list) => (MakeNewRequest raw, { m with emptyRequests := list })

/-- The placement `operator delete` of `tRequest`. -/
def operatorDelete (m : tAccessManager) (request : tRequest) : tAccessManager :=
  { m with emptyRequests := m.emptyRequests.AddAtHead request }

/-- The body of `SatisfyRequest(request, flags)` for the flags `kHighPriority` and
`kDifferentThread`, with `recurse` for the call
`SatisfyRequest(pendingRequests.RemoveHead(), kHighPriority | kDifferentThread)` of the
branch without `kHighPriority`. The second component tells whether the caller now waits in
`request->WaitForSignal()`; the code after the wait is not part of this function. -/
def SatisfyRequestWith (recurse : tAccessManager → tAccessManager) (m : tAccessManager)
    (request : Option tRequest) (kHighPriority kDifferentThread : Bool) :
    tAccessManager × Bool :=
  match request with
  | none => (m, false)
  | some request =>
    let canBeSatisfied :=
      !(!kHighPriority && m.pendingRequests.Count != 0) &&
      !(m.activeRequests.CountExclusive != 0) &&
      !(request.CountExclusive != 0 && m.activeRequests.Count != 0)
    if !canBeSatisfied then
      let m :=
        if kHighPriority then
          { m with pendingRequests := m.pendingRequests.AddAtHead request }
        else
          let m := recurse m
          { m with pendingRequests := m.pendingRequests.AddAtTail request }
      if kDifferentThread then (m, false) else (m, true)
    else
      let request := if kDifferentThread then { request with signal := true } else request
      ({ m with activeRequests := m.activeRequests.AddAtHead request }, false)

/-- The function `SatisfyRequest(request, flags)`. The call it makes to itself carries
`kHighPriority`, so that call makes no further one. -/
def SatisfyRequest (m : tAccessManager) (request : Option tRequest)
    (kHighPriority kDifferentThread : Bool) : tAccessManager × Bool :=
  SatisfyRequestWith
    (fun m =>
      (SatisfyRequestWith (fun m => m)
        { m with pendingRequests := m.pendingRequests.RemoveHead.2 }
        m.pendingRequests.RemoveHead.1 true true).1)
    m request kHighPriority kDifferentThread

/-- The function `GetSharedAccess()` called by thread `ourTid`: the manager after and
whether the thread now waits; `none` when an `assert` fails. -/
def GetSharedAccess (m : tAccessManager) (ourTid : Nat) (raw : tRequest) :
    Option (tAccessManager × Bool) :=
  match m.activeRequests.Remove ourTid with
  | (some ourRequest, active) =>
    match ourRequest.Add tRequestType.kShared with
    | none => none
    | some ourRequest =>
      some ({ m with activeRequests := active.AddAtHead ourRequest }, false)
  | (none, active) =>
    let m := { m with activeRequests := active }
    match tRequest.ctor (m.operatorNew raw).1 ourTid tRequestType.kShared with
    | none => none
    | some ourRequest => some ((m.operatorNew raw).2.SatisfyRequest (some ourRequest) false false)

/-- The function `GetExclusiveAccess()` called by thread `ourTid`. -/
def GetExclusiveAccess (m : tAccessManager) (ourTid : Nat) (raw : tRequest) :
    Option (tAccessManager × Bool) :=
  match m.activeRequests.Remove ourTid with
  | (some ourRequest, active) =>
    let m := { m with activeRequests := active }
    if ourRequest.CountExclusive ≠ 0 then
      match ourRequest.Add tRequestType.kExclusive with
      | none => none
      | some ourRequest =>
        some ({ m with activeRequests := m.activeRequests.AddAtHead ourRequest }, false)
    else
      match ourRequest.Add tRequestType.kExclusive with
      | none => none
      | some ourRequest => some (m.SatisfyRequest (some ourRequest) false false)
  | (none, active) =>
    let m := { m with activeRequests := active }
    match tRequest.ctor (m.operatorNew raw).1 ourTid tRequestType.kExclusive with
    | none => none
    | some ourRequest => some ((m.operatorNew raw).2.SatisfyRequest (some ourRequest) false false)

/-- The function `Acquire(exclusive)` called by thread `ourTid`. -/
def Acquire (m : tAccessManager) (ourTid : Nat) (exclusive : Bool) (raw : tRequest) :
    Option (tAccessManager × Bool) :=
  if exclusive then m.IncRef.GetExclusiveAccess ourTid raw
  else m.IncRef.GetSharedAccess ourTid raw

/-- The function `Release()` called by thread `ourTid`: the manager after and the value
returned; `none` when an `assert` fails or the thread has no active request. -/
def Release (m : tAccessManager) (ourTid : Nat) : Option (tAccessManager × Bool) :=
  match m.activeRequests.Remove ourTid with
  | (none, _) => none
  | (some ourRequest, active) =>
    match ourRequest.RemoveLast with
    | none => none
    | some (exclusive, ourRequest) =>
      let m := { m with activeRequests := active }
      let m :=
        if ourRequest.Count ≠ 0 then
          { m with activeRequests := m.activeRequests.AddAtHead ourRequest }
        else m.operatorDelete ourRequest
      let m :=
        ({ m with pendingRequests := m.pendingRequests.RemoveHead.2 }.SatisfyRequest
          m.pendingRequests.RemoveHead.1 true true).1
      m.DecRef.map (fun m => (m, exclusive))

def DebugGetRefCount (m : tAccessManager) : Nat := m.refcount

def DebugGetActiveCount (m : tAccessManager) : Nat := m.activeRequests.Count

def DebugGetActiveSharedCount (m : tAccessManager) : Nat := m.activeRequests.CountShared

def DebugGetActiveExclusiveCount (m : tAccessManager) : Nat :=
  m.activeRequests.CountExclusive

/-- The calls `Acquire(exclusive)` of thread `ourTid` for the modes of the list, one after
the other; `none` when an `assert` fails or the thread has to wait. -/
def acquires (ourTid : Nat) (raw : tRequest) : tAccessManager → List Bool →
    Option tAccessManager
  | m, [] => some m
  | m, exclusive :: rest =>
    match m.Acquire ourTid exclusive raw with
    | some (m, false) => acquires ourTid raw m rest
    | _ => none

/-- The given number of calls `Release()` of thread `ourTid`, one after the other: the
manager after and the values returned, in call order. -/
def releases (ourTid : Nat) : Nat → tAccessManager → Option (tAccessManager × List Bool)
  | 0, m => some (m, [])
  | n + 1, m =>
    match m.Release ourTid with
    | none => none
    | some (m, exclusive) =>
      (releases ourTid n m).map (fun r => (r.1, exclusive :: r.2))

/-- The low bits of `nesting` spell the stack of accesses `stack`, newest first: bit `i`
is set when access `i` is shared. -/
def Spells (nesting : Nat) (stack : List Bool) : Prop :=
  ∀ i, (h : i < stack.length) → nesting.testBit i = !stack[i]

/-- Thread `ourTid` holds the accesses `stack`, newest first, and the manager is
uncontended: no other request is active, none is pending, and every reference belongs to
one of the accesses. -/
def Holds (m : tAccessManager) (ourTid : Nat) (stack : List Bool) : Prop :=
  m.pendingRequests = tRequestList.empty ∧ m.refcount = stack.length ∧
  stack.length ≤ kMaxNestLevel ∧
  match stack with
  | [] => m.activeRequests = tRequestList.empty
  | _ :: _ =>
    ∃ request : tRequest, m.activeRequests = ⟨[request], request.shared, request.exclusive⟩ ∧
      request.tid = ourTid ∧ request.yieldedTo = false ∧
      request.shared = stack.count false ∧ request.exclusive = stack.count true ∧
      Spells request.nesting stack

end tAccessManager

end EasyRDMA

/-! ## Runs of ring operations

The calls `push`, `pop` and `front` of `tCircularFifo<T>` as data, the ring run through a
list of them, and the list-based FIFO queue that the ring is compared with. -/

namespace EasyRDMA

/-- One call of `push(elem)`, `pop()` or `front()`. -/
inductive RingOp (α : Type) where
  | push (elem : α)
  | pop
  | front
deriving DecidableEq, Repr

/-- How many of the calls are `push`. -/
def pushes {α : Type} : List (RingOp α) → Nat
  | [] => 0
  | RingOp.push _ :: ops => pushes ops + 1
  | _ :: ops => pushes ops

/-- How many of the calls are `pop`. -/
def pops {α : Type} : List (RingOp α) → Nat
  | [] => 0
  | RingOp.pop :: ops => pops ops + 1
  | _ :: ops => pops ops

namespace tCircularFifo

variable {α : Type}

/-- The constructor `tCircularFifo(size)`: `size` value-initialised slots. -/
def ofSize [Inhabited α] (size : Nat) : tCircularFifo α := ⟨List.replicate size default, 0, 0⟩

/-- The ring after the calls in order, with the values that the calls of `front` returned,
in call order; `none` when an `assert` fails. -/
def run : tCircularFifo α → List (RingOp α) → Option (tCircularFifo α × List α)
  | r, [] => some (r, [])
  | r, RingOp.push elem :: ops =>
    match r.push elem with
    | none => none
    | some r => run r ops
  | r, RingOp.pop :: ops =>
    match r.pop with
    | none => none
    | some r => run r ops
  | r, RingOp.front :: ops =>
    match r.front with
    | none => none
    | some v => (run r ops).map (fun p => (p.1, v :: p.2))

end tCircularFifo

/-- The list-based FIFO queue of capacity `C` that the ring is compared with. The queue is
the list of its elements, oldest first: `push` appends at the end while the queue holds
fewer than `C` elements, `pop` drops the head and `front` reads the head of a queue that is
not empty. The result is the queue after the calls and the values read, in call order;
`none` when a call is made outside these conditions. -/
def listFifo {α : Type} (C : Nat) : List α → List (RingOp α) → Option (List α × List α)
  | l, [] => some (l, [])
  | l, RingOp.push elem :: ops => if l.length < C then listFifo C (l ++ [elem]) ops else none
  | [], RingOp.pop :: _ => none
  | _ :: l, RingOp.pop :: ops => listFifo C l ops
  | [], RingOp.front :: _ => none
  | v :: l, RingOp.front :: ops => (listFifo C (v :: l) ops).map (fun p => (p.1, v :: p.2))

/-! ## core/api/easyrdma.h: the other error codes and the properties -/

def easyrdma_Error_OperatingSystemError : Int := -734006
def easyrdma_Error_OutOfMemory : Int := -734008
def easyrdma_Error_InvalidAddress : Int := -734010
def easyrdma_Error_InvalidProperty : Int := -734012
def easyrdma_Error_SessionNotConfigured : Int := -734013
def easyrdma_Error_UnableToConnect : Int := -734015
def easyrdma_Error_AlreadyConnected : Int := -734019
def easyrdma_Error_ConnectionRefused : Int := -734023
def easyrdma_Error_ReadOnlyProperty : Int := -734024
def easyrdma_Error_WriteOnlyProperty : Int := -734025
def easyrdma_Error_AddressInUse : Int := -734027

def easyrdma_Property_QueuedBuffers : Nat := 0x100
def easyrdma_Property_Connected : Nat := 0x101
def easyrdma_Property_UserBuffers : Nat := 0x102
def easyrdma_Property_UseRxPolling : Nat := 0x103
def easyrdma_Property_NumOpenedSessions : Nat := 0x200
def easyrdma_Property_NumPendingDestructionSessions : Nat := 0x201
def easyrdma_Property_ConnectionData : Nat := 0x202

/-- The ids that easyrdma.h defines: the property table. -/
def easyrdma_Properties : List Nat :=
  [easyrdma_Property_QueuedBuffers, easyrdma_Property_Connected,
   easyrdma_Property_UserBuffers, easyrdma_Property_UseRxPolling,
   easyrdma_Property_NumOpenedSessions, easyrdma_Property_NumPendingDestructionSessions,
   easyrdma_Property_ConnectionData]

/-- The error codes that easyrdma.h defines, each with the description that the comment
behind its definition gives. -/
def easyrdma_Errors : List (Int × String) :=
  [(easyrdma_Error_Timeout, "Operation timed out."),
   (easyrdma_Error_InvalidSession, "The specified session could not be found."),
   (easyrdma_Error_InvalidArgument, "Invalid argument."),
   (easyrdma_Error_InvalidOperation, "Invalid operation."),
   (easyrdma_Error_NoBuffersQueued, "No buffers queued."),
   (easyrdma_Error_OperatingSystemError, "Operating system error."),
   (easyrdma_Error_InvalidSize, "The provided size was invalid."),
   (easyrdma_Error_OutOfMemory, "Out of memory."),
   (easyrdma_Error_InternalError,
    "An internal error occurred. Contact National Instruments for support."),
   (easyrdma_Error_InvalidAddress, "Invalid address."),
   (easyrdma_Error_OperationCancelled, "Operation cancelled."),
   (easyrdma_Error_InvalidProperty, "Invalid property."),
   (easyrdma_Error_SessionNotConfigured, "Session not configured."),
   (easyrdma_Error_NotConnected, "Not connected."),
   (easyrdma_Error_UnableToConnect, "Unable to connect."),
   (easyrdma_Error_AlreadyConfigured, "Already configured."),
   (easyrdma_Error_Disconnected, "Disconnected."),
   (easyrdma_Error_BufferWaitInProgress, "Blocking buffer operation already in progress."),
   (easyrdma_Error_AlreadyConnected, "Current session is already connected."),
   (easyrdma_Error_InvalidDirection, "Specified direction is invalid."),
   (easyrdma_Error_IncompatibleProtocol, "Incompatible protocol."),
   (easyrdma_Error_IncompatibleVersion, "Incompatible version."),
   (easyrdma_Error_ConnectionRefused, "Connection refused."),
   (easyrdma_Error_ReadOnlyProperty, "Writing a read-only property is not permitted."),
   (easyrdma_Error_WriteOnlyProperty, "Reading a write-only property is not permitted."),
   (easyrdma_Error_OperationNotSupported, "The current operation is not supported."),
   (easyrdma_Error_AddressInUse, "The requested address is already in use."),
   (easyrdma_Error_SendTooLargeForRecvBuffer, "The Send buffer is too large.")]

/-! ## core/api/errorElaboration.cpp, core/api/errorhandling.cpp

A `std::string` is embedded as the `String` of its chars, one char for one byte, so
`size()` is the length. -/

/-- The map `errorStringTranslations`, in the order of its initialiser; the keys are
distinct, so `find` is the look-up of the first entry with the key. -/
def errorStringTranslations : List (Int × String) :=
  [(easyrdma_Error_Success, ""),
   (easyrdma_Error_Timeout, "Operation timed out."),
   (easyrdma_Error_InvalidSession, "The specified session could not be found."),
   (easyrdma_Error_InvalidArgument, "Invalid argument."),
   (easyrdma_Error_InvalidOperation, "Invalid operation."),
   (easyrdma_Error_NoBuffersQueued, "No buffers queued."),
   (easyrdma_Error_OperatingSystemError, "Operating system error."),
   (easyrdma_Error_InvalidSize, "The provided size was invalid."),
   (easyrdma_Error_OutOfMemory, "Out of memory."),
   (easyrdma_Error_InternalError,
    "An internal error occurred. Contact National Instruments for support."),
   (easyrdma_Error_InvalidAddress, "Invalid address."),
   (easyrdma_Error_OperationCancelled, "Operation cancelled."),
   (easyrdma_Error_InvalidProperty, "Invalid property."),
   (easyrdma_Error_SessionNotConfigured, "Session not configured."),
   (easyrdma_Error_NotConnected, "Not connected."),
   (easyrdma_Error_UnableToConnect, "Unable to connect."),
   (easyrdma_Error_AlreadyConfigured, "Already configured."),
   (easyrdma_Error_Disconnected, "Disconnected."),
   (easyrdma_Error_BufferWaitInProgress, "Blocking buffer operation already in progress."),
   (easyrdma_Error_AlreadyConnected, "Current session is already connected."),
   (easyrdma_Error_InvalidDirection, "Specified direction is invalid."),
   (easyrdma_Error_IncompatibleProtocol, "Incompatible protocol."),
   (easyrdma_Error_IncompatibleVersion, "Incompatible version."),
   (easyrdma_Error_ConnectionRefused, "Connection refused."),
   (easyrdma_Error_ReadOnlyProperty, "Writing a read-only property is not permitted."),
   (easyrdma_Error_WriteOnlyProperty, "Reading a write-only property is not permitted."),
   (easyrdma_Error_OperationNotSupported, "The current operation is not supported."),
   (easyrdma_Error_AddressInUse, "The requested address is already in use."),
   (easyrdma_Error_SendTooLargeForRecvBuffer, "The Send buffer is too large.")]

/-- The function `std::to_string(int)`: the decimal digits, after a minus sign for a
negative number. -/
def to_string (value : Int) : String :=
  match value with
  | Int.ofNat n => Nat.repr n
  | Int.negSucc n => "-" ++ Nat.repr (n + 1)

/-- The function `ConvertToErrorString(statusCode)`. -/
def ConvertToErrorString (statusCode : Int) : String :=
  match errorStringTranslations.lookup statusCode with
  | some description => description
  | none => "Unknown error "

/-- The function `GetErrorDescription(status)`. -/
def GetErrorDescription (status : RdmaError) : String :=
  if status.IsError then
    let errorDesc := ConvertToErrorString status.GetCode
    if status.GetCode = easyrdma_Error_Success then errorDesc
    else
      let errorDesc :=
        if status.errorSubCode ≠ 0 then
          errorDesc ++ ("\nSubcode: " ++ to_string status.errorSubCode)
        else errorDesc
      errorDesc ++
        ("\nLocation: " ++ (match status.filename with
                            | some filename => filename
                            | none => "Unknown") ++ ":" ++
          to_string status.fileLineNumber ++ "\n")
  else ""

/-- The function `PopulateLastRdmaError(status)`: the thread-local `lastRdmaError` after
the call. -/
def PopulateLastRdmaError (status : RdmaError) : RdmaError :=
  if status.GetCode ≠ 0 then RdmaError.success.Assign status else RdmaError.success

/-- The function `GetLastRdmaError(status)`: `status` after the call. -/
def GetLastRdmaError (lastRdmaError status : RdmaError) : RdmaError :=
  status.Assign lastRdmaError

/-- The chars of `c_str()` as bytes, the terminating null apart. -/
def c_str (s : String) : List Nat := s.toList.map Char.toNat

/-- The function `strncpy(dest, src, n)` for the string `src` without its terminating null:
the first `n` bytes of `dest` become the first `n` bytes of `src`, filled up with nulls;
`none` when `dest` has fewer than `n` bytes. -/
def strncpy (dest src : List Nat) (n : Nat) : Option (List Nat) :=
  if n ≤ dest.length then
    some (src.take n ++ List.replicate (n - src.length) 0 ++ dest.drop n)
  else none

/-- The function `easyrdma_GetLastErrorString(buffer, bufferSize)` called while the
thread-local last error is `lastRdmaError`: the value returned and the memory of `buffer`
after; `buffer` is `none` for `nullptr`. -/
def easyrdma_GetLastErrorString (lastRdmaError : RdmaError) (buffer : Option (List Nat))
    (bufferSize : Nat) : Option (Int × Option (List Nat)) :=
  match buffer with
  | none => some (easyrdma_Error_InvalidArgument, none)
  | some memory =>
    let status := GetLastRdmaError lastRdmaError RdmaError.success
    let err_str := GetErrorDescription status
    if bufferSize > err_str.length + 1 then
      (strncpy memory (c_str err_str) bufferSize).map
        (fun memory => (easyrdma_Error_Success, some memory))
    else some (easyrdma_Error_InvalidSize, some memory)

/-! ## Properties: core/common/RdmaSession.h, RdmaBufferQueue.cpp,
RdmaConnectedSessionBase.cpp, RdmaListenerBase.cpp, core/api/rdma_api_c.cpp -/

/-- The value of `__FILE__` inside RdmaSession.h and inside RdmaListenerBase.cpp. -/
def fileRdmaSession : Option String := some "RdmaSession.h"

def fileRdmaListenerBase : Option String := some "RdmaListenerBase.cpp"

/-- The struct `PropertyData`: the bytes of `data`. -/
structure PropertyData where
  data : List Byte
deriving DecidableEq, Repr

namespace PropertyData

/-- The constructor `PropertyData(const uint64_t&)`: the eight bytes of the value as they
are in memory, lowest first. -/
def ofUInt64 (value : Nat) : PropertyData :=
  ⟨(List.range 8).map (fun i => Fin.ofNat (value / 256 ^ i))⟩

/-- The constructor `PropertyData(const bool&)`: one byte. -/
def ofBool (value : Bool) : PropertyData := ⟨[if value then 1 else 0]⟩

/-- The function `CopyToOutput(outputBuf, size)`: the memory of `outputBuf` (`none` for
`nullptr`) and `*size` after the call, or the exception; `none` when the memory is
shorter than `*size` says. -/
def CopyToOutput (self : PropertyData) (outputBuf : Option (List Byte)) (size : Nat) :
    Option (Except RdmaError (Option (List Byte) × Nat)) :=
  match outputBuf with
  | some memory =>
    if size < self.data.length then
      some (Except.error ⟨easyrdma_Error_InvalidSize, 0, fileRdmaSession, 61⟩)
    else if memory.length < self.data.length then none
    else
      some (Except.ok (some (self.data ++ memory.drop self.data.length), self.data.length))
  | none => some (Except.ok (none, self.data.length))

end PropertyData

/-- The function `RdmaBufferQueue::GetProperty(propertyId)`. -/
def RdmaBufferQueue.GetProperty (q : RdmaBufferQueue) (propertyId : Nat) :
    Except RdmaError PropertyData :=
  if propertyId = easyrdma_Property_QueuedBuffers then
    Except.ok (PropertyData.ofUInt64
      (q.queuedBuffers.size + q.buffersQueuedWaitingForCredits.size))
  else if propertyId = easyrdma_Property_UserBuffers then
    Except.ok (PropertyData.ofUInt64 q.userBuffers.length)
  else Except.error (RDMA_THROW easyrdma_Error_InvalidProperty 275)

namespace RdmaConnectedSessionBase

/-- The function `GetProperty(propertyId)`. -/
def GetProperty (s : RdmaConnectedSessionBase) (propertyId : Nat) :
    Except RdmaError PropertyData :=
  if propertyId = easyrdma_Property_QueuedBuffers ∨
      propertyId = easyrdma_Property_UserBuffers then
    match s.transferBuffers with
    | some q => q.GetProperty propertyId
    | none =>
      Except.error ⟨easyrdma_Error_SessionNotConfigured, 0, fileRdmaConnectedSessionBase, 304⟩
  else if propertyId = easyrdma_Property_Connected then
    Except.ok (PropertyData.ofBool s.connected)
  else if propertyId = easyrdma_Property_UseRxPolling then
    Except.ok (PropertyData.ofBool s.usePolling)
  else Except.error ⟨easyrdma_Error_InvalidProperty, 0, fileRdmaConnectedSessionBase, 312⟩

/-- The function `SetProperty(propertyId, value, valueSize)` as built for Linux; `value` is
the memory that the pointer points to. It has no result when that memory is shorter than
the function reads. -/
def SetProperty (s : RdmaConnectedSessionBase) (propertyId : Nat) (value : List Byte)
    (valueSize : Nat) : Option (SessionRet Unit) :=
  if propertyId = easyrdma_Property_ConnectionData then
    if valueSize ≤ value.length then
      some ⟨{ s with connectionData := value.take valueSize }, Except.ok (), []⟩
    else none
  else if propertyId = easyrdma_Property_UseRxPolling then
    if valueSize ≠ 1 then
      some ⟨s, Except.error ⟨easyrdma_Error_InvalidArgument, 0, fileRdmaConnectedSessionBase,
        324⟩, []⟩
    else
      match value with
      | [] => none
      | first :: _ =>
        let _usePolling : Bool := first ≠ 0
        if !s.connected ∨ s.transferBuffers.isSome then
          some ⟨s, Except.error ⟨easyrdma_Error_AlreadyConfigured, 0,
            fileRdmaConnectedSessionBase, 330⟩, []⟩
        else if _usePolling ∧ s.direction ≠ Direction.Receive then
          some ⟨s, Except.error ⟨easyrdma_Error_OperationNotSupported, 0,
            fileRdmaConnectedSessionBase, 338⟩, []⟩
        else some ⟨{ s with usePolling := _usePolling }, Except.ok (), []⟩
  else
    some ⟨s, Except.error ⟨easyrdma_Error_ReadOnlyProperty, 0, fileRdmaConnectedSessionBase,
      344⟩, []⟩

end RdmaConnectedSessionBase

namespace RdmaSession

/-- The virtual function `GetProperty(propertyId)`: a listener keeps the function of
`RdmaSession`. -/
def GetProperty : RdmaSession → Nat → Except RdmaError PropertyData
  | Listener, _ => Except.error ⟨easyrdma_Error_InvalidProperty, 0, fileRdmaSession, 95⟩
  | Connected s, propertyId => s.GetProperty propertyId

/-- The virtual function `SetProperty(propertyId, value, valueSize)`: the session after,
and what it throws. The connection data that `RdmaListenerBase::SetProperty` stores is not
part of the embedding of a listener. -/
def SetProperty : RdmaSession → Nat → List Byte → Nat →
    Option (RdmaSession × Except RdmaError Unit)
  | Listener, propertyId, value, valueSize =>
    if propertyId = easyrdma_Property_ConnectionData then
      if valueSize ≤ value.length then some (Listener, Except.ok ()) else none
    else
      some (Listener,
        Except.error ⟨easyrdma_Error_ReadOnlyProperty, 0, fileRdmaListenerBase, 21⟩)
  | Connected s, propertyId, value, valueSize =>
    (s.SetProperty propertyId value valueSize).map (fun r => (Connected r.session, r.result))

end RdmaSession

/-- The outcome of `easyrdma_GetProperty`: the local `status` at the end, the memory of
`value` and `*valueSize`. -/
structure GetPropertyRet where
  status : RdmaError
  value : Option (List Byte)
  valueSize : Option Nat
deriving DecidableEq, Repr

/-- The function `easyrdma_GetProperty(session, propertyId, value, valueSize)`; `value` and
`valueSize` are `none` for `nullptr`. The registry and its sessions stay as they are. -/
def easyrdma_GetProperty (m : SessionManager) (session propertyId : Nat)
    (value : Option (List Byte)) (valueSize : Option Nat) : Option GetPropertyRet :=
  match valueSize with
  | none =>
    some ⟨API_CATCH_EXCEPTION ⟨easyrdma_Error_InvalidArgument, 0, fileRdmaApiC, 391⟩, value,
      none⟩
  | some size =>
    let output : Except RdmaError PropertyData :=
      if propertyId = easyrdma_Property_ConnectionData then
        Except.error ⟨easyrdma_Error_WriteOnlyProperty, 0, fileRdmaApiC, 398⟩
      else if propertyId = easyrdma_Property_NumOpenedSessions then
        Except.ok (PropertyData.ofUInt64 m.GetOpenedSessions)
      else if propertyId = easyrdma_Property_NumPendingDestructionSessions then
        Except.ok (PropertyData.ofUInt64 m.GetDeferredCloseSessions)
      else
        match m.GetSession session false with
        | Except.error e => Except.error e
        | Except.ok (sessionRef, _) => sessionRef.GetProperty propertyId
    match output with
    | Except.error e => some ⟨API_CATCH_EXCEPTION e, value, some size⟩
    | Except.ok output =>
      match output.CopyToOutput value size with
      | none => none
      | some (Except.error e) => some ⟨API_CATCH_EXCEPTION e, value, some size⟩
      | some (Except.ok (memory, size)) => some ⟨RdmaError.success, memory, some size⟩

/-- The function `easyrdma_SetProperty(session, propertyId, value, valueSize)`. -/
def easyrdma_SetProperty (m : SessionManager) (session propertyId : Nat)
    (value : List Byte) (valueSize : Nat) : Option ApiRet :=
  match m.GetSession session false with
  | Except.error e => some ⟨m, API_CATCH_EXCEPTION e, []⟩
  | Except.ok (sessionRef, destructionPending) =>
    match sessionRef.SetProperty propertyId value valueSize with
    | none => none
    | some (resource, Except.ok _) =>
      some ⟨m.store session destructionPending resource, RdmaError.success, []⟩
    | some (resource, Except.error e) =>
      some ⟨m.store session destructionPending resource, API_CATCH_EXCEPTION e, []⟩

namespace RdmaConnectedSessionBase

/-- The function `QueueExternalBufferRegion(pointerWithinBuffer, size, callbackData,
timeoutMs)`; the suspension of the access of the caller by `BufferWaitAccessSuspender` left
out. -/
def QueueExternalBufferRegion (s : RdmaConnectedSessionBase) (size : Nat)
    (callbackData : BufferCompletionCallbackData) (timeoutMs : Int) (world : World) :
    Option (SessionRet Unit) :=
  if s.bufferWaitInProgress then
    some ⟨s, Except.error ⟨easyrdma_Error_BufferWaitInProgress, 0,
      fileRdmaConnectedSessionBase, 22⟩, []⟩
  else
    SessionRet.andThen (s.onTransfer (fun q => q.WaitForIdleBuffer timeoutMs world.wait))
      (fun s buffer =>
        if s.bufferType ≠ BufferType.Single ∨ s.bufferOwnership ≠ BufferOwnership.External then
          some ⟨s, Except.error ⟨easyrdma_Error_InvalidOperation, 0,
            fileRdmaConnectedSessionBase, 287⟩, []⟩
        else
          SessionRet.andThen
            (s.onTransfer (fun q =>
              some ⟨q.modifyBuffer buffer (fun externalBuffer =>
                (externalBuffer.SetBufferRegion size).SetCompletionCallback callbackData),
                Except.ok (), []⟩))
            (fun s _ => s.Requeue buffer world))

end RdmaConnectedSessionBase

/-! ## core/api/tAccessManager.h, continued: suspending, whole stacks, the event, and the
calls of several threads -/

/-- The struct `tAccessStack`; `val` has `kMaxNestLevel` entries. -/
structure tAccessStack where
  size : Nat
  val : List Bool
deriving DecidableEq, Repr

namespace tAccessManager

/-- The function `SuspendAccess()` called by thread `ourTid`; `none` when an `assert` fails
or the thread has no active request. -/
def SuspendAccess (m : tAccessManager) (ourTid : Nat) : Option tAccessManager :=
  match m.activeRequests.Remove ourTid with
  | (none, _) => none
  | (some ourRequest, active) =>
    let purged : Option tRequest :=
      if ourRequest.CountExclusive ≠ 0 then
        match ourRequest.Add tRequestType.kExclusive with
        | none => none
        | some added => added.RemoveLast.map (fun r => r.2)
      else some ourRequest
    match purged with
    | none => none
    | some ourRequest =>
      let m := { m with activeRequests := active,
                        suspendedRequests := m.suspendedRequests.AddAtHead ourRequest }
      some ({ m with pendingRequests := m.pendingRequests.RemoveHead.2 }.SatisfyRequest
        m.pendingRequests.RemoveHead.1 true true).1

/-- The function `ResumeAccess()` called by thread `ourTid`: the manager after and whether
the thread now waits. -/
def ResumeAccess (m : tAccessManager) (ourTid : Nat) : tAccessManager × Bool :=
  match m.suspendedRequests.Remove ourTid with
  | (some ourRequest, suspended) =>
    { m with suspendedRequests := suspended }.SatisfyRequest (some ourRequest) false false
  | (none, _) => (m, false)

/-- The function `HasExclusiveAccess()` called by thread `ourTid`: the manager after (the
request of the thread is put back at the head of the list) and the value returned. -/
def HasExclusiveAccess (m : tAccessManager) (ourTid : Nat) : tAccessManager × Bool :=
  match m.activeRequests.Remove ourTid with
  | (none, _) => (m, false)
  | (some request, active) =>
    let m := { m with activeRequests := active.AddAtHead request }
    (m, decide (m.activeRequests.CountExclusive > 0))

/-- The function `HasSharedAccess()` called by thread `ourTid`. -/
def HasSharedAccess (m : tAccessManager) (ourTid : Nat) : tAccessManager × Bool :=
  match m.activeRequests.Remove ourTid with
  | (none, _) => (m, false)
  | (some request, active) =>
    let m := { m with activeRequests := active.AddAtHead request }
    (m, decide (m.activeRequests.CountExclusive = 0) &&
      decide (m.activeRequests.CountShared > 0))

/-- The condition `HasExclusiveAccess() || HasSharedAccess()` of the loop of `ReleaseAll`;
the second call is made only when the first returns false. -/
def hasAccess (m : tAccessManager) (ourTid : Nat) : tAccessManager × Bool :=
  if (m.HasExclusiveAccess ourTid).2 then ((m.HasExclusiveAccess ourTid).1, true)
  else (m.HasExclusiveAccess ourTid).1.HasSharedAccess ourTid

/-- The loop of `ReleaseAll`, with `n` entries of `accessStack.val` still free, so that
`assert(accessStack.size < sizeof(accessStack.val))` fails when `n` is zero. -/
def releaseAllLoop (ourTid : Nat) : Nat → tAccessManager → tAccessStack →
    Option (tAccessManager × tAccessStack)
  | 0, m, accessStack =>
    if (m.hasAccess ourTid).2 then none else some ((m.hasAccess ourTid).1, accessStack)
  | n + 1, m, accessStack =>
    if (m.hasAccess ourTid).2 then
      match (m.hasAccess ourTid).1.Release ourTid with
      | none => none
      | some (m, exclusive) =>
        releaseAllLoop ourTid n m
          { size := accessStack.size + 1,
            val := accessStack.val.set accessStack.size exclusive }
    else some ((m.hasAccess ourTid).1, accessStack)

/-- The function `ReleaseAll()` called by thread `ourTid`. -/
def ReleaseAll (m : tAccessManager) (ourTid : Nat) : Option (tAccessManager × tAccessStack) :=
  releaseAllLoop ourTid kMaxNestLevel m ⟨0, List.replicate kMaxNestLevel false⟩

/-- The function `AcquireAll(accessStack)` called by thread `ourTid`: the calls
`Acquire(accessStack.val[i-1])` for `i` from `accessStack.size` down to 1; `none` when an
`assert` fails or the thread has to wait. -/
def AcquireAll (m : tAccessManager) (ourTid : Nat) (accessStack : tAccessStack)
    (raw : tRequest) : Option tAccessManager :=
  if 0 < accessStack.size ∧ accessStack.size ≤ kMaxNestLevel then
    acquires ourTid raw m (accessStack.val.take accessStack.size).reverse
  else none

/-- The first signalled request of thread `tid` in the list, with its event reset. -/
def resetSignal (tid : Nat) : List tRequest → Option (List tRequest)
  | [] => none
  | r :: rest =>
    if r.GetTid = tid ∧ r.signal = true then some ({ r with signal := false } :: rest)
    else (resetSignal tid rest).map (fun rest => r :: rest)

/-- What thread `tid` does when it returns from `request->WaitForSignal()` in
`SatisfyRequest`: its request, now active, was signalled, the event resets itself, and
the thread calls `SatisfyRequest` for the head of the pending list. It gives `none` when
no signalled request of the thread is active: the thread waits on. -/
def wake (m : tAccessManager) (tid : Nat) : Option tAccessManager :=
  match resetSignal tid m.activeRequests.head with
  | none => none
  | some head =>
    let m := { m with activeRequests := { m.activeRequests with head := head } }
    some ({ m with pendingRequests := m.pendingRequests.RemoveHead.2 }.SatisfyRequest
      m.pendingRequests.RemoveHead.1 true true).1

end tAccessManager

/-- One step of a thread on an access manager: a call of `Acquire`, `Release`,
`SuspendAccess`, `ResumeAccess`, `IncRef` or `DecRef` up to its return or up to the point
where the thread waits, or the rest of the call of a thread that waited. -/
inductive AccessCall where
  | Acquire (tid : Nat) (exclusive : Bool) (raw : tRequest)
  | Release (tid : Nat)
  | SuspendAccess (tid : Nat)
  | ResumeAccess (tid : Nat)
  | IncRef
  | DecRef
  | Wake (tid : Nat)
deriving DecidableEq, Repr

/-- An access manager and the threads that wait in `WaitForSignal`. -/
structure AccessState where
  manager : tAccessManager
  waiting : List Nat
deriving DecidableEq, Repr

namespace AccessState

/-- The state after one step; `none` when an `assert` fails, when a thread that waits
makes a call, or when a thread that does not wait, or waits on, is woken. -/
def call (s : AccessState) : AccessCall → Option AccessState
  | AccessCall.Acquire tid exclusive raw =>
    if tid ∈ s.waiting then none
    else
      match s.manager.Acquire tid exclusive raw with
      | none => none
      | some (m, waits) => some ⟨m, if waits then tid :: s.waiting else s.waiting⟩
  | AccessCall.Release tid =>
    if tid ∈ s.waiting then none
    else (s.manager.Release tid).map (fun r => ⟨r.1, s.waiting⟩)
  | AccessCall.SuspendAccess tid =>
    if tid ∈ s.waiting then none
    else (s.manager.SuspendAccess tid).map (fun m => ⟨m, s.waiting⟩)
  | AccessCall.ResumeAccess tid =>
    if tid ∈ s.waiting then none
    else
      some ⟨(s.manager.ResumeAccess tid).1,
        if (s.manager.ResumeAccess tid).2 then tid :: s.waiting else s.waiting⟩
  | AccessCall.IncRef => some ⟨s.manager.IncRef, s.waiting⟩
  | AccessCall.DecRef => s.manager.DecRef.map (fun m => ⟨m, s.waiting⟩)
  | AccessCall.Wake tid =>
    if tid ∈ s.waiting then (s.manager.wake tid).map (fun m => ⟨m, s.waiting.erase tid⟩)
    else none

/-- The state after the steps, in order. -/
def run : AccessState → List AccessCall → Option AccessState
  | s, [] => some s
  | s, c :: cs =>
    match s.call c with
    | none => none
    | some s => run s cs

end AccessState

namespace tAccessManager

end tAccessManager

/-- The request holds a stack of 1 to `kMaxNestLevel` accesses: the counters count its
shared and exclusive accesses and `nesting` spells them, and it is not yielded to. -/
def tRequest.Valid (r : tRequest) : Prop :=
  r.yieldedTo = false ∧ ∃ stack : List Bool, stack ≠ [] ∧ stack.length ≤ kMaxNestLevel ∧
    r.shared = stack.count false ∧ r.exclusive = stack.count true ∧
    tAccessManager.Spells r.nesting stack

/-- The shared accesses of the requests of a list. -/
def sumShared (l : List tRequest) : Nat := (l.map tRequest.shared).sum

/-- The exclusive accesses of the requests of a list. -/
def sumExclusive (l : List tRequest) : Nat := (l.map tRequest.exclusive).sum

/-- Every request of the list is valid and the counters of the list are the sums over its
requests. -/
def tRequestList.OK (l : tRequestList) : Prop :=
  (∀ r ∈ l.head, r.Valid) ∧ l.shared = sumShared l.head ∧ l.exclusive = sumExclusive l.head

namespace tAccessManager

/-- The number of requests in the active, pending and suspended lists. -/
def requests (m : tAccessManager) : Nat :=
  m.activeRequests.head.length + m.pendingRequests.head.length +
    m.suspendedRequests.head.length

/-- The three lists are in order, and a request with exclusive access is the only active
request. -/
def Sound (m : tAccessManager) : Prop :=
  m.activeRequests.OK ∧ m.pendingRequests.OK ∧ m.suspendedRequests.OK ∧
  (m.activeRequests.exclusive ≠ 0 → m.activeRequests.head.length = 1)

/-- The local variable `canBeSatisfied` of `SatisfyRequest(request, flags)`. -/
def canBeSatisfied (m : tAccessManager) (request : tRequest) (kHighPriority : Bool) : Bool :=
  !(!kHighPriority && m.pendingRequests.Count != 0) &&
  !(m.activeRequests.CountExclusive != 0) &&
  !(request.CountExclusive != 0 && m.activeRequests.Count != 0)

end tAccessManager

/-- How many of the steps are calls of `Acquire`. -/
def acquireCalls : List AccessCall → Nat
  | [] => 0
  | AccessCall.Acquire _ _ _ :: cs => acquireCalls cs + 1
  | _ :: cs => acquireCalls cs

/-- The second manager has the active, pending and suspended lists of the first. -/
def tAccessManager.SameLists (m m2 : tAccessManager) : Prop :=
  m2.activeRequests = m.activeRequests ∧ m2.pendingRequests = m.pendingRequests ∧
  m2.suspendedRequests = m.suspendedRequests

end EasyRDMA

/-! ## Sample runs, continued -/

namespace EasyRDMA

/-- One receive with a completion callback posted. -/
def sampleCallsC11 : List Call :=
  [Call.WaitForIdleBuffer 0 cv_status.timeout, Call.SetCompletionCallback 0 ⟨some 7, 1, 2⟩,
   Call.QueueBuffer 0 IgnoreCredits.No none]

/-- What the memory of a request holds before the request is built in it: left-overs. -/
def sampleRawRequest (i : Nat) : tRequest :=
  { tid := i, shared := 7, exclusive := 9, nesting := 0xDEADBEEF, yieldedTo := true,
    signal := true }

/-- The memory of the 100 credit buffers of a session, 800 bytes each, zeroed. -/
def sampleCreditMemory : List (List Byte) := List.replicate 100 (List.replicate 800 0)

/-- A sender that is connected and not configured: the session that the default
constructor, `PreConnect(Send)` and `PostConnect()` build (its 100 credit buffers are
posted as receives). -/
def sampleSender : RdmaConnectedSessionBase :=
  { direction := Direction.Send, connectionData := [0x52, 0x44, 0x4D, 0x41, 1, 1, 0],
    usePolling := false, transferBuffers := none,
    creditBuffers := some
      { direction := Direction.Receive,
        buffers := (List.range 100).map (RdmaBuffer.Internal 800),
        idleBuffers := ⟨List.range 100, 0, 0⟩,
        queuedBuffers := ⟨List.range 100, 0, 100⟩,
        completedBuffers := ⟨List.replicate 100 0, 0, 0⟩,
        buffersQueuedWaitingForCredits := ⟨List.replicate 100 0, 0, 0⟩,
        userBuffers := [], queueStatus := RdmaError.success,
        putBackToIdleOnCompletion := false, availableCredits := [], aborted := false,
        usePolling := false },
    creditMemory := sampleCreditMemory, preConfigureCredits := [], _closing := false,
    autoQueueRx := false, bufferOwnership := BufferOwnership.Unknown,
    bufferType := BufferType.Unknown, connected := true, bufferWaitInProgress := false }

/-- The sender after two credits arrived before it was configured. -/
def sampleSenderStaged : RdmaConnectedSessionBase :=
  { sampleSender with preConfigureCredits := [4096, 100] }

/-- The outcome of `ConfigureBuffers(100, 2)` on the connected sender. -/
def sampleSenderConfigured : SessionRet Unit :=
  match sampleSender.ConfigureBuffers 100 2 World.quiet with
  | some out => out
  | none => ⟨sampleSender, Except.error RdmaError.success, []⟩

/-- The sender after `ConfigureBuffers(100, 2)` and two calls `AcquireSendRegion(0)`: the
user holds both buffers. -/
def sampleSenderHolding : RdmaConnectedSessionBase :=
  (do
    let r1 ← sampleSenderConfigured.session.AcquireSendRegion 0 World.quiet
    let r2 ← r1.session.AcquireSendRegion 0 World.quiet
    pure r2.session).getD sampleSender

/-- The calls that the transfer queue of `sampleSenderHolding` has seen. -/
def sampleCallsHolding : List Call :=
  [Call.WaitForIdleBuffer 0 cv_status.timeout, Call.WaitForIdleBuffer 0 cv_status.timeout]

/-- The credit queue of a sender as `PreConnect` builds it, before it posts the buffers. -/
def sampleCreditQueue : RdmaBufferQueue :=
  { direction := Direction.Receive,
    buffers := (List.range 100).map (RdmaBuffer.Internal 800),
    idleBuffers := ⟨List.range 100, 0, 100⟩,
    queuedBuffers := ⟨List.replicate 100 0, 0, 0⟩,
    completedBuffers := ⟨List.replicate 100 0, 0, 0⟩,
    buffersQueuedWaitingForCredits := ⟨List.replicate 100 0, 0, 0⟩,
    userBuffers := [], queueStatus := RdmaError.success,
    putBackToIdleOnCompletion := false, availableCredits := [], aborted := false,
    usePolling := false }

/-- The calls with which `PreConnect` posts the 100 credit buffers of a sender. -/
def sampleCallsCredit : List Call :=
  (List.range 100).flatMap (fun b =>
    [Call.WaitForIdleBuffer 0 cv_status.timeout, Call.QueueBuffer b IgnoreCredits.Yes none])

/-- A receiver that was connected and configured with `ConfigureBuffers(100, 2)`, got 40
bytes in buffer 0, handed that buffer to the user with `AcquireReceivedRegion(0)` and was
then disconnected. -/
def sampleReceiverClosed : RdmaConnectedSessionBase :=
  (do
    let r1 ← (RdmaConnectedSessionBase.ctor []).PreConnect Direction.Receive none sampleCreditMemory World.quiet
    let r2 ← r1.session.PostConnect.ConfigureBuffers 100 2 World.quiet
    let r3 ← r2.session.onTransfer (fun q => q.BufferHandleCompletion 0 RdmaError.success 40)
    let r4 ← r3.session.AcquireReceivedRegion 0 World.quiet
      (PollResult.throws RdmaError.success)
    let r5 ← r4.session.HandleDisconnect
    pure r5.session).getD (RdmaConnectedSessionBase.ctor [])

/-- The calls that the transfer queue of `sampleReceiverClosed` has seen. -/
def sampleCallsClosed : List Call :=
  [Call.WaitForIdleBuffer 0 cv_status.timeout, Call.QueueBuffer 0 IgnoreCredits.No none,
   Call.WaitForIdleBuffer 0 cv_status.timeout, Call.QueueBuffer 1 IgnoreCredits.No none,
   Call.BufferHandleCompletion 0 RdmaError.success 40,
   Call.WaitForCompletedBuffer 0 cv_status.timeout (PollResult.throws RdmaError.success),
   Call.Abort easyrdma_Error_Disconnected]

/-- The registry after the sender that holds two buffers was registered: it is handle 1. -/
def sampleRegistryCalls : List RegistryCall :=
  [RegistryCall.RegisterSession (RdmaSession.Connected sampleSenderHolding)]

def sampleRegistryOpen : SessionManager :=
  (SessionManager.init.run sampleRegistryCalls).getD SessionManager.init

/-- The registry after that sender was closed with `DeferWhileUserBuffersOutstanding`. -/
def sampleRegistryDeferred : SessionManager :=
  (SessionManager.init.run
    (sampleRegistryCalls ++ [RegistryCall.CloseSession 1 1])).getD SessionManager.init

/-- The session that `sampleRegistryDeferred` keeps for handle 1. -/
def sampleSenderCancelled : RdmaConnectedSessionBase :=
  match sampleRegistryDeferred.deferredCloseSessionMap.find 1 with
  | some (RdmaSession.Connected s) => s
  | _ => sampleSender

/-- The registry after the disconnected receiver was registered: it is handle 1. -/
def sampleRegistryClosed : SessionManager :=
  (SessionManager.init.run
    [RegistryCall.RegisterSession (RdmaSession.Connected sampleReceiverClosed)]).getD
    SessionManager.init

end EasyRDMA

/-! ## Sample runs, the last part -/

namespace EasyRDMA

/-- A ring of two slots that wraps around: three pushes and two pops, with the element at
the front read three times. -/
def sampleRingOps : List (RingOp Nat) :=
  [RingOp.push 5, RingOp.push 6, RingOp.front, RingOp.pop, RingOp.push 7, RingOp.front,
   RingOp.pop, RingOp.front]

/-- The last error after `easyrdma_CloseSession` on a handle that is not open. -/
def sampleLastError : RdmaError := ⟨easyrdma_Error_InvalidSession, 0, fileRdmaApiCommon, 61⟩

/-- A buffer of 74 bytes: one more than the 73 chars of the description of
`sampleLastError`. -/
def sampleErrorBuffer : List Nat := List.replicate 74 0xAA

/-- A fresh access manager after thread 5 has acquired shared access once and then
exclusive access 31 times: the thread holds `kMaxNestLevel` accesses. -/
def sampleManagerFull : tAccessManager :=
  (tAccessManager.acquires 5 (sampleRawRequest 99) (tAccessManager.ctor sampleRawRequest)
    (false :: List.replicate 31 true)).getD (tAccessManager.ctor sampleRawRequest)

/-- The fresh access manager, no thread waiting. -/
def sampleAccessStart : AccessState := ⟨tAccessManager.ctor sampleRawRequest, []⟩

/-- Thread 5 takes exclusive access on a fresh manager and thread 6 asks for shared
access. -/
def sampleAccessCallsHeld : List AccessCall :=
  [AccessCall.Acquire 5 true (sampleRawRequest 99),
   AccessCall.Acquire 6 false (sampleRawRequest 98)]

/-- The state after `sampleAccessCallsHeld`: the request of thread 5 is active and thread
6 waits. -/
def sampleAccessHeld : AccessState :=
  (sampleAccessStart.run sampleAccessCallsHeld).getD sampleAccessStart

end EasyRDMA

/-! ## The ring is a FIFO -/

namespace EasyRDMA

namespace tCircularFifo

variable {α : Type}

theorem mod_ne_of_lt {h i s c : Nat} (his : i < s) (hsc : s < c) :
    (h + i) % c ≠ (h + s) % c := by
  intro heq
  have h1 : Nat.ModEq c (h + i) (h + s) := heq
  have h2 : Nat.ModEq c i s := Nat.ModEq.add_left_cancel' h h1
  have h3 : i % c = s % c := h2
  rw [Nat.mod_eq_of_lt (by omega), Nat.mod_eq_of_lt hsc] at h3
  omega

theorem toList_length (r : tCircularFifo α) (hwf : r.WF) : r.toList.length = r._size := by
  unfold toList
  by_cases hc : r._buffer.length = 0
  · have : r._size = 0 := by unfold WF at hwf; omega
    simp [this]
  · have hpos : 0 < r._buffer.length := Nat.pos_of_ne_zero hc
    have key : ∀ n,
        ((List.range n).filterMap (fun i => r._buffer[r.getReadIndex i]?)).length = n := by
      intro n
      induction n with
      | zero => simp
      | succ n ih =>
        rw [List.range_succ, List.filterMap_append, List.length_append, ih]
        have hlt : r.getReadIndex n < r._buffer.length := Nat.mod_lt _ hpos
        simp [List.getElem?_eq_getElem hlt]
    exact key _

theorem toList_of_size_zero (r : tCircularFifo α) (h : r._size = 0) : r.toList = [] := by
  simp [toList, h]

theorem push_spec (r : tCircularFifo α) (x : α) (h : r._size < r._buffer.length) :
    ∃ r', r.push x = some r' ∧ r'.toList = r.toList ++ [x] ∧
      r'._buffer.length = r._buffer.length ∧ r'._size = r._size + 1 := by
  refine ⟨{ r with _buffer := r._buffer.set (r.getWriteIndex 0) x, _size := r._size + 1 },
    ?_, ?_, by simp, rfl⟩
  · simp only [push, capacity]; rw [if_pos (by omega)]
  simp only [toList, getReadIndex, getWriteIndex, capacity, size, List.length_set,
    Nat.add_zero]
  rw [List.range_succ, List.filterMap_append]
  congr 1
  · apply List.filterMap_congr
    intro i hi
    rw [List.mem_range] at hi
    rw [List.getElem?_set_ne]
    exact (mod_ne_of_lt hi h).symm
  · have hlt : (r._head + r._size) % r._buffer.length < r._buffer.length :=
      Nat.mod_lt _ (by omega)
    simp [List.getElem?_set_self, hlt]

theorem pop_spec (r : tCircularFifo α) (h0 : 0 < r._size) (hwf : r.WF) :
    ∃ r' v, r.pop = some r' ∧ r.front = some v ∧ r.toList = v :: r'.toList ∧
      r'._buffer.length = r._buffer.length ∧ r'._size + 1 = r._size := by
  have hpos : 0 < r._buffer.length := by unfold WF at hwf; omega
  have hlt : r._head % r._buffer.length < r._buffer.length := Nat.mod_lt _ hpos
  refine ⟨{ r with _head := (r._head + 1) % r.capacity, _size := r._size - 1 },
    r._buffer[r._head % r._buffer.length], ?_, ?_, ?_, rfl, ?_⟩
  · simp only [pop, size]; rw [if_pos (by omega)]
  · simp only [front, size, getReadIndex, capacity, Nat.add_zero]
    rw [if_pos (by omega)]
    exact List.getElem?_eq_getElem hlt
  · simp only [toList, getReadIndex, capacity]
    obtain ⟨n, hn⟩ : ∃ n, r._size = n + 1 := ⟨r._size - 1, by omega⟩
    rw [hn, List.range_succ_eq_map, List.filterMap_cons]
    simp only [Nat.add_zero, List.getElem?_eq_getElem hlt, Nat.add_sub_cancel,
      List.filterMap_map]
    congr 1
    apply List.filterMap_congr
    intro i _
    simp only [Function.comp, Nat.succ_eq_add_one, Nat.mod_add_mod]
    congr 2
    omega
  · simp only; omega

/-- What `push` returned, read back as a list. -/
theorem push_eq {r r' : tCircularFifo α} {x : α} (h : r.push x = some r') :
    r'.toList = r.toList ++ [x] ∧ r'._buffer.length = r._buffer.length ∧
      r'._size = r._size + 1 ∧ r'.WF := by
  have hlt : r._size < r._buffer.length := by
    unfold push capacity at h
    by_contra hc
    rw [if_neg (by omega)] at h
    exact Option.noConfusion h
  obtain ⟨r2, h2, hl, hc, hs⟩ := push_spec r x hlt
  rw [h] at h2
  cases h2
  exact ⟨hl, hc, hs, by unfold WF; omega⟩

/-- What `front` and `pop` returned, read back as a list. -/
theorem pop_eq {r r' : tCircularFifo α} {v : α} (hwf : r.WF) (hf : r.front = some v)
    (h : r.pop = some r') :
    r.toList = v :: r'.toList ∧ r'._buffer.length = r._buffer.length ∧
      r'._size + 1 = r._size ∧ r'.WF := by
  have h0 : 0 < r._size := by
    unfold pop size at h
    by_contra hc
    rw [if_neg (by omega)] at h
    exact Option.noConfusion h
  obtain ⟨r2, v2, h2, hf2, hl, hc, hs⟩ := pop_spec r h0 hwf
  rw [h] at h2
  rw [hf] at hf2
  cases h2
  cases hf2
  exact ⟨hl, hc, hs, by unfold WF at hwf ⊢; omega⟩

theorem front_none_of_size_zero (r : tCircularFifo α) (h : r._size = 0) : r.front = none := by
  simp [front, size, h]

theorem size_eq_zero_iff (r : tCircularFifo α) (hwf : r.WF) : r._size = 0 ↔ r.toList = [] := by
  rw [← toList_length r hwf]
  exact List.length_eq_zero

end tCircularFifo

end EasyRDMA

/-! ## The invariant is kept by every call -/

namespace EasyRDMA

namespace RdmaBufferQueue

theorem Inv.lt_of_pos {q : RdmaBufferQueue} (hI : q.Inv) {b : Nat} (h : 0 < q.occurrences b) :
    b < q.buffers.length := by
  have := hI.once b
  by_contra hc
  rw [if_neg hc] at this
  omega

theorem Inv.step {q : RdmaBufferQueue} (hI : q.Inv) (r : RdmaBufferQueue)
    (hlen : r.buffers.length = q.buffers.length)
    (c1 : r.idleBuffers._buffer.length = q.idleBuffers._buffer.length)
    (c2 : r.queuedBuffers._buffer.length = q.queuedBuffers._buffer.length)
    (c3 : r.completedBuffers._buffer.length = q.completedBuffers._buffer.length)
    (c4 : r.buffersQueuedWaitingForCredits._buffer.length =
      q.buffersQueuedWaitingForCredits._buffer.length)
    (w1 : r.idleBuffers.WF) (w2 : r.queuedBuffers.WF) (w3 : r.completedBuffers.WF)
    (w4 : r.buffersQueuedWaitingForCredits.WF)
    (hocc : ∀ b, r.occurrences b = q.occurrences b)
    (hhook : ∀ b, r.linked b = true ↔ b ∈ r.userBuffers) : r.Inv where
  capIdle := by rw [c1, hlen]; exact hI.capIdle
  capQueued := by rw [c2, hlen]; exact hI.capQueued
  capCompleted := by rw [c3, hlen]; exact hI.capCompleted
  capWaiting := by rw [c4, hlen]; exact hI.capWaiting
  wfIdle := w1
  wfQueued := w2
  wfCompleted := w3
  wfWaiting := w4
  once := by intro b; rw [hocc, hlen]; exact hI.once b
  hook := hhook

/-- A change of the buffers that keeps their number and their hooks, and of anything but
the five sets, keeps the invariant. -/
theorem Inv.frame {q : RdmaBufferQueue} (hI : q.Inv) (r : RdmaBufferQueue)
    (hlen : r.buffers.length = q.buffers.length)
    (h1 : r.idleBuffers = q.idleBuffers) (h2 : r.queuedBuffers = q.queuedBuffers)
    (h3 : r.completedBuffers = q.completedBuffers)
    (h4 : r.buffersQueuedWaitingForCredits = q.buffersQueuedWaitingForCredits)
    (h5 : r.userBuffers = q.userBuffers)
    (hl : ∀ b, r.linked b = q.linked b) : r.Inv := by
  refine hI.step r hlen (by rw [h1]) (by rw [h2]) (by rw [h3]) (by rw [h4])
    (by rw [h1]; exact hI.wfIdle) (by rw [h2]; exact hI.wfQueued)
    (by rw [h3]; exact hI.wfCompleted) (by rw [h4]; exact hI.wfWaiting) ?_ ?_
  · intro b
    simp only [occurrences, Idle, User, WaitingCredit, Queued, Completed, h1, h2, h3, h4, h5]
  · intro b
    rw [hl, h5]
    exact hI.hook b

theorem linked_userPushBack (q : RdmaBufferQueue) (b c : Nat) (hb : b < q.buffers.length) :
    (q.userPushBack b).linked c = (if c = b then true else q.linked c) := by
  simp only [linked, userPushBack, List.getElem?_modify]
  by_cases h : c = b
  · subst h
    simp [List.getElem?_eq_getElem hb]
  · have h' : ¬ b = c := fun e => h e.symm
    simp only [h, h', if_false]
    cases q.buffers[c]? <;> simp

theorem linked_userUnlink (q : RdmaBufferQueue) (b c : Nat) :
    (q.userUnlink b).linked c = (if c = b then false else q.linked c) := by
  simp only [linked, userUnlink, List.getElem?_modify]
  by_cases h : c = b
  · subst h
    cases q.buffers[c]? <;> simp
  · have h' : ¬ b = c := fun e => h e.symm
    simp only [h, h', if_false]
    cases q.buffers[c]? <;> simp

theorem Inv.count_user_le_one {q : RdmaBufferQueue} (hI : q.Inv) (b : Nat) :
    q.userBuffers.count b ≤ 1 := by
  have := hI.once b
  simp only [occurrences, User] at this
  split at this <;> omega

theorem mem_erase_iff_of_count_le_one {l : List Nat} {b c : Nat} (h : l.count b ≤ 1) :
    c ∈ l.erase b ↔ c ≠ b ∧ c ∈ l := by
  by_cases hcb : c = b
  · subst hcb
    have : (l.erase c).count c = 0 := by rw [List.count_erase_self]; omega
    simp [List.count_eq_zero.mp this]
  · simp [hcb, List.mem_erase_of_ne hcb]

/-- Moving the front of the idle ring to the user list keeps the invariant. -/
theorem Inv.idle_to_user {q : RdmaBufferQueue} (hI : q.Inv) {b : Nat}
    {idle : tCircularFifo Nat} (hf : q.idleBuffers.front = some b)
    (hp : q.idleBuffers.pop = some idle) :
    ({ q with idleBuffers := idle }.userPushBack b).Inv := by
  obtain ⟨hl, hc, hs, hw⟩ := tCircularFifo.pop_eq hI.wfIdle hf hp
  have hb : b < q.buffers.length := by
    apply hI.lt_of_pos
    simp [occurrences, Idle, hl]
  refine hI.step _ (by simp [userPushBack]) hc rfl rfl rfl hw hI.wfQueued hI.wfCompleted
    hI.wfWaiting ?_ ?_
  · intro c
    simp only [occurrences, Idle, User, WaitingCredit, Queued, Completed, userPushBack, hl,
      List.count_cons, List.count_append, List.count_nil]
    split <;> omega
  · intro c
    rw [linked_userPushBack _ b c (by exact hb)]
    have := hI.hook c
    simp only [linked] at this ⊢
    simp only [userPushBack, List.mem_append, List.mem_singleton]
    by_cases h : c = b <;> simp [h, this]

/-- Moving the front of the completed ring to the user list keeps the invariant. -/
theorem Inv.completed_to_user {q : RdmaBufferQueue} (hI : q.Inv) {b : Nat}
    {completed : tCircularFifo Nat} (hf : q.completedBuffers.front = some b)
    (hp : q.completedBuffers.pop = some completed) :
    ({ q with completedBuffers := completed }.userPushBack b).Inv := by
  obtain ⟨hl, hc, hs, hw⟩ := tCircularFifo.pop_eq hI.wfCompleted hf hp
  have hb : b < q.buffers.length := by
    apply hI.lt_of_pos
    simp [occurrences, Completed, hl]
  refine hI.step _ (by simp [userPushBack]) rfl rfl hc rfl hI.wfIdle hI.wfQueued hw
    hI.wfWaiting ?_ ?_
  · intro c
    simp only [occurrences, Idle, User, WaitingCredit, Queued, Completed, userPushBack, hl,
      List.count_cons, List.count_append, List.count_nil]
    split <;> omega
  · intro c
    rw [linked_userPushBack _ b c (by exact hb)]
    have := hI.hook c
    simp only [linked] at this ⊢
    simp only [userPushBack, List.mem_append, List.mem_singleton]
    by_cases h : c = b <;> simp [h, this]

/-- Moving a user buffer to the back of the queued ring keeps the invariant. -/
theorem Inv.user_to_queued {q : RdmaBufferQueue} (hI : q.Inv) {b : Nat}
    {ring : tCircularFifo Nat} (hb : b ∈ q.userBuffers) (hp : q.queuedBuffers.push b = some ring) :
    ({ q with queuedBuffers := ring }.userUnlink b).Inv := by
  obtain ⟨hl, hc, hs, hw⟩ := tCircularFifo.push_eq hp
  have h1 := hI.count_user_le_one b
  have h2 : 0 < q.userBuffers.count b := List.count_pos_iff.mpr hb
  refine hI.step _ (by simp [userUnlink]) rfl hc rfl rfl hI.wfIdle hw hI.wfCompleted hI.wfWaiting ?_ ?_
  · intro c
    simp only [occurrences, Idle, User, WaitingCredit, Queued, Completed, userUnlink, hl,
      List.count_cons, List.count_append, List.count_nil]
    by_cases h : c = b
    · subst h
      simp only [List.count_erase_self, beq_self_eq_true, if_true]
      omega
    · have h' : ¬ b = c := fun e => h e.symm
      simp only [List.count_erase_of_ne h, beq_iff_eq, h', if_false]
      omega
  · intro c
    have h3 : ({ q with queuedBuffers := ring }.userUnlink b).linked c = (q.userUnlink b).linked c := rfl
    rw [h3, linked_userUnlink]
    have := hI.hook c
    have h4 : ({ q with queuedBuffers := ring }.userUnlink b).userBuffers = q.userBuffers.erase b := rfl
    rw [h4, mem_erase_iff_of_count_le_one h1]
    by_cases h : c = b <;> simp [h, this]

/-- Moving a user buffer to the back of the waiting ring keeps the invariant. -/
theorem Inv.user_to_waiting {q : RdmaBufferQueue} (hI : q.Inv) {b : Nat}
    {ring : tCircularFifo Nat} (hb : b ∈ q.userBuffers) (hp : q.buffersQueuedWaitingForCredits.push b = some ring) :
    ({ q with buffersQueuedWaitingForCredits := ring }.userUnlink b).Inv := by
  obtain ⟨hl, hc, hs, hw⟩ := tCircularFifo.push_eq hp
  have h1 := hI.count_user_le_one b
  have h2 : 0 < q.userBuffers.count b := List.count_pos_iff.mpr hb
  refine hI.step _ (by simp [userUnlink]) rfl rfl rfl hc hI.wfIdle hI.wfQueued hI.wfCompleted hw ?_ ?_
  · intro c
    simp only [occurrences, Idle, User, WaitingCredit, Queued, Completed, userUnlink, hl,
      List.count_cons, List.count_append, List.count_nil]
    by_cases h : c = b
    · subst h
      simp only [List.count_erase_self, beq_self_eq_true, if_true]
      omega
    · have h' : ¬ b = c := fun e => h e.symm
      simp only [List.count_erase_of_ne h, beq_iff_eq, h', if_false]
      omega
  · intro c
    have h3 : ({ q with buffersQueuedWaitingForCredits := ring }.userUnlink b).linked c = (q.userUnlink b).linked c := rfl
    rw [h3, linked_userUnlink]
    have := hI.hook c
    have h4 : ({ q with buffersQueuedWaitingForCredits := ring }.userUnlink b).userBuffers = q.userBuffers.erase b := rfl
    rw [h4, mem_erase_iff_of_count_le_one h1]
    by_cases h : c = b <;> simp [h, this]

/-- Moving a user buffer to the back of the idle ring keeps the invariant. -/
theorem Inv.user_to_idle {q : RdmaBufferQueue} (hI : q.Inv) {b : Nat}
    {ring : tCircularFifo Nat} (hb : b ∈ q.userBuffers) (hp : q.idleBuffers.push b = some ring) :
    ({ q.userUnlink b with idleBuffers := ring }).Inv := by
  obtain ⟨hl, hc, hs, hw⟩ := tCircularFifo.push_eq hp
  have h1 := hI.count_user_le_one b
  have h2 : 0 < q.userBuffers.count b := List.count_pos_iff.mpr hb
  refine hI.step _ (by simp [userUnlink]) hc rfl rfl rfl hw hI.wfQueued hI.wfCompleted hI.wfWaiting ?_ ?_
  · intro c
    simp only [occurrences, Idle, User, WaitingCredit, Queued, Completed, userUnlink, hl,
      List.count_cons, List.count_append, List.count_nil]
    by_cases h : c = b
    · subst h
      simp only [List.count_erase_self, beq_self_eq_true, if_true]
      omega
    · have h' : ¬ b = c := fun e => h e.symm
      simp only [List.count_erase_of_ne h, beq_iff_eq, h', if_false]
      omega
  · intro c
    have h3 : ({ q.userUnlink b with idleBuffers := ring }).linked c = (q.userUnlink b).linked c := rfl
    rw [h3, linked_userUnlink]
    have := hI.hook c
    have h4 : ({ q.userUnlink b with idleBuffers := ring }).userBuffers = q.userBuffers.erase b := rfl
    rw [h4, mem_erase_iff_of_count_le_one h1]
    by_cases h : c = b <;> simp [h, this]

/-- Moving the front of the queued ring to the back of the completed ring keeps the invariant. -/
theorem Inv.queued_to_completed {q : RdmaBufferQueue} (hI : q.Inv) {b : Nat}
    {src dst : tCircularFifo Nat} (hf : q.queuedBuffers.front = some b)
    (hpop : q.queuedBuffers.pop = some src) (hp : q.completedBuffers.push b = some dst) :
    ({ q with queuedBuffers := src, completedBuffers := dst }).Inv := by
  obtain ⟨hl, hc, hs, hw⟩ := tCircularFifo.pop_eq hI.wfQueued hf hpop
  obtain ⟨hl2, hc2, hs2, hw2⟩ := tCircularFifo.push_eq hp
  refine hI.step _ rfl rfl hc hc2 rfl hI.wfIdle hw hw2 hI.wfWaiting ?_ ?_
  · intro c
    simp only [occurrences, Idle, User, WaitingCredit, Queued, Completed, hl, hl2,
      List.count_cons, List.count_append, List.count_nil]
    split <;> omega
  · intro c
    exact hI.hook c

/-- Moving the front of the queued ring to the back of the idle ring keeps the invariant. -/
theorem Inv.queued_to_idle {q : RdmaBufferQueue} (hI : q.Inv) {b : Nat}
    {src dst : tCircularFifo Nat} (hf : q.queuedBuffers.front = some b)
    (hpop : q.queuedBuffers.pop = some src) (hp : q.idleBuffers.push b = some dst) :
    ({ q with queuedBuffers := src, idleBuffers := dst }).Inv := by
  obtain ⟨hl, hc, hs, hw⟩ := tCircularFifo.pop_eq hI.wfQueued hf hpop
  obtain ⟨hl2, hc2, hs2, hw2⟩ := tCircularFifo.push_eq hp
  refine hI.step _ rfl hc2 hc rfl rfl hw2 hw hI.wfCompleted hI.wfWaiting ?_ ?_
  · intro c
    simp only [occurrences, Idle, User, WaitingCredit, Queued, Completed, hl, hl2,
      List.count_cons, List.count_append, List.count_nil]
    split <;> omega
  · intro c
    exact hI.hook c

/-- Moving the front of the waiting ring to the back of the queued ring keeps the invariant. -/
theorem Inv.waiting_to_queued {q : RdmaBufferQueue} (hI : q.Inv) {b : Nat}
    {src dst : tCircularFifo Nat} (hf : q.buffersQueuedWaitingForCredits.front = some b)
    (hpop : q.buffersQueuedWaitingForCredits.pop = some src) (hp : q.queuedBuffers.push b = some dst) :
    ({ q with buffersQueuedWaitingForCredits := src, queuedBuffers := dst }).Inv := by
  obtain ⟨hl, hc, hs, hw⟩ := tCircularFifo.pop_eq hI.wfWaiting hf hpop
  obtain ⟨hl2, hc2, hs2, hw2⟩ := tCircularFifo.push_eq hp
  refine hI.step _ rfl rfl hc2 rfl hc hI.wfIdle hw2 hI.wfCompleted hw ?_ ?_
  · intro c
    simp only [occurrences, Idle, User, WaitingCredit, Queued, Completed, hl, hl2,
      List.count_cons, List.count_append, List.count_nil]
    split <;> omega
  · intro c
    exact hI.hook c

/-- Moving the front of the waiting ring to the back of the idle ring keeps the invariant. -/
theorem Inv.waiting_to_idle {q : RdmaBufferQueue} (hI : q.Inv) {b : Nat}
    {src dst : tCircularFifo Nat} (hf : q.buffersQueuedWaitingForCredits.front = some b)
    (hpop : q.buffersQueuedWaitingForCredits.pop = some src) (hp : q.idleBuffers.push b = some dst) :
    ({ q with buffersQueuedWaitingForCredits := src, idleBuffers := dst }).Inv := by
  obtain ⟨hl, hc, hs, hw⟩ := tCircularFifo.pop_eq hI.wfWaiting hf hpop
  obtain ⟨hl2, hc2, hs2, hw2⟩ := tCircularFifo.push_eq hp
  refine hI.step _ rfl hc2 rfl rfl hc hw2 hI.wfQueued hI.wfCompleted hw ?_ ?_
  · intro c
    simp only [occurrences, Idle, User, WaitingCredit, Queued, Completed, hl, hl2,
      List.count_cons, List.count_append, List.count_nil]
    split <;> omega
  · intro c
    exact hI.hook c

end RdmaBufferQueue

end EasyRDMA

/-! ## Each member function keeps the invariant -/

namespace EasyRDMA

namespace RdmaBufferQueue

theorem WaitForIdleBuffer_Inv {q : RdmaBufferQueue} (hI : q.Inv) {timeoutMs : Int}
    {w : cv_status} {r : Ret Nat} (h : q.WaitForIdleBuffer timeoutMs w = some r) :
    r.queue.Inv := by
  unfold WaitForIdleBuffer at h
  split at h
  · cases h; exact hI
  split at h
  · cases h; exact hI
  split at h
  · cases h; exact hI
  split at h
  · cases h
  split at h
  · cases h
  cases h
  exact hI.idle_to_user (by assumption) (by assumption)

theorem takeCompleted_Inv {q : RdmaBufferQueue} (hI : q.Inv) {effects : List Effect}
    {r : Ret Nat} (h : q.takeCompleted effects = some r) : r.queue.Inv := by
  unfold takeCompleted at h
  split at h
  · cases h; exact hI
  split at h
  · cases h; exact hI
  split at h
  · cases h
  split at h
  · cases h
  cases h
  exact hI.completed_to_user (by assumption) (by assumption)

theorem linked_set_of_same {q : RdmaBufferQueue} {b : Nat} {buf : RdmaBuffer} (x : RdmaBuffer)
    (hb : q.buffers[b]? = some buf) (hx : x.userBufferListNode = buf.userBufferListNode)
    (r : RdmaBufferQueue) (hr : r.buffers = q.buffers.set b x) (c : Nat) :
    r.linked c = q.linked c := by
  simp only [linked, hr, List.getElem?_set]
  by_cases h : b = c
  · subst h
    have hlt : b < q.buffers.length := by
      by_contra hc
      rw [List.getElem?_eq_none (by omega)] at hb
      cases hb
    simp [hlt, hb, hx]
  · simp [h]

theorem HandleCompletion_Inv {q : RdmaBufferQueue} (hI : q.Inv) {buffer : Nat}
    {completionStatus : RdmaError} {p : Bool} {r : Ret Unit}
    (h : q.HandleCompletion buffer completionStatus p = some r) : r.queue.Inv := by
  unfold HandleCompletion at h
  split at h
  swap
  · cases h; exact hI
  split at h
  · cases h
  rename_i buf hbuf
  have hI1 : ({ q with buffers := q.buffers.set buffer buf.GetAndClearClearCallbackData.2 } :
      RdmaBufferQueue).Inv :=
    hI.frame _ (by simp) rfl rfl rfl rfl rfl
      (linked_set_of_same buf.GetAndClearClearCallbackData.2 hbuf rfl _ rfl)
  simp only at h
  split at h
  · cases h
  rename_i front hfront
  split at h
  · cases h; exact hI1
  rename_i hbf
  have hbf' : buffer = front := by simpa using hbf
  subst hbf'
  split at h
  · cases h
  rename_i queued hpop
  split at h
  · cases h
  rename_i q2 hq2
  have hI2 : q2.Inv := by
    split at hq2
    · cases hpush : q.completedBuffers.push buffer with
      | none => simp [hpush] at hq2
      | some completed =>
        simp only [hpush, Option.map_some', Option.some.injEq] at hq2
        subst hq2
        exact hI1.queued_to_completed hfront hpop hpush
    · cases hpush : q.idleBuffers.push buffer with
      | none => simp [hpush] at hq2
      | some idle =>
        simp only [hpush, Option.map_some', Option.some.injEq] at hq2
        subst hq2
        exact hI1.queued_to_idle hfront hpop hpush
  cases h
  simp only
  split
  · exact hI2.frame _ rfl rfl rfl rfl rfl rfl (fun _ => rfl)
  · exact hI2

theorem linked_modify_of_same (q : RdmaBufferQueue) (b : Nat) (f : RdmaBuffer → RdmaBuffer)
    (hf : ∀ x, (f x).userBufferListNode = x.userBufferListNode) (c : Nat) :
    (q.modifyBuffer b f).linked c = q.linked c := by
  simp only [linked, modifyBuffer, List.getElem?_modify]
  cases q.buffers[c]? with
  | none => rfl
  | some x =>
    by_cases h : b = c <;> simp [h, hf]

theorem BufferHandleCompletion_Inv {q : RdmaBufferQueue} (hI : q.Inv) {buffer : Nat}
    {completionStatus : RdmaError} {bytes : Nat} {r : Ret Unit}
    (h : q.BufferHandleCompletion buffer completionStatus bytes = some r) : r.queue.Inv := by
  unfold BufferHandleCompletion at h
  refine HandleCompletion_Inv ?_ h
  exact hI.frame _ (by simp [modifyBuffer]) rfl rfl rfl rfl rfl
    (linked_modify_of_same q buffer _ (fun _ => rfl))

theorem WaitForCompletedBuffer_Inv {q : RdmaBufferQueue} (hI : q.Inv) {timeoutMs : Int}
    {w : cv_status} {poll : PollResult} {r : Ret Nat}
    (h : q.WaitForCompletedBuffer timeoutMs w poll = some r) : r.queue.Inv := by
  unfold WaitForCompletedBuffer at h
  split at h
  · cases h; exact hI
  split at h
  · split at h
    · cases h; exact hI
    split at h
    · split at h
      · cases h; exact hI
      · split at h
        · cases h
        rename_i r1 hr1
        have hI1 := BufferHandleCompletion_Inv hI hr1
        split at h
        · cases h; exact hI1
        · exact takeCompleted_Inv hI1 h
    · split at h
      · cases h; exact hI
      · exact takeCompleted_Inv hI h
  · exact takeCompleted_Inv hI h

theorem mem_user_of_linked {q : RdmaBufferQueue} (hI : q.Inv) {b : Nat} {buf : RdmaBuffer}
    (hb : q.buffers[b]? = some buf) (hl : buf.userBufferListNode = true) :
    b ∈ q.userBuffers := by
  apply (hI.hook b).mp
  simp [linked, hb, hl]

theorem QueueBuffer_Inv {q : RdmaBufferQueue} (hI : q.Inv) {buffer : Nat}
    {ignoreCredits : IgnoreCredits} {qp : Option RdmaError} {r : Ret Unit}
    (h : q.QueueBuffer buffer ignoreCredits qp = some r) : r.queue.Inv := by
  unfold QueueBuffer at h
  split at h
  · cases h; exact hI
  split at h
  · cases h
  rename_i buf hbuf
  split at h
  · cases h; exact hI
  rename_i hlinked
  have hmem : buffer ∈ q.userBuffers := mem_user_of_linked hI hbuf (by simpa using hlinked)
  simp only at h
  split at h
  · split at h
    · rename_i c rest hcred
      split at h
      · cases h
        exact hI.frame _ rfl rfl rfl rfl rfl rfl (fun _ => rfl)
      · split at h
        · cases h
        rename_i queued hpush
        cases h
        have hI1 : ({ q with availableCredits := rest } : RdmaBufferQueue).Inv :=
          hI.frame _ rfl rfl rfl rfl rfl rfl (fun _ => rfl)
        exact hI1.user_to_queued hmem hpush
    · split at h
      · cases h
      rename_i waiting hpush
      cases h
      exact hI.user_to_waiting hmem hpush
  · split at h
    · cases h
    rename_i queued hpush
    cases h
    exact hI.user_to_queued hmem hpush

theorem AddCredit_Inv {q : RdmaBufferQueue} (hI : q.Inv) {bufferSize : Nat}
    {qp : Option RdmaError} {r : Ret Unit}
    (h : q.AddCredit bufferSize qp = some r) : r.queue.Inv := by
  unfold AddCredit at h
  have hI1 : ({ q with availableCredits := q.availableCredits ++ [bufferSize] } :
      RdmaBufferQueue).Inv := hI.frame _ rfl rfl rfl rfl rfl rfl (fun _ => rfl)
  simp only at h
  split at h
  swap
  · cases h; exact hI1
  split at h
  · cases h
  split at h
  · cases h
  rename_i b hfront
  split at h
  · cases h
  split at h
  · cases h
    exact hI1.frame _ rfl rfl rfl rfl rfl rfl (fun _ => rfl)
  split at h
  · cases h
  rename_i waiting hpop
  split at h
  · cases h
  rename_i queued hpush
  have hI2 := hI1.waiting_to_queued hfront hpop hpush
  split at h
  · cases h
    exact hI2.frame _ rfl rfl rfl rfl rfl rfl (fun _ => rfl)
  · cases h
    exact hI2.frame _ rfl rfl rfl rfl rfl rfl (fun _ => rfl)

theorem ReleaseBuffer_Inv {q : RdmaBufferQueue} (hI : q.Inv) {buffer : Nat} {r : Ret Unit}
    (h : q.ReleaseBuffer buffer = some r) : r.queue.Inv := by
  unfold ReleaseBuffer at h
  split at h
  · cases h
  rename_i buf hbuf
  split at h
  · cases h; exact hI
  rename_i hlinked
  have hmem : buffer ∈ q.userBuffers := mem_user_of_linked hI hbuf (by simpa using hlinked)
  split at h
  · cases h
  rename_i idle hpush
  cases h
  exact hI.user_to_idle hmem hpush

end RdmaBufferQueue

end EasyRDMA

/-! ## The drain loops of Abort -/

namespace EasyRDMA

namespace RdmaBufferQueue

theorem callbackAt_congr {bufs bufs' : List RdmaBuffer} {b : Nat} (h : bufs'[b]? = bufs[b]?) :
    callbackAt bufs' b = callbackAt bufs b := by
  simp only [callbackAt, h]

/-- The loop of `Abort` empties `src` into `idle`, in order, clears the callback data of
the buffers it moves and collects the ones that were set. -/
theorem abortDrain_spec : ∀ (fuel : Nat) (src idle : tCircularFifo Nat)
    (bufs : List RdmaBuffer) (cbs : List BufferCompletionCallbackData),
    src.WF → src._size ≤ fuel → idle._size + src._size ≤ idle._buffer.length →
    (∀ b ∈ src.toList, b < bufs.length) → src.toList.Nodup →
    ∃ src' idle' bufs',
      abortDrain fuel src idle bufs cbs = some (src', idle', bufs',
        cbs ++ (src.toList.map (callbackAt bufs)).filter (fun c => c.IsSet)) ∧
      src'._size = 0 ∧ src'._buffer.length = src._buffer.length ∧
      idle'.toList = idle.toList ++ src.toList ∧
      idle'._buffer.length = idle._buffer.length ∧
      idle'._size = idle._size + src._size ∧
      bufs'.length = bufs.length ∧
      ∀ c, bufs'[c]? =
        if c ∈ src.toList then (bufs[c]?).map (fun x => x.GetAndClearClearCallbackData.2)
        else bufs[c]? := by
  intro fuel
  induction fuel with
  | zero =>
    intro src idle bufs cbs hwf hfuel _ _ _
    have h0 : src._size = 0 := by omega
    have hl : src.toList = [] := tCircularFifo.toList_of_size_zero src h0
    refine ⟨src, idle, bufs, ?_, h0, rfl, by simp [hl], rfl, by omega, rfl, by simp [hl]⟩
    simp [abortDrain, tCircularFifo.size, h0, hl]
  | succ fuel ih =>
    intro src idle bufs cbs hwf hfuel hroom hvalid hnodup
    by_cases h0 : src._size = 0
    · have hl : src.toList = [] := tCircularFifo.toList_of_size_zero src h0
      refine ⟨src, idle, bufs, ?_, h0, rfl, by simp [hl], rfl, by omega, rfl, by simp [hl]⟩
      simp [abortDrain, tCircularFifo.size, h0, hl]
    · obtain ⟨src1, v, hpop, hfront, hl, hc, hs⟩ :=
        tCircularFifo.pop_spec src (by omega) hwf
      have hv : v < bufs.length := hvalid v (by simp [hl])
      have hbuf : bufs[v]? = some bufs[v] := List.getElem?_eq_getElem hv
      obtain ⟨idle1, hpush, hil, hic, his⟩ := tCircularFifo.push_spec idle v (by omega)
      have hwf1 : src1.WF := by unfold tCircularFifo.WF at hwf ⊢; omega
      rw [hl] at hnodup
      have hvn : v ∉ src1.toList := (List.nodup_cons.mp hnodup).1
      obtain ⟨src', idle', bufs', hrun, e1, e2, e3, e4, e5, e6, e7⟩ :=
        ih src1 idle1 (bufs.set v bufs[v].GetAndClearClearCallbackData.2)
          (if bufs[v].GetAndClearClearCallbackData.1.IsSet then
            cbs ++ [bufs[v].GetAndClearClearCallbackData.1] else cbs)
          hwf1 (by omega) (by omega)
          (by intro b hb; rw [List.length_set]; exact hvalid b (by simp [hl, hb]))
          (List.nodup_cons.mp hnodup).2
      refine ⟨src', idle', bufs', ?_, e1, by omega, ?_, by omega, by omega,
        by rw [e6, List.length_set], ?_⟩
      · rw [abortDrain]
        simp only [tCircularFifo.size, h0, if_false, hfront, hbuf, hpop, hpush]
        rw [hrun]
        congr 4
        rw [hl, List.map_cons, List.filter_cons]
        have hsame : (src1.toList.map
            (callbackAt (bufs.set v bufs[v].GetAndClearClearCallbackData.2))) =
            src1.toList.map (callbackAt bufs) := by
          apply List.map_congr_left
          intro b hb
          apply callbackAt_congr
          rw [List.getElem?_set_ne]
          intro e
          exact hvn (e ▸ hb)
        rw [hsame]
        have hcb : callbackAt bufs v = bufs[v].completionCallbackData := by
          simp [callbackAt, hbuf]
        rw [hcb]
        simp only [RdmaBuffer.GetAndClearClearCallbackData]
        split <;> simp
      · rw [e3, hil, hl]; simp
      · intro c
        rw [e7, hl]
        by_cases hcv : c = v
        · subst hcv
          simp [hvn, hbuf, hv]
        · have hvc : ¬ v = c := fun e => hcv e.symm
          simp [hcv, hvc, List.getElem?_set_ne hvc]

theorem count_range (n a : Nat) : (List.range n).count a = if a < n then 1 else 0 := by
  split
  · exact List.count_eq_one_of_mem (List.nodup_range n) (List.mem_range.mpr (by assumption))
  · exact List.count_eq_zero_of_not_mem (fun h => by
      rw [List.mem_range] at h
      contradiction)

/-- Every buffer is in exactly one of the five sets. -/
theorem Inv.perm {q : RdmaBufferQueue} (hI : q.Inv) :
    (q.Idle ++ q.User ++ q.WaitingCredit ++ q.Queued ++ q.Completed).Perm
      (List.range q.buffers.length) := by
  rw [List.perm_iff_count]
  intro a
  rw [count_range]
  have := hI.once a
  simp only [occurrences] at this
  simp only [List.count_append]
  exact this

theorem Inv.sizes {q : RdmaBufferQueue} (hI : q.Inv) :
    q.idleBuffers.size + q.userBuffers.length + q.queuedBuffers.size +
      q.buffersQueuedWaitingForCredits.size + q.completedBuffers.size = q.buffers.length := by
  have h := hI.perm.length_eq
  simp only [List.length_append, List.length_range, Idle, User, WaitingCredit, Queued,
    Completed, tCircularFifo.toList_length _ hI.wfIdle,
    tCircularFifo.toList_length _ hI.wfQueued, tCircularFifo.toList_length _ hI.wfCompleted,
    tCircularFifo.toList_length _ hI.wfWaiting] at h
  simp only [tCircularFifo.size]
  omega

theorem Inv.nodup {q : RdmaBufferQueue} (hI : q.Inv) :
    (q.Idle ++ q.User ++ q.WaitingCredit ++ q.Queued ++ q.Completed).Nodup :=
  hI.perm.nodup_iff.mpr (List.nodup_range _)

theorem Inv.lt_of_mem_queued {q : RdmaBufferQueue} (hI : q.Inv) {b : Nat} (h : b ∈ q.Queued) :
    b < q.buffers.length := by
  apply hI.lt_of_pos
  have := List.count_pos_iff.mpr h
  simp only [occurrences]
  omega

theorem Inv.lt_of_mem_waiting {q : RdmaBufferQueue} (hI : q.Inv) {b : Nat}
    (h : b ∈ q.WaitingCredit) : b < q.buffers.length := by
  apply hI.lt_of_pos
  have := List.count_pos_iff.mpr h
  simp only [occurrences]
  omega

theorem calls_of_set (cbs : List BufferCompletionCallbackData) (status : Int) (n : Nat)
    (h : ∀ c ∈ cbs, c.IsSet = true) :
    (cbs.map (fun c => c.Call status n)).flatten =
      cbs.map (fun c => Effect.Callback c status n) := by
  induction cbs with
  | nil => rfl
  | cons c cs ih =>
    have hc : c.IsSet = true := h c (by simp)
    simp only [List.map_cons, List.flatten_cons]
    rw [ih (fun d hd => h d (by simp [hd]))]
    simp [BufferCompletionCallbackData.Call, hc]

theorem filter_map_callbacks (f : Nat → BufferCompletionCallbackData) (l : List Nat)
    (status : Int) (n : Nat) :
    ((l.map f).filter (fun c => c.IsSet)).map (fun c => Effect.Callback c status n) =
      (l.filter (fun b => (f b).IsSet)).map (fun b => Effect.Callback (f b) status n) := by
  induction l with
  | nil => rfl
  | cons b bs ih =>
    simp only [List.map_cons, List.filter_cons]
    split <;> simp [ih]

/-- What `Abort` does to a queue that was not aborted. -/
theorem Abort_spec {q : RdmaBufferQueue} (hI : q.Inv) (hna : q.aborted = false)
    (errorCode : Int) :
    ∃ queued waiting idle bufs,
      q.Abort errorCode = some
        ⟨{ q with aborted := true,
                  queueStatus := q.queueStatus.AssignCode errorCode 0 fileRdmaBufferQueue 45,
                  queuedBuffers := queued, buffersQueuedWaitingForCredits := waiting,
                  idleBuffers := idle, buffers := bufs },
         Except.ok (),
         ((q.Queued ++ q.WaitingCredit).filter (fun b => (q.callbackOf b).IsSet)).map
           (fun b => Effect.Callback (q.callbackOf b) errorCode 0)⟩ ∧
      queued._size = 0 ∧ queued._buffer.length = q.queuedBuffers._buffer.length ∧
      waiting._size = 0 ∧
      waiting._buffer.length = q.buffersQueuedWaitingForCredits._buffer.length ∧
      idle.toList = q.Idle ++ q.Queued ++ q.WaitingCredit ∧
      idle._buffer.length = q.idleBuffers._buffer.length ∧
      idle._size = q.idleBuffers._size + q.queuedBuffers._size +
        q.buffersQueuedWaitingForCredits._size ∧
      bufs.length = q.buffers.length ∧
      ∀ c, bufs[c]? =
        if c ∈ q.Queued ++ q.WaitingCredit then
          (q.buffers[c]?).map (fun x => x.GetAndClearClearCallbackData.2)
        else q.buffers[c]? := by
  have hsz := hI.sizes
  simp only [tCircularFifo.size] at hsz
  have hnd := hI.nodup
  have hndQ : q.Queued.Nodup := by
    simp only [List.nodup_append] at hnd
    tauto
  have hndW : q.WaitingCredit.Nodup := by
    simp only [List.nodup_append] at hnd
    tauto
  have hdisj : ∀ b, b ∈ q.WaitingCredit → b ∉ q.Queued := by
    intro b hb hq
    have h1 := List.count_pos_iff.mpr hb
    have h2 := List.count_pos_iff.mpr hq
    have := hI.once b
    simp only [occurrences] at this
    split at this <;> omega
  have hcapI := hI.capIdle
  obtain ⟨queued, idle1, bufs1, hrun1, a1, a2, a3, a4, a5, a6, a7⟩ :=
    abortDrain_spec q.queuedBuffers._size q.queuedBuffers q.idleBuffers q.buffers []
      hI.wfQueued (Nat.le_refl _) (by omega)
      (fun b hb => hI.lt_of_mem_queued hb) hndQ
  obtain ⟨waiting, idle, bufs, hrun2, b1, b2, b3, b4, b5, b6, b7⟩ :=
    abortDrain_spec q.buffersQueuedWaitingForCredits._size q.buffersQueuedWaitingForCredits
      idle1 bufs1
      ([] ++ (q.queuedBuffers.toList.map (callbackAt q.buffers)).filter (fun c => c.IsSet))
      hI.wfWaiting (Nat.le_refl _) (by omega)
      (fun b hb => by rw [a6]; exact hI.lt_of_mem_waiting hb) hndW
  refine ⟨queued, waiting, idle, bufs, ?_, a1, a2, b1, b2, ?_, by omega, by omega,
    by omega, ?_⟩
  · have hsame : q.buffersQueuedWaitingForCredits.toList.map (callbackAt bufs1) =
        q.buffersQueuedWaitingForCredits.toList.map (callbackAt q.buffers) := by
      apply List.map_congr_left
      intro b hb
      apply callbackAt_congr
      have hq := hdisj b hb
      simp only [Queued] at hq
      rw [a7, if_neg hq]
    rw [hsame, List.nil_append, ← List.filter_append, ← List.map_append] at hrun2
    rw [List.nil_append] at hrun1
    simp only [Abort, hna, Bool.false_eq_true, if_false, tCircularFifo.size, hrun1, hrun2]
    congr 2
    rw [calls_of_set]
    · exact filter_map_callbacks (callbackAt q.buffers) _ errorCode 0
    · intro c hc
      exact (List.mem_filter.mp hc).2
  · rw [b3, a3]; rfl
  · intro c
    rw [b7, a7]
    by_cases hw : c ∈ q.WaitingCredit
    · have hq := hdisj c hw
      simp only [WaitingCredit] at hw
      simp only [Queued] at hq
      simp [hw, hq, Queued, WaitingCredit]
    · by_cases hq : c ∈ q.Queued
      · simp only [WaitingCredit] at hw
        simp only [Queued] at hq
        simp [hw, hq, Queued, WaitingCredit]
      · simp only [WaitingCredit] at hw
        simp only [Queued] at hq
        simp [hw, hq, Queued, WaitingCredit]

theorem Abort_Inv {q : RdmaBufferQueue} (hI : q.Inv) {errorCode : Int} {r : Ret Unit}
    (h : q.Abort errorCode = some r) : r.queue.Inv := by
  by_cases hna : q.aborted = true
  · simp only [Abort, hna, if_true, Option.some.injEq] at h
    subst h
    exact hI
  · have hna' : q.aborted = false := by simpa using hna
    obtain ⟨queued, waiting, idle, bufs, hrun, a1, a2, a3, a4, a5, a6, a7, a8, a9⟩ :=
      Abort_spec hI hna' errorCode
    rw [hrun] at h
    cases h
    have hI' := hI
    refine hI.step _ a8 a6 a2 rfl a4 ?_ ?_ hI.wfCompleted ?_ ?_ ?_
    · have := hI'.sizes
      have := hI'.capIdle
      simp only [tCircularFifo.size] at *
      simp only [tCircularFifo.WF]
      omega
    · simp only [tCircularFifo.WF]; omega
    · simp only [tCircularFifo.WF]; omega
    · intro b
      simp only [occurrences, Idle, User, WaitingCredit, Queued, Completed, a5,
        tCircularFifo.toList_of_size_zero _ a1, tCircularFifo.toList_of_size_zero _ a3,
        List.count_append, List.count_nil]
      omega
    · intro b
      rw [← hI'.hook b]
      simp only [linked, a9]
      by_cases hm : b ∈ q.Queued ++ q.WaitingCredit
      · simp only [hm, if_true]
        cases q.buffers[b]? <;> simp [RdmaBuffer.GetAndClearClearCallbackData]
      · simp only [hm, if_false]

theorem linked_set_field (q : RdmaBufferQueue) (b : Nat) (buf x : RdmaBuffer)
    (hb : q.buffers[b]? = some buf) (hx : x.userBufferListNode = buf.userBufferListNode)
    (c : Nat) :
    ({ q with buffers := q.buffers.set b x } : RdmaBufferQueue).linked c = q.linked c :=
  linked_set_of_same x hb hx _ rfl c

/-- Every call keeps the invariant. -/
theorem call_Inv {q : RdmaBufferQueue} (hI : q.Inv) {c : Call} {o : Outcome}
    (h : q.call c = some o) : o.queue.Inv := by
  cases c with
  | WaitForIdleBuffer t w =>
    simp only [call, Option.map_eq_some'] at h
    obtain ⟨r, hr, rfl⟩ := h
    exact WaitForIdleBuffer_Inv hI hr
  | WaitForCompletedBuffer t w p =>
    simp only [call, Option.map_eq_some'] at h
    obtain ⟨r, hr, rfl⟩ := h
    exact WaitForCompletedBuffer_Inv hI hr
  | QueueBuffer b i qp =>
    simp only [call, Option.map_eq_some'] at h
    obtain ⟨r, hr, rfl⟩ := h
    exact QueueBuffer_Inv hI hr
  | AddCredit n qp =>
    simp only [call, Option.map_eq_some'] at h
    obtain ⟨r, hr, rfl⟩ := h
    exact AddCredit_Inv hI hr
  | ReleaseBuffer b =>
    simp only [call, Option.map_eq_some'] at h
    obtain ⟨r, hr, rfl⟩ := h
    exact ReleaseBuffer_Inv hI hr
  | HandleCompletion b s p =>
    simp only [call, Option.map_eq_some'] at h
    obtain ⟨r, hr, rfl⟩ := h
    exact HandleCompletion_Inv hI hr
  | Abort e =>
    simp only [call, Option.map_eq_some'] at h
    obtain ⟨r, hr, rfl⟩ := h
    exact Abort_Inv hI hr
  | SetUsed b n =>
    simp only [call] at h
    split at h
    · cases h
    rename_i buf hbuf
    split at h
    · cases h; exact hI
    · rename_i buf2 hset
      cases h
      have hx : buf2.userBufferListNode = buf.userBufferListNode := by
        unfold RdmaBuffer.SetUsed at hset
        split at hset
        · cases hset
        · cases hset; rfl
      exact hI.frame _ (by simp) rfl rfl rfl rfl rfl (linked_set_field q b buf buf2 hbuf hx)
  | SetCompletionCallback b d =>
    simp only [call] at h
    split at h
    · cases h
    rename_i buf hbuf
    cases h
    exact hI.frame _ (by simp) rfl rfl rfl rfl rfl (linked_set_field q b buf _ hbuf rfl)
  | SetBufferRegion b n =>
    simp only [call] at h
    split at h
    · cases h
    rename_i buf hbuf
    cases h
    exact hI.frame _ (by simp) rfl rfl rfl rfl rfl (linked_set_field q b buf _ hbuf rfl)
  | BufferHandleCompletion b s n =>
    simp only [call, Option.map_eq_some'] at h
    obtain ⟨r, hr, rfl⟩ := h
    exact BufferHandleCompletion_Inv hI hr

theorem exec_Inv : ∀ (calls : List Call) {q r : RdmaBufferQueue}, q.Inv →
    q.exec calls = some r → r.Inv := by
  intro calls
  induction calls with
  | nil =>
    intro q r hI h
    simp only [exec, Option.some.injEq] at h
    subst h
    exact hI
  | cons c cs ih =>
    intro q r hI h
    simp only [exec] at h
    split at h
    · cases h
    · rename_i o ho
      exact ih (call_Inv hI ho) h

end RdmaBufferQueue

end EasyRDMA

/-! ## The constructors establish the invariant -/

namespace EasyRDMA

namespace RdmaBufferQueue

/-- The constructor loop builds the buffers `index, ..., index+n-1` and leaves them all
idle, in index order. -/
theorem fillBuffers_spec (mk : Nat → RdmaBuffer) : ∀ (n index : Nat) (q : RdmaBufferQueue),
    q.buffers.length = index → q.idleBuffers._size = index →
    q.idleBuffers._buffer.length = index + n → q.idleBuffers.toList = List.range index →
    ∃ r, fillBuffers mk n index q = some r ∧
      r.buffers = q.buffers ++ (List.range n).map (fun i => mk (index + i)) ∧
      r.idleBuffers._size = index + n ∧ r.idleBuffers._buffer.length = index + n ∧
      r.idleBuffers.toList = List.range (index + n) ∧
      r.queuedBuffers = q.queuedBuffers ∧ r.completedBuffers = q.completedBuffers ∧
      r.buffersQueuedWaitingForCredits = q.buffersQueuedWaitingForCredits ∧
      r.userBuffers = q.userBuffers ∧ r.queueStatus = q.queueStatus ∧
      r.direction = q.direction ∧
      r.putBackToIdleOnCompletion = q.putBackToIdleOnCompletion ∧
      r.availableCredits = q.availableCredits ∧ r.aborted = q.aborted ∧
      r.usePolling = q.usePolling := by
  intro n
  induction n with
  | zero =>
    intro index q h1 h2 h3 h4
    exact ⟨q, rfl, by simp, h2, h3, h4, rfl, rfl, rfl, rfl, rfl, rfl, rfl, rfl, rfl, rfl⟩
  | succ n ih =>
    intro index q h1 h2 h3 h4
    obtain ⟨idle, hpush, hl, hc, hs⟩ := tCircularFifo.push_spec q.idleBuffers index (by omega)
    obtain ⟨r, hr, e1, e2, e3, e4, e5, e6, e7, e8, e9, e10, e11, e12, e13, e14⟩ :=
      ih (index + 1) { q with buffers := q.buffers ++ [mk index], idleBuffers := idle }
        (by simp [h1]) (by simp only; omega) (by simp only; omega)
        (by simp only; rw [hl, h4, List.range_succ])
    refine ⟨r, ?_, ?_, by omega, by omega, by rw [e4]; congr 1; omega, e5, e6, e7, e8, e9,
      e10, e11, e12, e13, e14⟩
    · simp only [fillBuffers, hpush]
      exact hr
    · rw [e1, List.range_succ_eq_map, List.map_cons, List.map_map, List.append_assoc]
      simp only [List.singleton_append, Nat.add_zero]
      congr 2
      apply List.map_congr_left
      intro i _
      simp only [Function.comp, Nat.succ_eq_add_one]
      congr 1
      omega

theorem reallocate_empty (n : Nat) :
    ((tCircularFifo.empty : tCircularFifo Nat).reallocate n)._buffer.length = n ∧
    ((tCircularFifo.empty : tCircularFifo Nat).reallocate n)._size = 0 := by
  simp [tCircularFifo.reallocate, tCircularFifo.empty, tCircularFifo.clear]

theorem linked_of_all_unlinked {q : RdmaBufferQueue}
    (h : ∀ buf ∈ q.buffers, buf.userBufferListNode = false) (b : Nat) : q.linked b = false := by
  simp only [linked]
  cases hb : q.buffers[b]? with
  | none => rfl
  | some buf => exact h buf (List.getElem?_mem hb)

/-- What the loop of a constructor leaves when it starts from the allocated rings. -/
theorem construct_spec (mk : Nat → RdmaBuffer) (hmk : ∀ i, (mk i).userBufferListNode = false)
    (N : Nat) (q : RdmaBufferQueue) (hb : q.buffers = []) (hu : q.userBuffers = [])
    (h1 : q.idleBuffers = tCircularFifo.empty) (h2 : q.queuedBuffers = tCircularFifo.empty)
    (h3 : q.completedBuffers = tCircularFifo.empty)
    (h4 : q.buffersQueuedWaitingForCredits = tCircularFifo.empty) :
    ∃ r, fillBuffers mk N 0 (q.AllocateBufferQueues N) = some r ∧ r.Inv ∧
      r.buffers = (List.range N).map mk ∧ r.Idle = List.range N ∧ r.User = [] ∧
      r.WaitingCredit = [] ∧ r.Queued = [] ∧ r.Completed = [] ∧
      r.queueStatus = q.queueStatus ∧ r.direction = q.direction ∧
      r.putBackToIdleOnCompletion = q.putBackToIdleOnCompletion ∧
      r.availableCredits = q.availableCredits ∧ r.aborted = q.aborted ∧
      r.usePolling = q.usePolling := by
  obtain ⟨hlen, hsz⟩ := reallocate_empty N
  obtain ⟨r, hr, e1, e2, e3, e4, e5, e6, e7, e8, e9, e10, e11, e12, e13, e14⟩ :=
    fillBuffers_spec mk N 0 (q.AllocateBufferQueues N)
      (by simp [AllocateBufferQueues, hb])
      (by simp only [AllocateBufferQueues, h1]; exact hsz)
      (by simp only [AllocateBufferQueues, h1]; rw [hlen]; omega)
      (by simp only [AllocateBufferQueues, h1]
          rw [tCircularFifo.toList_of_size_zero _ hsz]; rfl)
  simp only [AllocateBufferQueues, hb, hu, h2, h3, h4, List.nil_append, Nat.zero_add] at e1 e2 e3 e4 e5 e6 e7 e8 e9 e10 e11 e12 e13 e14
  have hQ : r.Queued = [] := by
    simp only [Queued, e5]; exact tCircularFifo.toList_of_size_zero _ hsz
  have hC : r.Completed = [] := by
    simp only [Completed, e6]; exact tCircularFifo.toList_of_size_zero _ hsz
  have hW : r.WaitingCredit = [] := by
    simp only [WaitingCredit, e7]; exact tCircularFifo.toList_of_size_zero _ hsz
  have hN : r.buffers.length = N := by rw [e1]; simp
  refine ⟨r, hr, ?_, e1, e4, e8, hW, hQ, hC, e9, e10, e11, e12, e13, e14⟩
  refine ⟨by rw [e3, hN], by rw [e5, hlen, hN], by rw [e6, hlen, hN], by rw [e7, hlen, hN],
    by unfold tCircularFifo.WF; omega, by rw [e5]; unfold tCircularFifo.WF; omega,
    by rw [e6]; unfold tCircularFifo.WF; omega, by rw [e7]; unfold tCircularFifo.WF; omega,
    ?_, ?_⟩
  · intro b
    simp only [occurrences, hQ, hC, hW, User, e8, Idle, e4, List.count_nil, Nat.add_zero, hN]
    exact count_range N b
  · intro b
    rw [linked_of_all_unlinked]
    · simp [e8]
    · intro buf hbuf
      rw [e1, List.mem_map] at hbuf
      obtain ⟨i, _, rfl⟩ := hbuf
      exact hmk i

theorem base_spec {d : Direction} {p : Bool} {q : RdmaBufferQueue}
    (h : base d p = Except.ok q) :
    q.buffers = [] ∧ q.userBuffers = [] ∧ q.idleBuffers = tCircularFifo.empty ∧
      q.queuedBuffers = tCircularFifo.empty ∧ q.completedBuffers = tCircularFifo.empty ∧
      q.buffersQueuedWaitingForCredits = tCircularFifo.empty ∧
      q.queueStatus = RdmaError.success ∧ q.availableCredits = [] ∧ q.aborted = false ∧
      q.direction = d ∧ q.putBackToIdleOnCompletion = (d == Direction.Send) ∧
      q.usePolling = p := by
  unfold base at h
  split at h
  · cases h
  cases h
  exact ⟨rfl, rfl, rfl, rfl, rfl, rfl, rfl, rfl, rfl, rfl, rfl, rfl⟩

end RdmaBufferQueue

/-- A queue that was just constructed: all `N` buffers idle in index order, nothing else
anywhere, no sticky status, no credit, not aborted. -/
theorem Constructed.spec {N : Nat} {q : RdmaBufferQueue} (h : Constructed N q) :
    q.Inv ∧ q.buffers.length = N ∧ q.Idle = List.range N ∧ q.User = [] ∧
      q.WaitingCredit = [] ∧ q.Queued = [] ∧ q.Completed = [] ∧
      q.queueStatus = RdmaError.success ∧ q.availableCredits = [] ∧ q.aborted = false := by
  rcases h with ⟨d, sz, p, h⟩ | ⟨d, p, h⟩
  · unfold RdmaBufferQueueMultipleBuffer at h
    split at h
    · cases h
    rename_i q1 hq1
    obtain ⟨b1, b2, b3, b4, b5, b6, b7, b8, b9, b10, b11, b12⟩ :=
      RdmaBufferQueue.base_spec hq1
    obtain ⟨r, hr, hI, e1, e2, e3, e4, e5, e6, e7, e8, e9, e10, e11, e12⟩ :=
      RdmaBufferQueue.construct_spec (RdmaBuffer.Internal sz) (fun _ => rfl) N q1 b1 b2 b3 b4
        b5 b6
    rw [hr] at h
    simp only [Option.map_some', Option.some.injEq, Except.ok.injEq] at h
    subst h
    exact ⟨hI, by rw [e1]; simp, e2, e3, e4, e5, e6, by rw [e7, b7], by rw [e10, b8],
      by rw [e11, b9]⟩
  · unfold RdmaBufferQueueSingleBuffer at h
    split at h
    · cases h
    rename_i q1 hq1
    obtain ⟨b1, b2, b3, b4, b5, b6, b7, b8, b9, b10, b11, b12⟩ :=
      RdmaBufferQueue.base_spec hq1
    obtain ⟨r, hr, hI, e1, e2, e3, e4, e5, e6, e7, e8, e9, e10, e11, e12⟩ :=
      RdmaBufferQueue.construct_spec RdmaBuffer.External (fun _ => rfl) N
        { q1 with putBackToIdleOnCompletion := true } b1 b2 b3 b4 b5 b6
    rw [hr] at h
    simp only [Option.map_some', Option.some.injEq, Except.ok.injEq] at h
    subst h
    exact ⟨hI, by rw [e1]; simp, e2, e3, e4, e5, e6, by rw [e7]; exact b7,
      by rw [e10]; exact b8, by rw [e11]; exact b9⟩

theorem Reachable.inv {N : Nat} {q : RdmaBufferQueue} (h : Reachable N q) : q.Inv := by
  obtain ⟨q0, calls, h0, hex⟩ := h
  exact RdmaBufferQueue.exec_Inv calls h0.spec.1 hex

end EasyRDMA

/-! ## Fields no call changes -/

namespace EasyRDMA

namespace RdmaBufferQueue

theorem Static.static_refl (q : RdmaBufferQueue) : Static q q := ⟨rfl, rfl, rfl, rfl⟩

theorem Static.static_trans {a b c : RdmaBufferQueue} (h1 : Static a b) (h2 : Static b c) :
    Static a c :=
  ⟨h2.1.trans h1.1, h2.2.1.trans h1.2.1, h2.2.2.1.trans h1.2.2.1, h2.2.2.2.trans h1.2.2.2⟩

theorem abortDrain_length : ∀ (fuel : Nat) (src idle : tCircularFifo Nat)
    (bufs : List RdmaBuffer) (cbs : List BufferCompletionCallbackData)
    (res : tCircularFifo Nat × tCircularFifo Nat × List RdmaBuffer ×
      List BufferCompletionCallbackData),
    abortDrain fuel src idle bufs cbs = some res → res.2.2.1.length = bufs.length := by
  intro fuel
  induction fuel with
  | zero =>
    intro src idle bufs cbs res h
    simp only [abortDrain] at h
    split at h
    · cases h; rfl
    · cases h
  | succ fuel ih =>
    intro src idle bufs cbs res h
    rw [abortDrain] at h
    split at h
    · cases h; rfl
    split at h
    · cases h
    split at h
    · cases h
    simp only at h
    split at h
    · cases h
    split at h
    · cases h
    have := ih _ _ _ _ _ h
    rw [this, List.length_set]

theorem Abort_Static {q : RdmaBufferQueue} {errorCode : Int} {r : Ret Unit}
    (h : q.Abort errorCode = some r) : Static q r.queue := by
  unfold Abort at h
  split at h
  · cases h; exact Static.static_refl q
  simp only at h
  split at h
  · cases h
  rename_i queued idle bufs cbs h1
  split at h
  · cases h
  rename_i waiting idle2 bufs2 cbs2 h2
  cases h
  have e1 := abortDrain_length _ _ _ _ _ _ h1
  have e2 := abortDrain_length _ _ _ _ _ _ h2
  exact ⟨by simp only at e1 e2 ⊢; omega, rfl, rfl, rfl⟩

theorem WaitForIdleBuffer_Static {q : RdmaBufferQueue} {timeoutMs : Int}
    {w : cv_status} {r : Ret Nat} (h : q.WaitForIdleBuffer timeoutMs w = some r) :
    Static q r.queue := by
  unfold WaitForIdleBuffer at h
  repeat' split at h
  all_goals first
    | cases h; done
    | (cases h; exact ⟨by simp [userPushBack], rfl, rfl, rfl⟩)

theorem takeCompleted_Static {q : RdmaBufferQueue} {effects : List Effect}
    {r : Ret Nat} (h : q.takeCompleted effects = some r) : Static q r.queue := by
  unfold takeCompleted at h
  repeat' split at h
  all_goals first
    | cases h; done
    | (cases h; exact ⟨by simp [userPushBack], rfl, rfl, rfl⟩)

theorem HandleCompletion_Static {q : RdmaBufferQueue} {buffer : Nat}
    {completionStatus : RdmaError} {p : Bool} {r : Ret Unit}
    (h : q.HandleCompletion buffer completionStatus p = some r) : Static q r.queue := by
  unfold HandleCompletion at h
  split at h
  swap
  · cases h; exact Static.static_refl q
  split at h
  · cases h
  simp only at h
  split at h
  · cases h
  split at h
  · cases h; exact ⟨by simp, rfl, rfl, rfl⟩
  split at h
  · cases h
  split at h
  · cases h
  rename_i q2 hq2
  have hs : Static q q2 := by
    split at hq2
    · simp only [Option.map_eq_some'] at hq2
      obtain ⟨x, _, rfl⟩ := hq2
      exact ⟨by simp, rfl, rfl, rfl⟩
    · simp only [Option.map_eq_some'] at hq2
      obtain ⟨x, _, rfl⟩ := hq2
      exact ⟨by simp, rfl, rfl, rfl⟩
  cases h
  simp only
  split
  · exact hs
  · exact hs

theorem BufferHandleCompletion_Static {q : RdmaBufferQueue} {buffer : Nat}
    {completionStatus : RdmaError} {bytes : Nat} {r : Ret Unit}
    (h : q.BufferHandleCompletion buffer completionStatus bytes = some r) :
    Static q r.queue := by
  unfold BufferHandleCompletion at h
  have hs := HandleCompletion_Static h
  exact ⟨by rw [hs.1]; simp [modifyBuffer], hs.2.1, hs.2.2.1, hs.2.2.2⟩

theorem WaitForCompletedBuffer_Static {q : RdmaBufferQueue} {timeoutMs : Int}
    {w : cv_status} {poll : PollResult} {r : Ret Nat}
    (h : q.WaitForCompletedBuffer timeoutMs w poll = some r) : Static q r.queue := by
  unfold WaitForCompletedBuffer at h
  split at h
  · cases h; exact Static.static_refl q
  split at h
  · split at h
    · cases h; exact Static.static_refl q
    split at h
    · split at h
      · cases h; exact Static.static_refl q
      · split at h
        · cases h
        rename_i r1 hr1
        have hs1 := BufferHandleCompletion_Static hr1
        split at h
        · cases h; exact hs1
        · exact hs1.static_trans (takeCompleted_Static h)
    · split at h
      · cases h; exact Static.static_refl q
      · exact takeCompleted_Static h
  · exact takeCompleted_Static h

theorem QueueBuffer_Static {q : RdmaBufferQueue} {buffer : Nat}
    {ignoreCredits : IgnoreCredits} {qp : Option RdmaError} {r : Ret Unit}
    (h : q.QueueBuffer buffer ignoreCredits qp = some r) : Static q r.queue := by
  unfold QueueBuffer at h
  simp only at h
  repeat' split at h
  all_goals first
    | cases h; done
    | (cases h; exact ⟨by simp [userUnlink], rfl, rfl, rfl⟩)

theorem AddCredit_Static {q : RdmaBufferQueue} {bufferSize : Nat}
    {qp : Option RdmaError} {r : Ret Unit}
    (h : q.AddCredit bufferSize qp = some r) : Static q r.queue := by
  unfold AddCredit at h
  simp only at h
  repeat' split at h
  all_goals first
    | cases h; done
    | (cases h; exact ⟨rfl, rfl, rfl, rfl⟩)

theorem ReleaseBuffer_Static {q : RdmaBufferQueue} {buffer : Nat} {r : Ret Unit}
    (h : q.ReleaseBuffer buffer = some r) : Static q r.queue := by
  unfold ReleaseBuffer at h
  repeat' split at h
  all_goals first
    | cases h; done
    | (cases h; exact ⟨by simp [userUnlink], rfl, rfl, rfl⟩)

/-- No call changes the number of buffers, the direction, `putBackToIdleOnCompletion` or
`usePolling`. -/
theorem call_Static {q : RdmaBufferQueue} {c : Call} {o : Outcome}
    (h : q.call c = some o) : Static q o.queue := by
  cases c with
  | WaitForIdleBuffer t w =>
    simp only [call, Option.map_eq_some'] at h
    obtain ⟨r, hr, rfl⟩ := h
    exact WaitForIdleBuffer_Static hr
  | WaitForCompletedBuffer t w p =>
    simp only [call, Option.map_eq_some'] at h
    obtain ⟨r, hr, rfl⟩ := h
    exact WaitForCompletedBuffer_Static hr
  | QueueBuffer b i qp =>
    simp only [call, Option.map_eq_some'] at h
    obtain ⟨r, hr, rfl⟩ := h
    exact QueueBuffer_Static hr
  | AddCredit n qp =>
    simp only [call, Option.map_eq_some'] at h
    obtain ⟨r, hr, rfl⟩ := h
    exact AddCredit_Static hr
  | ReleaseBuffer b =>
    simp only [call, Option.map_eq_some'] at h
    obtain ⟨r, hr, rfl⟩ := h
    exact ReleaseBuffer_Static hr
  | HandleCompletion b s p =>
    simp only [call, Option.map_eq_some'] at h
    obtain ⟨r, hr, rfl⟩ := h
    exact HandleCompletion_Static hr
  | Abort e =>
    simp only [call, Option.map_eq_some'] at h
    obtain ⟨r, hr, rfl⟩ := h
    exact Abort_Static hr
  | SetUsed b n =>
    simp only [call] at h
    repeat' split at h
    all_goals first
      | cases h; done
      | (cases h; exact ⟨by simp, rfl, rfl, rfl⟩)
  | SetCompletionCallback b d =>
    simp only [call] at h
    repeat' split at h
    all_goals first
      | cases h; done
      | (cases h; exact ⟨by simp, rfl, rfl, rfl⟩)
  | SetBufferRegion b n =>
    simp only [call] at h
    repeat' split at h
    all_goals first
      | cases h; done
      | (cases h; exact ⟨by simp, rfl, rfl, rfl⟩)
  | BufferHandleCompletion b s n =>
    simp only [call, Option.map_eq_some'] at h
    obtain ⟨r, hr, rfl⟩ := h
    exact BufferHandleCompletion_Static hr

theorem exec_Static : ∀ (calls : List Call) {q r : RdmaBufferQueue},
    q.exec calls = some r → Static q r := by
  intro calls
  induction calls with
  | nil =>
    intro q r h
    simp only [exec, Option.some.injEq] at h
    subst h
    exact Static.static_refl q
  | cons c cs ih =>
    intro q r h
    simp only [exec] at h
    split at h
    · cases h
    · rename_i o ho
      exact (call_Static ho).static_trans (ih h)

end RdmaBufferQueue

end EasyRDMA

/-! ## What the calls do, in terms of the five sets -/

namespace EasyRDMA

namespace RdmaBufferQueue

theorem linked_eq_true_iff (q : RdmaBufferQueue) (b : Nat) :
    q.linked b = true ↔ ∃ buf, q.buffers[b]? = some buf ∧ buf.userBufferListNode = true := by
  simp only [linked]
  cases q.buffers[b]? with
  | none => simp
  | some buf => simp

theorem used_of_getElem? {q : RdmaBufferQueue} {b : Nat} {buf : RdmaBuffer}
    (h : q.buffers[b]? = some buf) : q.used b = buf.usedBytes := by
  simp [used, h, RdmaBuffer.GetUsed]

/-- While a buffer is held by the user, no ring is full. -/
theorem Inv.room_of_user {q : RdmaBufferQueue} (hI : q.Inv) {b : Nat} (hb : b ∈ q.userBuffers) :
    q.idleBuffers._size < q.idleBuffers._buffer.length ∧
    q.queuedBuffers._size < q.queuedBuffers._buffer.length ∧
    q.buffersQueuedWaitingForCredits._size <
      q.buffersQueuedWaitingForCredits._buffer.length := by
  have h := hI.sizes
  have hpos : 0 < q.userBuffers.length := List.length_pos_of_mem hb
  simp only [tCircularFifo.size] at h
  rw [hI.capIdle, hI.capQueued, hI.capWaiting]
  omega

/-- While the queued ring holds a buffer, the idle and the completed ring are not full. -/
theorem Inv.room_of_queued {q : RdmaBufferQueue} (hI : q.Inv) (h0 : 0 < q.queuedBuffers._size) :
    q.idleBuffers._size < q.idleBuffers._buffer.length ∧
    q.completedBuffers._size < q.completedBuffers._buffer.length := by
  have h := hI.sizes
  simp only [tCircularFifo.size] at h
  rw [hI.capIdle, hI.capCompleted]
  omega

/-- While the waiting ring holds a buffer, the queued ring is not full. -/
theorem Inv.room_of_waiting {q : RdmaBufferQueue} (hI : q.Inv)
    (h0 : 0 < q.buffersQueuedWaitingForCredits._size) :
    q.queuedBuffers._size < q.queuedBuffers._buffer.length := by
  have h := hI.sizes
  simp only [tCircularFifo.size] at h
  rw [hI.capQueued]
  omega

theorem not_isError_iff (e : RdmaError) : e.IsError = false ↔ e.errorCode = 0 := by
  simp [RdmaError.IsError]

/-- The call `QueueBuffer` on a Send queue, credits counted, a credit at hand that is large
enough: the buffer goes to the back of Queued, the credit is consumed and the buffer is
handed to the provider. -/
theorem QueueBuffer_send_fits {q : RdmaBufferQueue} (hI : q.Inv)
    (hd : q.direction = Direction.Send) (hs : q.queueStatus.IsError = false)
    {c : Nat} {rest : List Nat} (hc : q.availableCredits = c :: rest)
    {b : Nat} (hb : b ∈ q.userBuffers) (hu : q.used b ≤ c) (qp : Option RdmaError) :
    ∃ r, q.QueueBuffer b IgnoreCredits.No qp = some r ∧
      r.queue.Queued = q.Queued ++ [b] ∧ r.queue.userBuffers = q.userBuffers.erase b ∧
      r.queue.availableCredits = rest ∧ r.queue.queueStatus = q.queueStatus ∧
      r.queue.Idle = q.Idle ∧ r.queue.WaitingCredit = q.WaitingCredit ∧
      r.queue.Completed = q.Completed ∧ r.queue.linked b = false ∧
      r.effects = [Effect.QueueToQp Direction.Send b] ∧
      r.result = QueueToQp qp := by
  obtain ⟨buf, hbuf, hl⟩ := (linked_eq_true_iff q b).mp ((hI.hook b).mpr hb)
  obtain ⟨queued, hpush, hql, -, -⟩ :=
    tCircularFifo.push_spec q.queuedBuffers b (hI.room_of_user hb).2.1
  rw [used_of_getElem? hbuf] at hu
  refine ⟨⟨{ q with availableCredits := rest, queuedBuffers := queued }.userUnlink b,
      QueueToQp qp,
      [Effect.QueueToQp Direction.Send b]⟩, ?_, ?_, rfl, rfl, rfl, rfl, rfl, rfl, ?_, rfl, rfl⟩
  · simp only [QueueBuffer, hs, Bool.false_eq_true, if_false, hbuf, hl, Bool.not_true, hd,
      and_self, if_true, hc, RdmaBuffer.GetUsed, gt_iff_lt, Nat.not_lt.mpr hu, hpush]
  · simp only [Queued, userUnlink, hql]
  · rw [linked_userUnlink]; simp

/-- The call `QueueBuffer` on a Send queue, credits counted, the oldest credit too small: it
throws SendTooLargeForRecvBuffer, which becomes the sticky status, and nothing else
changes. -/
theorem QueueBuffer_send_too_large {q : RdmaBufferQueue} (hI : q.Inv)
    (hd : q.direction = Direction.Send) (hs : q.queueStatus.IsError = false)
    {c : Nat} {rest : List Nat} (hc : q.availableCredits = c :: rest)
    {b : Nat} (hb : b ∈ q.userBuffers) (hu : c < q.used b) (qp : Option RdmaError) :
    q.QueueBuffer b IgnoreCredits.No qp = some
      ⟨{ q with queueStatus := RDMA_THROW easyrdma_Error_SendTooLargeForRecvBuffer 197 },
       Except.error (RDMA_THROW easyrdma_Error_SendTooLargeForRecvBuffer 197), []⟩ := by
  obtain ⟨buf, hbuf, hl⟩ := (linked_eq_true_iff q b).mp ((hI.hook b).mpr hb)
  rw [used_of_getElem? hbuf] at hu
  have h0 : q.queueStatus.errorCode = 0 := (not_isError_iff _).mp hs
  simp only [QueueBuffer, hs, Bool.false_eq_true, if_false, hbuf, hl, Bool.not_true, hd,
    and_self, if_true, hc, RdmaBuffer.GetUsed, hu, RdmaError.Assign, h0]

theorem ne_append_singleton {α : Type} (l : List α) (x : α) : l ≠ l ++ [x] := by
  intro h
  have := congrArg List.length h
  simp at this

/-- A `QueueBuffer` on a Send queue that counts credits appends to Queued only when the
buffer fits the oldest credit. -/
theorem QueueBuffer_consumes {q : RdmaBufferQueue} (hd : q.direction = Direction.Send)
    {b : Nat} {qp : Option RdmaError} {r : Ret Unit}
    (h : q.QueueBuffer b IgnoreCredits.No qp = some r) {c : Nat} {rest : List Nat}
    (hc : q.availableCredits = c :: rest) (hq : r.queue.Queued = q.Queued ++ [b]) :
    q.used b ≤ c ∧ r.queue.availableCredits = rest := by
  unfold QueueBuffer at h
  split at h
  · cases h; exact absurd hq (ne_append_singleton _ _)
  split at h
  · cases h
  rename_i buf hbuf
  split at h
  · cases h; exact absurd hq (ne_append_singleton _ _)
  simp only [hd, and_self, if_true, hc] at h
  split at h
  · cases h; exact absurd hq (ne_append_singleton _ _)
  rename_i hfit
  split at h
  · cases h
  cases h
  rw [used_of_getElem? hbuf]
  simp only [RdmaBuffer.GetUsed] at hfit
  exact ⟨by omega, rfl⟩

/-- An `AddCredit` appends to Queued only the oldest waiting buffer, and only when it fits
the oldest credit, which it consumes. -/
theorem AddCredit_consumes {q : RdmaBufferQueue} (hI : q.Inv) {bufferSize : Nat}
    {qp : Option RdmaError} {r : Ret Unit} (h : q.AddCredit bufferSize qp = some r)
    {x c : Nat} {rest : List Nat} (hc : q.availableCredits ++ [bufferSize] = c :: rest)
    (hq : r.queue.Queued = q.Queued ++ [x]) :
    q.used x ≤ c ∧ q.WaitingCredit.head? = some x ∧ r.queue.availableCredits = rest := by
  unfold AddCredit at h
  simp only [hc, List.head?_cons, List.tail_cons] at h
  split at h
  swap
  · cases h; exact absurd hq (ne_append_singleton _ _)
  split at h
  · cases h
  rename_i b hfront
  split at h
  · cases h
  rename_i buf hbuf
  split at h
  · cases h; exact absurd hq (ne_append_singleton _ _)
  rename_i hfit
  split at h
  · cases h
  rename_i waiting hpop
  split at h
  · cases h
  rename_i queued hpush
  obtain ⟨hwl, -, -, -⟩ := tCircularFifo.pop_eq hI.wfWaiting hfront hpop
  obtain ⟨hql, -, -, -⟩ := tCircularFifo.push_eq hpush
  have hx : x = b := by
    have hq2 : queued.toList = q.Queued ++ [x] := by
      split at h <;> (cases h; exact hq)
    rw [hql] at hq2
    have := List.append_cancel_left hq2
    simpa using this.symm
  subst hx
  refine ⟨?_, ?_, ?_⟩
  · rw [used_of_getElem? hbuf]
    simp only [RdmaBuffer.GetUsed] at hfit
    omega
  · simp only [WaitingCredit, hwl, List.head?_cons]
  · split at h <;> (cases h; rfl)

theorem Inv.lt_of_mem_idle {q : RdmaBufferQueue} (hI : q.Inv) {b : Nat} (h : b ∈ q.Idle) :
    b < q.buffers.length := by
  apply hI.lt_of_pos
  have := List.count_pos_iff.mpr h
  simp only [occurrences]
  omega

theorem Inv.lt_of_mem_completed {q : RdmaBufferQueue} (hI : q.Inv) {b : Nat}
    (h : b ∈ q.Completed) : b < q.buffers.length := by
  apply hI.lt_of_pos
  have := List.count_pos_iff.mpr h
  simp only [occurrences]
  omega

/-- The call `WaitForIdleBuffer` on a queue without sticky error whose oldest idle buffer is `b`:
`b` moves to the back of the user list, linked, and is returned. -/
theorem WaitForIdleBuffer_ok {q : RdmaBufferQueue} (hI : q.Inv)
    (hs : q.queueStatus.IsError = false) {b : Nat} {rest : List Nat}
    (hl : q.Idle = b :: rest) (timeoutMs : Int) (w : cv_status) :
    ∃ idle, q.WaitForIdleBuffer timeoutMs w =
        some ⟨{ q with idleBuffers := idle }.userPushBack b, Except.ok b, []⟩ ∧
      idle.toList = rest ∧
      ({ q with idleBuffers := idle }.userPushBack b).linked b = true := by
  have hpos : 0 < q.idleBuffers._size := by
    by_contra hc
    have := tCircularFifo.toList_of_size_zero q.idleBuffers (by omega)
    simp only [Idle] at hl
    rw [this] at hl
    cases hl
  obtain ⟨idle, v, hpop, hfront, hl2, -, -⟩ :=
    tCircularFifo.pop_spec q.idleBuffers hpos hI.wfIdle
  simp only [Idle] at hl
  rw [hl2] at hl
  simp only [List.cons.injEq] at hl
  obtain ⟨rfl, hrest⟩ := hl
  have hlt : v < q.buffers.length := hI.lt_of_mem_idle (by simp [Idle, hl2])
  refine ⟨idle, ?_, hrest, ?_⟩
  · have hne : ¬ q.idleBuffers.size = 0 := by simp only [tCircularFifo.size]; omega
    simp only [WaitForIdleBuffer, hne, false_and, if_false, hs, Bool.false_eq_true, hfront,
      hpop]
  · rw [linked_userPushBack _ v v (by exact hlt)]
    simp

/-- The tail of `WaitForCompletedBuffer` on a queue whose oldest completed buffer is `b`:
`b` moves to the back of the user list, linked, and is returned, sticky error or not. -/
theorem takeCompleted_ok {q : RdmaBufferQueue} (hI : q.Inv) {b : Nat} {rest : List Nat}
    (hl : q.Completed = b :: rest) (effects : List Effect) :
    ∃ completed, q.takeCompleted effects =
        some ⟨{ q with completedBuffers := completed }.userPushBack b, Except.ok b, effects⟩ ∧
      completed.toList = rest ∧
      ({ q with completedBuffers := completed }.userPushBack b).linked b = true := by
  have hpos : 0 < q.completedBuffers._size := by
    by_contra hc
    have := tCircularFifo.toList_of_size_zero q.completedBuffers (by omega)
    simp only [Completed] at hl
    rw [this] at hl
    cases hl
  obtain ⟨completed, v, hpop, hfront, hl2, -, -⟩ :=
    tCircularFifo.pop_spec q.completedBuffers hpos hI.wfCompleted
  simp only [Completed] at hl
  rw [hl2] at hl
  simp only [List.cons.injEq] at hl
  obtain ⟨rfl, hrest⟩ := hl
  have hlt : v < q.buffers.length := hI.lt_of_mem_completed (by simp [Completed, hl2])
  refine ⟨completed, ?_, hrest, ?_⟩
  · have hne : ¬ q.completedBuffers.size = 0 := by simp only [tCircularFifo.size]; omega
    simp only [takeCompleted, hne, and_false, if_false, hfront, hpop]
  · rw [linked_userPushBack _ v v (by exact hlt)]
    simp

end RdmaBufferQueue

end EasyRDMA

/-! ## The sticky status -/

namespace EasyRDMA

namespace RdmaBufferQueue

theorem Assign_of_isError {s : RdmaError} (h : s.IsError = true) (e : RdmaError) :
    s.Assign e = s := by
  have : s.errorCode ≠ 0 := by simpa [RdmaError.IsError] using h
  simp [RdmaError.Assign, this]

theorem AssignCode_of_isError {s : RdmaError} (h : s.IsError = true) (a b : Int)
    (f : Option String) (l : Int) : s.AssignCode a b f l = s := by
  have : s.errorCode ≠ 0 := by simpa [RdmaError.IsError] using h
  simp [RdmaError.AssignCode, this]

theorem Abort_latch {q : RdmaBufferQueue} (hs : q.queueStatus.IsError = true)
    {errorCode : Int} {r : Ret Unit} (h : q.Abort errorCode = some r) :
    r.queue.queueStatus = q.queueStatus := by
  unfold Abort at h
  repeat' split at h
  all_goals first
    | cases h; done
    | (cases h; first | rfl | exact AssignCode_of_isError hs _ _ _ _)

theorem WaitForIdleBuffer_status {q : RdmaBufferQueue} {timeoutMs : Int}
    {w : cv_status} {r : Ret Nat} (h : q.WaitForIdleBuffer timeoutMs w = some r) :
    r.queue.queueStatus = q.queueStatus := by
  unfold WaitForIdleBuffer at h
  repeat' split at h
  all_goals first
    | cases h; done
    | (cases h; rfl)

theorem takeCompleted_status {q : RdmaBufferQueue} {effects : List Effect}
    {r : Ret Nat} (h : q.takeCompleted effects = some r) :
    r.queue.queueStatus = q.queueStatus := by
  unfold takeCompleted at h
  repeat' split at h
  all_goals first
    | cases h; done
    | (cases h; rfl)

theorem HandleCompletion_latch {q : RdmaBufferQueue} (hs : q.queueStatus.IsError = true)
    {buffer : Nat} {completionStatus : RdmaError} {p : Bool} {r : Ret Unit}
    (h : q.HandleCompletion buffer completionStatus p = some r) :
    r.queue.queueStatus = q.queueStatus := by
  unfold HandleCompletion at h
  split at h
  swap
  · cases h; rfl
  split at h
  · cases h
  simp only at h
  split at h
  · cases h
  split at h
  · cases h; rfl
  split at h
  · cases h
  split at h
  · cases h
  rename_i q2 hq2
  have hs2 : q2.queueStatus = q.queueStatus := by
    split at hq2
    · simp only [Option.map_eq_some'] at hq2
      obtain ⟨x, _, rfl⟩ := hq2
      rfl
    · simp only [Option.map_eq_some'] at hq2
      obtain ⟨x, _, rfl⟩ := hq2
      rfl
  cases h
  simp only
  split
  · simp only [hs2]
    exact Assign_of_isError hs _
  · exact hs2

theorem BufferHandleCompletion_latch {q : RdmaBufferQueue}
    (hs : q.queueStatus.IsError = true) {buffer : Nat} {completionStatus : RdmaError}
    {bytes : Nat} {r : Ret Unit}
    (h : q.BufferHandleCompletion buffer completionStatus bytes = some r) :
    r.queue.queueStatus = q.queueStatus := by
  unfold BufferHandleCompletion at h
  have hs' : (q.modifyBuffer buffer
      (fun x => { x with usedBytes := bytes })).queueStatus.IsError = true := hs
  exact HandleCompletion_latch hs' h

theorem WaitForCompletedBuffer_latch {q : RdmaBufferQueue}
    (hs : q.queueStatus.IsError = true) {timeoutMs : Int}
    {w : cv_status} {poll : PollResult} {r : Ret Nat}
    (h : q.WaitForCompletedBuffer timeoutMs w poll = some r) :
    r.queue.queueStatus = q.queueStatus := by
  unfold WaitForCompletedBuffer at h
  split at h
  · cases h; rfl
  split at h
  · rename_i hc
    simp [hs] at hc
  · exact takeCompleted_status h

theorem QueueBuffer_latch {q : RdmaBufferQueue} (hs : q.queueStatus.IsError = true)
    {buffer : Nat} {ignoreCredits : IgnoreCredits} {qp : Option RdmaError} {r : Ret Unit}
    (h : q.QueueBuffer buffer ignoreCredits qp = some r) :
    r.queue = q ∧ r.result = Except.error q.queueStatus ∧ r.effects = [] := by
  unfold QueueBuffer at h
  simp only [hs, if_true, Option.some.injEq] at h
  subst h
  exact ⟨rfl, rfl, rfl⟩

theorem AddCredit_latch {q : RdmaBufferQueue} (hs : q.queueStatus.IsError = true)
    {bufferSize : Nat} {qp : Option RdmaError} {r : Ret Unit}
    (h : q.AddCredit bufferSize qp = some r) :
    r.queue.queueStatus = q.queueStatus := by
  unfold AddCredit at h
  simp only at h
  repeat' split at h
  all_goals first
    | cases h; done
    | (cases h; first | rfl | exact Assign_of_isError hs _)

theorem ReleaseBuffer_status {q : RdmaBufferQueue} {buffer : Nat} {r : Ret Unit}
    (h : q.ReleaseBuffer buffer = some r) : r.queue.queueStatus = q.queueStatus := by
  unfold ReleaseBuffer at h
  repeat' split at h
  all_goals first
    | cases h; done
    | (cases h; rfl)

/-- Once the sticky status holds an error no call changes it. -/
theorem call_latch {q : RdmaBufferQueue} (hs : q.queueStatus.IsError = true) {c : Call}
    {o : Outcome} (h : q.call c = some o) : o.queue.queueStatus = q.queueStatus := by
  cases c with
  | WaitForIdleBuffer t w =>
    simp only [call, Option.map_eq_some'] at h
    obtain ⟨r, hr, rfl⟩ := h
    exact WaitForIdleBuffer_status hr
  | WaitForCompletedBuffer t w p =>
    simp only [call, Option.map_eq_some'] at h
    obtain ⟨r, hr, rfl⟩ := h
    exact WaitForCompletedBuffer_latch hs hr
  | QueueBuffer b i qp =>
    simp only [call, Option.map_eq_some'] at h
    obtain ⟨r, hr, rfl⟩ := h
    exact congrArg RdmaBufferQueue.queueStatus (QueueBuffer_latch hs hr).1
  | AddCredit n qp =>
    simp only [call, Option.map_eq_some'] at h
    obtain ⟨r, hr, rfl⟩ := h
    exact AddCredit_latch hs hr
  | ReleaseBuffer b =>
    simp only [call, Option.map_eq_some'] at h
    obtain ⟨r, hr, rfl⟩ := h
    exact ReleaseBuffer_status hr
  | HandleCompletion b s p =>
    simp only [call, Option.map_eq_some'] at h
    obtain ⟨r, hr, rfl⟩ := h
    exact HandleCompletion_latch hs hr
  | Abort e =>
    simp only [call, Option.map_eq_some'] at h
    obtain ⟨r, hr, rfl⟩ := h
    exact Abort_latch hs hr
  | SetUsed b n =>
    simp only [call] at h
    repeat' split at h
    all_goals first
      | cases h; done
      | (cases h; rfl)
  | SetCompletionCallback b d =>
    simp only [call] at h
    repeat' split at h
    all_goals first
      | cases h; done
      | (cases h; rfl)
  | SetBufferRegion b n =>
    simp only [call] at h
    repeat' split at h
    all_goals first
      | cases h; done
      | (cases h; rfl)
  | BufferHandleCompletion b s n =>
    simp only [call, Option.map_eq_some'] at h
    obtain ⟨r, hr, rfl⟩ := h
    exact BufferHandleCompletion_latch hs hr

theorem exec_latch : ∀ (calls : List Call) {q r : RdmaBufferQueue},
    q.queueStatus.IsError = true → q.exec calls = some r → r.queueStatus = q.queueStatus := by
  intro calls
  induction calls with
  | nil =>
    intro q r _ h
    simp only [exec, Option.some.injEq] at h
    subst h
    rfl
  | cons c cs ih =>
    intro q r hs h
    simp only [exec] at h
    split at h
    · cases h
    · rename_i o ho
      have e := call_latch hs ho
      rw [ih (by rw [e]; exact hs) h, e]

end RdmaBufferQueue

end EasyRDMA

/-! ## Credits and the order of sends -/

namespace EasyRDMA

namespace RdmaBufferQueue

theorem SameFlow.flow_refl (q : RdmaBufferQueue) : SameFlow q q := ⟨rfl, rfl, rfl⟩

theorem SameFlow.flow_trans {a b c : RdmaBufferQueue} (h1 : SameFlow a b) (h2 : SameFlow b c) :
    SameFlow a c :=
  ⟨h2.1.trans h1.1, h2.2.1.trans h1.2.1, h2.2.2.trans h1.2.2⟩

theorem WaitForIdleBuffer_flow {q : RdmaBufferQueue} {timeoutMs : Int}
    {w : cv_status} {r : Ret Nat} (h : q.WaitForIdleBuffer timeoutMs w = some r) :
    SameFlow q r.queue ∧ r.queue.queuedBuffers = q.queuedBuffers ∧
      r.queue.completedBuffers = q.completedBuffers ∧ r.effects = [] := by
  unfold WaitForIdleBuffer at h
  repeat' split at h
  all_goals first
    | cases h; done
    | (cases h; exact ⟨⟨rfl, rfl, rfl⟩, rfl, rfl, rfl⟩)

theorem takeCompleted_flow {q : RdmaBufferQueue} {effects : List Effect}
    {r : Ret Nat} (h : q.takeCompleted effects = some r) :
    SameFlow q r.queue ∧ r.queue.queuedBuffers = q.queuedBuffers ∧
      r.queue.idleBuffers = q.idleBuffers ∧ r.effects = effects := by
  unfold takeCompleted at h
  repeat' split at h
  all_goals first
    | cases h; done
    | (cases h; exact ⟨⟨rfl, rfl, rfl⟩, rfl, rfl, rfl⟩)

theorem ReleaseBuffer_flow {q : RdmaBufferQueue} {buffer : Nat} {r : Ret Unit}
    (h : q.ReleaseBuffer buffer = some r) :
    SameFlow q r.queue ∧ r.queue.queuedBuffers = q.queuedBuffers ∧
      r.queue.completedBuffers = q.completedBuffers ∧ r.effects = [] := by
  unfold ReleaseBuffer at h
  repeat' split at h
  all_goals first
    | cases h; done
    | (cases h; exact ⟨⟨rfl, rfl, rfl⟩, rfl, rfl, rfl⟩)

theorem callbackOf_eq {q : RdmaBufferQueue} {b : Nat} {buf : RdmaBuffer}
    (h : q.buffers[b]? = some buf) : q.callbackOf b = buf.completionCallbackData := by
  simp [callbackOf, callbackAt, h]

/-- The three things `HandleCompletion` can do. -/
theorem HandleCompletion_cases {q : RdmaBufferQueue} (hI : q.Inv) {b : Nat}
    {s : RdmaError} {p : Bool} {r : Ret Unit} (h : q.HandleCompletion b s p = some r) :
    (q.aborted = true ∧ r.queue = q ∧ r.effects = [] ∧ r.result = Except.ok ()) ∨
    (q.aborted = false ∧ (∃ f rest, q.Queued = f :: rest ∧ b ≠ f) ∧
      r.result = Except.error (RDMA_THROW easyrdma_Error_InternalError 159) ∧
      r.effects = [] ∧ SameFlow q r.queue ∧ r.queue.queuedBuffers = q.queuedBuffers ∧
      r.queue.idleBuffers = q.idleBuffers ∧ r.queue.completedBuffers = q.completedBuffers ∧
      r.queue.userBuffers = q.userBuffers ∧ r.queue.queueStatus = q.queueStatus) ∨
    (q.aborted = false ∧ (∃ rest, q.Queued = b :: rest ∧ r.queue.Queued = rest) ∧
      (q.putBackToIdleOnCompletion = false →
        r.queue.Completed = q.Completed ++ [b] ∧ r.queue.idleBuffers = q.idleBuffers) ∧
      (q.putBackToIdleOnCompletion = true →
        r.queue.Idle = q.Idle ++ [b] ∧ r.queue.completedBuffers = q.completedBuffers) ∧
      SameFlow q r.queue ∧ r.queue.userBuffers = q.userBuffers ∧
      r.queue.queueStatus = (if s.IsError then q.queueStatus.Assign s else q.queueStatus) ∧
      r.effects = (q.callbackOf b).Call s.GetCode (q.used b) ∧ r.result = Except.ok ()) := by
  unfold HandleCompletion at h
  split at h
  swap
  · rename_i ha
    cases h
    exact Or.inl ⟨by simpa using ha, rfl, rfl, rfl⟩
  rename_i ha
  have ha' : q.aborted = false := by simpa using ha
  split at h
  · cases h
  rename_i buf hbuf
  simp only at h
  split at h
  · cases h
  rename_i front hfront
  have hpos : 0 < q.queuedBuffers._size := by
    by_contra hc
    rw [tCircularFifo.front_none_of_size_zero _ (by omega)] at hfront
    cases hfront
  obtain ⟨queued, v, hpop, hfront2, hl, -, -⟩ :=
    tCircularFifo.pop_spec q.queuedBuffers hpos hI.wfQueued
  rw [hfront] at hfront2
  cases hfront2
  split at h
  · rename_i hne
    cases h
    exact Or.inr (Or.inl ⟨ha', ⟨front, queued.toList, hl, hne⟩, rfl, rfl, ⟨rfl, rfl, rfl⟩,
      rfl, rfl, rfl, rfl, rfl⟩)
  rename_i hbf
  have hbf' : b = front := by simpa using hbf
  subst hbf'
  simp only [hpop] at h
  split at h
  · cases h
  rename_i q2 hq2
  right; right
  refine ⟨ha', ⟨queued.toList, hl, ?_⟩, ?_, ?_, ?_, ?_, ?_, ?_, ?_⟩
  · split at hq2
    · simp only [Option.map_eq_some'] at hq2
      obtain ⟨x, _, rfl⟩ := hq2
      cases h
      simp only [Queued]
      split <;> rfl
    · simp only [Option.map_eq_some'] at hq2
      obtain ⟨x, _, rfl⟩ := hq2
      cases h
      simp only [Queued]
      split <;> rfl
  · intro hpb
    simp only [hpb, Bool.not_false, if_true, Option.map_eq_some'] at hq2
    obtain ⟨x, hx, rfl⟩ := hq2
    obtain ⟨hxl, -, -, -⟩ := tCircularFifo.push_eq hx
    cases h
    simp only [Completed]
    split <;> exact ⟨hxl, rfl⟩
  · intro hpb
    simp only [hpb, Bool.not_true, Bool.false_eq_true, if_false, Option.map_eq_some'] at hq2
    obtain ⟨x, hx, rfl⟩ := hq2
    obtain ⟨hxl, -, -, -⟩ := tCircularFifo.push_eq hx
    cases h
    simp only [Idle]
    split <;> exact ⟨hxl, rfl⟩
  · split at hq2
    · simp only [Option.map_eq_some'] at hq2
      obtain ⟨x, _, rfl⟩ := hq2
      cases h
      simp only
      split <;> exact ⟨rfl, rfl, rfl⟩
    · simp only [Option.map_eq_some'] at hq2
      obtain ⟨x, _, rfl⟩ := hq2
      cases h
      simp only
      split <;> exact ⟨rfl, rfl, rfl⟩
  · split at hq2
    · simp only [Option.map_eq_some'] at hq2
      obtain ⟨x, _, rfl⟩ := hq2
      cases h
      simp only
      split <;> rfl
    · simp only [Option.map_eq_some'] at hq2
      obtain ⟨x, _, rfl⟩ := hq2
      cases h
      simp only
      split <;> rfl
  · split at hq2
    · simp only [Option.map_eq_some'] at hq2
      obtain ⟨x, _, rfl⟩ := hq2
      cases h
      simp only
      split <;> simp_all
    · simp only [Option.map_eq_some'] at hq2
      obtain ⟨x, _, rfl⟩ := hq2
      cases h
      simp only
      split <;> simp_all
  · cases h
    simp only [callbackOf_eq hbuf, used_of_getElem? hbuf, RdmaBuffer.GetAndClearClearCallbackData,
      RdmaBuffer.GetUsed]
  · cases h
    rfl

/-- The five things `QueueBuffer` can do. -/
theorem QueueBuffer_cases {q : RdmaBufferQueue} {b : Nat} {ig : IgnoreCredits}
    {qp : Option RdmaError} {r : Ret Unit} (h : q.QueueBuffer b ig qp = some r) :
    (r.queue = q ∧ r.effects = [] ∧
      (r.result = Except.error q.queueStatus ∨
       r.result = Except.error (RDMA_THROW easyrdma_Error_InvalidOperation 189))) ∨
    (q.queueStatus.IsError = false ∧ q.direction = Direction.Send ∧ ig = IgnoreCredits.No ∧
      (∃ c rest, q.availableCredits = c :: rest ∧ c < q.used b) ∧
      r.queue =
        { q with queueStatus := RDMA_THROW easyrdma_Error_SendTooLargeForRecvBuffer 197 } ∧
      r.effects = [] ∧
      r.result = Except.error (RDMA_THROW easyrdma_Error_SendTooLargeForRecvBuffer 197)) ∨
    (q.queueStatus.IsError = false ∧ q.linked b = true ∧
      q.direction = Direction.Send ∧ ig = IgnoreCredits.No ∧
      q.availableCredits = [] ∧ r.queue.WaitingCredit = q.WaitingCredit ++ [b] ∧
      r.queue.queuedBuffers = q.queuedBuffers ∧ r.queue.availableCredits = [] ∧
      r.queue.queueStatus = q.queueStatus ∧ r.queue.aborted = q.aborted ∧
      r.effects = [] ∧ r.result = Except.ok ()) ∨
    (q.queueStatus.IsError = false ∧ q.linked b = true ∧
      q.direction = Direction.Send ∧ ig = IgnoreCredits.No ∧
      (∃ c rest, q.availableCredits = c :: rest ∧ q.used b ≤ c ∧
        r.queue.availableCredits = rest) ∧
      r.queue.Queued = q.Queued ++ [b] ∧
      r.queue.buffersQueuedWaitingForCredits = q.buffersQueuedWaitingForCredits ∧
      r.queue.queueStatus = q.queueStatus ∧ r.queue.aborted = q.aborted ∧
      r.effects = [Effect.QueueToQp Direction.Send b] ∧
      r.result = QueueToQp qp) ∨
    (q.queueStatus.IsError = false ∧ q.linked b = true ∧
      ¬ (q.direction = Direction.Send ∧ ig = IgnoreCredits.No) ∧
      r.queue.Queued = q.Queued ++ [b] ∧ SameFlow q r.queue ∧
      r.queue.queueStatus = q.queueStatus ∧
      r.effects = [Effect.QueueToQp q.direction b] ∧
      r.result = QueueToQp qp) := by
  unfold QueueBuffer at h
  split at h
  · cases h; exact Or.inl ⟨rfl, rfl, Or.inl rfl⟩
  rename_i hs
  have hs' : q.queueStatus.IsError = false := by simpa using hs
  have h0 : q.queueStatus.errorCode = 0 := (not_isError_iff _).mp hs'
  split at h
  · cases h
  rename_i buf hbuf
  split at h
  · cases h; exact Or.inl ⟨rfl, rfl, Or.inr rfl⟩
  rename_i hlk
  have hlk' : q.linked b = true := by
    simp only [linked, hbuf]
    simpa using hlk
  simp only at h
  split at h
  · rename_i hdi
    split at h
    · rename_i c rest hc
      split at h
      · rename_i hbig
        cases h
        right; left
        refine ⟨hs', hdi.1, hdi.2, ⟨c, rest, hc, ?_⟩, ?_, rfl, rfl⟩
        · rw [used_of_getElem? hbuf]; exact hbig
        · simp [RdmaError.Assign, h0]
      · rename_i hfit
        split at h
        · cases h
        rename_i queued hpush
        obtain ⟨hql, -, -, -⟩ := tCircularFifo.push_eq hpush
        cases h
        right; right; right; left
        refine ⟨hs', hlk', hdi.1, hdi.2, ⟨c, rest, hc, ?_, rfl⟩, ?_, rfl, rfl, rfl, ?_, rfl⟩
        · rw [used_of_getElem? hbuf]
          simp only [RdmaBuffer.GetUsed] at hfit
          omega
        · simp only [Queued, userUnlink, hql]
        · simp only [hdi.1]
    · rename_i hc
      split at h
      · cases h
      rename_i waiting hpush
      obtain ⟨hwl, -, -, -⟩ := tCircularFifo.push_eq hpush
      cases h
      right; right; left
      refine ⟨hs', hlk', hdi.1, hdi.2, hc, ?_, rfl, hc, rfl, rfl, rfl, rfl⟩
      simp only [WaitingCredit, userUnlink, hwl]
  · rename_i hdi
    split at h
    · cases h
    rename_i queued hpush
    obtain ⟨hql, -, -, -⟩ := tCircularFifo.push_eq hpush
    cases h
    right; right; right; right
    refine ⟨hs', hlk', hdi, ?_, ⟨rfl, rfl, rfl⟩, rfl, rfl, rfl⟩
    simp only [Queued, userUnlink, hql]

/-- The three things `AddCredit` can do. -/
theorem AddCredit_cases {q : RdmaBufferQueue} (hI : q.Inv) {bufferSize : Nat}
    {qp : Option RdmaError} {r : Ret Unit} (h : q.AddCredit bufferSize qp = some r) :
    (q.WaitingCredit = [] ∧
      r.queue = { q with availableCredits := q.availableCredits ++ [bufferSize] } ∧
      r.effects = [] ∧ r.result = Except.ok ()) ∨
    (∃ x W c rest, q.WaitingCredit = x :: W ∧
      q.availableCredits ++ [bufferSize] = c :: rest ∧ c < q.used x ∧
      r.queue = { q with availableCredits := q.availableCredits ++ [bufferSize],
                         queueStatus := q.queueStatus.Assign
                           (RDMA_THROW easyrdma_Error_SendTooLargeForRecvBuffer 236) } ∧
      r.effects = [] ∧
      r.result = Except.error (RDMA_THROW easyrdma_Error_SendTooLargeForRecvBuffer 236)) ∨
    (∃ x W c rest, q.WaitingCredit = x :: W ∧
      q.availableCredits ++ [bufferSize] = c :: rest ∧ q.used x ≤ c ∧
      r.queue.WaitingCredit = W ∧ r.queue.Queued = q.Queued ++ [x] ∧
      r.queue.availableCredits = rest ∧ r.queue.aborted = q.aborted ∧
      r.queue.queueStatus = qp.elim q.queueStatus (fun e => q.queueStatus.Assign e) ∧
      r.effects = [Effect.QueueToQp q.direction x] ∧
      r.result = QueueToQp qp) := by
  unfold AddCredit at h
  simp only at h
  split at h
  swap
  · rename_i hsz
    cases h
    left
    refine ⟨?_, rfl, rfl, rfl⟩
    apply tCircularFifo.toList_of_size_zero
    simpa [tCircularFifo.size] using hsz
  split at h
  · cases h
  rename_i c hhead
  obtain ⟨rest, hc⟩ : ∃ rest, q.availableCredits ++ [bufferSize] = c :: rest := by
    cases hl : q.availableCredits ++ [bufferSize] with
    | nil => simp at hl
    | cons a l =>
      simp only [hl, List.head?_cons, Option.some.injEq] at hhead
      exact ⟨l, by rw [hhead]⟩
  split at h
  · cases h
  rename_i x hfront
  have hpos : 0 < q.buffersQueuedWaitingForCredits._size := by
    by_contra hc0
    rw [tCircularFifo.front_none_of_size_zero _ (by omega)] at hfront
    cases hfront
  obtain ⟨waiting, v, hpop, hfront2, hl, -, -⟩ :=
    tCircularFifo.pop_spec q.buffersQueuedWaitingForCredits hpos hI.wfWaiting
  rw [hfront] at hfront2
  cases hfront2
  split at h
  · cases h
  rename_i buf hbuf
  split at h
  · rename_i hbig
    cases h
    right; left
    refine ⟨x, waiting.toList, c, rest, hl, hc, ?_, rfl, rfl, rfl⟩
    rw [used_of_getElem? hbuf]; exact hbig
  rename_i hfit
  simp only [hpop] at h
  split at h
  · cases h
  rename_i queued hpush
  obtain ⟨hql, -, -, -⟩ := tCircularFifo.push_eq hpush
  right; right
  refine ⟨x, waiting.toList, c, rest, hl, hc, ?_, ?_⟩
  · rw [used_of_getElem? hbuf]
    simp only [RdmaBuffer.GetUsed] at hfit
    omega
  · split at h
    · cases h
      exact ⟨rfl, hql, by simp only [hc, List.tail_cons], rfl, rfl, rfl, rfl⟩
    · cases h
      exact ⟨rfl, hql, by simp only [hc, List.tail_cons], rfl, rfl, rfl, rfl⟩

theorem BufferHandleCompletion_flow {q : RdmaBufferQueue} (hI : q.Inv) {b : Nat}
    {s : RdmaError} {n : Nat} {r : Ret Unit}
    (h : q.BufferHandleCompletion b s n = some r) : SameFlow q r.queue := by
  unfold BufferHandleCompletion at h
  have hI1 : (q.modifyBuffer b (fun x => { x with usedBytes := n })).Inv :=
    hI.frame _ (by simp [modifyBuffer]) rfl rfl rfl rfl rfl
      (linked_modify_of_same q b _ (fun _ => rfl))
  rcases HandleCompletion_cases hI1 h with ⟨-, e, -, -⟩ | ⟨-, -, -, -, e, -⟩ |
    ⟨-, -, -, -, e, -⟩
  · rw [e]; exact ⟨rfl, rfl, rfl⟩
  · exact e
  · exact e

theorem HandleCompletion_flow {q : RdmaBufferQueue} (hI : q.Inv) {b : Nat}
    {s : RdmaError} {p : Bool} {r : Ret Unit}
    (h : q.HandleCompletion b s p = some r) : SameFlow q r.queue := by
  rcases HandleCompletion_cases hI h with ⟨-, e, -, -⟩ | ⟨-, -, -, -, e, -⟩ |
    ⟨-, -, -, -, e, -⟩
  · rw [e]; exact ⟨rfl, rfl, rfl⟩
  · exact e
  · exact e

theorem WaitForCompletedBuffer_flow {q : RdmaBufferQueue} (hI : q.Inv) {timeoutMs : Int}
    {w : cv_status} {poll : PollResult} {r : Ret Nat}
    (h : q.WaitForCompletedBuffer timeoutMs w poll = some r) : SameFlow q r.queue := by
  unfold WaitForCompletedBuffer at h
  split at h
  · cases h; exact SameFlow.flow_refl q
  split at h
  · split at h
    · cases h; exact SameFlow.flow_refl q
    split at h
    · split at h
      · cases h; exact SameFlow.flow_refl q
      · split at h
        · cases h
        rename_i r1 hr1
        have hs1 := BufferHandleCompletion_flow hI hr1
        split at h
        · cases h; exact hs1
        · exact hs1.flow_trans (takeCompleted_flow h).1
    · split at h
      · cases h; exact SameFlow.flow_refl q
      · exact (takeCompleted_flow h).1
  · exact (takeCompleted_flow h).1

/-- Calls other than `QueueBuffer`, `AddCredit` and `Abort` leave the waiting ring, the
credits and the aborted flag alone. -/
theorem call_flow {q : RdmaBufferQueue} (hI : q.Inv) {c : Call} {o : Outcome}
    (h : q.call c = some o)
    (h1 : ∀ b i qp, c ≠ Call.QueueBuffer b i qp) (h2 : ∀ n qp, c ≠ Call.AddCredit n qp)
    (h3 : ∀ e, c ≠ Call.Abort e) : SameFlow q o.queue := by
  cases c with
  | WaitForIdleBuffer t w =>
    simp only [call, Option.map_eq_some'] at h
    obtain ⟨r, hr, rfl⟩ := h
    exact (WaitForIdleBuffer_flow hr).1
  | WaitForCompletedBuffer t w p =>
    simp only [call, Option.map_eq_some'] at h
    obtain ⟨r, hr, rfl⟩ := h
    exact WaitForCompletedBuffer_flow hI hr
  | QueueBuffer b i qp => exact absurd rfl (h1 b i qp)
  | AddCredit n qp => exact absurd rfl (h2 n qp)
  | ReleaseBuffer b =>
    simp only [call, Option.map_eq_some'] at h
    obtain ⟨r, hr, rfl⟩ := h
    exact (ReleaseBuffer_flow hr).1
  | HandleCompletion b s p =>
    simp only [call, Option.map_eq_some'] at h
    obtain ⟨r, hr, rfl⟩ := h
    exact HandleCompletion_flow hI hr
  | Abort e => exact absurd rfl (h3 e)
  | SetUsed b n =>
    simp only [call] at h
    repeat' split at h
    all_goals first
      | cases h; done
      | (cases h; exact ⟨rfl, rfl, rfl⟩)
  | SetCompletionCallback b d =>
    simp only [call] at h
    repeat' split at h
    all_goals first
      | cases h; done
      | (cases h; exact ⟨rfl, rfl, rfl⟩)
  | SetBufferRegion b n =>
    simp only [call] at h
    repeat' split at h
    all_goals first
      | cases h; done
      | (cases h; exact ⟨rfl, rfl, rfl⟩)
  | BufferHandleCompletion b s n =>
    simp only [call, Option.map_eq_some'] at h
    obtain ⟨r, hr, rfl⟩ := h
    exact BufferHandleCompletion_flow hI hr

theorem isError_Assign {s e : RdmaError} (h : s.IsError = true ∨ e.IsError = true) :
    (s.Assign e).IsError = true := by
  unfold RdmaError.Assign
  split
  · rename_i h0
    rcases h with h | h
    · simp [RdmaError.IsError, h0] at h
    · simpa [RdmaError.IsError] using h
  · rename_i h0
    simpa [RdmaError.IsError] using h0

theorem isError_mono {q : RdmaBufferQueue} {c : Call} {o : Outcome} (h : q.call c = some o)
    (hs : q.queueStatus.IsError = true) : o.queue.queueStatus.IsError = true := by
  rw [call_latch hs h]; exact hs

/-- Every call keeps: buffers wait for a credit only while no credit is available, unless
the sticky status is an error. -/
theorem call_credits {q : RdmaBufferQueue} (hI : q.Inv)
    (hK : q.WaitingCredit ≠ [] → q.availableCredits = [] ∨ q.queueStatus.IsError = true)
    {c : Call} {o : Outcome} (h : q.call c = some o) :
    o.queue.WaitingCredit ≠ [] →
      o.queue.availableCredits = [] ∨ o.queue.queueStatus.IsError = true := by
  have hframe : SameFlow q o.queue → o.queue.WaitingCredit ≠ [] →
      o.queue.availableCredits = [] ∨ o.queue.queueStatus.IsError = true := by
    intro hf hw
    have hw' : q.WaitingCredit ≠ [] := by
      simp only [WaitingCredit] at hw ⊢
      rw [← hf.1]; exact hw
    rcases hK hw' with h1 | h1
    · left; rw [hf.2.1]; exact h1
    · right; exact isError_mono h h1
  by_cases h1 : ∃ b i qp, c = Call.QueueBuffer b i qp
  · obtain ⟨b, i, qp, rfl⟩ := h1
    simp only [call, Option.map_eq_some'] at h
    obtain ⟨r, hr, rfl⟩ := h
    simp only [Ret.outcome]
    rcases QueueBuffer_cases hr with ⟨e, -⟩ | ⟨-, -, -, -, e, -⟩ |
      ⟨-, -, -, -, -, -, -, e, -⟩ | ⟨hs, -, -, -, ⟨c, rest, hc, -, -⟩, -, e1, -⟩ |
      ⟨-, -, -, -, e, e2, -⟩
    · rw [e]; exact hK
    · intro _; right; rw [e]; rfl
    · intro _; left; exact e
    · intro hw
      exfalso
      have hw' : q.WaitingCredit ≠ [] := by
        simp only [WaitingCredit] at hw ⊢
        rw [← e1]; exact hw
      rcases hK hw' with h2 | h2
      · rw [hc] at h2; cases h2
      · rw [hs] at h2; cases h2
    · intro hw
      have hw' : q.WaitingCredit ≠ [] := by
        simp only [WaitingCredit] at hw ⊢
        rw [← e.1]; exact hw
      rcases hK hw' with h2 | h2
      · left; rw [e.2.1]; exact h2
      · right; rw [e2]; exact h2
  by_cases h2 : ∃ n qp, c = Call.AddCredit n qp
  · obtain ⟨n, qp, rfl⟩ := h2
    simp only [call, Option.map_eq_some'] at h
    obtain ⟨r, hr, rfl⟩ := h
    simp only [Ret.outcome]
    rcases AddCredit_cases hI hr with ⟨hw0, e, -⟩ | ⟨x, W, c, rest, -, -, -, e, -⟩ |
      ⟨x, W, c, rest, hw, hc, -, -, -, e1, -, e2, -⟩
    · intro hw
      rw [e] at hw
      exact absurd hw0 hw
    · intro _
      right
      rw [e]
      exact isError_Assign (Or.inr rfl)
    · intro _
      rcases hK (by rw [hw]; simp) with h3 | h3
      · left
        rw [h3] at hc
        simp only [List.nil_append, List.cons.injEq] at hc
        rw [e1, ← hc.2]
      · right
        rw [e2]
        cases qp with
        | none => exact h3
        | some e => exact isError_Assign (Or.inl h3)
  by_cases h3 : ∃ e, c = Call.Abort e
  · obtain ⟨e, rfl⟩ := h3
    simp only [call, Option.map_eq_some'] at h
    obtain ⟨r, hr, rfl⟩ := h
    simp only [Ret.outcome]
    by_cases ha : q.aborted = true
    · simp only [Abort, ha, if_true, Option.some.injEq] at hr
      subst hr
      exact hK
    · obtain ⟨queued, waiting, idle, bufs, hrun, -, -, a3, -⟩ :=
        Abort_spec hI (by simpa using ha) e
      rw [hrun] at hr
      cases hr
      intro hw
      exact absurd (tCircularFifo.toList_of_size_zero _ a3) hw
  · exact hframe (call_flow hI h (fun b i qp e => h1 ⟨b, i, qp, e⟩)
      (fun n qp e => h2 ⟨n, qp, e⟩) (fun e e' => h3 ⟨e, e'⟩))

theorem exec_credits : ∀ (calls : List Call) {q r : RdmaBufferQueue}, q.Inv →
    (q.WaitingCredit ≠ [] → q.availableCredits = [] ∨ q.queueStatus.IsError = true) →
    q.exec calls = some r →
    r.WaitingCredit ≠ [] → r.availableCredits = [] ∨ r.queueStatus.IsError = true := by
  intro calls
  induction calls with
  | nil =>
    intro q r _ hK h
    simp only [exec, Option.some.injEq] at h
    subst h
    exact hK
  | cons c cs ih =>
    intro q r hI hK h
    simp only [exec] at h
    split at h
    · cases h
    · rename_i o ho
      exact ih (call_Inv hI ho) (call_credits hI hK ho) h

end RdmaBufferQueue

end EasyRDMA

/-! ## The order of the send path -/

namespace EasyRDMA

namespace RdmaBufferQueue

theorem posted_Call (cb : BufferCompletionCallbackData) (status : Int) (n : Nat) :
    (cb.Call status n).filterMap Effect.posted = [] := by
  unfold BufferCompletionCallbackData.Call
  split <;> rfl

theorem drop_succ_of_drop_cons {l : List Nat} {n c : Nat} {rest : List Nat}
    (h : l.drop n = c :: rest) : l.drop (n + 1) = rest ∧ n < l.length := by
  constructor
  · rw [← List.drop_drop, h]; rfl
  · by_contra hc
    rw [List.drop_of_length_le (by omega)] at h
    cases h

/-- One successful call of the send path keeps the order of the send path. -/
theorem SendOrder.order_step {q : RdmaBufferQueue} (hI : q.Inv)
    (hd : q.direction = Direction.Send) (ha : q.aborted = false) {QO CO H P : List Nat}
    (hJ : q.SendOrder QO CO H P) {c : Call} {o : Outcome} (h : q.call c = some o)
    (hc : c.isSendFlow = true) (hok : o.error = none) :
    o.queue.SendOrder (QO ++ c.queueArg) (CO ++ c.creditArg) (H ++ c.completionArg)
      (P ++ o.effects.filterMap Effect.posted) ∧ o.queue.aborted = false := by
  obtain ⟨j1, j2, j3, j4, j5⟩ := hJ
  have same : ∀ r : RdmaBufferQueue, SameFlow q r → r.queuedBuffers = q.queuedBuffers →
      r.SendOrder QO CO H P ∧ r.aborted = false := by
    intro r hf hq
    refine ⟨⟨?_, ?_, ?_, j4, ?_⟩, by rw [hf.2.2]; exact ha⟩
    · simp only [WaitingCredit, hf.1]; exact j1
    · simp only [Queued, hq]; exact j2
    · rw [hf.2.1]; exact j3
    · simp only [WaitingCredit, hf.1, hf.2.1]; exact j5
  have completion : ∀ (q1 : RdmaBufferQueue), q1.Inv → SameFlow q q1 →
      q1.queuedBuffers = q.queuedBuffers → ∀ (b : Nat) (s : RdmaError) (p : Bool)
      (r : Ret Unit), q1.HandleCompletion b s p = some r → r.outcome.error = none →
      r.queue.SendOrder QO CO (H ++ [b]) (P ++ r.effects.filterMap Effect.posted) ∧
        r.queue.aborted = false := by
    intro q1 hI1 hf hq b s p r hr hok
    have ha1 : q1.aborted = false := by rw [hf.2.2]; exact ha
    rcases HandleCompletion_cases hI1 hr with ⟨e, -⟩ | ⟨-, -, e, -⟩ |
      ⟨-, ⟨rest, e1, e2⟩, -, -, e3, -, -, e4, -⟩
    · rw [ha1] at e; cases e
    · simp only [Ret.outcome, e] at hok
      cases hok
    · have hf2 := hf.flow_trans e3
      have hQ : q.Queued = b :: rest := by
        simp only [Queued] at e1 ⊢
        rw [← hq]; exact e1
      refine ⟨⟨?_, ?_, ?_, ?_, ?_⟩, by rw [hf2.2.2]; exact ha⟩
      · rw [e4, posted_Call, List.append_nil]
        simp only [WaitingCredit, hf2.1]; exact j1
      · rw [e4, posted_Call, List.append_nil, e2, List.append_assoc]
        rw [← j2, hQ]; rfl
      · rw [e4, posted_Call, List.append_nil, hf2.2.1]; exact j3
      · rw [e4, posted_Call, List.append_nil]; exact j4
      · simp only [WaitingCredit, hf2.1, hf2.2.1]; exact j5
  cases c with
  | WaitForIdleBuffer t w =>
    simp only [call, Option.map_eq_some'] at h
    obtain ⟨r, hr, rfl⟩ := h
    obtain ⟨hf, hq, -, he⟩ := WaitForIdleBuffer_flow hr
    simp only [Call.queueArg, Call.creditArg, Call.completionArg, Ret.outcome, he,
      List.filterMap_nil, List.append_nil]
    exact same _ hf hq
  | WaitForCompletedBuffer t w p => cases hc
  | ReleaseBuffer b => cases hc
  | Abort e => cases hc
  | SetBufferRegion b n => cases hc
  | SetUsed b n =>
    simp only [call] at h
    split at h
    · cases h
    split at h
    · cases h; cases hok
    · cases h
      simp only [Call.queueArg, Call.creditArg, Call.completionArg, List.filterMap_nil,
        List.append_nil]
      exact same _ ⟨rfl, rfl, rfl⟩ rfl
  | SetCompletionCallback b d =>
    simp only [call] at h
    split at h
    · cases h
    · cases h
      simp only [Call.queueArg, Call.creditArg, Call.completionArg, List.filterMap_nil,
        List.append_nil]
      exact same _ ⟨rfl, rfl, rfl⟩ rfl
  | HandleCompletion b s p =>
    simp only [call, Option.map_eq_some'] at h
    obtain ⟨r, hr, rfl⟩ := h
    simp only [Call.queueArg, Call.creditArg, Call.completionArg, List.append_nil]
    exact completion q hI (SameFlow.flow_refl q) rfl b s p r hr hok
  | BufferHandleCompletion b s n =>
    simp only [call, Option.map_eq_some'] at h
    obtain ⟨r, hr, rfl⟩ := h
    simp only [Call.queueArg, Call.creditArg, Call.completionArg, List.append_nil]
    unfold BufferHandleCompletion at hr
    exact completion (q.modifyBuffer b (fun x => { x with usedBytes := n }))
      (hI.frame _ (by simp [modifyBuffer]) rfl rfl rfl rfl rfl
        (linked_modify_of_same q b _ (fun _ => rfl))) ⟨rfl, rfl, rfl⟩ rfl b s false r hr hok
  | QueueBuffer b i qp =>
    simp only [call, Option.map_eq_some'] at h
    obtain ⟨r, hr, rfl⟩ := h
    simp only [Call.queueArg, Call.creditArg, Call.completionArg, List.append_nil,
      Ret.outcome] at hok ⊢
    rcases QueueBuffer_cases hr with ⟨-, -, e | e⟩ | ⟨-, -, -, -, -, -, e⟩ |
      ⟨-, -, -, -, hcr, e1, e2, e3, -, e4, e5, -⟩ |
      ⟨-, -, -, -, ⟨c, rest, hcr, -, e1⟩, e2, e3, -, e4, e5, -⟩ | ⟨-, -, hn, -⟩
    · rw [e] at hok; cases hok
    · rw [e] at hok; cases hok
    · rw [e] at hok; cases hok
    · refine ⟨⟨?_, ?_, ?_, ?_, ?_⟩, by rw [e4]; exact ha⟩
      · rw [e5, e1, List.filterMap_nil, List.append_nil, ← List.append_assoc, j1]
      · rw [e5, List.filterMap_nil, List.append_nil]
        simp only [Queued, e2]; exact j2
      · rw [e5, List.filterMap_nil, List.append_nil, e3, ← j3, hcr]
      · rw [e5, List.filterMap_nil, List.append_nil]; exact j4
      · intro _; exact e3
    · have hW : q.WaitingCredit = [] := by
        by_contra hne
        have := j5 hne
        rw [hcr] at this
        cases this
      rw [hcr] at j3
      obtain ⟨hdrop, hlt⟩ := drop_succ_of_drop_cons j3.symm
      have hW' : r.queue.WaitingCredit = [] := by
        simp only [WaitingCredit, e3]; exact hW
      rw [hW, List.append_nil] at j1
      refine ⟨⟨?_, ?_, ?_, ?_, ?_⟩, by rw [e4]; exact ha⟩
      · rw [e5, hW', List.append_nil, j1]; rfl
      · rw [e5, e2, ← List.append_assoc, j2]; rfl
      · rw [e5, e1]
        simp only [List.filterMap_cons, Effect.posted, List.filterMap_nil, List.length_append,
          List.length_singleton]
        exact hdrop.symm
      · rw [e5]
        simp only [List.filterMap_cons, Effect.posted, List.filterMap_nil, List.length_append,
          List.length_singleton]
        omega
      · intro hne; exact absurd hW' hne
    · cases i with
      | Yes => cases hc
      | No => exact absurd ⟨hd, rfl⟩ hn
  | AddCredit n qp =>
    simp only [call, Option.map_eq_some'] at h
    obtain ⟨r, hr, rfl⟩ := h
    simp only [Call.queueArg, Call.creditArg, Call.completionArg, List.append_nil,
      Ret.outcome] at hok ⊢
    rcases AddCredit_cases hI hr with ⟨hW, e, he, -⟩ | ⟨x, W, c, rest, -, -, -, -, -, e⟩ |
      ⟨x, W, c, rest, hW, hcr, -, e1, e2, e3, e4, -, e5, -⟩
    · rw [e, he]
      refine ⟨⟨?_, ?_, ?_, ?_, ?_⟩, ha⟩
      · simp only [List.filterMap_nil, List.append_nil]; exact j1
      · simp only [List.filterMap_nil, List.append_nil]; exact j2
      · simp only [List.filterMap_nil, List.append_nil]
        rw [List.drop_append_of_le_length j4, ← j3]
      · simp only [List.filterMap_nil, List.append_nil, List.length_append,
          List.length_singleton]
        omega
      · intro hne; exact absurd hW hne
    · rw [e] at hok; cases hok
    · have hcred : q.availableCredits = [] := j5 (by rw [hW]; simp)
      rw [hcred] at hcr j3
      simp only [List.nil_append, List.cons.injEq] at hcr
      have hlen : CO.length ≤ P.length := by
        by_contra hcon
        have := congrArg List.length j3
        simp only [List.length_nil, List.length_drop] at this
        omega
      refine ⟨⟨?_, ?_, ?_, ?_, ?_⟩, by rw [e4]; exact ha⟩
      · rw [e5, e1]
        simp only [List.filterMap_cons, Effect.posted, List.filterMap_nil]
        rw [List.append_assoc, ← j1, hW]; rfl
      · rw [e5, e2, ← List.append_assoc, j2]; rfl
      · rw [e5, e3, ← hcr.2]
        simp only [List.filterMap_cons, Effect.posted, List.filterMap_nil, List.length_append,
          List.length_singleton]
        rw [List.drop_of_length_le]
        simp only [List.length_append, List.length_singleton]
        omega
      · rw [e5]
        simp only [List.filterMap_cons, Effect.posted, List.filterMap_nil, List.length_append,
          List.length_singleton]
        omega
      · intro _
        rw [e3, ← hcr.2]

/-- A run of successful calls of the send path keeps the order of the send path. -/
theorem SendOrder.order_run : ∀ (calls : List Call) {q r : RdmaBufferQueue} {outs : List Outcome}
    {QO CO H P : List Nat}, q.Inv → q.direction = Direction.Send → q.aborted = false →
    q.SendOrder QO CO H P → q.trace calls = some outs → q.exec calls = some r →
    (∀ c ∈ calls, c.isSendFlow = true) → (∀ o ∈ outs, o.error = none) →
    r.SendOrder (QO ++ queueOrder calls) (CO ++ creditOrder calls)
      (H ++ completionOrder calls) (P ++ postedBy outs) := by
  intro calls
  induction calls with
  | nil =>
    intro q r outs QO CO H P _ _ _ hJ htr hex _ _
    simp only [trace, Option.some.injEq] at htr
    simp only [exec, Option.some.injEq] at hex
    subst htr hex
    simpa [queueOrder, creditOrder, completionOrder, postedBy] using hJ
  | cons c cs ih =>
    intro q r outs QO CO H P hI hd ha hJ htr hex hflow hok
    simp only [trace] at htr
    simp only [exec] at hex
    cases hcall : q.call c with
    | none => simp [hcall] at hex
    | some o =>
      simp only [hcall, Option.map_eq_some'] at htr hex
      obtain ⟨os, hos, rfl⟩ := htr
      obtain ⟨hJ', ha'⟩ := SendOrder.order_step hI hd ha hJ hcall (hflow c (by simp))
        (hok o (by simp))
      have := ih (call_Inv hI hcall) ((call_Static hcall).2.1.trans hd) ha' hJ' hos hex
        (fun c' hc' => hflow c' (by simp [hc'])) (fun o' ho' => hok o' (by simp [ho']))
      simpa [queueOrder, creditOrder, completionOrder, postedBy, List.append_assoc] using this

end RdmaBufferQueue

end EasyRDMA

/-! ## The claims -/

namespace EasyRDMA

open RdmaBufferQueue

theorem sampleQueue_constructed (d : Direction) (hd : d ≠ Direction.Unknown) :
    Constructed 2 (sampleQueue d) := by
  cases d with
  | Unknown => exact absurd rfl hd
  | Send => exact Or.inl ⟨Direction.Send, 100, false, rfl⟩
  | Receive => exact Or.inl ⟨Direction.Receive, 100, false, rfl⟩

/-- C1: in every state reached from a construction with `N` buffers by any calls, failed
ones included, the queue still has its `N` buffers, the five sets Idle, User,
WaitingCredit, Queued and Completed together hold each buffer `0..N-1` exactly once,
their sizes add up to `N`, and a buffer is in User exactly when its hook is linked. -/
theorem C1_buffer_partition (N : Nat) (q : RdmaBufferQueue) (h : Reachable N q) :
    q.size = N ∧
    (q.Idle ++ q.User ++ q.WaitingCredit ++ q.Queued ++ q.Completed).Perm (List.range N) ∧
    q.idleBuffers.size + q.userBuffers.length + q.queuedBuffers.size +
      q.buffersQueuedWaitingForCredits.size + q.completedBuffers.size = N ∧
    (q.Idle.length = q.idleBuffers.size ∧ q.Queued.length = q.queuedBuffers.size ∧
      q.WaitingCredit.length = q.buffersQueuedWaitingForCredits.size ∧
      q.Completed.length = q.completedBuffers.size) ∧
    ∀ b, b ∈ q.User ↔ q.linked b = true := by
  have hI := h.inv
  obtain ⟨q0, calls, h0, hex⟩ := h
  have hN : q.buffers.length = N := by
    rw [(exec_Static calls hex).1]
    exact h0.spec.2.1
  refine ⟨hN, ?_, ?_, ?_, ?_⟩
  · rw [← hN]; exact hI.perm
  · rw [← hN]; exact hI.sizes
  · exact ⟨tCircularFifo.toList_length _ hI.wfIdle, tCircularFifo.toList_length _ hI.wfQueued,
      tCircularFifo.toList_length _ hI.wfWaiting, tCircularFifo.toList_length _ hI.wfCompleted⟩
  · intro b
    exact (hI.hook b).symm

theorem C1_buffer_partition_witness :
    Reachable 2 ((sampleQueue Direction.Send).after sampleCallsC1) ∧
    ((sampleQueue Direction.Send).after sampleCallsC1).Queued = [0] ∧
    ((sampleQueue Direction.Send).after sampleCallsC1).User = [1] ∧
    (((sampleQueue Direction.Send).after sampleCallsC1).Idle ++
      ((sampleQueue Direction.Send).after sampleCallsC1).User ++
      ((sampleQueue Direction.Send).after sampleCallsC1).WaitingCredit ++
      ((sampleQueue Direction.Send).after sampleCallsC1).Queued ++
      ((sampleQueue Direction.Send).after sampleCallsC1).Completed).Perm (List.range 2) :=
  ⟨⟨sampleQueue Direction.Send, sampleCallsC1,
      sampleQueue_constructed Direction.Send (by decide), by decide⟩,
    by decide, by decide,
    (C1_buffer_partition 2 ((sampleQueue Direction.Send).after sampleCallsC1)
      ⟨sampleQueue Direction.Send, sampleCallsC1,
        sampleQueue_constructed Direction.Send (by decide), by decide⟩).2.1⟩

/-- C2: on a reachable Send queue with no sticky error whose oldest available credit is
`c`, `QueueBuffer(b, IgnoreCredits::No)` on a user-held buffer `b` returns a result, and
`b` is appended to Queued exactly when `used b ≤ c` (the credit is then consumed and `b`
handed to the provider); when `used b > c` the call throws SendTooLargeForRecvBuffer,
that error becomes the sticky status and nothing else changes. Consequently a buffer that
`QueueBuffer` or `AddCredit` appends to Queued while consuming the credit `c` has
`used ≤ c`, and `AddCredit` takes it from the head of WaitingCredit. -/
theorem C2_credit_check (N : Nat) (q : RdmaBufferQueue) (h : Reachable N q)
    (hd : q.direction = Direction.Send) :
    (∀ (b c : Nat) (rest : List Nat) (qp : Option RdmaError),
      q.queueStatus.IsError = false → q.availableCredits = c :: rest → b ∈ q.User →
      ∃ r, q.QueueBuffer b IgnoreCredits.No qp = some r ∧
        (r.queue.Queued = q.Queued ++ [b] ↔ q.used b ≤ c) ∧
        (b ∈ r.queue.Queued ↔ q.used b ≤ c) ∧
        (q.used b ≤ c →
          r.queue.User = q.User.erase b ∧ r.queue.availableCredits = rest ∧
          r.queue.queueStatus = q.queueStatus ∧
          r.effects = [Effect.QueueToQp Direction.Send b]) ∧
        (c < q.used b →
          r.result = Except.error (RDMA_THROW easyrdma_Error_SendTooLargeForRecvBuffer 197) ∧
          r.queue.queueStatus.errorCode = easyrdma_Error_SendTooLargeForRecvBuffer ∧
          r.queue =
            { q with queueStatus := RDMA_THROW easyrdma_Error_SendTooLargeForRecvBuffer 197 } ∧
          r.effects = [])) ∧
    (∀ (b c : Nat) (rest : List Nat) (qp : Option RdmaError) (r : Ret Unit),
      q.QueueBuffer b IgnoreCredits.No qp = some r → q.availableCredits = c :: rest →
      r.queue.Queued = q.Queued ++ [b] → q.used b ≤ c ∧ r.queue.availableCredits = rest) ∧
    (∀ (bufferSize x c : Nat) (rest : List Nat) (qp : Option RdmaError) (r : Ret Unit),
      q.AddCredit bufferSize qp = some r → q.availableCredits ++ [bufferSize] = c :: rest →
      r.queue.Queued = q.Queued ++ [x] →
      q.used x ≤ c ∧ q.WaitingCredit.head? = some x ∧ r.queue.availableCredits = rest) := by
  have hI := h.inv
  refine ⟨?_, ?_, ?_⟩
  · intro b c rest qp hs hc hb
    have hbq : b ∉ q.Queued := by
      intro hq
      have h1 := List.count_pos_iff.mpr hq
      have h2 : 0 < q.User.count b := List.count_pos_iff.mpr hb
      have := hI.once b
      simp only [occurrences] at this
      split at this <;> omega
    by_cases hu : q.used b ≤ c
    · obtain ⟨r, hr, e1, e2, e3, e4, -, -, -, -, e5, -⟩ :=
        QueueBuffer_send_fits hI hd hs hc hb hu qp
      refine ⟨r, hr, ⟨fun _ => hu, fun _ => e1⟩, ⟨fun _ => hu, fun _ => by simp [e1]⟩,
        fun _ => ⟨e2, e3, e4, e5⟩, fun hlt => absurd hlt (by omega)⟩
    · have hlt : c < q.used b := by omega
      refine ⟨_, QueueBuffer_send_too_large hI hd hs hc hb hlt qp, ?_, ?_,
        fun hle => absurd hle hu, fun _ => ⟨rfl, rfl, rfl, rfl⟩⟩
      · exact ⟨fun e => absurd e (ne_append_singleton _ _), fun hle => absurd hle hu⟩
      · exact ⟨fun e => absurd e hbq, fun hle => absurd hle hu⟩
  · intro b c rest qp r hr hc hq
    exact QueueBuffer_consumes hd hr hc hq
  · intro bufferSize x c rest qp r hr hc hq
    exact AddCredit_consumes hI hr hc hq

theorem C2_credit_check_witness :
    Reachable 2 ((sampleQueue Direction.Send).after sampleCallsC2) ∧
    ((sampleQueue Direction.Send).after sampleCallsC2).direction = Direction.Send ∧
    ∃ r, ((sampleQueue Direction.Send).after sampleCallsC2).QueueBuffer 0 IgnoreCredits.No none
        = some r ∧
      (0 ∈ r.queue.Queued ↔ ((sampleQueue Direction.Send).after sampleCallsC2).used 0 ≤ 50) ∧
      r.queue.queueStatus.errorCode = easyrdma_Error_SendTooLargeForRecvBuffer :=
  ⟨⟨sampleQueue Direction.Send, sampleCallsC2,
      sampleQueue_constructed Direction.Send (by decide), by decide⟩,
    by decide,
    match (C2_credit_check 2 ((sampleQueue Direction.Send).after sampleCallsC2)
      ⟨sampleQueue Direction.Send, sampleCallsC2,
        sampleQueue_constructed Direction.Send (by decide), by decide⟩ (by decide)).1
      0 50 [] none (by decide) (by decide) (by decide) with
    | ⟨r, hr, _, h2, _, h4⟩ => ⟨r, hr, h2, (h4 (by decide)).2.1⟩⟩

/-- C3: for every run of successful `WaitForIdleBuffer`, `QueueBuffer(IgnoreCredits::No)`,
`AddCredit` and completion calls (and of calls that fill a buffer) on a Send queue from its
construction, the buffers handed to the provider, followed by the ones still in
WaitingCredit, are the buffers of the `QueueBuffer` calls in call order; the buffers
completed so far followed by Queued are the buffers handed to the provider, in that
order; and the credits still available are the arrived credits minus one, oldest first,
for each buffer handed to the provider. -/
theorem C3_send_order (N : Nat) (q0 q : RdmaBufferQueue) (calls : List Call)
    (outs : List Outcome) (h0 : Constructed N q0) (hd : q0.direction = Direction.Send)
    (htr : q0.trace calls = some outs) (hex : q0.exec calls = some q)
    (hflow : ∀ c ∈ calls, c.isSendFlow = true) (hok : ∀ o ∈ outs, o.error = none) :
    postedBy outs ++ q.WaitingCredit = queueOrder calls ∧
    completionOrder calls ++ q.Queued = postedBy outs ∧
    q.availableCredits = (creditOrder calls).drop (postedBy outs).length ∧
    (postedBy outs).length ≤ (creditOrder calls).length := by
  obtain ⟨hI, -, -, -, hW, hQ, -, -, hC, hA⟩ := h0.spec
  have hJ : q0.SendOrder [] [] [] [] :=
    ⟨by simp [hW], by simp [hQ], by simp [hC], Nat.le_refl _, fun hne => absurd hW hne⟩
  have := SendOrder.order_run calls hI hd hA hJ htr hex hflow hok
  simp only [List.nil_append] at this
  exact ⟨this.1, this.2.1, this.2.2.1, this.2.2.2.1⟩

theorem C3_send_order_witness :
    Constructed 2 (sampleQueue Direction.Send) ∧
    (sampleQueue Direction.Send).direction = Direction.Send ∧
    (∀ c ∈ sampleCallsC3, c.isSendFlow = true) ∧
    (∀ o ∈ (sampleQueue Direction.Send).outcomes sampleCallsC3, o.error = none) ∧
    queueOrder sampleCallsC3 = [1, 0, 1] ∧
    postedBy ((sampleQueue Direction.Send).outcomes sampleCallsC3) = [1, 0] ∧
    (postedBy ((sampleQueue Direction.Send).outcomes sampleCallsC3) ++
        ((sampleQueue Direction.Send).after sampleCallsC3).WaitingCredit =
      queueOrder sampleCallsC3 ∧
    completionOrder sampleCallsC3 ++ ((sampleQueue Direction.Send).after sampleCallsC3).Queued =
      postedBy ((sampleQueue Direction.Send).outcomes sampleCallsC3) ∧
    ((sampleQueue Direction.Send).after sampleCallsC3).availableCredits =
      (creditOrder sampleCallsC3).drop
        (postedBy ((sampleQueue Direction.Send).outcomes sampleCallsC3)).length ∧
    (postedBy ((sampleQueue Direction.Send).outcomes sampleCallsC3)).length ≤
      (creditOrder sampleCallsC3).length) :=
  ⟨sampleQueue_constructed Direction.Send (by decide), rfl, by decide, by decide, by decide,
    by decide,
    C3_send_order 2 (sampleQueue Direction.Send)
      ((sampleQueue Direction.Send).after sampleCallsC3) sampleCallsC3
      ((sampleQueue Direction.Send).outcomes sampleCallsC3)
      (sampleQueue_constructed Direction.Send (by decide)) rfl (by decide) (by decide)
      (by decide) (by decide)⟩

/-- C4, as stated, fails: after a send of 100 bytes was parked for want of a credit, an
`AddCredit(50)` throws SendTooLargeForRecvBuffer and leaves the buffer in WaitingCredit
and the credit in availableCredits. -/
theorem C4_counterexample :
    Reachable 2 ((sampleQueue Direction.Send).after sampleCallsC4) ∧
    ((sampleQueue Direction.Send).after sampleCallsC4).direction = Direction.Send ∧
    ((sampleQueue Direction.Send).after sampleCallsC4).WaitingCredit = [0] ∧
    ((sampleQueue Direction.Send).after sampleCallsC4).availableCredits = [50] ∧
    ((sampleQueue Direction.Send).after sampleCallsC4).queueStatus =
      RDMA_THROW easyrdma_Error_SendTooLargeForRecvBuffer 236 :=
  ⟨⟨sampleQueue Direction.Send, sampleCallsC4,
      sampleQueue_constructed Direction.Send (by decide), by decide⟩,
    by decide, by decide, by decide, by decide⟩

/-- C4, amended: in every state of a Send queue reached from construction by any calls,
failed ones included, if WaitingCredit is non-empty then availableCredits is empty or the
sticky status is an error. -/
theorem C4_waiting_means_no_credit (N : Nat) (q : RdmaBufferQueue) (h : Reachable N q)
    (hd : q.direction = Direction.Send) (hw : q.WaitingCredit ≠ []) :
    q.availableCredits = [] ∨ q.queueStatus.IsError = true := by
  have _ := hd
  obtain ⟨q0, calls, h0, hex⟩ := h
  obtain ⟨hI, -, -, -, hW, -, -, -, -, -⟩ := h0.spec
  exact exec_credits calls hI (fun hne => absurd hW hne) hex hw

theorem C4_waiting_means_no_credit_witness :
    Reachable 2 ((sampleQueue Direction.Send).after sampleCallsParked) ∧
    ((sampleQueue Direction.Send).after sampleCallsParked).direction = Direction.Send ∧
    ((sampleQueue Direction.Send).after sampleCallsParked).WaitingCredit ≠ [] ∧
    (((sampleQueue Direction.Send).after sampleCallsParked).availableCredits = [] ∨
      ((sampleQueue Direction.Send).after sampleCallsParked).queueStatus.IsError = true) :=
  ⟨⟨sampleQueue Direction.Send, sampleCallsParked,
      sampleQueue_constructed Direction.Send (by decide), by decide⟩,
    by decide, by decide,
    C4_waiting_means_no_credit 2 ((sampleQueue Direction.Send).after sampleCallsParked)
      ⟨sampleQueue Direction.Send, sampleCallsParked,
        sampleQueue_constructed Direction.Send (by decide), by decide⟩ (by decide) (by decide)⟩

/-- C5: once the sticky status of a queue holds an error, `Assign` on it is a no-op, and no
call, nor any sequence of calls, changes it: its code, subcode, file and line stay what
the first error made them. -/
theorem C5_sticky_status_latches (q : RdmaBufferQueue) (hs : q.queueStatus.IsError = true) :
    (∀ e : RdmaError, q.queueStatus.Assign e = q.queueStatus) ∧
    (∀ (code subcode : Int) (file : Option String) (line : Int),
      q.queueStatus.AssignCode code subcode file line = q.queueStatus) ∧
    (∀ (c : Call) (o : Outcome), q.call c = some o → o.queue.queueStatus = q.queueStatus) ∧
    (∀ (calls : List Call) (r : RdmaBufferQueue), q.exec calls = some r →
      r.queueStatus = q.queueStatus ∧ r.queueStatus.errorCode = q.queueStatus.errorCode ∧
      r.queueStatus.errorSubCode = q.queueStatus.errorSubCode ∧
      r.queueStatus.filename = q.queueStatus.filename ∧
      r.queueStatus.fileLineNumber = q.queueStatus.fileLineNumber) :=
  ⟨fun e => Assign_of_isError hs e, fun a b f l => AssignCode_of_isError hs a b f l,
    fun _ _ h => call_latch hs h,
    fun calls r h => by
      have e := exec_latch calls hs h
      exact ⟨e, by rw [e], by rw [e], by rw [e], by rw [e]⟩⟩

theorem C5_sticky_status_latches_witness :
    ((sampleQueue Direction.Send).after sampleCallsC4).queueStatus.IsError = true ∧
    (((sampleQueue Direction.Send).after sampleCallsC4).after
      [Call.Abort easyrdma_Error_Disconnected, Call.AddCredit 10 none]).queueStatus =
      ((sampleQueue Direction.Send).after sampleCallsC4).queueStatus :=
  ⟨by decide,
    ((C5_sticky_status_latches ((sampleQueue Direction.Send).after sampleCallsC4)
      (by decide)).2.2.2 [Call.Abort easyrdma_Error_Disconnected, Call.AddCredit 10 none]
      (((sampleQueue Direction.Send).after sampleCallsC4).after
        [Call.Abort easyrdma_Error_Disconnected, Call.AddCredit 10 none]) (by decide)).1⟩

/-- C6: `Abort(e)` on a reachable queue that was not aborted returns; Idle becomes
Idle ++ Queued ++ WaitingCredit, Queued and WaitingCredit become empty, User, Completed
and the credits stay, the sticky status becomes `e` (raised at line 45) when none was set
and stays otherwise, the callbacks fired are those of the buffers of Queued ++
WaitingCredit that had one, once each and in that order, with status `e` and 0 bytes, and
the callback data of the drained buffers is cleared. `Abort` on an aborted queue changes
nothing and fires nothing, so a second `Abort` is a no-op. -/
theorem C6_abort_drains (N : Nat) (q : RdmaBufferQueue) (h : Reachable N q) (e : Int) :
    (q.aborted = false →
      ∃ r, q.Abort e = some r ∧ r.result = Except.ok () ∧
        r.queue.Idle = q.Idle ++ q.Queued ++ q.WaitingCredit ∧
        r.queue.Queued = [] ∧ r.queue.WaitingCredit = [] ∧
        r.queue.User = q.User ∧ r.queue.Completed = q.Completed ∧
        r.queue.availableCredits = q.availableCredits ∧
        (q.queueStatus.IsError = false →
          r.queue.queueStatus = ⟨e, 0, fileRdmaBufferQueue, 45⟩) ∧
        (q.queueStatus.IsError = true → r.queue.queueStatus = q.queueStatus) ∧
        (q.Queued ++ q.WaitingCredit).Nodup ∧
        r.effects =
          ((q.Queued ++ q.WaitingCredit).filter (fun b => (q.callbackOf b).IsSet)).map
            (fun b => Effect.Callback (q.callbackOf b) e 0) ∧
        (∀ b, b ∈ q.Queued ++ q.WaitingCredit →
          r.queue.callbackOf b = BufferCompletionCallbackData.unset) ∧
        (∀ b, b ∉ q.Queued ++ q.WaitingCredit → r.queue.callbackOf b = q.callbackOf b) ∧
        (∀ b, r.queue.linked b = q.linked b ∧ r.queue.used b = q.used b) ∧
        r.queue.aborted = true ∧
        ∀ e2, r.queue.Abort e2 = some ⟨r.queue, Except.ok (), []⟩) ∧
    (q.aborted = true → q.Abort e = some ⟨q, Except.ok (), []⟩) := by
  have hI := h.inv
  constructor
  · intro hna
    obtain ⟨queued, waiting, idle, bufs, hrun, a1, a2, a3, a4, a5, a6, a7, a8, a9⟩ :=
      Abort_spec hI hna e
    have hnd : (q.Queued ++ q.WaitingCredit).Nodup := by
      rw [List.nodup_iff_count_le_one]
      intro a
      have := hI.once a
      simp only [occurrences] at this
      rw [List.count_append]
      split at this <;> omega
    refine ⟨_, hrun, rfl, a5, tCircularFifo.toList_of_size_zero _ a1,
      tCircularFifo.toList_of_size_zero _ a3, rfl, rfl, rfl, ?_, ?_, hnd, rfl, ?_, ?_, ?_, rfl,
      ?_⟩
    · intro hs
      have h0 := (not_isError_iff _).mp hs
      simp [RdmaError.AssignCode, h0]
    · intro hs
      exact AssignCode_of_isError hs _ _ _ _
    · intro b hb
      simp only [callbackOf, callbackAt, a9, hb, if_true]
      cases q.buffers[b]? <;> rfl
    · intro b hb
      simp only [callbackOf, callbackAt, a9, hb, if_false]
    · intro b
      simp only [linked, used, a9]
      by_cases hm : b ∈ q.Queued ++ q.WaitingCredit
      · simp only [hm, if_true]
        cases q.buffers[b]? <;> exact ⟨rfl, rfl⟩
      · simp only [hm, if_false, and_self]
    · intro e2
      simp [Abort]
  · intro ha
    simp [Abort, ha]

theorem C6_abort_drains_witness :
    Reachable 2 ((sampleQueue Direction.Send).after sampleCallsC6) ∧
    ((sampleQueue Direction.Send).after sampleCallsC6).aborted = false ∧
    ((sampleQueue Direction.Send).after sampleCallsC6).Queued = [0] ∧
    ((sampleQueue Direction.Send).after sampleCallsC6).WaitingCredit = [1] ∧
    ∃ r, ((sampleQueue Direction.Send).after sampleCallsC6).Abort
        easyrdma_Error_OperationCancelled = some r ∧
      r.queue.Idle = ((sampleQueue Direction.Send).after sampleCallsC6).Idle ++
        ((sampleQueue Direction.Send).after sampleCallsC6).Queued ++
        ((sampleQueue Direction.Send).after sampleCallsC6).WaitingCredit ∧
      r.effects =
        [Effect.Callback ⟨some 7, 1, 2⟩ easyrdma_Error_OperationCancelled 0,
         Effect.Callback ⟨some 8, 3, 4⟩ easyrdma_Error_OperationCancelled 0] :=
  ⟨⟨sampleQueue Direction.Send, sampleCallsC6,
      sampleQueue_constructed Direction.Send (by decide), by decide⟩,
    by decide, by decide, by decide,
    match (C6_abort_drains 2 ((sampleQueue Direction.Send).after sampleCallsC6)
      ⟨sampleQueue Direction.Send, sampleCallsC6,
        sampleQueue_constructed Direction.Send (by decide), by decide⟩
      easyrdma_Error_OperationCancelled).1 (by decide) with
    | ⟨r, hr, _, h1, _, _, _, _, _, _, _, _, h2, _⟩ =>
      ⟨r, hr, h1, h2.trans (by decide)⟩⟩

/-- C7: on a queue reached from the construction of a non-polling Receive multi-buffer
queue, once the sticky status is an error, `WaitForCompletedBuffer` with any timeout
returns the oldest Completed buffer, moved from Completed to the back of User with its
hook linked, whenever Completed is non-empty, and throws the sticky error, changing
nothing, when Completed is empty. -/
theorem C7_completed_drained_before_error (N bufferSize : Nat) (q0 q : RdmaBufferQueue)
    (calls : List Call)
    (h0 : RdmaBufferQueueMultipleBuffer Direction.Receive N bufferSize false =
      some (Except.ok q0))
    (hex : q0.exec calls = some q) (hs : q.queueStatus.IsError = true) (timeoutMs : Int)
    (w : cv_status) (poll : PollResult) :
    (∀ b rest, q.Completed = b :: rest →
      ∃ r, q.WaitForCompletedBuffer timeoutMs w poll = some r ∧ r.result = Except.ok b ∧
        r.queue.Completed = rest ∧ r.queue.User = q.User ++ [b] ∧
        r.queue.linked b = true ∧ r.queue.Idle = q.Idle ∧ r.queue.Queued = q.Queued ∧
        r.queue.WaitingCredit = q.WaitingCredit ∧ r.queue.queueStatus = q.queueStatus ∧
        r.effects = []) ∧
    (q.Completed = [] →
      q.WaitForCompletedBuffer timeoutMs w poll = some ⟨q, Except.error q.queueStatus, []⟩) ∧
    (∀ r e, q.WaitForCompletedBuffer timeoutMs w poll = some r → r.result = Except.error e →
      q.Completed = [] ∧ e = q.queueStatus) := by
  have hreach : Reachable N q := ⟨q0, calls, Or.inl ⟨Direction.Receive, bufferSize, false, h0⟩, hex⟩
  have hI := hreach.inv
  have hst := exec_Static calls hex
  have hpb : q.putBackToIdleOnCompletion = false := by
    rw [hst.2.2.1]
    unfold RdmaBufferQueueMultipleBuffer at h0
    split at h0
    · cases h0
    rename_i q1 hq1
    obtain ⟨b1, b2, b3, b4, b5, b6, b7, b8, b9, b10, b11, b12⟩ := base_spec hq1
    obtain ⟨r, hr, -, -, -, -, -, -, -, -, -, e11, -⟩ :=
      construct_spec (RdmaBuffer.Internal bufferSize) (fun _ => rfl) N q1 b1 b2 b3 b4 b5 b6
    rw [hr] at h0
    simp only [Option.map_some', Option.some.injEq, Except.ok.injEq] at h0
    subst h0
    rw [e11, b11]
    rfl
  have hunfold : q.WaitForCompletedBuffer timeoutMs w poll = q.takeCompleted [] := by
    simp [WaitForCompletedBuffer, hpb, hs]
  have hempty : q.Completed = [] →
      q.WaitForCompletedBuffer timeoutMs w poll =
        some ⟨q, Except.error q.queueStatus, []⟩ := by
    intro hc
    have h0' : q.completedBuffers._size = 0 :=
      (tCircularFifo.size_eq_zero_iff _ hI.wfCompleted).mpr hc
    rw [hunfold]
    simp [takeCompleted, hs, tCircularFifo.size, h0']
  refine ⟨?_, hempty, ?_⟩
  · intro b rest hl
    obtain ⟨completed, hrun, hrest, hlk⟩ := takeCompleted_ok hI hl []
    rw [← hunfold] at hrun
    exact ⟨_, hrun, rfl, by simp only [Completed, userPushBack]; exact hrest, rfl, hlk, rfl,
      rfl, rfl, rfl, rfl⟩
  · intro r e hr he
    cases hc : q.Completed with
    | nil =>
      rw [hempty hc] at hr
      cases hr
      simp only [Except.error.injEq] at he
      exact ⟨rfl, he.symm⟩
    | cons b rest =>
      obtain ⟨completed, hrun, -, -⟩ := takeCompleted_ok hI hc []
      rw [← hunfold, hr] at hrun
      cases hrun
      cases he

theorem C7_completed_drained_before_error_witness :
    RdmaBufferQueueMultipleBuffer Direction.Receive 2 100 false =
      some (Except.ok (sampleQueue Direction.Receive)) ∧
    ((sampleQueue Direction.Receive).after sampleCallsC7).queueStatus.IsError = true ∧
    ((sampleQueue Direction.Receive).after sampleCallsC7).Completed = [0] ∧
    ∃ r, ((sampleQueue Direction.Receive).after sampleCallsC7).WaitForCompletedBuffer 1000
        cv_status.timeout (PollResult.throws RdmaError.success) = some r ∧
      r.result = Except.ok 0 ∧ r.queue.Completed = [] ∧
      r.queue.User = ((sampleQueue Direction.Receive).after sampleCallsC7).User ++ [0] :=
  ⟨rfl, by decide, by decide,
    match (C7_completed_drained_before_error 2 100 (sampleQueue Direction.Receive)
      ((sampleQueue Direction.Receive).after sampleCallsC7) sampleCallsC7 rfl (by decide)
      (by decide) 1000 cv_status.timeout (PollResult.throws RdmaError.success)).1 0 []
      (by decide) with
    | ⟨r, hr, h1, h2, h3, _⟩ => ⟨r, hr, h1, h2, h3⟩⟩

/-- C8, as stated, fails: a Receive queue whose only posted buffer has completed has
`putBackToIdleOnCompletion` false and nothing in Queued or WaitingCredit, yet
`WaitForCompletedBuffer` returns the completed buffer instead of failing. -/
theorem C8_counterexample :
    ((sampleQueue Direction.Receive).after sampleCallsC8).putBackToIdleOnCompletion = false ∧
    ((sampleQueue Direction.Receive).after sampleCallsC8).queuedBuffers.size +
      ((sampleQueue Direction.Receive).after sampleCallsC8).buffersQueuedWaitingForCredits.size
      = 0 ∧
    (((sampleQueue Direction.Receive).after sampleCallsC8).call
      (Call.WaitForCompletedBuffer 0 cv_status.timeout
        (PollResult.throws RdmaError.success))).map (fun o => (o.error, o.queue.User)) =
      some (none, [0]) := by
  decide

/-- C8, amended: `WaitForCompletedBuffer` on a queue with `putBackToIdleOnCompletion`
false fails with NoBuffersQueued, changing nothing, whenever at call time Completed is
empty, the sticky status is not an error and |Queued| + |WaitingCredit| = 0. -/
theorem C8_no_buffers_queued (q : RdmaBufferQueue) (hp : q.putBackToIdleOnCompletion = false)
    (hc : q.completedBuffers.size = 0) (hs : q.queueStatus.IsError = false)
    (hq : q.queuedBuffers.size + q.buffersQueuedWaitingForCredits.size = 0)
    (timeoutMs : Int) (w : cv_status) (poll : PollResult) :
    q.WaitForCompletedBuffer timeoutMs w poll =
      some ⟨q, Except.error (RDMA_THROW easyrdma_Error_NoBuffersQueued 107), []⟩ := by
  have h1 : q.queuedBuffers.size = 0 := by omega
  have h2 : q.buffersQueuedWaitingForCredits.size = 0 := by omega
  simp [WaitForCompletedBuffer, hp, hc, hs, h1, h2]

theorem C8_no_buffers_queued_witness :
    (sampleQueue Direction.Receive).putBackToIdleOnCompletion = false ∧
    (sampleQueue Direction.Receive).completedBuffers.size = 0 ∧
    (sampleQueue Direction.Receive).queueStatus.IsError = false ∧
    (sampleQueue Direction.Receive).queuedBuffers.size +
      (sampleQueue Direction.Receive).buffersQueuedWaitingForCredits.size = 0 ∧
    (sampleQueue Direction.Receive).WaitForCompletedBuffer 0 cv_status.timeout
        (PollResult.throws RdmaError.success) =
      some ⟨sampleQueue Direction.Receive,
        Except.error (RDMA_THROW easyrdma_Error_NoBuffersQueued 107), []⟩ :=
  ⟨by decide, by decide, by decide, by decide,
    C8_no_buffers_queued (sampleQueue Direction.Receive) (by decide) (by decide) (by decide)
      (by decide) 0 cv_status.timeout (PollResult.throws RdmaError.success)⟩

/-- C9: `WaitForIdleBuffer(0)` on a reachable queue never waits for another thread: with a
sticky error it throws exactly that error and changes nothing, even when Idle is
non-empty; otherwise, when Idle is non-empty, it returns the oldest Idle buffer, removed
from Idle and linked at the back of User; otherwise it throws Timeout and changes
nothing. -/
theorem C9_poll_idle (N : Nat) (q : RdmaBufferQueue) (h : Reachable N q) (w : cv_status) :
    (q.queueStatus.IsError = true →
      q.WaitForIdleBuffer 0 w = some ⟨q, Except.error q.queueStatus, []⟩) ∧
    (q.queueStatus.IsError = false → ∀ b rest, q.Idle = b :: rest →
      ∃ r, q.WaitForIdleBuffer 0 w = some r ∧ r.result = Except.ok b ∧
        r.queue.Idle = rest ∧ r.queue.User = q.User ++ [b] ∧ r.queue.linked b = true ∧
        r.queue.Queued = q.Queued ∧ r.queue.WaitingCredit = q.WaitingCredit ∧
        r.queue.Completed = q.Completed ∧ r.queue.queueStatus = q.queueStatus ∧
        r.effects = []) ∧
    (q.queueStatus.IsError = false → q.Idle = [] →
      ∃ e, q.WaitForIdleBuffer 0 w = some ⟨q, Except.error e, []⟩ ∧
        e.errorCode = easyrdma_Error_Timeout) := by
  have hI := h.inv
  refine ⟨?_, ?_, ?_⟩
  · intro hs
    simp [WaitForIdleBuffer, hs]
  · intro hs b rest hl
    obtain ⟨idle, hrun, hrest, hlk⟩ := WaitForIdleBuffer_ok hI hs hl 0 w
    exact ⟨_, hrun, rfl, by simp only [Idle, userPushBack]; exact hrest, rfl, hlk, rfl, rfl,
      rfl, rfl, rfl⟩
  · intro hs hl
    have h0 : q.idleBuffers._size = 0 := (tCircularFifo.size_eq_zero_iff _ hI.wfIdle).mpr hl
    cases w with
    | timeout =>
      exact ⟨RDMA_THROW easyrdma_Error_Timeout 81,
        by simp [WaitForIdleBuffer, hs, tCircularFifo.size, h0], rfl⟩
    | no_timeout =>
      exact ⟨RDMA_THROW easyrdma_Error_Timeout 90,
        by simp [WaitForIdleBuffer, hs, tCircularFifo.size, h0], rfl⟩

theorem C9_poll_idle_witness :
    Reachable 2 (sampleQueue Direction.Send) ∧
    (sampleQueue Direction.Send).queueStatus.IsError = false ∧
    (sampleQueue Direction.Send).Idle = [0, 1] ∧
    ∃ r, (sampleQueue Direction.Send).WaitForIdleBuffer 0 cv_status.timeout = some r ∧
      r.result = Except.ok 0 ∧ r.queue.Idle = [1] ∧
      r.queue.User = (sampleQueue Direction.Send).User ++ [0] :=
  ⟨⟨sampleQueue Direction.Send, [], sampleQueue_constructed Direction.Send (by decide), rfl⟩,
    by decide, by decide,
    match (C9_poll_idle 2 (sampleQueue Direction.Send)
      ⟨sampleQueue Direction.Send, [], sampleQueue_constructed Direction.Send (by decide),
        rfl⟩ cv_status.timeout).2.1 (by decide) 0 [1] (by decide) with
    | ⟨r, hr, h1, h2, h3, _⟩ => ⟨r, hr, h1, h2, h3⟩⟩

/-- C10: on a reachable queue with no sticky error, `QueueBuffer` on one of its buffers
that is not in User throws InvalidOperation and leaves the whole queue (every container,
the credits and the sticky status) unchanged, and hands nothing to the provider. -/
theorem C10_queue_needs_user_buffer (N : Nat) (q : RdmaBufferQueue) (h : Reachable N q)
    (hs : q.queueStatus.IsError = false) (b : Nat) (hb : b < N) (hu : b ∉ q.User)
    (ignoreCredits : IgnoreCredits) (qp : Option RdmaError) :
    q.QueueBuffer b ignoreCredits qp =
      some ⟨q, Except.error (RDMA_THROW easyrdma_Error_InvalidOperation 189), []⟩ := by
  have hI := h.inv
  obtain ⟨q0, calls, h0, hex⟩ := h
  have hN : q.buffers.length = N := by
    rw [(exec_Static calls hex).1]
    exact h0.spec.2.1
  have hbuf : q.buffers[b]? = some q.buffers[b] := List.getElem?_eq_getElem (by omega)
  have hl : q.buffers[b].userBufferListNode = false := by
    have := hI.hook b
    simp only [linked, hbuf] at this
    cases hx : q.buffers[b].userBufferListNode with
    | false => rfl
    | true => exact absurd (this.mp hx) hu
  simp [QueueBuffer, hs, hbuf, hl]

theorem C10_queue_needs_user_buffer_witness :
    Reachable 2 ((sampleQueue Direction.Send).after sampleCallsParked) ∧
    ((sampleQueue Direction.Send).after sampleCallsParked).queueStatus.IsError = false ∧
    0 ∉ ((sampleQueue Direction.Send).after sampleCallsParked).User ∧
    ((sampleQueue Direction.Send).after sampleCallsParked).QueueBuffer 0 IgnoreCredits.No none =
      some ⟨(sampleQueue Direction.Send).after sampleCallsParked,
        Except.error (RDMA_THROW easyrdma_Error_InvalidOperation 189), []⟩ :=
  ⟨⟨sampleQueue Direction.Send, sampleCallsParked,
      sampleQueue_constructed Direction.Send (by decide), by decide⟩,
    by decide, by decide,
    C10_queue_needs_user_buffer 2 ((sampleQueue Direction.Send).after sampleCallsParked)
      ⟨sampleQueue Direction.Send, sampleCallsParked,
        sampleQueue_constructed Direction.Send (by decide), by decide⟩ (by decide) 0
      (by decide) (by decide) IgnoreCredits.No none⟩

end EasyRDMA

/-! ## Connection data -/

namespace EasyRDMA

theorem exists_seven {α : Type} (l : List α) (h : 7 ≤ l.length) :
    ∃ b0 b1 b2 b3 v o d tail, l = b0 :: b1 :: b2 :: b3 :: v :: o :: d :: tail := by
  match l, h with
  | b0 :: b1 :: b2 :: b3 :: v :: o :: d :: tail, _ => exact ⟨b0, b1, b2, b3, v, o, d, tail, rfl⟩

/-- The protocol id read from four bytes is `'RDMA'` exactly for the bytes 52 44 4D 41. -/
theorem protocolId_eq_iff (b0 b1 b2 b3 : Byte) :
    b0.val * 2 ^ 24 + b1.val * 2 ^ 16 + b2.val * 2 ^ 8 + b3.val = kConnectionDataProtocol ↔
      [b0, b1, b2, b3] = [0x52, 0x44, 0x4D, 0x41] := by
  have h0 := b0.isLt
  have h1 := b1.isLt
  have h2 := b2.isLt
  have h3 := b3.isLt
  have e0 : ((0x52 : Byte) : Nat) = 82 := rfl
  have e1 : ((0x44 : Byte) : Nat) = 68 := rfl
  have e2 : ((0x4D : Byte) : Nat) = 77 := rfl
  have e3 : ((0x41 : Byte) : Nat) = 65 := rfl
  simp only [kConnectionDataProtocol, List.cons.injEq, and_true, Fin.ext_iff, e0, e1, e2, e3]
  omega

/-- What `ValidateConnectionData` does with a buffer of at least seven bytes. -/
theorem ValidateConnectionData_cons (b0 b1 b2 b3 v o d : Byte) (tail : List Byte)
    (myDirection : Direction) :
    ValidateConnectionData (b0 :: b1 :: b2 :: b3 :: v :: o :: d :: tail) myDirection =
      if [b0, b1, b2, b3] ≠ [0x52, 0x44, 0x4D, 0x41] then
        Except.error ⟨easyrdma_Error_IncompatibleProtocol, 0, fileRdmaConnectionData, 25⟩
      else if 1 < o.val then
        Except.error ⟨easyrdma_Error_IncompatibleVersion, 0, fileRdmaConnectionData, 28⟩
      else if myDirection = Direction.Unknown then
        Except.error ⟨easyrdma_Error_InternalError, 0, fileRdmaConnectionData, 30⟩
      else if d ≠ (if myDirection = Direction.Receive then Direction.Send
          else Direction.Receive).toUInt8 then
        Except.error ⟨easyrdma_Error_InvalidDirection, 0, fileRdmaConnectionData, 33⟩
      else Except.ok () := by
  have hid := protocolId_eq_iff b0 b1 b2 b3
  have hlen : ¬ (tail.length + 1 + 1 + 1 + 1 + 1 + 1 + 1 < 7) := by omega
  have h1 : ((1 : Byte) : Nat) = 1 := rfl
  simp only [ValidateConnectionData, easyrdma_ConnectionData.sizeof, List.length_cons, hlen,
    if_false, easyrdma_ConnectionData.ofBytes, List.getD_cons_zero, List.getD_cons_succ,
    kDefaultConnectionData, gt_iff_lt, Fin.lt_def, h1, ne_eq, hid]

end EasyRDMA

/-! ## A completion at the head of Queued -/

namespace EasyRDMA

namespace RdmaBufferQueue

/-- A completion on a queue that is not aborted clears the callback data of the buffer.
-/
theorem HandleCompletion_buffers {q : RdmaBufferQueue} {b : Nat} {s : RdmaError} {p : Bool}
    {r : Ret Unit} (h : q.HandleCompletion b s p = some r) (ha : q.aborted = false) :
    ∃ buf, q.buffers[b]? = some buf ∧
      r.queue.buffers = q.buffers.set b buf.GetAndClearClearCallbackData.2 := by
  unfold HandleCompletion at h
  rw [ha] at h
  simp only [Bool.not_false, if_true] at h
  split at h
  · cases h
  rename_i buf hbuf
  refine ⟨buf, hbuf, ?_⟩
  split at h
  · cases h
  split at h
  · cases h; rfl
  split at h
  · cases h
  split at h
  · cases h
  rename_i q2 hq2
  cases h
  split at hq2
  · simp only [Option.map_eq_some'] at hq2
    obtain ⟨x, _, rfl⟩ := hq2
    simp only
    split <;> rfl
  · simp only [Option.map_eq_some'] at hq2
    obtain ⟨x, _, rfl⟩ := hq2
    simp only
    split <;> rfl

/-- The completion of the buffer at the head of Queued has a result. -/
theorem HandleCompletion_ok {q : RdmaBufferQueue} (hI : q.Inv) {b : Nat} {rest : List Nat}
    (ha : q.aborted = false) (hq : q.Queued = b :: rest) (s : RdmaError) (p : Bool) :
    ∃ r, q.HandleCompletion b s p = some r := by
  have hb : b < q.buffers.length := hI.lt_of_mem_queued (by rw [hq]; exact List.mem_cons_self _ _)
  have hpos : 0 < q.queuedBuffers._size := by
    have := tCircularFifo.toList_length q.queuedBuffers hI.wfQueued
    simp only [Queued] at hq
    rw [hq] at this
    simp only [List.length_cons] at this
    omega
  obtain ⟨queued, v, hpop, hfront, hl, -, -⟩ :=
    tCircularFifo.pop_spec q.queuedBuffers hpos hI.wfQueued
  simp only [Queued] at hq
  rw [hq] at hl
  have hv : v = b := by
    simp only [List.cons.injEq] at hl
    exact hl.1.symm
  subst hv
  obtain ⟨hroomI, hroomC⟩ := hI.room_of_queued hpos
  obtain ⟨idle, hidle, -⟩ := tCircularFifo.push_spec q.idleBuffers v hroomI
  obtain ⟨completed, hcompleted, -⟩ := tCircularFifo.push_spec q.completedBuffers v hroomC
  unfold HandleCompletion
  rw [ha]
  simp only [Bool.not_false, if_true, List.getElem?_eq_getElem hb, hfront, ne_eq,
    not_true_eq_false, if_false, hpop, hidle, hcompleted]
  cases q.putBackToIdleOnCompletion <;> simp

end RdmaBufferQueue

open RdmaBufferQueue

/-- The flags of a queue built by `RdmaBufferQueueMultipleBuffer`. -/
theorem MultipleBuffer_flags {d : Direction} {N bufferSize : Nat} {p : Bool}
    {q : RdmaBufferQueue}
    (h : RdmaBufferQueueMultipleBuffer d N bufferSize p = some (Except.ok q)) :
    q.direction = d ∧ q.putBackToIdleOnCompletion = (d == Direction.Send) ∧
      q.usePolling = p ∧
      q.buffers = (List.range N).map (RdmaBuffer.Internal bufferSize) := by
  unfold RdmaBufferQueueMultipleBuffer at h
  split at h
  · cases h
  rename_i q1 hq1
  obtain ⟨b1, b2, b3, b4, b5, b6, b7, b8, b9, b10, b11, b12⟩ := base_spec hq1
  obtain ⟨r, hr, -, e1, -, -, -, -, -, -, e10, e11, -, -, e14⟩ :=
    construct_spec (RdmaBuffer.Internal bufferSize) (fun _ => rfl) N q1 b1 b2 b3 b4 b5 b6
  rw [hr] at h
  simp only [Option.map_some', Option.some.injEq, Except.ok.injEq] at h
  subst h
  exact ⟨by rw [e10, b10], by rw [e11, b11], by rw [e14, b12], e1⟩

/-- The flags of a queue built by `RdmaBufferQueueSingleBuffer`. -/
theorem SingleBuffer_flags {d : Direction} {N : Nat} {p : Bool} {q : RdmaBufferQueue}
    (h : RdmaBufferQueueSingleBuffer d N p = some (Except.ok q)) :
    q.direction = d ∧ q.putBackToIdleOnCompletion = true ∧ q.usePolling = p ∧
      q.buffers = (List.range N).map RdmaBuffer.External := by
  unfold RdmaBufferQueueSingleBuffer at h
  split at h
  · cases h
  rename_i q1 hq1
  obtain ⟨b1, b2, b3, b4, b5, b6, b7, b8, b9, b10, b11, b12⟩ := base_spec hq1
  obtain ⟨r, hr, -, e1, -, -, -, -, -, -, e10, e11, -, -, e14⟩ :=
    construct_spec RdmaBuffer.External (fun _ => rfl) N
      { q1 with putBackToIdleOnCompletion := true } b1 b2 b3 b4 b5 b6
  rw [hr] at h
  simp only [Option.map_some', Option.some.injEq, Except.ok.injEq] at h
  subst h
  exact ⟨by rw [e10]; exact b10, by rw [e11], by rw [e14]; exact b12, e1⟩

/-- What the completion of the buffer at the head of Queued does. -/
theorem HandleCompletion_head {q : RdmaBufferQueue} (hI : q.Inv) {b : Nat} {rest : List Nat}
    (ha : q.aborted = false) (hq : q.Queued = b :: rest) (s : RdmaError) (p : Bool) :
    ∃ r, q.HandleCompletion b s p = some r ∧ r.result = Except.ok () ∧
      r.queue.Queued = rest ∧
      (q.putBackToIdleOnCompletion = true →
        r.queue.Idle = q.Idle ++ [b] ∧ r.queue.Completed = q.Completed) ∧
      (q.putBackToIdleOnCompletion = false →
        r.queue.Completed = q.Completed ++ [b] ∧ r.queue.Idle = q.Idle) ∧
      r.queue.User = q.User ∧ r.queue.WaitingCredit = q.WaitingCredit ∧
      r.queue.queueStatus = (if s.IsError then q.queueStatus.Assign s else q.queueStatus) ∧
      r.effects = (q.callbackOf b).Call s.GetCode (q.used b) ∧
      r.queue.callbackOf b = BufferCompletionCallbackData.unset := by
  obtain ⟨r, hr⟩ := HandleCompletion_ok hI ha hq s p
  obtain ⟨buf, hbuf, hbufs⟩ := HandleCompletion_buffers hr ha
  have hlt : b < q.buffers.length := by
    by_contra hc
    rw [List.getElem?_eq_none (by omega)] at hbuf
    cases hbuf
  have hcb : r.queue.callbackOf b = BufferCompletionCallbackData.unset := by
    simp only [callbackOf, callbackAt, hbufs, List.getElem?_set_self hlt]
    rfl
  rcases HandleCompletion_cases hI hr with h | h | h
  · rw [ha] at h
    exact absurd h.1 (by decide)
  · obtain ⟨-, ⟨f, rest2, hf, hne⟩, -⟩ := h
    rw [hq] at hf
    simp only [List.cons.injEq] at hf
    exact absurd hf.1 hne
  · obtain ⟨-, ⟨rest2, h1, h2⟩, h3, h4, h5, h6, h7, h8, h9⟩ := h
    rw [hq] at h1
    simp only [List.cons.injEq, true_and] at h1
    subst h1
    refine ⟨r, hr, h9, h2, ?_, ?_, h6, ?_, h7, h8, hcb⟩
    · intro hp
      exact ⟨(h4 hp).1, by simp only [Completed, (h4 hp).2]⟩
    · intro hp
      exact ⟨(h3 hp).1, by simp only [Idle, (h3 hp).2]⟩
    · simp only [WaitingCredit, h5.1]

/-- What `RdmaBuffer::HandleCompletion` does for the buffer at the head of Queued. -/
theorem BufferHandleCompletion_head {q : RdmaBufferQueue} (hI : q.Inv) {b : Nat}
    {rest : List Nat} (ha : q.aborted = false) (hq : q.Queued = b :: rest) (s : RdmaError)
    (bytesTransferred : Nat) :
    ∃ r, q.BufferHandleCompletion b s bytesTransferred = some r ∧ r.result = Except.ok () ∧
      r.queue.Queued = rest ∧
      (q.putBackToIdleOnCompletion = true →
        r.queue.Idle = q.Idle ++ [b] ∧ r.queue.Completed = q.Completed) ∧
      (q.putBackToIdleOnCompletion = false →
        r.queue.Completed = q.Completed ++ [b] ∧ r.queue.Idle = q.Idle) ∧
      r.queue.User = q.User ∧ r.queue.WaitingCredit = q.WaitingCredit ∧
      r.queue.queueStatus = (if s.IsError then q.queueStatus.Assign s else q.queueStatus) ∧
      r.effects = (q.callbackOf b).Call s.GetCode bytesTransferred ∧
      r.queue.callbackOf b = BufferCompletionCallbackData.unset := by
  have hlt : b < q.buffers.length :=
    hI.lt_of_mem_queued (by rw [hq]; exact List.mem_cons_self _ _)
  have hI2 : (q.modifyBuffer b (fun x => { x with usedBytes := bytesTransferred })).Inv :=
    hI.frame _ (by simp [modifyBuffer]) rfl rfl rfl rfl rfl
      (linked_modify_of_same q b _ (fun _ => rfl))
  obtain ⟨r, hr, h1, h2, h3, h4, h5, h6, h7, h8, h9⟩ :=
    @HandleCompletion_head _ hI2 b rest ha hq s false
  refine ⟨r, hr, h1, h2, h3, h4, h5, h6, h7, ?_, h9⟩
  rw [h8]
  simp only [callbackOf, callbackAt, used, modifyBuffer, List.getElem?_modify,
    List.getElem?_eq_getElem hlt, if_true, Option.map_some', RdmaBuffer.GetUsed]
  rfl

end EasyRDMA

/-! ## Credit messages on the wire -/

namespace EasyRDMA

open RdmaConnectedSessionBase

namespace big_uint64_buf_t

end big_uint64_buf_t

namespace RdmaConnectedSessionBase

open big_uint64_buf_t

end RdmaConnectedSessionBase

namespace RdmaConnectedSessionBase

open big_uint64_buf_t

end RdmaConnectedSessionBase

end EasyRDMA

/-! ## Sessions: staged credits and configuration -/

namespace EasyRDMA

theorem SessionRet.andThen_eq_some {α β : Type} {r0 : Option (SessionRet α)}
    {rest : RdmaConnectedSessionBase → α → Option (SessionRet β)} {out : SessionRet β}
    (h : SessionRet.andThen r0 rest = some out) :
    ∃ r, r0 = some r ∧
      ((∃ e, r.result = Except.error e ∧ out = ⟨r.session, Except.error e, r.effects⟩) ∨
       (∃ a r2, r.result = Except.ok a ∧ rest r.session a = some r2 ∧
          out = ⟨r2.session, r2.result, r.effects ++ r2.effects⟩)) := by
  unfold SessionRet.andThen at h
  split at h
  · cases h
  rename_i r
  refine ⟨r, rfl, ?_⟩
  split at h
  · rename_i e he
    cases h
    exact Or.inl ⟨e, he, rfl⟩
  rename_i a ha
  split at h
  · cases h
  rename_i r2 hr2
  cases h
  exact Or.inr ⟨a, r2, ha, hr2, rfl⟩

namespace RdmaConnectedSessionBase

theorem onTransfer_eq_some {α : Type} {s : RdmaConnectedSessionBase}
    {op : RdmaBufferQueue → Option (Ret α)} {out : SessionRet α}
    (h : s.onTransfer op = some out) :
    ∃ q ret, s.transferBuffers = some q ∧ op q = some ret ∧
      out = ⟨{ s with transferBuffers := some ret.queue }, ret.result, ret.effects⟩ := by
  unfold onTransfer at h
  split at h
  · cases h
  rename_i q hq
  simp only [Option.map_eq_some'] at h
  obtain ⟨ret, hret, rfl⟩ := h
  exact ⟨q, ret, hq, hret, rfl⟩

theorem onCredit_eq_some {α : Type} {s : RdmaConnectedSessionBase}
    {op : RdmaBufferQueue → Option (Ret α)} {out : SessionRet α}
    (h : s.onCredit op = some out) :
    ∃ q ret, s.creditBuffers = some q ∧ op q = some ret ∧
      out = ⟨{ s with creditBuffers := some ret.queue }, ret.result, ret.effects⟩ := by
  unfold onCredit at h
  split at h
  · cases h
  rename_i q hq
  simp only [Option.map_eq_some'] at h
  obtain ⟨ret, hret, rfl⟩ := h
  exact ⟨q, ret, hq, hret, rfl⟩

theorem SameCredits.same_refl (s : RdmaConnectedSessionBase) : s.SameCredits s :=
  ⟨rfl, rfl, rfl, rfl, rfl, rfl, rfl, rfl⟩

theorem SameCredits.same_trans {a b c : RdmaConnectedSessionBase} (h1 : a.SameCredits b)
    (h2 : b.SameCredits c) : a.SameCredits c :=
  ⟨h2.1.trans h1.1, h2.2.1.trans h1.2.1, h2.2.2.1.trans h1.2.2.1,
    h2.2.2.2.1.trans h1.2.2.2.1, h2.2.2.2.2.1.trans h1.2.2.2.2.1,
    h2.2.2.2.2.2.1.trans h1.2.2.2.2.2.1, h2.2.2.2.2.2.2.1.trans h1.2.2.2.2.2.2.1,
    h2.2.2.2.2.2.2.2.trans h1.2.2.2.2.2.2.2⟩

theorem SameCredits.same_aligned {s r : RdmaConnectedSessionBase} (h : s.SameCredits r)
    (ha : s.Aligned) : r.Aligned := by
  intro q' hq'
  have h8 := h.2.2.2.2.2.2.2
  rw [hq'] at h8
  cases hs : s.transferBuffers with
  | none => rw [hs] at h8; cases h8
  | some q =>
    rw [hs] at h8
    simp only [Option.map_some', Option.some.injEq, Prod.mk.injEq] at h8
    rw [h8.2, ha q hs, h.2.1]

theorem Keeps.keeps_refl (s : RdmaConnectedSessionBase) : s.Keeps s :=
  fun _ => SameCredits.same_refl s

theorem Keeps.keeps_trans {a b c : RdmaConnectedSessionBase} (h1 : a.Keeps b)
    (h2 : b.Keeps c) : a.Keeps c :=
  fun ha => (h1 ha).same_trans (h2 ((h1 ha).same_aligned ha))

/-- Sequencing keeps what each part keeps. -/
theorem andThen_Keeps {α β : Type} {s : RdmaConnectedSessionBase}
    {r0 : Option (SessionRet α)}
    {rest : RdmaConnectedSessionBase → α → Option (SessionRet β)} {out : SessionRet β}
    (h : SessionRet.andThen r0 rest = some out) (h1 : ∀ r, r0 = some r → s.Keeps r.session)
    (h2 : ∀ s1 a r2, rest s1 a = some r2 → s1.Keeps r2.session) : s.Keeps out.session := by
  obtain ⟨r, hr, hcase⟩ := SessionRet.andThen_eq_some h
  rcases hcase with ⟨e, _, rfl⟩ | ⟨a, r2, _, hr2, rfl⟩
  · exact h1 r hr
  · exact (h1 r hr).keeps_trans (h2 r.session a r2 hr2)

/-- A call on the credit queue keeps the credits of the transfer queue. -/
theorem onCredit_Keeps {α : Type} {s : RdmaConnectedSessionBase}
    {op : RdmaBufferQueue → Option (Ret α)} {out : SessionRet α}
    (h : s.onCredit op = some out) : s.Keeps out.session := by
  obtain ⟨q, ret, _, _, rfl⟩ := onCredit_eq_some h
  exact fun _ => ⟨rfl, rfl, rfl, rfl, rfl, rfl, rfl, rfl⟩

/-- A call on the transfer queue that keeps its credits and its direction. -/
theorem onTransfer_Keeps {α : Type} {s : RdmaConnectedSessionBase}
    {op : RdmaBufferQueue → Option (Ret α)} {out : SessionRet α}
    (h : s.onTransfer op = some out)
    (hop : ∀ q ret, s.transferBuffers = some q → q.direction = s.direction →
      op q = some ret →
      ret.queue.availableCredits = q.availableCredits ∧ ret.queue.direction = q.direction) :
    s.Keeps out.session := by
  obtain ⟨q, ret, hq, hret, rfl⟩ := onTransfer_eq_some h
  intro ha
  obtain ⟨e1, e2⟩ := hop q ret hq (ha q hq) hret
  refine ⟨rfl, rfl, rfl, rfl, rfl, rfl, rfl, ?_⟩
  simp only [hq, Option.map_some', e1, e2]

theorem SendCreditUpdate_Keeps {s : RdmaConnectedSessionBase} {bufferLengths : List Nat}
    {numBuffers : Nat} {world : World} {out : SessionRet Unit}
    (h : s.SendCreditUpdate bufferLengths numBuffers world = some out) :
    s.Keeps out.session := by
  unfold SendCreditUpdate at h
  split at h
  swap
  · cases h
  refine andThen_Keeps h (fun r hr => onCredit_Keeps hr) ?_
  intro s1 creditBuffer r2 hr2
  split at hr2
  · cases hr2
  rename_i q hq
  split at hr2
  swap
  · cases hr2
  rename_i buf memory hbuf hmem
  split at hr2
  · cases hr2
  · cases hr2
    exact Keeps.keeps_refl s1
  · rename_i buf2 memory2 hfill
    have := onCredit_Keeps hr2
    intro ha
    have h2 := this (fun q' hq' => ha q' hq')
    exact ⟨h2.1, h2.2.1, h2.2.2.1, h2.2.2.2.1, h2.2.2.2.2.1, h2.2.2.2.2.2.1,
      h2.2.2.2.2.2.2.1, h2.2.2.2.2.2.2.2⟩

end RdmaConnectedSessionBase

namespace RdmaConnectedSessionBase

open RdmaBufferQueue

theorem QueueRecvBuffer_Keeps {s : RdmaConnectedSessionBase} {buffer : Nat}
    {sendCreditUpdate : Bool} {world : World} {out : SessionRet Unit}
    (h : s.QueueRecvBuffer buffer sendCreditUpdate world = some out) :
    s.Keeps out.session := by
  unfold QueueRecvBuffer at h
  split at h
  swap
  · cases h
  rename_i hdir
  refine andThen_Keeps h (fun r hr => onTransfer_Keeps hr ?_) ?_
  · intro q ret hq hqd hret
    have hst := QueueBuffer_Static hret
    refine ⟨?_, hst.2.1⟩
    have hns : q.direction ≠ Direction.Send := by rw [hqd, hdir]; decide
    rcases QueueBuffer_cases hret with c | c | c | c | c
    · rw [c.1]
    · exact absurd c.2.1 hns
    · exact absurd c.2.2.1 hns
    · exact absurd c.2.2.1 hns
    · exact c.2.2.2.2.1.2.1
  · intro s1 a r2 hr2
    split at hr2
    · split at hr2
      · cases hr2
      split at hr2
      · cases hr2
      exact SendCreditUpdate_Keeps hr2
    · cases hr2
      exact Keeps.keeps_refl s1

theorem postAllReceives_Keeps (world : World) : ∀ (n : Nat) {s : RdmaConnectedSessionBase}
    {bufferLengths : List Nat} {out : SessionRet (List Nat)},
    postAllReceives world n s bufferLengths = some out → s.Keeps out.session := by
  intro n
  induction n with
  | zero =>
    intro s bl out h
    simp only [postAllReceives, Option.some.injEq] at h
    subst h
    exact Keeps.keeps_refl s
  | succ n ih =>
    intro s bl out h
    rw [postAllReceives] at h
    refine andThen_Keeps h (fun r hr => onTransfer_Keeps hr ?_) ?_
    · intro q ret _ _ hret
      exact ⟨(WaitForIdleBuffer_flow hret).1.2.1, (WaitForIdleBuffer_Static hret).2.1⟩
    · intro s1 buffer r2 hr2
      split at hr2
      · cases hr2
      split at hr2
      · cases hr2
      refine andThen_Keeps hr2 (fun r hr => QueueRecvBuffer_Keeps hr) ?_
      intro s2 _ r3 hr3
      exact ih hr3

theorem sendCreditUpdates_Keeps (world : World) (bufferLengths : List Nat) :
    ∀ (updates : List (Nat × Nat)) {s : RdmaConnectedSessionBase} {out : SessionRet Unit},
    sendCreditUpdates world bufferLengths updates s = some out → s.Keeps out.session := by
  intro updates
  induction updates with
  | nil =>
    intro s out h
    simp only [sendCreditUpdates, Option.some.injEq] at h
    subst h
    exact Keeps.keeps_refl s
  | cons u updates ih =>
    intro s out h
    obtain ⟨p, n⟩ := u
    rw [sendCreditUpdates] at h
    exact andThen_Keeps h (fun r hr => SendCreditUpdate_Keeps hr) (fun s1 _ r2 hr2 => ih hr2)

theorem PostConfigure_Keeps {s : RdmaConnectedSessionBase} {world : World}
    {out : SessionRet Unit} (h : s.PostConfigure world = some out) : s.Keeps out.session := by
  unfold PostConfigure at h
  split at h
  · split at h
    · cases h
    refine andThen_Keeps h (fun r hr => postAllReceives_Keeps world _ hr) ?_
    intro s1 bl r2 hr2
    split at hr2
    · cases hr2
    exact sendCreditUpdates_Keeps world bl _ hr2
  · cases h
    exact Keeps.keeps_refl s

/-- On a transfer queue in which no buffer waits for a credit, the staged credits move to
the queue in their order. -/
theorem processPreConfigureCredits_fresh (world : World) : ∀ (credits : List Nat)
    (s : RdmaConnectedSessionBase) (q : RdmaBufferQueue), s.transferBuffers = some q →
    q.buffersQueuedWaitingForCredits.size = 0 → s.preConfigureCredits = credits →
    processPreConfigureCredits world credits s =
      some ⟨{ s with
              transferBuffers := some { q with availableCredits := q.availableCredits ++ credits },
              preConfigureCredits := [] }, Except.ok (), []⟩ := by
  intro credits
  induction credits with
  | nil =>
    intro s q hq _ hc
    simp only [processPreConfigureCredits, List.append_nil]
    congr 2
    cases s
    simp only at hq hc
    subst hq hc
    rfl
  | cons c rest ih =>
    intro s q hq hw hc
    have hadd : q.AddCredit c (world.forAddCredit q) =
        some ⟨{ q with availableCredits := q.availableCredits ++ [c] }, Except.ok (), []⟩ := by
      simp only [RdmaBufferQueue.AddCredit, hw, ne_eq, not_true_eq_false, if_false]
    have hstep := ih
      ({ s with
         transferBuffers := some { q with availableCredits := q.availableCredits ++ [c] },
         preConfigureCredits := rest })
      { q with availableCredits := q.availableCredits ++ [c] } rfl hw rfl
    simp only [processPreConfigureCredits, onTransfer, hq, hadd, Option.map_some',
      SessionRet.andThen, hstep, List.append_assoc, List.singleton_append, List.nil_append]

end RdmaConnectedSessionBase

open RdmaBufferQueue

/-- The constructor of a multi-buffer queue returns, but for a polling Send queue. -/
theorem MultipleBuffer_total (d : Direction) (N bufferSize : Nat) (p : Bool)
    (h : ¬ (p = true ∧ d = Direction.Send)) :
    ∃ q, RdmaBufferQueueMultipleBuffer d N bufferSize p = some (Except.ok q) := by
  have hb : ∃ q1, base d p = Except.ok q1 := by
    unfold base
    split
    · rename_i hc
      simp only [Bool.and_eq_true, beq_iff_eq] at hc
      exact absurd hc h
    · exact ⟨_, rfl⟩
  obtain ⟨q1, hq1⟩ := hb
  obtain ⟨b1, b2, b3, b4, b5, b6, -⟩ := base_spec hq1
  obtain ⟨r, hr, -⟩ :=
    construct_spec (RdmaBuffer.Internal bufferSize) (fun _ => rfl) N q1 b1 b2 b3 b4 b5 b6
  exact ⟨r, by simp only [RdmaBufferQueueMultipleBuffer, hq1, hr, Option.map_some']⟩

/-- The constructor of a single-buffer queue returns, but for a polling Send queue. -/
theorem SingleBuffer_total (d : Direction) (N : Nat) (p : Bool)
    (h : ¬ (p = true ∧ d = Direction.Send)) :
    ∃ q, RdmaBufferQueueSingleBuffer d N p = some (Except.ok q) := by
  have hb : ∃ q1, base d p = Except.ok q1 := by
    unfold base
    split
    · rename_i hc
      simp only [Bool.and_eq_true, beq_iff_eq] at hc
      exact absurd hc h
    · exact ⟨_, rfl⟩
  obtain ⟨q1, hq1⟩ := hb
  obtain ⟨b1, b2, b3, b4, b5, b6, -⟩ := base_spec hq1
  obtain ⟨r, hr, -⟩ :=
    construct_spec RdmaBuffer.External (fun _ => rfl) N
      { q1 with putBackToIdleOnCompletion := true } b1 b2 b3 b4 b5 b6
  exact ⟨r, by simp only [RdmaBufferQueueSingleBuffer, hq1, hr, Option.map_some']⟩

/-- A queue that was just built has no buffer waiting for a credit and no credit. -/
theorem Constructed.is_fresh {N : Nat} {q : RdmaBufferQueue} (h : Constructed N q) :
    q.buffersQueuedWaitingForCredits.size = 0 ∧ q.availableCredits = [] ∧ q.Inv ∧
      q.userBuffers = [] := by
  obtain ⟨hI, -, -, hu, hw, -, -, -, hc, -⟩ := h.spec
  exact ⟨(tCircularFifo.size_eq_zero_iff _ hI.wfWaiting).mpr hw, hc, hI, hu⟩

namespace RdmaConnectedSessionBase

/-- What the two configure functions do once the transfer queue `q` was built: the staged
credits move to the queue and `PostConfigure` keeps them there. -/
theorem configure_tail {s : RdmaConnectedSessionBase} {q : RdmaBufferQueue} {N : Nat}
    (world : World) (hq : Constructed N q) (hd : q.direction = s.direction)
    {out : SessionRet Unit}
    (h : SessionRet.andThen ({ s with transferBuffers := some q }.ProcessPreConfigureCredits
      world) (fun s _ => s.PostConfigure world) = some out) :
    out.session.preConfigureCredits = [] ∧
    (∃ q', out.session.transferBuffers = some q' ∧
      q'.availableCredits = s.preConfigureCredits ∧ q'.direction = s.direction) ∧
    out.session.bufferOwnership = s.bufferOwnership ∧
    out.session.bufferType = s.bufferType ∧ out.session.connected = s.connected ∧
    out.session.direction = s.direction := by
  obtain ⟨hw, hc, -, -⟩ := hq.is_fresh
  have hproc := processPreConfigureCredits_fresh world s.preConfigureCredits
    { s with transferBuffers := some q } q rfl hw rfl
  simp only [ProcessPreConfigureCredits] at h
  rw [hproc] at h
  simp only [SessionRet.andThen, List.nil_append] at h
  split at h
  · cases h
  rename_i r2 hr2
  cases h
  have hk := PostConfigure_Keeps hr2
  have hal : ({ s with
      transferBuffers := some { q with availableCredits := q.availableCredits ++ s.preConfigureCredits },
      preConfigureCredits := [] } : RdmaConnectedSessionBase).Aligned := by
    intro q' hq'
    simp only [Option.some.injEq] at hq'
    subst hq'
    exact hd
  obtain ⟨k1, k2, k3, k4, k5, k6, k7, k8⟩ := hk hal
  refine ⟨k1, ?_, k4, k5, k6, k2⟩
  simp only [Option.map_some'] at k8
  cases ht : r2.session.transferBuffers with
  | none => rw [ht] at k8; cases k8
  | some q' =>
    rw [ht] at k8
    simp only [Option.map_some', Option.some.injEq, Prod.mk.injEq, hc, List.nil_append] at k8
    exact ⟨q', rfl, k8.1, k8.2.trans hd⟩

/-- After a successful `ConfigureBuffers`. -/
theorem ConfigureBuffers_ok {s : RdmaConnectedSessionBase} {a b : Nat} {world : World}
    {out : SessionRet Unit} (hnone : s.transferBuffers = none)
    (h : s.ConfigureBuffers a b world = some out) (hok : out.result = Except.ok ()) :
    out.session.preConfigureCredits = [] ∧
    (∃ q', out.session.transferBuffers = some q' ∧
      q'.availableCredits = s.preConfigureCredits ∧ q'.direction = s.direction) ∧
    out.session.bufferOwnership = BufferOwnership.Internal ∧
    out.session.bufferType = BufferType.Multiple ∧ out.session.connected = true := by
  unfold ConfigureBuffers at h
  simp only [hnone, Option.isSome_none, Bool.false_eq_true, if_false] at h
  split at h
  · cases h; cases hok
  rename_i hconn
  simp only [Bool.not_eq_true, Bool.not_eq_false] at hconn
  split at h
  · cases h
  · cases h; cases hok
  rename_i q hq
  obtain ⟨e1, -⟩ := MultipleBuffer_flags hq
  obtain ⟨t1, t2, t3, t4, t5, t6⟩ := configure_tail world (N := b)
    (s := { s with bufferOwnership := BufferOwnership.Internal,
                   bufferType := BufferType.Multiple, autoQueueRx := true })
    (Or.inl ⟨_, _, _, hq⟩) e1 h
  exact ⟨t1, t2, t3, t4, t5.trans (by simpa using hconn)⟩

/-- After a successful `ConfigureExternalBuffer`. -/
theorem ConfigureExternalBuffer_ok {s : RdmaConnectedSessionBase} {a b : Nat} {world : World}
    {out : SessionRet Unit} (hnone : s.transferBuffers = none)
    (h : s.ConfigureExternalBuffer a b world = some out) (hok : out.result = Except.ok ()) :
    out.session.preConfigureCredits = [] ∧
    (∃ q', out.session.transferBuffers = some q' ∧
      q'.availableCredits = s.preConfigureCredits ∧ q'.direction = s.direction) ∧
    out.session.bufferOwnership = BufferOwnership.External ∧
    out.session.bufferType = BufferType.Single ∧ out.session.connected = s.connected := by
  unfold ConfigureExternalBuffer at h
  simp only [hnone, Option.isSome_none, Bool.false_eq_true, if_false] at h
  split at h
  · cases h; cases hok
  split at h
  · cases h
  · cases h; cases hok
  rename_i q hq
  obtain ⟨e1, -⟩ := SingleBuffer_flags hq
  obtain ⟨t1, t2, t3, t4, t5, t6⟩ := configure_tail world (N := b)
    (s := { s with bufferOwnership := BufferOwnership.External,
                   bufferType := BufferType.Single })
    (Or.inr ⟨_, _, hq⟩) e1 h
  exact ⟨t1, t2, t3, t4, t5⟩

/-- A session that is not a receiver with automatic posting has nothing to do in
`PostConfigure`. -/
theorem PostConfigure_send {s : RdmaConnectedSessionBase} (world : World)
    (h : s.direction ≠ Direction.Receive) :
    s.PostConfigure world = some ⟨s, Except.ok (), []⟩ := by
  simp [PostConfigure, h]

/-- Once the transfer queue of a sender was built, the rest of a configure function runs
to its end. -/
theorem configure_tail_send {s : RdmaConnectedSessionBase} {q : RdmaBufferQueue} {N : Nat}
    (world : World) (hq : Constructed N q) (hdir : s.direction ≠ Direction.Receive) :
    ∃ out, SessionRet.andThen ({ s with transferBuffers := some q }.ProcessPreConfigureCredits
      world) (fun s _ => s.PostConfigure world) = some out ∧ out.result = Except.ok () := by
  obtain ⟨hw, -, -, -⟩ := hq.is_fresh
  simp only [ProcessPreConfigureCredits]
  rw [processPreConfigureCredits_fresh world s.preConfigureCredits
    { s with transferBuffers := some q } q rfl hw rfl]
  simp only [SessionRet.andThen]
  rw [PostConfigure_send world (by simpa using hdir)]
  exact ⟨_, rfl, rfl⟩

/-- On a connected Send session without transfer queue, `ConfigureBuffers` succeeds. -/
theorem ConfigureBuffers_send {s : RdmaConnectedSessionBase} (a b : Nat) (world : World)
    (hnone : s.transferBuffers = none) (hconn : s.connected = true)
    (hdir : s.direction = Direction.Send) (hpoll : s.usePolling = false) :
    ∃ out, s.ConfigureBuffers a b world = some out ∧ out.result = Except.ok () := by
  obtain ⟨q, hq⟩ := MultipleBuffer_total s.direction b a s.usePolling (by simp [hpoll])
  unfold ConfigureBuffers
  rw [if_neg (by simp [hnone]), if_neg (by simp [hconn])]
  simp only [hq]
  exact configure_tail_send (N := b)
    (s := { s with bufferOwnership := BufferOwnership.Internal,
                   bufferType := BufferType.Multiple, autoQueueRx := true })
    world (Or.inl ⟨_, _, _, hq⟩)
    (by show s.direction ≠ Direction.Receive; rw [hdir]; decide)

/-- On a Send session without transfer queue, `ConfigureExternalBuffer` succeeds. -/
theorem ConfigureExternalBuffer_send {s : RdmaConnectedSessionBase} (a b : Nat)
    (world : World) (hnone : s.transferBuffers = none)
    (hdir : s.direction = Direction.Send) (hpoll : s.usePolling = false) :
    ∃ out, s.ConfigureExternalBuffer a b world = some out ∧ out.result = Except.ok () := by
  obtain ⟨q, hq⟩ := SingleBuffer_total s.direction b s.usePolling (by simp [hpoll])
  unfold ConfigureExternalBuffer
  rw [if_neg (by simp [hnone]), if_neg (by simp [hpoll])]
  simp only [hq]
  exact configure_tail_send (N := b)
    (s := { s with bufferOwnership := BufferOwnership.External,
                   bufferType := BufferType.Single })
    world (Or.inr ⟨_, _, hq⟩)
    (by show s.direction ≠ Direction.Receive; rw [hdir]; decide)

end RdmaConnectedSessionBase

namespace RdmaConnectedSessionBase

/-- After a successful configure call of either kind. -/
theorem configure_ok {s : RdmaConnectedSessionBase} {call : ConfigureCall} {world : World}
    {out : SessionRet Unit} (hnone : s.transferBuffers = none)
    (h : s.configure world call = some out) (hok : out.result = Except.ok ()) :
    out.session.preConfigureCredits = [] ∧
    ∃ q', out.session.transferBuffers = some q' ∧
      q'.availableCredits = s.preConfigureCredits ∧ q'.direction = s.direction := by
  cases call with
  | ConfigureBuffers a b =>
    obtain ⟨h1, h2, -⟩ := ConfigureBuffers_ok hnone h hok
    exact ⟨h1, h2⟩
  | ConfigureExternalBuffer a b =>
    obtain ⟨h1, h2, -⟩ := ConfigureExternalBuffer_ok (a := a) hnone h hok
    exact ⟨h1, h2⟩

/-- A credit for a session that has a transfer queue goes to that queue. -/
theorem AddCredit_direct {s : RdmaConnectedSessionBase} {q : RdmaBufferQueue}
    (hq : s.transferBuffers = some q) (c : Nat) (world : World) :
    s.AddCredit c world =
      (q.AddCredit c (world.forAddCredit q)).map
        (fun ret => ⟨{ s with transferBuffers := some ret.queue }, ret.result, ret.effects⟩) := by
  simp only [AddCredit, hq, Option.isSome_some, if_true, onTransfer]

end RdmaConnectedSessionBase

namespace RdmaConnectedSessionBase

/-- The line of the configure function that throws AlreadyConfigured. -/
theorem configure_again {s : RdmaConnectedSessionBase} (h : s.transferBuffers.isSome = true)
    (world : World) (call : ConfigureCall) :
    ∃ line, s.configure world call =
      some ⟨s, Except.error ⟨easyrdma_Error_AlreadyConfigured, 0, fileRdmaConnectedSessionBase,
        line⟩, []⟩ := by
  cases call with
  | ConfigureBuffers a b =>
    exact ⟨174, by simp only [configure, ConfigureBuffers, h, if_true]⟩
  | ConfigureExternalBuffer a b =>
    exact ⟨156, by simp only [configure, ConfigureExternalBuffer, h, if_true]⟩

/-- Every configure call of a list on a configured session fails the same way. -/
theorem configureAll_again (world : World) : ∀ (calls : List ConfigureCall)
    {s : RdmaConnectedSessionBase}, s.transferBuffers.isSome = true →
    ∃ results, configureAll world s calls = some (s, results) ∧
      results.length = calls.length ∧
      ∀ r ∈ results, ∃ line, r = Except.error ⟨easyrdma_Error_AlreadyConfigured, 0,
        fileRdmaConnectedSessionBase, line⟩ := by
  intro calls
  induction calls with
  | nil =>
    intro s _
    exact ⟨[], rfl, rfl, fun r hr => absurd hr (List.not_mem_nil r)⟩
  | cons call calls ih =>
    intro s hs
    obtain ⟨line, hline⟩ := configure_again hs world call
    obtain ⟨results, h1, h2, h3⟩ := ih hs
    refine ⟨Except.error ⟨easyrdma_Error_AlreadyConfigured, 0, fileRdmaConnectedSessionBase,
      line⟩ :: results, ?_, by simp [h2], ?_⟩
    · simp only [configureAll, hline, h1, Option.map_some']
    · intro r hr
      simp only [List.mem_cons] at hr
      rcases hr with rfl | hr
      · exact ⟨line, rfl⟩
      · exact h3 r hr

end RdmaConnectedSessionBase

end EasyRDMA

/-! ## The registry of sessions -/

namespace EasyRDMA

namespace tMap

variable {α : Type}

theorem find_erase (m : tMap α) (k key : Nat) :
    (m.erase k).find key = if key = k then none else m.find key := by
  induction m with
  | nil => simp [erase, find]
  | cons p rest ih =>
    obtain ⟨a, v⟩ := p
    by_cases hak : a = k
    · simp only [erase, hak, if_true, ih, find]
      by_cases hk : key = k
      · simp [hk]
      · have hk' : ¬ k = key := fun e => hk e.symm
        simp [hk, hk']
    · simp only [erase, hak, if_false, find, ih]
      by_cases hk : key = k
      · subst hk
        simp [hak]
      · simp [hk]

theorem find_assign (m : tMap α) (k key : Nat) (v : α) :
    (m.assign k v).find key = if key = k then some v else m.find key := by
  induction m with
  | nil =>
    by_cases hk : key = k
    · simp [assign, find, hk]
    · have hk' : ¬ k = key := fun e => hk e.symm
      simp [assign, find, hk, hk']
  | cons p rest ih =>
    obtain ⟨a, x⟩ := p
    by_cases hk : key = k
    · subst hk
      simp only [assign, if_true]
      split
      · simp [find]
      · split
        · simp [find]
        · rename_i h1 h2
          have h3 : ¬ a = key := fun e => h2 e.symm
          simp [find, h3, ih]
    · have hk' : ¬ k = key := fun e => hk e.symm
      simp only [assign, hk, if_false]
      split
      · simp [find, hk']
      · split
        · rename_i h1 h2
          subst h2
          simp [find, hk']
        · simp [find, ih, hk]

theorem mem_keys_iff (m : tMap α) (key : Nat) :
    key ∈ m.map Prod.fst ↔ (m.find key).isSome := by
  induction m with
  | nil => simp [find]
  | cons p rest ih =>
    obtain ⟨a, x⟩ := p
    by_cases ha : a = key
    · simp [find, ha]
    · have ha' : ¬ key = a := fun e => ha e.symm
      simp only [List.map_cons, List.mem_cons, ha', false_or, find, ha, if_false]
      exact ih

theorem keys_erase (m : tMap α) (k : Nat) :
    (m.erase k).map Prod.fst = (m.map Prod.fst).filter (fun a => a ≠ k) := by
  induction m with
  | nil => rfl
  | cons p rest ih =>
    obtain ⟨a, x⟩ := p
    by_cases ha : a = k
    · simp [erase, ha, ih]
    · simp [erase, ha, ih]

theorem Sorted.sorted_erase {m : tMap α} (hs : m.Sorted) (k : Nat) : (m.erase k).Sorted := by
  unfold Sorted at hs ⊢
  rw [keys_erase]
  exact hs.filter _

theorem Sorted.sorted_assign {m : tMap α} (hs : m.Sorted) (k : Nat) (v : α) :
    (m.assign k v).Sorted := by
  induction m with
  | nil => simp [assign, Sorted]
  | cons p rest ih =>
    obtain ⟨a, x⟩ := p
    have hs' := hs
    simp only [Sorted, List.map_cons, List.pairwise_cons] at hs
    obtain ⟨hlt, hrest⟩ := hs
    simp only [assign]
    split
    · rename_i h1
      simp only [Sorted, List.map_cons, List.pairwise_cons, List.mem_cons, forall_eq_or_imp]
      refine ⟨⟨h1, fun b hb => Nat.lt_trans h1 (hlt b hb)⟩, hlt, hrest⟩
    · split
      · rename_i h1 h2
        subst h2
        exact hs'
      · rename_i h1 h2
        have ih' := ih hrest
        simp only [Sorted, List.map_cons, List.pairwise_cons]
        refine ⟨?_, ih'⟩
        intro b hb
        rw [mem_keys_iff, find_assign] at hb
        by_cases hbk : b = k
        · subst hbk
          omega
        · simp only [hbk, if_false] at hb
          exact hlt b ((mem_keys_iff rest b).mpr hb)

theorem erase_of_find_none : ∀ (m : tMap α) (k : Nat), m.find k = none → m.erase k = m
  | [], _, _ => rfl
  | (a, x) :: rest, k, h => by
    by_cases ha : a = k
    · simp [find, ha] at h
    · simp only [find, ha, if_false] at h
      simp only [erase, ha, if_false, erase_of_find_none rest k h]

theorem size_erase {m : tMap α} (hs : m.Sorted) {k : Nat} (h : (m.find k).isSome) :
    (m.erase k).size + 1 = m.size := by
  induction m with
  | nil => simp [find] at h
  | cons p rest ih =>
    obtain ⟨a, x⟩ := p
    have hs' := hs
    simp only [Sorted, List.map_cons, List.pairwise_cons] at hs
    obtain ⟨hlt, hrest⟩ := hs
    by_cases ha : a = k
    · subst ha
      have hnone : find rest a = none := by
        cases hf : find rest a with
        | none => rfl
        | some y =>
          have := hlt a ((mem_keys_iff rest a).mpr (by rw [hf]; rfl))
          omega
      simp only [erase, if_true, erase_of_find_none rest a hnone, size, List.length_cons]
    · simp only [find, ha, if_false] at h
      have := ih hrest h
      simp only [size] at this
      simp only [erase, ha, if_false, size, List.length_cons]
      omega

theorem size_assign {m : tMap α} (hs : m.Sorted) {k : Nat} (h : (m.find k).isSome) (v : α) :
    (m.assign k v).size = m.size := by
  induction m with
  | nil => simp [find] at h
  | cons p rest ih =>
    obtain ⟨a, x⟩ := p
    simp only [Sorted, List.map_cons, List.pairwise_cons] at hs
    obtain ⟨hlt, hrest⟩ := hs
    simp only [assign]
    split
    · rename_i h1
      by_cases ha : a = k
      · omega
      · simp only [find, ha, if_false] at h
        have := hlt k ((mem_keys_iff rest k).mpr h)
        omega
    · split
      · simp [size]
      · rename_i h1 h2
        have ha : ¬ a = k := fun e => h2 e.symm
        simp only [find, ha, if_false] at h
        have := ih hrest h
        simp only [size] at this
        simp only [size, List.length_cons, this]

end tMap

namespace RdmaBufferQueue

/-- A buffer the user holds is released to idle. -/
theorem ReleaseBuffer_user {q : RdmaBufferQueue} (hI : q.Inv) {b : Nat}
    (hb : b ∈ q.userBuffers) :
    ∃ r, q.ReleaseBuffer b = some r ∧ r.result = Except.ok () ∧ r.effects = [] ∧
      r.queue.Inv ∧ r.queue.User = q.User.erase b ∧ r.queue.Idle = q.Idle ++ [b] ∧
      r.queue.Queued = q.Queued ∧ r.queue.Completed = q.Completed ∧
      r.queue.WaitingCredit = q.WaitingCredit := by
  have hl : q.linked b = true := (hI.hook b).mpr hb
  obtain ⟨hroom, -, -⟩ := hI.room_of_user hb
  obtain ⟨ring, hpush, hlist, -, -⟩ := tCircularFifo.push_spec q.idleBuffers b hroom
  unfold linked at hl
  cases hbuf : q.buffers[b]? with
  | none => rw [hbuf] at hl; cases hl
  | some buf =>
    rw [hbuf] at hl
    simp only at hl
    have hrun : q.ReleaseBuffer b =
        some ⟨{ q.userUnlink b with idleBuffers := ring }, Except.ok (), []⟩ := by
      unfold ReleaseBuffer
      simp only [hbuf, hl, Bool.not_true, Bool.false_eq_true, if_false]
      have : (q.userUnlink b).idleBuffers = q.idleBuffers := rfl
      rw [this, hpush]
    exact ⟨_, hrun, rfl, rfl, hI.user_to_idle hb hpush, rfl, hlist, rfl, rfl, rfl⟩

/-- A buffer the user does not hold is not released: `ReleaseBuffer` throws. -/
theorem ReleaseBuffer_not_user {q : RdmaBufferQueue} (hI : q.Inv) {b : Nat}
    (hlt : b < q.buffers.length) (hb : b ∉ q.userBuffers) :
    q.ReleaseBuffer b =
      some ⟨q, Except.error (RDMA_THROW easyrdma_Error_InvalidOperation 257), []⟩ := by
  have hl : ¬ q.linked b = true := fun h => hb ((hI.hook b).mp h)
  unfold linked at hl
  unfold ReleaseBuffer
  rw [List.getElem?_eq_getElem hlt] at hl ⊢
  simp only [Bool.not_eq_true] at hl
  simp only [hl, Bool.not_false, if_true]

/-- The function `Abort` returns without an exception and leaves the buffers of the
user with the user. -/
theorem Abort_total {q : RdmaBufferQueue} (hI : q.Inv) (errorCode : Int) :
    ∃ r, q.Abort errorCode = some r ∧ r.result = Except.ok () ∧
      r.queue.userBuffers = q.userBuffers ∧ r.queue.Inv := by
  by_cases hna : q.aborted = true
  · refine ⟨⟨q, Except.ok (), []⟩, ?_, rfl, rfl, hI⟩
    simp only [Abort, hna, if_true]
  · have hna' : q.aborted = false := by simpa using hna
    obtain ⟨queued, waiting, idle, bufs, hrun, -⟩ := Abort_spec hI hna' errorCode
    exact ⟨_, hrun, rfl, rfl, Abort_Inv hI hrun⟩

end RdmaBufferQueue

namespace RdmaConnectedSessionBase

/-- The function `Cancel` of a session returns without an exception and leaves the buffers
of the user with the user. -/
theorem Cancel_total {s : RdmaConnectedSessionBase} (hw : s.WF) :
    ∃ r, s.Cancel = some r ∧ r.result = Except.ok () ∧ r.session.WF ∧
      (RdmaSession.Connected r.session).User = (RdmaSession.Connected s).User ∧
      r.session.CheckDeferredDestructionConditionsMet =
        s.CheckDeferredDestructionConditionsMet := by
  obtain ⟨ht, hc⟩ := hw
  -- the credit queue first
  have h1 : ∃ r1, (if s.creditBuffers.isSome then
        s.onCredit (fun q => q.Abort easyrdma_Error_OperationCancelled)
      else some ⟨s, Except.ok (), []⟩) = some r1 ∧ r1.result = Except.ok () ∧
      r1.session.transferBuffers = s.transferBuffers ∧
      (∀ q, r1.session.creditBuffers = some q → q.Inv) := by
    cases hcb : s.creditBuffers with
    | none =>
      refine ⟨⟨s, Except.ok (), []⟩, by simp, rfl, rfl, ?_⟩
      intro q hq
      exact hc q (by simpa using hq)
    | some c =>
      obtain ⟨r, hr, hok, -, hinv⟩ := RdmaBufferQueue.Abort_total (hc c hcb) easyrdma_Error_OperationCancelled
      refine ⟨⟨{ s with creditBuffers := some r.queue }, r.result, r.effects⟩, ?_, hok, rfl,
        ?_⟩
      · simp only [Option.isSome_some, if_true, onCredit, hcb, hr, Option.map_some']
      · intro q hq
        simp only [Option.some.injEq] at hq
        subst hq
        exact hinv
  obtain ⟨r1, hr1, hok1, htr1, hinv1⟩ := h1
  cases htb : s.transferBuffers with
  | none =>
    refine ⟨⟨r1.session, Except.ok (), r1.effects ++ []⟩, ?_, rfl, ⟨?_, hinv1⟩, ?_, ?_⟩
    · unfold Cancel
      rw [hr1]
      simp only [SessionRet.andThen, hok1, htr1, htb, Option.isSome_none, Bool.false_eq_true,
        if_false]
    · intro q hq
      rw [htr1, htb] at hq
      cases hq
    · simp only [RdmaSession.User, htr1, htb]
    · simp only [CheckDeferredDestructionConditionsMet, htr1, htb]
  | some t =>
    obtain ⟨r, hr, hok, huser, hinv⟩ := RdmaBufferQueue.Abort_total (ht t htb) easyrdma_Error_OperationCancelled
    refine ⟨⟨{ r1.session with transferBuffers := some r.queue }, r.result,
      r1.effects ++ r.effects⟩, ?_, hok, ⟨?_, hinv1⟩, ?_, ?_⟩
    · unfold Cancel
      rw [hr1]
      simp only [SessionRet.andThen, hok1, htr1, htb, Option.isSome_some, if_true, onTransfer,
        hr, Option.map_some']
    · intro q hq
      simp only [Option.some.injEq] at hq
      subst hq
      exact hinv
    · simp only [RdmaSession.User, RdmaBufferQueue.User, huser, htb]
    · simp only [CheckDeferredDestructionConditionsMet,
        RdmaBufferQueue.HasUserBuffersOutstanding, huser, htb]

end RdmaConnectedSessionBase

namespace RdmaConnectedSessionBase

theorem with_transferBuffers {s : RdmaConnectedSessionBase} {q : RdmaBufferQueue}
    (h : s.transferBuffers = some q) : { s with transferBuffers := some q } = s := by
  cases s
  simp only at h
  subst h
  rfl

/-- The function `RdmaBuffer::Release()` of a buffer the user holds. -/
theorem Release_user {s : RdmaConnectedSessionBase} {q : RdmaBufferQueue}
    (htb : s.transferBuffers = some q) (hI : q.Inv) {b : Nat} (hb : b ∈ q.User) :
    ∃ q2, s.Release b = some ⟨{ s with transferBuffers := some q2 }, Except.ok (), []⟩ ∧
      q2.Inv ∧ q2.User = q.User.erase b ∧ q2.Idle = q.Idle ++ [b] ∧
      q2.Queued = q.Queued ∧ q2.Completed = q.Completed ∧
      q2.WaitingCredit = q.WaitingCredit := by
  obtain ⟨r, hr, hok, heff, hinv, h1, h2, h3, h4, h5⟩ := RdmaBufferQueue.ReleaseBuffer_user hI hb
  refine ⟨r.queue, ?_, hinv, h1, h2, h3, h4, h5⟩
  simp only [Release, onTransfer, htb, hr, Option.map_some', hok, heff]

/-- The function `RdmaBuffer::Release()` of a buffer the user does not hold. -/
theorem Release_not_user {s : RdmaConnectedSessionBase} {q : RdmaBufferQueue}
    (htb : s.transferBuffers = some q) (hI : q.Inv) {b : Nat} (hlt : b < q.buffers.length)
    (hb : b ∉ q.User) :
    s.Release b =
      some ⟨s, Except.error (RDMA_THROW easyrdma_Error_InvalidOperation 257), []⟩ := by
  simp only [Release, onTransfer, htb, RdmaBufferQueue.ReleaseBuffer_not_user hI hlt hb,
    Option.map_some']
  rw [with_transferBuffers htb]

end RdmaConnectedSessionBase

namespace SessionManager

theorem init_Inv : init.Inv := by
  refine ⟨?_, ?_, ?_, ?_, ?_, ?_⟩
  · simp [init, tMap.Sorted]
  · simp [init, tMap.Sorted]
  · simp [init]
  · intro h hh; simp [init, tMap.find] at hh
  · intro h hh; simp [init, tMap.find] at hh
  · intro h hh; simp [init, tMap.find] at hh

theorem RegisterSession_Inv {m : SessionManager} (hm : m.Inv) (hn : m.nextSession + 1 < 2 ^ 64)
    (session : RdmaSession) : (m.RegisterSession session).2.Inv := by
  have hmod : (m.nextSession + 1) % 2 ^ 64 = m.nextSession + 1 := Nat.mod_eq_of_lt hn
  refine ⟨?_, ?_, ?_, ?_, ?_, ?_⟩
  · exact hm.sortedOpen.sorted_assign _ _
  · exact hm.sortedDeferred
  · simp only [RegisterSession, hmod]
    exact ⟨by omega, hn⟩
  · intro h hh
    simp only [RegisterSession, tMap.find_assign, hmod] at hh ⊢
    by_cases hk : h = m.nextSession
    · subst hk
      exact ⟨hm.next.1, by omega⟩
    · simp only [hk, if_false] at hh
      have := hm.boundOpen h hh
      exact ⟨this.1, by omega⟩
  · intro h hh
    simp only [RegisterSession, hmod] at hh ⊢
    have := hm.boundDeferred h hh
    exact ⟨this.1, by omega⟩
  · intro h hh
    simp only [RegisterSession, tMap.find_assign] at hh
    by_cases hk : h = m.nextSession
    · subst hk
      have := hm.boundDeferred _ hh.2
      omega
    · simp only [hk, if_false] at hh
      exact hm.disjoint h hh

theorem store_Inv {m : SessionManager} (hm : m.Inv) {session : Nat} {c : Bool}
    {sess : RdmaSession} {pending : Bool} (hget : m.GetSession session c =
      Except.ok (sess, pending)) (resource : RdmaSession) :
    (m.store session pending resource).Inv ∧
    (m.store session pending resource).nextSession = m.nextSession := by
  unfold GetSession at hget
  cases hopen : m.sessionMap.find session with
  | some x =>
    rw [hopen] at hget
    simp only [Except.ok.injEq, Prod.mk.injEq] at hget
    obtain ⟨-, rfl⟩ := hget
    refine ⟨⟨?_, ?_, ?_, ?_, ?_, ?_⟩, rfl⟩
    · exact hm.sortedOpen.sorted_assign _ _
    · exact hm.sortedDeferred
    · exact hm.next
    · intro h hh
      simp only [store, Bool.false_eq_true, if_false, tMap.find_assign] at hh ⊢
      by_cases hk : h = session
      · subst hk
        exact hm.boundOpen h (by rw [hopen]; rfl)
      · simp only [hk, if_false] at hh
        exact hm.boundOpen h hh
    · exact hm.boundDeferred
    · intro h hh
      simp only [store, Bool.false_eq_true, if_false, tMap.find_assign] at hh
      by_cases hk : h = session
      · subst hk
        exact hm.disjoint h ⟨by rw [hopen]; rfl, hh.2⟩
      · simp only [hk, if_false] at hh
        exact hm.disjoint h hh
  | none =>
    rw [hopen] at hget
    simp only at hget
    cases hdef : (if c = true then m.deferredCloseSessionMap.find session else none) with
    | none => rw [hdef] at hget; cases hget
    | some x =>
      rw [hdef] at hget
      simp only [Except.ok.injEq, Prod.mk.injEq] at hget
      obtain ⟨-, rfl⟩ := hget
      have hd : m.deferredCloseSessionMap.find session = some x := by
        by_cases hc : c = true
        · simpa [hc] using hdef
        · simp [hc] at hdef
      refine ⟨⟨?_, ?_, ?_, ?_, ?_, ?_⟩, rfl⟩
      · exact hm.sortedOpen
      · exact hm.sortedDeferred.sorted_assign _ _
      · exact hm.next
      · exact hm.boundOpen
      · intro h hh
        simp only [store, if_true, tMap.find_assign] at hh ⊢
        by_cases hk : h = session
        · subst hk
          exact hm.boundDeferred h (by rw [hd]; rfl)
        · simp only [hk, if_false] at hh
          exact hm.boundDeferred h hh
      · intro h hh
        simp only [store, if_true, tMap.find_assign] at hh
        by_cases hk : h = session
        · subst hk
          rw [hopen] at hh
          simp at hh
        · simp only [hk, if_false] at hh
          exact hm.disjoint h hh

theorem erase_deferred_Inv {m : SessionManager} (hm : m.Inv) (session : Nat) :
    ({ m with deferredCloseSessionMap := m.deferredCloseSessionMap.erase session } :
      SessionManager).Inv := by
  refine ⟨hm.sortedOpen, hm.sortedDeferred.sorted_erase _, hm.next, hm.boundOpen, ?_, ?_⟩
  · intro h hh
    simp only [tMap.find_erase] at hh
    by_cases hk : h = session
    · simp [hk] at hh
    · simp only [hk, if_false] at hh
      exact hm.boundDeferred h hh
  · intro h hh
    simp only [tMap.find_erase] at hh
    by_cases hk : h = session
    · simp [hk] at hh
    · simp only [hk, if_false] at hh
      exact hm.disjoint h hh

theorem CheckDeferredSessionDestructionReady_Inv {m m2 : SessionManager} (hm : m.Inv)
    {sessionRef : RdmaSession × Bool} {sessionHandle : Nat}
    (h : m.CheckDeferredSessionDestructionReady sessionRef sessionHandle = some m2) :
    m2.Inv ∧ m2.nextSession = m.nextSession := by
  unfold CheckDeferredSessionDestructionReady at h
  split at h
  · cases h
  split at h
  · split at h
    · cases h
      exact ⟨erase_deferred_Inv hm _, rfl⟩
    · cases h
  · cases h
    exact ⟨hm, rfl⟩

/-- What `DestroySession` does with a handle that is in the open table, given what `Cancel`
does with the session. -/
theorem DestroySession_open {m : SessionManager} {session flags : Nat}
    {erasedSession cancelled : RdmaSession} {result : Except RdmaError Unit}
    {effects : List Effect} (hopen : m.sessionMap.find session = some erasedSession)
    (hcancel : erasedSession.Cancel = some (cancelled, result, effects)) :
    m.DestroySession session flags =
      some ⟨{ m with sessionMap := m.sessionMap.erase session,
                     deferredCloseSessionMap :=
                       if flags &&& easyrdma_CloseFlags_DeferWhileUserBuffersOutstanding ≠ 0 ∧
                           erasedSession.CheckDeferredDestructionConditionsMet = false then
                         m.deferredCloseSessionMap.assign session cancelled
                       else m.deferredCloseSessionMap },
            result, effects⟩ := by
  unfold DestroySession
  simp only [hopen, hcancel, Bool.not_eq_true', ne_eq, Bool.decide_and, Bool.decide_eq_true,
    Bool.and_eq_true, decide_eq_true_eq, Bool.not_eq_true]

theorem DestroySession_Inv {m : SessionManager} (hm : m.Inv) {session flags : Nat}
    {r : ManagerRet Unit} (h : m.DestroySession session flags = some r) :
    r.manager.Inv ∧ r.manager.nextSession = m.nextSession := by
  cases hopen : m.sessionMap.find session with
  | none =>
    simp only [DestroySession, hopen, Option.some.injEq] at h
    subst h
    exact ⟨hm, rfl⟩
  | some erasedSession =>
    cases hcancel : erasedSession.Cancel with
    | none => simp [DestroySession, hopen, hcancel] at h
    | some c =>
      obtain ⟨cancelled, result, effects⟩ := c
      rw [DestroySession_open hopen hcancel, Option.some.injEq] at h
      subst h
      refine ⟨⟨hm.sortedOpen.sorted_erase _, ?_, hm.next, ?_, ?_, ?_⟩, rfl⟩
      · simp only
        split
        · exact hm.sortedDeferred.sorted_assign _ _
        · exact hm.sortedDeferred
      · intro h hh
        simp only [tMap.find_erase] at hh
        by_cases hk : h = session
        · simp [hk] at hh
        · simp only [hk, if_false] at hh
          exact hm.boundOpen h hh
      · intro h hh
        simp only at hh ⊢
        split at hh
        · rw [tMap.find_assign] at hh
          by_cases hk : h = session
          · subst hk
            exact hm.boundOpen h (by rw [hopen]; rfl)
          · simp only [hk, if_false] at hh
            exact hm.boundDeferred h hh
        · exact hm.boundDeferred h hh
      · intro h hh
        simp only [tMap.find_erase] at hh
        by_cases hk : h = session
        · simp [hk] at hh
        · simp only [hk, if_false] at hh
          obtain ⟨h1, h2⟩ := hh
          split at h2
          · rw [tMap.find_assign] at h2
            simp only [hk, if_false] at h2
            exact hm.disjoint h ⟨h1, h2⟩
          · exact hm.disjoint h ⟨h1, h2⟩

end SessionManager

open SessionManager

theorem easyrdma_CloseSession_Inv {m : SessionManager} (hm : m.Inv) {session flags : Nat}
    {r : ApiRet} (h : easyrdma_CloseSession m session flags = some r) :
    r.manager.Inv ∧ r.manager.nextSession = m.nextSession := by
  unfold easyrdma_CloseSession at h
  split at h
  · split at h
    · cases h
    · rename_i r0 hr0
      have := DestroySession_Inv hm hr0
      split at h <;> (cases h; exact this)
  · cases h
    exact ⟨hm, rfl⟩

theorem easyrdma_ReleaseReceivedBufferRegion_Inv {m : SessionManager} (hm : m.Inv)
    {session : Nat} {bufferRegion : Option easyrdma_InternalBufferRegion} {world : World}
    {r : ApiRet} (h : easyrdma_ReleaseReceivedBufferRegion m session bufferRegion world = some r) :
    r.manager.Inv ∧ r.manager.nextSession = m.nextSession := by
  unfold easyrdma_ReleaseReceivedBufferRegion at h
  split at h
  · cases h; exact ⟨hm, rfl⟩
  split at h
  · cases h; exact ⟨hm, rfl⟩
  split at h
  · cases h; exact ⟨hm, rfl⟩
  split at h
  · cases h; exact ⟨hm, rfl⟩
  rename_i sessionRef destructionPending hget
  split at h
  · split at h
    · cases h
    split at h
    · cases h; exact store_Inv hm hget _
    split at h
    · split at h
      · cases h
      · cases h; exact store_Inv hm hget _
    · cases h; exact store_Inv hm hget _
  · cases h

theorem easyrdma_ReleaseUserBufferRegionToIdle_Inv {m : SessionManager} (hm : m.Inv)
    {session : Nat} {bufferRegion : Option easyrdma_InternalBufferRegion}
    {r : ApiRet} (h : easyrdma_ReleaseUserBufferRegionToIdle m session bufferRegion = some r) :
    r.manager.Inv ∧ r.manager.nextSession = m.nextSession := by
  unfold easyrdma_ReleaseUserBufferRegionToIdle at h
  split at h
  · cases h; exact ⟨hm, rfl⟩
  split at h
  · cases h; exact ⟨hm, rfl⟩
  split at h
  · cases h; exact ⟨hm, rfl⟩
  split at h
  · cases h; exact ⟨hm, rfl⟩
  rename_i sessionRef destructionPending hget
  split at h
  · split at h
    · cases h
    rename_i r0 hr0
    have hst := store_Inv hm hget (RdmaSession.Connected r0.session)
    simp only at h
    split at h
    · cases h; exact hst
    split at h
    · split at h
      · cases h
      · rename_i m2 hm2
        cases h
        have := CheckDeferredSessionDestructionReady_Inv hst.1 hm2
        exact ⟨this.1, this.2.trans hst.2⟩
    · cases h; exact hst
  · cases h

namespace SessionManager

theorem registry_call_Inv {m m2 : SessionManager} (hm : m.Inv) {c : RegistryCall}
    (hn : m.nextSession + registrations [c] < 2 ^ 64) (h : m.call c = some m2) :
    m2.Inv ∧ m2.nextSession = m.nextSession + registrations [c] := by
  cases c with
  | RegisterSession session =>
    simp only [call, Option.some.injEq] at h
    subst h
    simp only [registrations] at hn ⊢
    refine ⟨RegisterSession_Inv hm (by omega) session, ?_⟩
    simp only [RegisterSession]
    exact Nat.mod_eq_of_lt (by omega)
  | CloseSession session flags =>
    simp only [call, Option.map_eq_some'] at h
    obtain ⟨r, hr, rfl⟩ := h
    exact easyrdma_CloseSession_Inv hm hr
  | ReleaseReceivedBufferRegion session bufferRegion world =>
    simp only [call, Option.map_eq_some'] at h
    obtain ⟨r, hr, rfl⟩ := h
    exact easyrdma_ReleaseReceivedBufferRegion_Inv hm hr
  | ReleaseUserBufferRegionToIdle session bufferRegion =>
    simp only [call, Option.map_eq_some'] at h
    obtain ⟨r, hr, rfl⟩ := h
    exact easyrdma_ReleaseUserBufferRegionToIdle_Inv hm hr
  | Use session checkDeferredCloseTable resource =>
    simp only [call] at h
    split at h
    · rename_i sess pending hget
      cases h
      exact store_Inv hm hget resource
    · cases h
      exact ⟨hm, rfl⟩

theorem registrations_cons (c : RegistryCall) (cs : List RegistryCall) :
    registrations (c :: cs) = registrations [c] + registrations cs := by
  cases c <;> simp only [registrations] <;> omega

theorem registry_run_Inv : ∀ (calls : List RegistryCall) {m m2 : SessionManager}, m.Inv →
    m.nextSession + registrations calls < 2 ^ 64 → m.run calls = some m2 → m2.Inv
  | [], m, m2, hm, _, h => by
    simp only [run, Option.some.injEq] at h
    subst h
    exact hm
  | c :: cs, m, m2, hm, hn, h => by
    rw [registrations_cons] at hn
    simp only [run] at h
    split at h
    · cases h
    · rename_i m1 hm1
      obtain ⟨h1, h2⟩ := registry_call_Inv hm (by omega) hm1
      exact registry_run_Inv cs h1 (by omega) h

end SessionManager

theorem Registry.registry_inv {m : SessionManager} (h : Registry m) : m.Inv := by
  obtain ⟨calls, hrun, hn⟩ := h
  refine registry_run_Inv calls init_Inv ?_ hrun
  simp only [init]
  omega

theorem tMap.assign_self {α : Type} : ∀ {m : tMap α}, m.Sorted → ∀ {k : Nat} {v : α},
    m.find k = some v → m.assign k v = m
  | [], _, _, _, h => by simp [tMap.find] at h
  | (a, x) :: rest, hs, k, v, h => by
    simp only [tMap.Sorted, List.map_cons, List.pairwise_cons] at hs
    obtain ⟨hlt, hrest⟩ := hs
    by_cases ha : a = k
    · subst ha
      simp only [tMap.find, if_true, Option.some.injEq] at h
      subst h
      simp [tMap.assign]
    · simp only [tMap.find, ha, if_false] at h
      have hak : a < k := hlt k ((tMap.mem_keys_iff rest k).mpr (by rw [h]; rfl))
      have h1 : ¬ k < a := by omega
      have h2 : ¬ k = a := fun e => ha e.symm
      simp only [tMap.assign, h1, h2, if_false, tMap.assign_self hrest h]

open SessionManager RdmaConnectedSessionBase

/-- The function `easyrdma_ReleaseReceivedBufferRegion` on an open session that is not
connected, for a buffer the user holds. -/
theorem ReleaseReceived_disconnected {m : SessionManager} {h : Nat}
    {s : RdmaConnectedSessionBase} {q : RdmaBufferQueue} {b : Nat} (world : World)
    (h0 : h ≠ 0) (hopen : m.sessionMap.find h = some (RdmaSession.Connected s))
    (hdisc : s.connected = false) (htb : s.transferBuffers = some q) (hI : q.Inv)
    (hb : b ∈ q.User) :
    ∃ q2, easyrdma_ReleaseReceivedBufferRegion m h (some ⟨h, some b⟩) world =
        some ⟨m.store h false (RdmaSession.Connected { s with transferBuffers := some q2 }),
          RdmaError.success, []⟩ ∧
      q2.Inv ∧ q2.User = q.User.erase b ∧ q2.Idle = q.Idle ++ [b] ∧
      q2.Queued = q.Queued ∧ q2.Completed = q.Completed ∧
      q2.WaitingCredit = q.WaitingCredit := by
  obtain ⟨q2, hrel, hrest⟩ := Release_user htb hI hb
  refine ⟨q2, ?_, hrest⟩
  have hget : m.GetSession h false = Except.ok (RdmaSession.Connected s, false) := by
    simp only [GetSession, hopen]
  have hreq : s.Requeue b world = some ⟨s, Except.error ⟨easyrdma_Error_Disconnected, 0,
      fileRdmaConnectedSessionBase, 211⟩, []⟩ := by
    simp only [Requeue, RdmaConnectedSessionBase.QueueBuffer, hdisc, Bool.not_false, if_true]
  unfold easyrdma_ReleaseReceivedBufferRegion
  simp only [h0, false_or, if_false, ne_eq, not_true_eq_false, hget, hreq, RdmaError.GetCode,
    if_true, hrel, List.append_nil, reduceCtorEq]

/-- The function `easyrdma_ReleaseReceivedBufferRegion` on an open session that is not
connected, for a buffer the user does not hold. -/
theorem ReleaseReceived_not_user {m : SessionManager} {h : Nat}
    {s : RdmaConnectedSessionBase} {q : RdmaBufferQueue} {b : Nat} (world : World)
    (h0 : h ≠ 0) (hsorted : m.sessionMap.Sorted)
    (hopen : m.sessionMap.find h = some (RdmaSession.Connected s))
    (hdisc : s.connected = false) (htb : s.transferBuffers = some q) (hI : q.Inv)
    (hlt : b < q.buffers.length) (hb : b ∉ q.User) :
    easyrdma_ReleaseReceivedBufferRegion m h (some ⟨h, some b⟩) world =
      some ⟨m, API_CATCH_EXCEPTION (RDMA_THROW easyrdma_Error_InvalidOperation 257), []⟩ := by
  have hrel := Release_not_user htb hI hlt hb
  have hget : m.GetSession h false = Except.ok (RdmaSession.Connected s, false) := by
    simp only [GetSession, hopen]
  have hreq : s.Requeue b world = some ⟨s, Except.error ⟨easyrdma_Error_Disconnected, 0,
      fileRdmaConnectedSessionBase, 211⟩, []⟩ := by
    simp only [Requeue, RdmaConnectedSessionBase.QueueBuffer, hdisc, Bool.not_false, if_true]
  have hstore : m.store h false (RdmaSession.Connected s) = m := by
    simp only [store, Bool.false_eq_true, if_false, tMap.assign_self hsorted hopen]
  unfold easyrdma_ReleaseReceivedBufferRegion
  simp only [h0, false_or, if_false, ne_eq, not_true_eq_false, hget, hreq, RdmaError.GetCode,
    if_true, hrel, List.append_nil, reduceCtorEq, hstore]

namespace RdmaSession

theorem session_Cancel_total {sess : RdmaSession} (hw : sess.WF) :
    ∃ cancelled effects, sess.Cancel = some (cancelled, Except.ok (), effects) ∧
      cancelled.User = sess.User ∧ cancelled.WF := by
  cases sess with
  | Listener => exact ⟨Listener, [], rfl, rfl, trivial⟩
  | Connected s =>
    obtain ⟨r, hr, hok, hwf, huser, -⟩ := RdmaConnectedSessionBase.Cancel_total hw
    refine ⟨Connected r.session, r.effects, ?_, huser, hwf⟩
    simp only [Cancel, hr, Option.map_some', hok]

theorem conditions_iff (sess : RdmaSession) :
    sess.CheckDeferredDestructionConditionsMet = false ↔ sess.User ≠ [] := by
  cases sess with
  | Listener => simp [CheckDeferredDestructionConditionsMet, User]
  | Connected s =>
    simp only [CheckDeferredDestructionConditionsMet,
      RdmaConnectedSessionBase.CheckDeferredDestructionConditionsMet, User]
    cases s.transferBuffers with
    | none => simp
    | some q =>
      simp only [RdmaBufferQueue.HasUserBuffersOutstanding, RdmaBufferQueue.User]
      cases q.userBuffers <;> simp

end RdmaSession

/-- One call of `easyrdma_ReleaseUserBufferRegionToIdle` for a buffer that the user holds
of a session in the deferred-close table: the session is erased when it was the last
buffer of the user and stays otherwise. -/
theorem ReleaseToIdle_deferred {m : SessionManager} (hI : m.Inv) {h : Nat}
    {s : RdmaConnectedSessionBase} {q : RdmaBufferQueue} {b : Nat}
    (hdef : m.deferredCloseSessionMap.find h = some (RdmaSession.Connected s))
    (htb : s.transferBuffers = some q) (hq : q.Inv) (hb : b ∈ q.User) :
    ∃ q2 m2, easyrdma_ReleaseUserBufferRegionToIdle m h (some ⟨h, some b⟩) =
        some ⟨m2, RdmaError.success, []⟩ ∧
      q2.Inv ∧ q2.User = q.User.erase b ∧ q2.Idle = q.Idle ++ [b] ∧
      m2.Inv ∧ m2.sessionMap = m.sessionMap ∧
      (∀ x, x ≠ h → m2.deferredCloseSessionMap.find x = m.deferredCloseSessionMap.find x) ∧
      (q.User.erase b ≠ [] →
        m2.deferredCloseSessionMap.find h =
          some (RdmaSession.Connected { s with transferBuffers := some q2 }) ∧
        m2.GetDeferredCloseSessions = m.GetDeferredCloseSessions) ∧
      (q.User.erase b = [] →
        m2.deferredCloseSessionMap.find h = none ∧
        m2.GetDeferredCloseSessions + 1 = m.GetDeferredCloseSessions) := by
  obtain ⟨q2, hrel, hq2, hu2, hi2, -⟩ := Release_user htb hq hb
  have hsome : (m.deferredCloseSessionMap.find h).isSome := by rw [hdef]; rfl
  have h0 : h ≠ 0 := by
    have := (hI.boundDeferred h hsome).1
    omega
  have hopen : m.sessionMap.find h = none := by
    cases ho : m.sessionMap.find h with
    | none => rfl
    | some x => exact absurd ⟨by rw [ho]; rfl, hsome⟩ (hI.disjoint h)
  have hget : m.GetSession h true = Except.ok (RdmaSession.Connected s, true) := by
    simp only [GetSession, hopen, if_true, hdef]
  have hst := (store_Inv hI hget
    (RdmaSession.Connected { s with transferBuffers := some q2 })).1
  have hcond : (RdmaSession.Connected
      { s with transferBuffers := some q2 }).CheckDeferredDestructionConditionsMet =
      decide (q.User.erase b = []) := by
    simp only [RdmaSession.CheckDeferredDestructionConditionsMet,
      RdmaConnectedSessionBase.CheckDeferredDestructionConditionsMet,
      RdmaBufferQueue.HasUserBuffersOutstanding, Bool.not_not]
    have : q2.userBuffers = q.User.erase b := hu2
    rw [this]
    cases q.User.erase b <;> simp
  by_cases hlast : q.User.erase b = []
  · refine ⟨q2, { m.store h true (RdmaSession.Connected { s with transferBuffers := some q2 })
        with deferredCloseSessionMap :=
          (m.store h true (RdmaSession.Connected
            { s with transferBuffers := some q2 })).deferredCloseSessionMap.erase h },
      ?_, hq2, hu2, hi2, erase_deferred_Inv hst h, rfl, ?_, fun hne => absurd hlast hne, ?_⟩
    · unfold easyrdma_ReleaseUserBufferRegionToIdle
      simp only [h0, false_or, if_false, ne_eq, not_true_eq_false, hget, hrel, if_true,
        CheckDeferredSessionDestructionReady, Bool.not_true, Bool.false_eq_true, hcond, hlast,
        decide_True, reduceCtorEq]
      simp only [store, if_true, tMap.find_assign, Option.isSome_some]
    · intro x hx
      simp only [store, if_true, tMap.find_erase, tMap.find_assign, hx, if_false]
    · intro _
      refine ⟨by simp only [tMap.find_erase, if_true], ?_⟩
      have h1 := tMap.size_erase hst.sortedDeferred (k := h)
        (by simp only [store, if_true, tMap.find_assign, Option.isSome_some])
      have h2 := tMap.size_assign hI.sortedDeferred hsome
        (RdmaSession.Connected { s with transferBuffers := some q2 })
      simp only [GetDeferredCloseSessions, store, if_true] at h1 ⊢
      omega
  · refine ⟨q2, m.store h true (RdmaSession.Connected { s with transferBuffers := some q2 }),
      ?_, hq2, hu2, hi2, hst, rfl, ?_, ?_, fun he => absurd he hlast⟩
    · unfold easyrdma_ReleaseUserBufferRegionToIdle
      simp only [h0, false_or, if_false, ne_eq, not_true_eq_false, hget, hrel, if_true,
        CheckDeferredSessionDestructionReady, Bool.not_true, Bool.false_eq_true, hcond, hlast,
        decide_False, reduceCtorEq]
    · intro x hx
      simp only [store, if_true, tMap.find_assign, hx, if_false]
    · intro _
      refine ⟨by simp only [store, if_true, tMap.find_assign], ?_⟩
      exact tMap.size_assign hI.sortedDeferred hsome _

/-- Releasing the buffers of the user of a session in the deferred-close table, in any
order. -/
theorem releaseAll_deferred (h : Nat) : ∀ (bs : List Nat) {m : SessionManager}
    {s : RdmaConnectedSessionBase} {q : RdmaBufferQueue}, m.Inv →
    m.deferredCloseSessionMap.find h = some (RdmaSession.Connected s) →
    s.transferBuffers = some q → q.Inv → bs.Perm q.User →
    ∃ outs, releaseAll h m bs = some outs ∧ outs.length = bs.length ∧
      ∀ j, j < bs.length → ∃ r, outs[j]? = some r ∧ r.status = RdmaError.success ∧
        r.effects = [] ∧ r.manager.sessionMap = m.sessionMap ∧
        (∀ x, x ≠ h →
          r.manager.deferredCloseSessionMap.find x = m.deferredCloseSessionMap.find x) ∧
        (j + 1 < bs.length →
          r.manager.GetDeferredCloseSessions = m.GetDeferredCloseSessions ∧
          ∃ sj qj, r.manager.deferredCloseSessionMap.find h =
              some (RdmaSession.Connected sj) ∧
            sj.transferBuffers = some qj ∧ qj.Idle = q.Idle ++ bs.take (j + 1) ∧
            qj.User.Perm (bs.drop (j + 1))) ∧
        (j + 1 = bs.length →
          r.manager.deferredCloseSessionMap.find h = none ∧
          r.manager.GetDeferredCloseSessions + 1 = m.GetDeferredCloseSessions)
  | [], m, s, q, _, _, _, _, _ => ⟨[], rfl, rfl, fun j hj => absurd hj (Nat.not_lt_zero j)⟩
  | b :: bs, m, s, q, hI, hdef, htb, hq, hperm => by
    have hb : b ∈ q.User := hperm.subset (List.mem_cons_self b bs)
    have hperm2 : bs.Perm (q.User.erase b) := by
      have := hperm.erase b
      rwa [List.erase_cons_head] at this
    obtain ⟨q2, m2, hrun, hq2, hu2, hi2, hI2, hopen2, hother2, hstay, hgone⟩ :=
      ReleaseToIdle_deferred hI hdef htb hq hb
    by_cases hnil : bs = []
    · subst hnil
      have hlast : q.User.erase b = [] := List.Perm.eq_nil hperm2.symm
      obtain ⟨hg1, hg2⟩ := hgone hlast
      refine ⟨[⟨m2, RdmaError.success, []⟩], ?_, rfl, ?_⟩
      · simp only [releaseAll, hrun, Option.map_some']
      · intro j hj
        have hj0 : j = 0 := by simp only [List.length_singleton] at hj; omega
        subst hj0
        refine ⟨⟨m2, RdmaError.success, []⟩, rfl, rfl, rfl, hopen2, hother2, ?_, ?_⟩
        · intro hlt
          simp only [List.length_singleton] at hlt
          omega
        · intro _
          exact ⟨hg1, hg2⟩
    · have hne : q.User.erase b ≠ [] := by
        intro he
        rw [he] at hperm2
        exact hnil (List.Perm.eq_nil hperm2)
      obtain ⟨hs1, hs2⟩ := hstay hne
      have hperm3 : bs.Perm q2.User := by rw [hu2]; exact hperm2
      obtain ⟨outs, hall, hlen, hspec⟩ :=
        releaseAll_deferred h bs hI2 hs1 rfl hq2 hperm3
      refine ⟨⟨m2, RdmaError.success, []⟩ :: outs, ?_, ?_, ?_⟩
      · simp only [releaseAll, hrun, hall, Option.map_some']
      · simp only [List.length_cons, hlen]
      · intro j hj
        cases j with
        | zero =>
          refine ⟨⟨m2, RdmaError.success, []⟩, List.getElem?_cons_zero, rfl, rfl, hopen2,
            hother2, ?_, ?_⟩
          · intro _
            refine ⟨hs2, _, q2, hs1, rfl, ?_, ?_⟩
            · simp only [Nat.zero_add, List.take_succ_cons, List.take_zero, hi2]
            · simp only [Nat.zero_add, List.drop_succ_cons, List.drop_zero]
              exact hperm3.symm
          · intro hlen1
            simp only [List.length_cons] at hlen1
            have : bs.length = 0 := by omega
            exact absurd (List.length_eq_zero.mp this) hnil
        | succ j =>
          simp only [List.length_cons] at hj
          obtain ⟨r, hr, hst, heff, ho, hoth, hmid, hend⟩ := hspec j (by omega)
          refine ⟨r, by simpa using hr, hst, heff, ho.trans hopen2, ?_, ?_, ?_⟩
          · intro x hx
            rw [hoth x hx, hother2 x hx]
          · intro hlt
            simp only [List.length_cons] at hlt
            obtain ⟨hsz, sj, qj, hf, htbj, hidle, huser⟩ := hmid (by omega)
            refine ⟨hsz.trans hs2, sj, qj, hf, htbj, ?_, ?_⟩
            · rw [hidle, hi2]
              simp only [List.take_succ_cons, List.append_assoc, List.singleton_append]
            · simpa using huser
          · intro hlen1
            simp only [List.length_cons] at hlen1
            obtain ⟨hf, hsz⟩ := hend (by omega)
            exact ⟨hf, by rw [hsz, hs2]⟩

end EasyRDMA

/-! ## The access manager with one thread -/

namespace EasyRDMA

namespace tAccessManager

theorem Spells.spells_push {nesting : Nat} {stack : List Bool} (h : Spells nesting stack)
    (hlen : stack.length < 32) (x : Bool) :
    Spells (((nesting <<< 1) ||| (if x then 0 else 1)) % 2 ^ 32) (x :: stack) := by
  intro i hi
  simp only [List.length_cons] at hi
  rw [Nat.testBit_mod_two_pow, Nat.testBit_lor]
  have h32 : i < 32 := by omega
  simp only [h32, decide_True, Bool.true_and]
  cases i with
  | zero =>
    cases x <;> simp [Nat.testBit_shiftLeft]
  | succ j =>
    have hj := h j (by omega)
    have h1 : (if x then 0 else 1 : Nat).testBit (j + 1) = false := by
      cases x <;> simp [Nat.testBit_succ]
    simp [Nat.testBit_shiftLeft, hj, h1]

theorem Spells.spells_pop {nesting : Nat} {stack : List Bool} {x : Bool}
    (h : Spells nesting (x :: stack)) :
    (nesting &&& 1 ≠ 0 ↔ x = false) ∧ Spells (nesting >>> 1) stack := by
  constructor
  · have h0 := h 0 (by simp)
    simp only [List.getElem_cons_zero] at h0
    rw [Nat.and_one_is_mod]
    have : nesting.testBit 0 = decide (nesting % 2 = 1) := Nat.testBit_zero _
    rw [this] at h0
    cases x <;> simp at h0 ⊢ <;> omega
  · intro i hi
    have := h (i + 1) (by simp; omega)
    simp only [List.getElem_cons_succ] at this
    rw [Nat.testBit_shiftRight]
    rw [Nat.add_comm]
    exact this

theorem count_false_add_count_true (l : List Bool) :
    l.count false + l.count true = l.length := by
  induction l with
  | nil => rfl
  | cons x l ih => cases x <;> simp [List.count_cons] <;> omega

/-- With nothing active and nothing pending, a request is admitted at once. -/
theorem SatisfyRequest_free (m : tAccessManager) (request : tRequest)
    (ha : m.activeRequests = tRequestList.empty) (hp : m.pendingRequests = tRequestList.empty)
    (hs : request.shared < 2 ^ 32) (he : request.exclusive < 2 ^ 32) :
    m.SatisfyRequest (some request) false false =
      ({ m with activeRequests := ⟨[request], request.shared, request.exclusive⟩ }, false) := by
  simp only [SatisfyRequest, SatisfyRequestWith, ha, hp, tRequestList.empty,
    tRequestList.Count, tRequestList.CountExclusive, tRequestList.AddAtHead,
    tRequest.CountShared, tRequest.CountExclusive]
  simp [Nat.mod_eq_of_lt hs, Nat.mod_eq_of_lt he]
  constructor <;> omega

/-- With nothing pending, the hand-over at the end of `Release` does nothing. -/
theorem SatisfyRequest_nobody (m : tAccessManager)
    (hp : m.pendingRequests = tRequestList.empty) :
    ({ m with pendingRequests := m.pendingRequests.RemoveHead.2 }.SatisfyRequest
      m.pendingRequests.RemoveHead.1 true true).1 = m := by
  cases m
  simp only at hp
  subst hp
  rfl

theorem Remove_empty (tid : Nat) : tRequestList.empty.Remove tid = (none, tRequestList.empty) :=
  rfl

theorem Remove_single (request : tRequest) (hs : request.shared < 2 ^ 32)
    (he : request.exclusive < 2 ^ 32) :
    (⟨[request], request.shared, request.exclusive⟩ : tRequestList).Remove request.tid =
      (some request, tRequestList.empty) := by
  simp only [tRequestList.Remove, tRequest.GetTid, List.find?_cons, beq_self_eq_true,
    List.eraseP_cons, tRequest.CountShared, tRequest.CountExclusive, tRequestList.empty,
    cond_true]
  simp only [Nat.mod_eq_of_lt hs, Nat.mod_eq_of_lt he, Prod.mk.injEq, true_and,
    tRequestList.mk.injEq]
  refine ⟨?_, ?_⟩ <;> omega

/-- One more access on top of a stack of fewer than 32: `Acquire` returns without
waiting. -/
theorem Holds.holds_acquire {m : tAccessManager} {ourTid : Nat} {stack : List Bool}
    (h : m.Holds ourTid stack) (hlen : stack.length < kMaxNestLevel) (exclusive : Bool)
    (raw : tRequest) :
    ∃ m', m.Acquire ourTid exclusive raw = some (m', false) ∧
      m'.Holds ourTid (exclusive :: stack) := by
  obtain ⟨hp, hr, hl, hact⟩ := h
  simp only [kMaxNestLevel] at hlen hl
  have hcnt := count_false_add_count_true stack
  have hinc : m.IncRef.refcount = stack.length + 1 ∧ m.IncRef.pendingRequests = m.pendingRequests
      ∧ m.IncRef.activeRequests = m.activeRequests := by
    simp only [IncRef, hr]
    have : (stack.length + 1) % 2 ^ 32 = stack.length + 1 := Nat.mod_eq_of_lt (by omega)
    rw [this]
    split <;> exact ⟨rfl, rfl, rfl⟩
  obtain ⟨i1, i2, i3⟩ := hinc
  cases stack with
  | nil =>
    simp only at hact
    have hrem : m.IncRef.activeRequests.Remove ourTid = (none, tRequestList.empty) := by
      rw [i3, hact]; rfl
    have hactive : (({ m.IncRef with activeRequests := tRequestList.empty }.operatorNew
        raw).2).activeRequests = tRequestList.empty := by
      simp only [operatorNew]
      split <;> rfl
    have hpending : (({ m.IncRef with activeRequests := tRequestList.empty }.operatorNew
        raw).2).pendingRequests = tRequestList.empty := by
      simp only [operatorNew]
      split <;> simp only [i2, hp]
    have hrefc : (({ m.IncRef with activeRequests := tRequestList.empty }.operatorNew
        raw).2).refcount = 1 := by
      simp only [operatorNew]
      split <;> simp only [i1] <;> rfl
    cases exclusive with
    | false =>
      simp only [Acquire, Bool.false_eq_true, if_false, GetSharedAccess, hrem, tRequest.ctor,
        tRequest.Add, Nat.add_zero, Nat.zero_mod, Nat.zero_lt_succ, if_true,
        Nat.lt_add_one, Nat.reduceMod, Nat.reduceLT]
      rw [SatisfyRequest_free _ _ hactive hpending (by simp) (by simp)]
      refine ⟨_, rfl, hpending, by simpa using hrefc, by simp [kMaxNestLevel], ?_⟩
      refine ⟨_, rfl, rfl, rfl, rfl, rfl, ?_⟩
      have := @Spells.spells_push
        ({ m.IncRef with activeRequests := tRequestList.empty }.operatorNew raw).1.nesting
        [] (fun i hi => absurd hi (by simp)) (by simp) false
      simpa using this
    | true =>
      simp only [Acquire, if_true, GetExclusiveAccess, hrem, tRequest.ctor,
        tRequest.Add, tRequest.AddExclusive, Nat.add_zero, Nat.zero_mod, Nat.zero_lt_succ,
        if_true, Bool.false_eq_true, if_false, Nat.reduceMod, Nat.reduceLT]
      rw [SatisfyRequest_free _ _ hactive hpending (by simp) (by simp)]
      refine ⟨_, rfl, hpending, by simpa using hrefc, by simp [kMaxNestLevel], ?_⟩
      refine ⟨_, rfl, rfl, rfl, rfl, rfl, ?_⟩
      have := @Spells.spells_push
        ({ m.IncRef with activeRequests := tRequestList.empty }.operatorNew raw).1.nesting
        [] (fun i hi => absurd hi (by simp)) (by simp) true
      simpa using this
  | cons y stack =>
    obtain ⟨request, ha, htid, hy, hsh, hex, hsp⟩ := hact
    simp only [List.length_cons] at hlen hl hcnt i1
    have hs32 : request.shared < 2 ^ 32 := by omega
    have he32 : request.exclusive < 2 ^ 32 := by omega
    have hrem : m.IncRef.activeRequests.Remove ourTid = (some request, tRequestList.empty) := by
      rw [i3, ha, ← htid]
      exact Remove_single request hs32 he32
    have hsum : (request.shared + request.exclusive) % 2 ^ 32 < 32 := by
      rw [Nat.mod_eq_of_lt (by omega)]; omega
    cases exclusive with
    | false =>
      simp only [Acquire, Bool.false_eq_true, if_false, GetSharedAccess, hrem, tRequest.Add,
        hsum, if_true]
      refine ⟨_, rfl, by simp only [i2, hp], by simp only [i1, List.length_cons],
        by simp [kMaxNestLevel]; omega, ?_⟩
      have hm1 : (request.shared + 1) % 2 ^ 32 = request.shared + 1 :=
        Nat.mod_eq_of_lt (by omega)
      refine ⟨{ request with shared := (request.shared + 1) % 2 ^ 32,
                             nesting := ((request.nesting <<< 1) ||| 1) % 2 ^ 32 }, ?_, htid,
        hy, ?_, ?_, ?_⟩
      · simp only [tRequestList.AddAtHead, tRequestList.empty, tRequest.CountShared,
          tRequest.CountExclusive, Nat.zero_add, Nat.mod_mod, Nat.mod_eq_of_lt he32]
      · rw [hm1, hsh, List.count_cons_self]
      · simp only [hex]; simp [List.count_cons]
      · have := Spells.spells_push hsp (by simp only [List.length_cons]; omega) false
        simpa using this
    | true =>
      have hm1 : (request.exclusive + 1) % 2 ^ 32 = request.exclusive + 1 :=
        Nat.mod_eq_of_lt (by omega)
      have hadd : request.Add tRequestType.kExclusive =
          some { request with exclusive := (request.exclusive + 1) % 2 ^ 32,
                              nesting := ((request.nesting <<< 1) ||| 0) % 2 ^ 32,
                              yieldedTo := false } := by
        simp only [tRequest.Add, tRequest.AddExclusive, hy, Bool.false_eq_true, if_false, hsum,
          if_true]
        rfl
      have hfin : (({ m.IncRef with activeRequests :=
          ⟨[{ request with exclusive := (request.exclusive + 1) % 2 ^ 32,
                           nesting := ((request.nesting <<< 1) ||| 0) % 2 ^ 32,
                           yieldedTo := false }], request.shared,
            (request.exclusive + 1) % 2 ^ 32⟩ } : tAccessManager)).Holds ourTid
            (true :: y :: stack) := by
        refine ⟨by simp only [i2, hp], by simp only [i1, List.length_cons],
          by simp [kMaxNestLevel]; omega, ?_⟩
        refine ⟨_, rfl, htid, rfl, ?_, ?_, ?_⟩
        · simp only [hsh]; simp [List.count_cons]
        · rw [hm1, hex, List.count_cons_self]
        · have := Spells.spells_push hsp (by simp only [List.length_cons]; omega) true
          simpa using this
      simp only [Acquire, if_true, GetExclusiveAccess, hrem, hadd]
      by_cases h0 : request.CountExclusive ≠ 0
      · rw [if_pos h0]
        refine ⟨_, rfl, ?_⟩
        have : (tRequestList.empty.AddAtHead
            { request with exclusive := (request.exclusive + 1) % 2 ^ 32,
                           nesting := ((request.nesting <<< 1) ||| 0) % 2 ^ 32,
                           yieldedTo := false }) =
            ⟨[{ request with exclusive := (request.exclusive + 1) % 2 ^ 32,
                             nesting := ((request.nesting <<< 1) ||| 0) % 2 ^ 32,
                             yieldedTo := false }], request.shared,
              (request.exclusive + 1) % 2 ^ 32⟩ := by
          simp only [tRequestList.AddAtHead, tRequestList.empty, tRequest.CountShared,
            tRequest.CountExclusive, Nat.zero_add, Nat.mod_mod, Nat.mod_eq_of_lt hs32]
        simp only [this]
        exact hfin
      · rw [if_neg h0]
        have hsat := SatisfyRequest_free
          ({ m.IncRef with activeRequests := tRequestList.empty } : tAccessManager)
          { request with exclusive := (request.exclusive + 1) % 2 ^ 32,
                         nesting := ((request.nesting <<< 1) ||| 0) % 2 ^ 32,
                         yieldedTo := false } rfl (by simp only [i2, hp]) hs32
          (by simp only [hm1]; omega)
        rw [hsat]
        exact ⟨_, rfl, hfin⟩

/-- The newest access of a stack: `Release` returns its mode and the rest of the stack
stays. -/
theorem Holds.holds_release {m : tAccessManager} {ourTid : Nat} {x : Bool} {stack : List Bool}
    (h : m.Holds ourTid (x :: stack)) :
    ∃ m', m.Release ourTid = some (m', x) ∧ m'.Holds ourTid stack ∧
      (stack = [] → m'.allRefsReleased = true) := by
  obtain ⟨hp, hr, hl, request, ha, htid, hy, hsh, hex, hsp⟩ := h
  simp only [kMaxNestLevel, List.length_cons] at hl hr
  have hcnt := count_false_add_count_true stack
  have hcx : (x :: stack).count false + (x :: stack).count true = stack.length + 1 := by
    rw [count_false_add_count_true]; rfl
  have hs32 : request.shared < 2 ^ 32 := by omega
  have he32 : request.exclusive < 2 ^ 32 := by omega
  have hrem : m.activeRequests.Remove ourTid = (some request, tRequestList.empty) := by
    rw [ha, ← htid]
    exact Remove_single request hs32 he32
  obtain ⟨hbit, hsp'⟩ := Spells.spells_pop hsp
  -- the request after RemoveLast
  obtain ⟨request', hrl, hs', he', hy', htid', hn'⟩ : ∃ request' : tRequest,
      request.RemoveLast = some (x, request') ∧ request'.shared = stack.count false ∧
      request'.exclusive = stack.count true ∧ request'.yieldedTo = false ∧
      request'.tid = ourTid ∧ request'.nesting = request.nesting >>> 1 := by
    cases x with
    | false =>
      have hb : request.nesting &&& 1 ≠ 0 := hbit.mpr rfl
      refine ⟨{ request with shared := (request.shared + 2 ^ 32 - 1) % 2 ^ 32,
                             nesting := request.nesting >>> 1 }, ?_, ?_, ?_, hy, htid, rfl⟩
      · simp only [tRequest.RemoveLast, hy, Bool.false_eq_true, if_false, hb, ne_eq,
          not_false_eq_true, if_true]
      · simp only [hsh, List.count_cons_self]
        omega
      · simp only [hex]; simp [List.count_cons]
    | true =>
      have hb : ¬ (request.nesting &&& 1 ≠ 0) := fun hc => by
        have := hbit.mp hc
        cases this
      refine ⟨{ request with exclusive := (request.exclusive + 2 ^ 32 - 1) % 2 ^ 32,
                             nesting := request.nesting >>> 1 }, ?_, ?_, ?_, hy, htid, rfl⟩
      · simp only [tRequest.RemoveLast, hy, Bool.false_eq_true, if_false, hb, if_false]
      · simp only [hsh]; simp [List.count_cons]
      · simp only [hex, List.count_cons_self]
        omega
  have hcount : request'.Count = stack.length := by
    simp only [tRequest.Count, hs', he', hcnt]
    exact Nat.mod_eq_of_lt (by omega)
  have hdec : ∀ m0 : tAccessManager, m0.refcount = stack.length + 1 →
      ∃ m1, m0.DecRef = some m1 ∧ m1.refcount = stack.length ∧
        m1.activeRequests = m0.activeRequests ∧ m1.pendingRequests = m0.pendingRequests ∧
        (stack = [] → m1.allRefsReleased = true) := by
    intro m0 h0
    simp only [DecRef, h0, ne_eq, Nat.add_one_ne_zero, not_false_eq_true, if_true,
      Nat.add_sub_cancel]
    by_cases hz : stack.length = 0
    · rw [if_pos hz]
      exact ⟨_, rfl, rfl, rfl, rfl, fun _ => rfl⟩
    · rw [if_neg hz]
      refine ⟨_, rfl, rfl, rfl, rfl, fun he => ?_⟩
      rw [he] at hz
      exact absurd rfl hz
  simp only [Release, hrem, hrl, hcount]
  cases stack with
  | nil =>
    simp only [List.length_nil, ne_eq, not_true_eq_false, if_false]
    rw [SatisfyRequest_nobody _ (by simp only [operatorDelete]; exact hp)]
    obtain ⟨m1, hm1, e1, e2, e3, e4⟩ :=
      hdec (({ m with activeRequests := tRequestList.empty } : tAccessManager).operatorDelete
        request') (by simp only [operatorDelete, hr])
    rw [hm1]
    refine ⟨m1, rfl, ⟨?_, e1, by simp [kMaxNestLevel], ?_⟩, fun _ => e4 rfl⟩
    · rw [e3]; simp only [operatorDelete]; exact hp
    · simp only
      rw [e2]
      rfl
  | cons z rest =>
    simp only [List.length_cons, ne_eq, Nat.add_one_ne_zero, not_false_eq_true, if_true]
    rw [SatisfyRequest_nobody
      ({ m with activeRequests := tRequestList.empty.AddAtHead request' } : tAccessManager) hp]
    obtain ⟨m1, hm1, e1, e2, e3, e4⟩ :=
      hdec ({ m with activeRequests := tRequestList.empty.AddAtHead request' } : tAccessManager)
        (by simp only [hr, List.length_cons])
    rw [hm1]
    refine ⟨m1, rfl, ⟨?_, e1, by simp only [kMaxNestLevel]; omega, ?_⟩, e4⟩
    · rw [e3]; exact hp
    · refine ⟨request', ?_, htid', hy', hs', he', ?_⟩
      · rw [e2]
        have hc1 := List.count_le_length false (z :: rest)
        have hc2 := List.count_le_length true (z :: rest)
        have h1 : request'.shared < 2 ^ 32 := by
          rw [hs']; omega
        have h2 : request'.exclusive < 2 ^ 32 := by
          rw [he']; omega
        simp only [tRequestList.AddAtHead, tRequestList.empty, tRequest.CountShared,
          tRequest.CountExclusive, Nat.zero_add, Nat.mod_eq_of_lt h1, Nat.mod_eq_of_lt h2]
      · rw [hn']; exact hsp'

/-- Acquiring the modes of a list on top of a stack. -/
theorem Holds.holds_acquires {ourTid : Nat} (raw : tRequest) : ∀ (modes : List Bool)
    {m : tAccessManager} {stack : List Bool}, m.Holds ourTid stack →
    stack.length + modes.length ≤ kMaxNestLevel →
    ∃ m', acquires ourTid raw m modes = some m' ∧ m'.Holds ourTid (modes.reverse ++ stack) := by
  intro modes
  induction modes with
  | nil =>
    intro m stack h _
    exact ⟨m, rfl, by simpa using h⟩
  | cons x modes ih =>
    intro m stack h hlen
    simp only [List.length_cons] at hlen
    obtain ⟨m1, h1, hh1⟩ := h.holds_acquire (by omega) x raw
    obtain ⟨m2, h2, hh2⟩ := ih hh1 (by simp only [List.length_cons]; omega)
    refine ⟨m2, ?_, by simpa using hh2⟩
    simp only [tAccessManager.acquires, h1]
    exact h2

/-- Releasing a whole stack gives its modes, newest first. -/
theorem Holds.holds_releases {ourTid : Nat} : ∀ (stack : List Bool) {m : tAccessManager},
    m.Holds ourTid stack →
    ∃ m', releases ourTid stack.length m = some (m', stack) ∧ m'.Holds ourTid [] ∧
      (stack ≠ [] → m'.allRefsReleased = true) := by
  intro stack
  induction stack with
  | nil =>
    intro m h
    exact ⟨m, rfl, h, fun hc => absurd rfl hc⟩
  | cons x stack ih =>
    intro m h
    obtain ⟨m1, h1, hh1, ha1⟩ := h.holds_release
    obtain ⟨m2, h2, hh2, ha2⟩ := ih hh1
    refine ⟨m2, ?_, hh2, fun _ => ?_⟩
    · simp only [List.length_cons, tAccessManager.releases, h1, h2, Option.map_some']
    · by_cases hs : stack = []
      · subst hs
        simp only [List.length_nil, tAccessManager.releases, Option.some.injEq,
          Prod.mk.injEq, and_true] at h2
        subst h2
        exact ha1 rfl
      · exact ha2 hs

/-- The fresh manager is uncontended. -/
theorem ctorLoop_spec (raw : Nat → tRequest) : ∀ (n i : Nat) (m : tAccessManager),
    (ctorLoop raw n i m).refcount = m.refcount ∧
    (ctorLoop raw n i m).activeRequests = m.activeRequests ∧
    (ctorLoop raw n i m).pendingRequests = m.pendingRequests ∧
    (ctorLoop raw n i m).suspendedRequests = m.suspendedRequests ∧
    (ctorLoop raw n i m).allRefsReleased = m.allRefsReleased := by
  intro n
  induction n with
  | zero => intro i m; exact ⟨rfl, rfl, rfl, rfl, rfl⟩
  | succ n ih =>
    intro i m
    simp only [ctorLoop]
    exact ih _ _

theorem ctor_Holds (raw : Nat → tRequest) (ourTid : Nat) : (ctor raw).Holds ourTid [] := by
  obtain ⟨h1, h2, h3, -, -⟩ := ctorLoop_spec raw kInitialNumberOfRequestsInAccessManager 0
    { refcount := 0, activeRequests := tRequestList.empty,
      pendingRequests := tRequestList.empty, suspendedRequests := tRequestList.empty,
      emptyRequests := tRequestList.empty, allRefsReleased := true }
  exact ⟨h3, h1, by simp [kMaxNestLevel], h2⟩

end tAccessManager

end EasyRDMA

/-! ## Facts about the sample sessions and registries -/

namespace EasyRDMA

open RdmaBufferQueue RdmaConnectedSessionBase SessionManager

set_option maxRecDepth 100000 in
/-- The literal `sampleSender` is the session that the constructor, `PreConnect(Send)` and
`PostConnect()` build. -/
theorem sampleSender_built :
    ((RdmaConnectedSessionBase.ctor []).PreConnect Direction.Send none sampleCreditMemory
      World.quiet).map (fun r => (r.session.PostConnect, r.result)) =
      some (sampleSender, Except.ok ()) := by decide!

set_option maxRecDepth 100000 in
theorem sampleSenderHolding_transfer : sampleSenderHolding.transferBuffers =
    some ((sampleQueue Direction.Send).after sampleCallsHolding) := by decide!

set_option maxRecDepth 100000 in
theorem sampleSenderHolding_credit :
    sampleCreditQueue.exec sampleCallsCredit = sampleSenderHolding.creditBuffers := by decide!

set_option maxRecDepth 100000 in
theorem sampleCreditQueue_constructed : Constructed 100 sampleCreditQueue :=
  Or.inl ⟨Direction.Receive, 800, false, by decide!⟩

theorem sampleSenderHolding_WF : (RdmaSession.Connected sampleSenderHolding).WF := by
  constructor
  · intro q hq
    rw [sampleSenderHolding_transfer, Option.some.injEq] at hq
    subst hq
    exact Reachable.inv ⟨sampleQueue Direction.Send, sampleCallsHolding,
      sampleQueue_constructed Direction.Send (by decide), by decide⟩
  · intro q hq
    exact Reachable.inv ⟨sampleCreditQueue, sampleCallsCredit, sampleCreditQueue_constructed,
      sampleSenderHolding_credit.trans hq⟩

theorem sampleRegistryOpen_registry : Registry sampleRegistryOpen :=
  ⟨sampleRegistryCalls, rfl, by decide⟩

theorem getD_of_isSome {α : Type} {o : Option α} (d : α) (h : o.isSome = true) :
    o = some (o.getD d) := by
  cases o with
  | none => cases h
  | some x => rfl

set_option maxRecDepth 100000 in
theorem sampleRegistryDeferred_registry : Registry sampleRegistryDeferred :=
  ⟨sampleRegistryCalls ++ [RegistryCall.CloseSession 1 1],
    getD_of_isSome SessionManager.init (by decide!), by decide⟩

set_option maxRecDepth 100000 in
theorem sampleRegistryDeferred_find : sampleRegistryDeferred.deferredCloseSessionMap.find 1 =
    some (RdmaSession.Connected sampleSenderCancelled) := by decide!

set_option maxRecDepth 100000 in
theorem sampleSenderCancelled_transfer : sampleSenderCancelled.transferBuffers =
    some ((sampleQueue Direction.Send).after
      (sampleCallsHolding ++ [Call.Abort easyrdma_Error_OperationCancelled])) := by decide!

theorem sampleSenderCancelled_Inv : ((sampleQueue Direction.Send).after
    (sampleCallsHolding ++ [Call.Abort easyrdma_Error_OperationCancelled])).Inv :=
  Reachable.inv ⟨sampleQueue Direction.Send,
    sampleCallsHolding ++ [Call.Abort easyrdma_Error_OperationCancelled],
    sampleQueue_constructed Direction.Send (by decide), by decide⟩

set_option maxRecDepth 100000 in
theorem sampleReceiverClosed_transfer : sampleReceiverClosed.transferBuffers =
    some ((sampleQueue Direction.Receive).after sampleCallsClosed) := by decide!

set_option maxRecDepth 100000 in
theorem sampleReceiverClosed_connected : sampleReceiverClosed.connected = false := by
  decide!

theorem sampleRegistryClosed_registry : Registry sampleRegistryClosed :=
  ⟨[RegistryCall.RegisterSession (RdmaSession.Connected sampleReceiverClosed)], rfl,
    by decide⟩

theorem sampleReceiverClosed_Inv : ((sampleQueue Direction.Receive).after sampleCallsClosed).Inv :=
  Reachable.inv ⟨sampleQueue Direction.Receive, sampleCallsClosed,
    sampleQueue_constructed Direction.Receive (by decide), by decide⟩

end EasyRDMA

/-! ## The claims C11 to C20 -/

namespace EasyRDMA

open RdmaBufferQueue RdmaConnectedSessionBase tAccessManager SessionManager

/-- C11: a queue built by `RdmaBufferQueueMultipleBuffer` has `putBackToIdleOnCompletion`
equal to `direction == Send` and a queue built by `RdmaBufferQueueSingleBuffer` has it
true, in every state reached by calls. On a queue that is not aborted, the completion of
the buffer at the head of Queued (through `RdmaBufferQueue::HandleCompletion`, which reports
the used bytes of the buffer, or through `RdmaBuffer::HandleCompletion`, which reports the
bytes transferred) returns, pops the buffer from Queued, appends it to Idle when
`putBackToIdleOnCompletion` is true and to Completed otherwise, leaves User and
WaitingCredit alone, latches the completion status when it is an error, calls the callback
of the buffer once when one is set, with the two context words, the status code and the
byte count, and leaves the buffer without callback. On an aborted queue it returns without
changing a container and without calling a callback. -/
theorem C11_completion_dispatch (N : Nat) (q0 q : RdmaBufferQueue) (calls : List Call)
    (hc : Constructed N q0) (hex : q0.exec calls = some q) (b : Nat) (s : RdmaError)
    (p : Bool) (bytesTransferred : Nat) :
    ((∃ d bufferSize usePolling,
        RdmaBufferQueueMultipleBuffer d N bufferSize usePolling = some (Except.ok q0)) →
      q.putBackToIdleOnCompletion = (q.direction == Direction.Send)) ∧
    ((∃ d usePolling, RdmaBufferQueueSingleBuffer d N usePolling = some (Except.ok q0)) →
      q.putBackToIdleOnCompletion = true) ∧
    (q.aborted = false → ∀ rest, q.Queued = b :: rest →
      (∃ r, q.HandleCompletion b s p = some r ∧ r.result = Except.ok () ∧
        r.queue.Queued = rest ∧
        (q.putBackToIdleOnCompletion = true →
          r.queue.Idle = q.Idle ++ [b] ∧ r.queue.Completed = q.Completed) ∧
        (q.putBackToIdleOnCompletion = false →
          r.queue.Completed = q.Completed ++ [b] ∧ r.queue.Idle = q.Idle) ∧
        r.queue.User = q.User ∧ r.queue.WaitingCredit = q.WaitingCredit ∧
        r.queue.queueStatus = (if s.IsError then q.queueStatus.Assign s else q.queueStatus) ∧
        r.effects = (if (q.callbackOf b).IsSet then
          [Effect.Callback (q.callbackOf b) s.GetCode (q.used b)] else []) ∧
        r.queue.callbackOf b = BufferCompletionCallbackData.unset) ∧
      (∃ r, q.BufferHandleCompletion b s bytesTransferred = some r ∧
        r.result = Except.ok () ∧ r.queue.Queued = rest ∧
        (q.putBackToIdleOnCompletion = true →
          r.queue.Idle = q.Idle ++ [b] ∧ r.queue.Completed = q.Completed) ∧
        (q.putBackToIdleOnCompletion = false →
          r.queue.Completed = q.Completed ++ [b] ∧ r.queue.Idle = q.Idle) ∧
        r.queue.User = q.User ∧ r.queue.WaitingCredit = q.WaitingCredit ∧
        r.queue.queueStatus = (if s.IsError then q.queueStatus.Assign s else q.queueStatus) ∧
        r.effects = (if (q.callbackOf b).IsSet then
          [Effect.Callback (q.callbackOf b) s.GetCode bytesTransferred] else []) ∧
        r.queue.callbackOf b = BufferCompletionCallbackData.unset)) ∧
    (q.aborted = true →
      q.HandleCompletion b s p = some ⟨q, Except.ok (), []⟩ ∧
      ∃ r, q.BufferHandleCompletion b s bytesTransferred = some r ∧
        r.result = Except.ok () ∧ r.effects = [] ∧ r.queue.idleBuffers = q.idleBuffers ∧
        r.queue.userBuffers = q.userBuffers ∧
        r.queue.buffersQueuedWaitingForCredits = q.buffersQueuedWaitingForCredits ∧
        r.queue.queuedBuffers = q.queuedBuffers ∧
        r.queue.completedBuffers = q.completedBuffers ∧
        r.queue.queueStatus = q.queueStatus ∧
        ∀ c, r.queue.callbackOf c = q.callbackOf c) := by
  have hI : q.Inv := Reachable.inv (N := N) ⟨q0, calls, hc, hex⟩
  have hst := exec_Static calls hex
  refine ⟨?_, ?_, ?_, ?_⟩
  · rintro ⟨d, bufferSize, usePolling, h0⟩
    obtain ⟨e1, e2, -, -⟩ := MultipleBuffer_flags h0
    rw [hst.2.2.1, hst.2.1, e1, e2]
  · rintro ⟨d, usePolling, h0⟩
    obtain ⟨-, e2, -, -⟩ := SingleBuffer_flags h0
    rw [hst.2.2.1, e2]
  · intro ha rest hq
    exact ⟨HandleCompletion_head hI ha hq s p, BufferHandleCompletion_head hI ha hq s _⟩
  · intro ha
    refine ⟨?_, ?_⟩
    · simp [HandleCompletion, ha, BufferCompletionCallbackData.Call,
        BufferCompletionCallbackData.unset, BufferCompletionCallbackData.IsSet]
    · refine ⟨⟨q.modifyBuffer b (fun x => { x with usedBytes := bytesTransferred }),
        Except.ok (), []⟩, ?_, rfl, rfl, rfl, rfl, rfl, rfl, rfl, rfl, ?_⟩
      · simp [BufferHandleCompletion, HandleCompletion, modifyBuffer, ha,
          BufferCompletionCallbackData.Call, BufferCompletionCallbackData.unset,
          BufferCompletionCallbackData.IsSet]
      · intro c
        simp only [callbackOf, callbackAt, modifyBuffer, List.getElem?_modify]
        cases q.buffers[c]? with
        | none => rfl
        | some x => by_cases h : b = c <;> simp [h]

/-- C11 at work: a receive queue with one posted buffer that carries a callback; the
completion with 33 bytes moves the buffer to Completed and calls the callback once. -/
theorem C11_completion_dispatch_witness :
    Constructed 2 (sampleQueue Direction.Receive) ∧
    (sampleQueue Direction.Receive).exec sampleCallsC11 =
      some ((sampleQueue Direction.Receive).after sampleCallsC11) ∧
    ((sampleQueue Direction.Receive).after sampleCallsC11).putBackToIdleOnCompletion = false ∧
    ∃ r, ((sampleQueue Direction.Receive).after sampleCallsC11).BufferHandleCompletion 0
        RdmaError.success 33 = some r ∧
      r.queue.Completed = [0] ∧ r.queue.Queued = [] ∧
      r.effects = [Effect.Callback ⟨some 7, 1, 2⟩ 0 33] :=
  ⟨sampleQueue_constructed Direction.Receive (by decide), by decide, by decide,
    match ((C11_completion_dispatch 2 (sampleQueue Direction.Receive)
      ((sampleQueue Direction.Receive).after sampleCallsC11) sampleCallsC11
      (sampleQueue_constructed Direction.Receive (by decide)) (by decide) 0
      RdmaError.success false 33).2.2.1 (by decide) [] (by decide)).2 with
    | ⟨r, hr, _, h2, _, h4, _, _, _, h8, _⟩ =>
      ⟨r, hr, (h4 (by decide)).1.trans (by decide), h2, h8.trans (by decide)⟩⟩

/-- C13: while a session has no transfer queue, `AddCredit` appends the credit to the
staging list and does nothing else. After a successful `ConfigureBuffers` or
`ConfigureExternalBuffer` the staging list is empty and the new transfer queue holds
exactly the staged credits, in their arrival order, as its available credits. Once a
session has a transfer queue, `AddCredit` is `AddCredit` of that queue and leaves the
staging list alone; in particular, while no buffer waits for a credit, the credit is
appended to the available credits of the queue. On a Send session that does not poll,
`ConfigureExternalBuffer` succeeds, and so does `ConfigureBuffers` when the session is
connected. -/
theorem C13_staged_credits (s : RdmaConnectedSessionBase) (world : World)
    (hnone : s.transferBuffers = none) :
    (∀ c, s.AddCredit c world =
      some ⟨{ s with preConfigureCredits := s.preConfigureCredits ++ [c] }, Except.ok (), []⟩) ∧
    (∀ call out, s.configure world call = some out → out.result = Except.ok () →
      out.session.preConfigureCredits = [] ∧
      ∃ q, out.session.transferBuffers = some q ∧
        q.availableCredits = s.preConfigureCredits) ∧
    (∀ (s' : RdmaConnectedSessionBase) q c, s'.transferBuffers = some q →
      s'.AddCredit c world =
        (q.AddCredit c (world.forAddCredit q)).map
          (fun ret => ⟨{ s' with transferBuffers := some ret.queue }, ret.result,
            ret.effects⟩) ∧
      (q.buffersQueuedWaitingForCredits.size = 0 →
        s'.AddCredit c world =
          some ⟨{ s' with
                  transferBuffers := some { q with availableCredits := q.availableCredits ++ [c] } },
                Except.ok (), []⟩)) ∧
    (s.direction = Direction.Send → s.usePolling = false →
      (∀ a b, ∃ out, s.ConfigureExternalBuffer a b world = some out ∧
        out.result = Except.ok ()) ∧
      (s.connected = true →
        ∀ a b, ∃ out, s.ConfigureBuffers a b world = some out ∧
          out.result = Except.ok ())) := by
  refine ⟨?_, ?_, ?_, ?_⟩
  · intro c
    simp only [RdmaConnectedSessionBase.AddCredit, hnone, Option.isSome_none,
      Bool.false_eq_true, if_false]
  · intro call out h hok
    obtain ⟨h1, q, h2, h3, -⟩ := configure_ok hnone h hok
    exact ⟨h1, q, h2, h3⟩
  · intro s' q c hq
    refine ⟨AddCredit_direct hq c world, fun hw => ?_⟩
    rw [AddCredit_direct hq c world]
    simp only [RdmaBufferQueue.AddCredit, hw, ne_eq, not_true_eq_false, if_false,
      Option.map_some']
  · intro hdir hpoll
    exact ⟨fun a b => ConfigureExternalBuffer_send a b world hnone hdir hpoll,
      fun hconn a b => ConfigureBuffers_send a b world hnone hconn hdir hpoll⟩

/-- C13 at work: two credits staged on a connected sender; `ConfigureBuffers` succeeds and
the new queue has them as its credits. -/
theorem C13_staged_credits_witness :
    sampleSenderStaged.transferBuffers = none ∧
    sampleSender.AddCredit 4096 World.quiet =
      some ⟨{ sampleSender with preConfigureCredits := [4096] }, Except.ok (), []⟩ ∧
    ∃ out, sampleSenderStaged.ConfigureBuffers 100 2 World.quiet = some out ∧
      out.session.preConfigureCredits = [] ∧
      ∃ q, out.session.transferBuffers = some q ∧ q.availableCredits = [4096, 100] :=
  ⟨rfl, (C13_staged_credits sampleSender World.quiet rfl).1 4096,
    match ((C13_staged_credits sampleSenderStaged World.quiet rfl).2.2.2 rfl rfl).2 rfl 100 2
      with
    | ⟨out, h1, h2⟩ =>
      ⟨out, h1,
        (C13_staged_credits sampleSenderStaged World.quiet rfl).2.1
          (ConfigureCall.ConfigureBuffers 100 2) out h1 h2⟩⟩

/-- C14: `ValidateConnectionData(buffer, myDirection)` with `myDirection` Send or Receive
accepts exactly the buffers of at least 7 bytes that start with the big-endian protocol id
52 44 4D 41, whose oldestCompatibleVersion byte (offset 5) is at most 1 and whose
direction byte (offset 6) is the opposite of `myDirection`. A short buffer or a wrong
protocol id raises IncompatibleProtocol; otherwise a larger oldestCompatibleVersion raises
IncompatibleVersion; otherwise a wrong direction byte raises InvalidDirection. The
protocolVersion byte (offset 4) and the bytes after offset 6 never change the result. -/
theorem C14_validate_connection_data (buffer : List Byte) (myDirection : Direction)
    (hd : myDirection ≠ Direction.Unknown) :
    (ValidateConnectionData buffer myDirection = Except.ok () ↔
      7 ≤ buffer.length ∧ buffer.take 4 = [0x52, 0x44, 0x4D, 0x41] ∧
        (buffer.getD 5 0).val ≤ 1 ∧
        buffer.getD 6 0 = (if myDirection = Direction.Receive then Direction.Send
          else Direction.Receive).toUInt8) ∧
    ((buffer.length < 7 ∨ buffer.take 4 ≠ [0x52, 0x44, 0x4D, 0x41]) →
      ∃ line, ValidateConnectionData buffer myDirection =
        Except.error ⟨easyrdma_Error_IncompatibleProtocol, 0, fileRdmaConnectionData, line⟩) ∧
    (7 ≤ buffer.length → buffer.take 4 = [0x52, 0x44, 0x4D, 0x41] →
      1 < (buffer.getD 5 0).val →
      ValidateConnectionData buffer myDirection =
        Except.error ⟨easyrdma_Error_IncompatibleVersion, 0, fileRdmaConnectionData, 28⟩) ∧
    (7 ≤ buffer.length → buffer.take 4 = [0x52, 0x44, 0x4D, 0x41] →
      (buffer.getD 5 0).val ≤ 1 →
      buffer.getD 6 0 ≠ (if myDirection = Direction.Receive then Direction.Send
          else Direction.Receive).toUInt8 →
      ValidateConnectionData buffer myDirection =
        Except.error ⟨easyrdma_Error_InvalidDirection, 0, fileRdmaConnectionData, 33⟩) ∧
    (7 ≤ buffer.length → ∀ (protocolVersion : Byte) (trailing : List Byte),
      ValidateConnectionData
          (buffer.take 4 ++ protocolVersion :: buffer.getD 5 0 :: buffer.getD 6 0 :: trailing)
          myDirection =
        ValidateConnectionData buffer myDirection) := by
  by_cases hlen : buffer.length < 7
  · have hv : ValidateConnectionData buffer myDirection =
        Except.error ⟨easyrdma_Error_IncompatibleProtocol, 0, fileRdmaConnectionData, 19⟩ := by
      simp [ValidateConnectionData, easyrdma_ConnectionData.sizeof, hlen]
    refine ⟨?_, fun _ => ⟨19, hv⟩, fun h => ?_, fun h => ?_, fun h => ?_⟩
    · rw [hv]
      constructor
      · intro h; cases h
      · intro h; omega
    all_goals omega
  · obtain ⟨b0, b1, b2, b3, v, o, d, tail, rfl⟩ := exists_seven buffer (by omega)
    simp only [List.take_succ_cons, List.take_zero, List.getD_cons_zero, List.getD_cons_succ,
      List.cons_append, List.nil_append, ValidateConnectionData_cons, hd, if_false]
    refine ⟨?_, ?_, ?_, ?_, ?_⟩
    rotate_right
    · intros; trivial
    · by_cases h1 : [b0, b1, b2, b3] = [0x52, 0x44, 0x4D, 0x41]
      · by_cases h2 : 1 < o.val
        · simp only [h1, h2, ne_eq, not_true_eq_false, if_false, if_true]
          constructor
          · intro h; cases h
          · intro h; omega
        · by_cases h3 : d = (if myDirection = Direction.Receive then Direction.Send
              else Direction.Receive).toUInt8
          · simp only [h1, h2, h3, ne_eq, not_true_eq_false, if_false, true_iff, and_true,
              true_and]
            simp only [List.length_cons]
            omega
          · simp only [h1, h2, h3, ne_eq, not_true_eq_false, not_false_eq_true, if_false,
              if_true, and_false]
            constructor
            · intro h; cases h
            · intro h; exact h.elim
      · simp only [h1, ne_eq, not_false_eq_true, if_true, false_and, and_false]
        constructor
        · intro h; cases h
        · intro h; exact h.elim
    · intro h
      rcases h with h | h
      · simp only [List.length_cons] at h; omega
      · exact ⟨25, by simp only [h, ne_eq, not_false_eq_true, if_true]⟩
    · intro _ h1 h2
      simp only [h1, h2, ne_eq, not_true_eq_false, if_false, if_true]
    · intro _ h1 h2 h3
      have h2' : ¬ 1 < o.val := by omega
      simp only [h1, h2', h3, ne_eq, not_true_eq_false, not_false_eq_true, if_false, if_true]

/-- C14 at work: the default blob of a sender followed by two more bytes is accepted by a
receiver. -/
theorem C14_validate_connection_data_witness :
    Direction.Receive ≠ Direction.Unknown ∧
      ValidateConnectionData [0x52, 0x44, 0x4D, 0x41, 7, 1, 0, 9, 9] Direction.Receive =
        Except.ok () :=
  ⟨by decide,
   (C14_validate_connection_data [0x52, 0x44, 0x4D, 0x41, 7, 1, 0, 9, 9] Direction.Receive
      (by decide)).1.2 (by decide)⟩

/-- C15: `CreateDefaultConnectionData(d)` is the 7 bytes 52 44 4D 41 (protocol id,
big-endian), 01 (protocolVersion), 01 (oldestCompatibleVersion) and the direction byte
(00 for Send, 01 for Receive), and `ValidateConnectionData` accepts that blob exactly when
the local direction is the opposite of `d`. -/
theorem C15_default_connection_data :
    CreateDefaultConnectionData Direction.Send = [0x52, 0x44, 0x4D, 0x41, 0x01, 0x01, 0x00] ∧
    CreateDefaultConnectionData Direction.Receive =
      [0x52, 0x44, 0x4D, 0x41, 0x01, 0x01, 0x01] ∧
    (∀ d myDirection : Direction,
      ValidateConnectionData (CreateDefaultConnectionData d) myDirection = Except.ok () ↔
        (d = Direction.Send ∧ myDirection = Direction.Receive) ∨
        (d = Direction.Receive ∧ myDirection = Direction.Send)) := by
  refine ⟨by decide, by decide, ?_⟩
  intro d myDirection
  cases d <;> cases myDirection <;> decide

/-- C16: after a successful `ConfigureBuffers` or `ConfigureExternalBuffer` on a connected
session without transfer queue, the session has a transfer queue, and every further
`ConfigureBuffers` or `ConfigureExternalBuffer` call, with any arguments and in any number,
throws AlreadyConfigured and leaves the whole session as it was, so the transfer queue,
the buffer ownership and the buffer type stay. -/
theorem C16_configure_twice (s : RdmaConnectedSessionBase) (world : World)
    (first : ConfigureCall) (out : SessionRet Unit) (hconn : s.connected = true)
    (hnone : s.transferBuffers = none) (h : s.configure world first = some out)
    (hok : out.result = Except.ok ()) :
    out.session.connected = true ∧ out.session.transferBuffers.isSome = true ∧
    (∀ world' call, ∃ line, out.session.configure world' call =
      some ⟨out.session, Except.error ⟨easyrdma_Error_AlreadyConfigured, 0,
        fileRdmaConnectedSessionBase, line⟩, []⟩) ∧
    (∀ world' calls, ∃ results, configureAll world' out.session calls =
        some (out.session, results) ∧ results.length = calls.length ∧
      ∀ r ∈ results, ∃ line, r = Except.error ⟨easyrdma_Error_AlreadyConfigured, 0,
        fileRdmaConnectedSessionBase, line⟩) := by
  have hsome : out.session.transferBuffers.isSome = true := by
    obtain ⟨-, q, hq, -⟩ := configure_ok hnone h hok
    rw [hq]; rfl
  have hc : out.session.connected = true := by
    cases first with
    | ConfigureBuffers a b => exact (ConfigureBuffers_ok hnone h hok).2.2.2.2
    | ConfigureExternalBuffer a b =>
      exact ((ConfigureExternalBuffer_ok (a := a) hnone h hok).2.2.2.2).trans hconn
  exact ⟨hc, hsome, fun world' call => configure_again hsome world' call,
    fun world' calls => configureAll_again world' calls hsome⟩

/-- C16 at work: `ConfigureBuffers(100, 2)` on the connected sender succeeds; a following
`ConfigureExternalBuffer` throws AlreadyConfigured and changes nothing. -/
theorem C16_configure_twice_witness :
    sampleSender.connected = true ∧ sampleSender.transferBuffers = none ∧
    sampleSender.configure World.quiet (ConfigureCall.ConfigureBuffers 100 2) =
      some sampleSenderConfigured ∧
    sampleSenderConfigured.result = Except.ok () ∧
    ∃ line, sampleSenderConfigured.session.configure World.quiet
        (ConfigureCall.ConfigureExternalBuffer 4096 4) =
      some ⟨sampleSenderConfigured.session,
        Except.error ⟨easyrdma_Error_AlreadyConfigured, 0, fileRdmaConnectedSessionBase, line⟩,
        []⟩ :=
  ⟨rfl, rfl, rfl, rfl,
    (C16_configure_twice sampleSender World.quiet (ConfigureCall.ConfigureBuffers 100 2)
      sampleSenderConfigured rfl rfl rfl rfl).2.2.1 World.quiet
      (ConfigureCall.ConfigureExternalBuffer 4096 4)⟩

/-- C17: in every state of the registry that calls of the API reach (with fewer than
2^64 - 1 registrations), no handle is in both tables. `DestroySession(h, flags)` for a
handle that is not in the open table throws InvalidSession and changes nothing. For a
handle in the open table (whose session has well-formed queues) it returns, `h` is no
longer in the open table, `GetOpenedSessions()` is one less, a later `GetSession(h)` in
the open table throws InvalidSession, and `h` is in the deferred-close table afterwards if
and only if bit 0x01 of `flags` is set and the session has buffers held by the user; the
session stored there still has these buffers, every other handle is where it was, and
still no handle is in both tables. -/
theorem C17_destroy_session (m : SessionManager) (hm : Registry m) (h flags : Nat) :
    (∀ x, ¬ ((m.sessionMap.find x).isSome ∧ (m.deferredCloseSessionMap.find x).isSome)) ∧
    (m.sessionMap.find h = none →
      m.DestroySession h flags =
        some ⟨m, Except.error ⟨easyrdma_Error_InvalidSession, 0, fileRdmaApiCommon, 61⟩,
          []⟩) ∧
    (∀ sess, m.sessionMap.find h = some sess → sess.WF →
      ∃ r, m.DestroySession h flags = some r ∧ r.result = Except.ok () ∧
        r.manager.sessionMap.find h = none ∧
        r.manager.GetOpenedSessions + 1 = m.GetOpenedSessions ∧
        r.manager.GetSession h false =
          Except.error ⟨easyrdma_Error_InvalidSession, 0, fileRdmaApiCommon, 41⟩ ∧
        ((r.manager.deferredCloseSessionMap.find h).isSome ↔
          flags &&& easyrdma_CloseFlags_DeferWhileUserBuffersOutstanding ≠ 0 ∧
            sess.User ≠ []) ∧
        (∀ c, r.manager.deferredCloseSessionMap.find h = some c → c.User = sess.User) ∧
        (∀ x, x ≠ h → r.manager.sessionMap.find x = m.sessionMap.find x ∧
          r.manager.deferredCloseSessionMap.find x = m.deferredCloseSessionMap.find x) ∧
        (∀ x, ¬ ((r.manager.sessionMap.find x).isSome ∧
          (r.manager.deferredCloseSessionMap.find x).isSome))) := by
  have hI := hm.registry_inv
  refine ⟨hI.disjoint, ?_, ?_⟩
  · intro hnone
    simp only [DestroySession, hnone]
  intro sess hopen hw
  obtain ⟨cancelled, effects, hcancel, huser, -⟩ := RdmaSession.session_Cancel_total hw
  have hrun := @DestroySession_open m h flags sess cancelled _ effects hopen hcancel
  have hIr := (DestroySession_Inv hI hrun).1
  have hnd : m.deferredCloseSessionMap.find h = none := by
    cases hd : m.deferredCloseSessionMap.find h with
    | none => rfl
    | some x => exact absurd ⟨by rw [hopen]; rfl, by rw [hd]; rfl⟩ (hI.disjoint h)
  refine ⟨_, hrun, rfl, ?_, ?_, ?_, ?_, ?_, ?_, hIr.disjoint⟩
  · simp only [tMap.find_erase, if_true]
  · exact tMap.size_erase hI.sortedOpen (by rw [hopen]; rfl)
  · simp only [GetSession, tMap.find_erase, if_true, Bool.false_eq_true, if_false]
  · simp only [RdmaSession.conditions_iff]
    split
    · rename_i hc
      simp only [tMap.find_assign, if_true, Option.isSome_some, true_iff]
      exact hc
    · rename_i hc
      simp only [hnd, Option.isSome_none, Bool.false_eq_true, false_iff]
      exact hc
  · intro c hc
    simp only at hc
    split at hc
    · simp only [tMap.find_assign, if_true, Option.some.injEq] at hc
      subst hc
      exact huser
    · rw [hnd] at hc
      cases hc
  · intro x hx
    refine ⟨by simp only [tMap.find_erase, hx, if_false], ?_⟩
    simp only
    split
    · simp only [tMap.find_assign, hx, if_false]
    · rfl

/-- C17 at work: the sender that holds two buffers is registered as handle 1;
`DestroySession(1, 0x01)` takes it out of the open table and, as the user holds buffers,
puts it into the deferred-close table. -/
theorem C17_destroy_session_witness :
    Registry sampleRegistryOpen ∧
    sampleRegistryOpen.sessionMap.find 1 = some (RdmaSession.Connected sampleSenderHolding) ∧
    (RdmaSession.Connected sampleSenderHolding).WF ∧
    ∃ r, sampleRegistryOpen.DestroySession 1 1 = some r ∧ r.result = Except.ok () ∧
      r.manager.sessionMap.find 1 = none ∧
      r.manager.GetOpenedSessions + 1 = sampleRegistryOpen.GetOpenedSessions ∧
      r.manager.GetSession 1 false =
        Except.error ⟨easyrdma_Error_InvalidSession, 0, fileRdmaApiCommon, 41⟩ ∧
      ((r.manager.deferredCloseSessionMap.find 1).isSome ↔
        1 &&& easyrdma_CloseFlags_DeferWhileUserBuffersOutstanding ≠ 0 ∧
          (RdmaSession.Connected sampleSenderHolding).User ≠ []) ∧
      (∀ c, r.manager.deferredCloseSessionMap.find 1 = some c →
        c.User = (RdmaSession.Connected sampleSenderHolding).User) ∧
      (∀ x, x ≠ 1 → r.manager.sessionMap.find x = sampleRegistryOpen.sessionMap.find x ∧
        r.manager.deferredCloseSessionMap.find x =
          sampleRegistryOpen.deferredCloseSessionMap.find x) ∧
      (∀ x, ¬ ((r.manager.sessionMap.find x).isSome ∧
        (r.manager.deferredCloseSessionMap.find x).isSome)) :=
  ⟨sampleRegistryOpen_registry, rfl, sampleSenderHolding_WF,
    (C17_destroy_session sampleRegistryOpen sampleRegistryOpen_registry 1 1).2.2
      (RdmaSession.Connected sampleSenderHolding) rfl sampleSenderHolding_WF⟩

/-- C18: let a session be in the deferred-close table of a registry that calls of the API
reached, with a well-formed transfer queue whose buffers held by the user are `bs`, listed
in any order (`k` of them). Releasing them one after the other with
`easyrdma_ReleaseUserBufferRegionToIdle` returns every time, with status success and no
callback. After each of the first `k - 1` releases the session is still in the
deferred-close table, `GetDeferredCloseSessions()` is what it was, and the buffers released
so far are at the end of Idle, in release order, while the others are still held. The
`k`-th release erases the session from the deferred-close table and
`GetDeferredCloseSessions()` is one less. The open table and the other deferred sessions
stay as they were. -/
theorem C18_deferred_release (m : SessionManager) (hm : Registry m) (h : Nat)
    (s : RdmaConnectedSessionBase) (q : RdmaBufferQueue) (bs : List Nat)
    (hdef : m.deferredCloseSessionMap.find h = some (RdmaSession.Connected s))
    (htb : s.transferBuffers = some q) (hq : q.Inv) (hperm : bs.Perm q.User) :
    ∃ outs, releaseAll h m bs = some outs ∧ outs.length = bs.length ∧
      ∀ j, j < bs.length → ∃ r, outs[j]? = some r ∧ r.status = RdmaError.success ∧
        r.effects = [] ∧ r.manager.sessionMap = m.sessionMap ∧
        (∀ x, x ≠ h →
          r.manager.deferredCloseSessionMap.find x = m.deferredCloseSessionMap.find x) ∧
        (j + 1 < bs.length →
          r.manager.GetDeferredCloseSessions = m.GetDeferredCloseSessions ∧
          ∃ sj qj, r.manager.deferredCloseSessionMap.find h =
              some (RdmaSession.Connected sj) ∧
            sj.transferBuffers = some qj ∧ qj.Idle = q.Idle ++ bs.take (j + 1) ∧
            qj.User.Perm (bs.drop (j + 1))) ∧
        (j + 1 = bs.length →
          r.manager.deferredCloseSessionMap.find h = none ∧
          r.manager.GetDeferredCloseSessions + 1 = m.GetDeferredCloseSessions) :=
  releaseAll_deferred h bs hm.registry_inv hdef htb hq hperm

/-- C18 at work: the sender that holds buffers 0 and 1 was closed with
`DeferWhileUserBuffersOutstanding` and is in the deferred-close table as handle 1;
buffer 1 is released first, then buffer 0. -/
theorem C18_deferred_release_witness :
    Registry sampleRegistryDeferred ∧
    sampleRegistryDeferred.deferredCloseSessionMap.find 1 =
      some (RdmaSession.Connected sampleSenderCancelled) ∧
    sampleSenderCancelled.transferBuffers = some ((sampleQueue Direction.Send).after
      (sampleCallsHolding ++ [Call.Abort easyrdma_Error_OperationCancelled])) ∧
    ((sampleQueue Direction.Send).after
      (sampleCallsHolding ++ [Call.Abort easyrdma_Error_OperationCancelled])).Inv ∧
    [1, 0].Perm ((sampleQueue Direction.Send).after
      (sampleCallsHolding ++ [Call.Abort easyrdma_Error_OperationCancelled])).User ∧
    ∃ outs, releaseAll 1 sampleRegistryDeferred [1, 0] = some outs ∧
      outs.length = [1, 0].length ∧
      ∀ j, j < [1, 0].length → ∃ r, outs[j]? = some r ∧ r.status = RdmaError.success ∧
        r.effects = [] ∧ r.manager.sessionMap = sampleRegistryDeferred.sessionMap ∧
        (∀ x, x ≠ 1 → r.manager.deferredCloseSessionMap.find x =
          sampleRegistryDeferred.deferredCloseSessionMap.find x) ∧
        (j + 1 < [1, 0].length →
          r.manager.GetDeferredCloseSessions =
            sampleRegistryDeferred.GetDeferredCloseSessions ∧
          ∃ sj qj, r.manager.deferredCloseSessionMap.find 1 =
              some (RdmaSession.Connected sj) ∧
            sj.transferBuffers = some qj ∧
            qj.Idle = ((sampleQueue Direction.Send).after
              (sampleCallsHolding ++ [Call.Abort easyrdma_Error_OperationCancelled])).Idle ++
                [1, 0].take (j + 1) ∧
            qj.User.Perm ([1, 0].drop (j + 1))) ∧
        (j + 1 = [1, 0].length →
          r.manager.deferredCloseSessionMap.find 1 = none ∧
          r.manager.GetDeferredCloseSessions + 1 =
            sampleRegistryDeferred.GetDeferredCloseSessions) :=
  ⟨sampleRegistryDeferred_registry, sampleRegistryDeferred_find,
    sampleSenderCancelled_transfer, sampleSenderCancelled_Inv, List.Perm.swap 0 1 [],
    C18_deferred_release sampleRegistryDeferred sampleRegistryDeferred_registry 1
      sampleSenderCancelled _ [1, 0] sampleRegistryDeferred_find
      sampleSenderCancelled_transfer sampleSenderCancelled_Inv (List.Perm.swap 0 1 [])⟩

/-- C19: for a session in the open table of a registry that calls of the API reached, not
connected, with a well-formed transfer queue, and a region of it whose buffer `b` the user
holds, `easyrdma_ReleaseReceivedBufferRegion` returns with status success and without any
effect (nothing is posted, no credit is sent, no callback fires). Afterwards `b` is the
newest buffer of Idle and no longer with the user, the other sets and all the rest of the
session and of the registry are as before. A second call for the same region ends with
status InvalidOperation (thrown in line 257 of RdmaBufferQueue.cpp) and changes nothing. -/
theorem C19_release_received_disconnected (m : SessionManager) (hm : Registry m) (h : Nat)
    (s : RdmaConnectedSessionBase) (q : RdmaBufferQueue) (b : Nat) (world world2 : World)
    (hopen : m.sessionMap.find h = some (RdmaSession.Connected s))
    (hdisc : s.connected = false) (htb : s.transferBuffers = some q) (hq : q.Inv)
    (hb : b ∈ q.User) :
    ∃ q2 m2, easyrdma_ReleaseReceivedBufferRegion m h (some ⟨h, some b⟩) world =
        some ⟨m2, RdmaError.success, []⟩ ∧
      m2.sessionMap.find h =
        some (RdmaSession.Connected { s with transferBuffers := some q2 }) ∧
      (∀ x, x ≠ h → m2.sessionMap.find x = m.sessionMap.find x) ∧
      m2.deferredCloseSessionMap = m.deferredCloseSessionMap ∧
      m2.GetOpenedSessions = m.GetOpenedSessions ∧
      q2.Idle = q.Idle ++ [b] ∧ q2.User = q.User.erase b ∧ b ∉ q2.User ∧
      q2.Queued = q.Queued ∧ q2.Completed = q.Completed ∧
      q2.WaitingCredit = q.WaitingCredit ∧
      easyrdma_ReleaseReceivedBufferRegion m2 h (some ⟨h, some b⟩) world2 =
        some ⟨m2, API_CATCH_EXCEPTION (RDMA_THROW easyrdma_Error_InvalidOperation 257), []⟩ ∧
      (API_CATCH_EXCEPTION (RDMA_THROW easyrdma_Error_InvalidOperation 257)).GetCode =
        easyrdma_Error_InvalidOperation := by
  have hI := hm.registry_inv
  have hsome : (m.sessionMap.find h).isSome := by rw [hopen]; rfl
  have h0 : h ≠ 0 := by
    have := (hI.boundOpen h hsome).1
    omega
  obtain ⟨q2, hrun, hq2, hu2, hi2, hqu, hco, hwa⟩ :=
    ReleaseReceived_disconnected world h0 hopen hdisc htb hq hb
  have hfind : (m.store h false
      (RdmaSession.Connected { s with transferBuffers := some q2 })).sessionMap.find h =
      some (RdmaSession.Connected { s with transferBuffers := some q2 }) := by
    simp only [store, Bool.false_eq_true, if_false, tMap.find_assign, if_true]
  have hnot : b ∉ q2.User := by
    rw [hu2]
    intro hc
    exact ((mem_erase_iff_of_count_le_one (hq.count_user_le_one b)).mp hc).1 rfl
  have hlt : b < q2.buffers.length := by
    apply hq2.lt_of_mem_idle
    rw [hi2]
    exact List.mem_append_right _ (List.mem_singleton_self b)
  have hsorted : (m.store h false
      (RdmaSession.Connected { s with transferBuffers := some q2 })).sessionMap.Sorted := by
    simp only [store, Bool.false_eq_true, if_false]
    exact hI.sortedOpen.sorted_assign _ _
  refine ⟨q2, _, hrun, hfind, ?_, rfl, ?_, hi2, hu2, hnot, hqu, hco, hwa, ?_, rfl⟩
  · intro x hx
    simp only [store, Bool.false_eq_true, if_false, tMap.find_assign, hx]
  · simp only [GetOpenedSessions, store, Bool.false_eq_true, if_false]
    exact tMap.size_assign hI.sortedOpen hsome _
  · exact ReleaseReceived_not_user world2 h0 hsorted hfind hdisc rfl hq2 hlt hnot

/-- C19 at work: a receiver whose user holds buffer 0 was disconnected; it is handle 1.
Releasing the region of buffer 0 succeeds and puts the buffer behind buffer 1 in Idle;
releasing it again reports InvalidOperation. -/
theorem C19_release_received_disconnected_witness :
    Registry sampleRegistryClosed ∧
    sampleRegistryClosed.sessionMap.find 1 =
      some (RdmaSession.Connected sampleReceiverClosed) ∧
    sampleReceiverClosed.connected = false ∧
    sampleReceiverClosed.transferBuffers =
      some ((sampleQueue Direction.Receive).after sampleCallsClosed) ∧
    ((sampleQueue Direction.Receive).after sampleCallsClosed).Inv ∧
    0 ∈ ((sampleQueue Direction.Receive).after sampleCallsClosed).User ∧
    ∃ q2 m2, easyrdma_ReleaseReceivedBufferRegion sampleRegistryClosed 1 (some ⟨1, some 0⟩)
          World.quiet = some ⟨m2, RdmaError.success, []⟩ ∧
      m2.sessionMap.find 1 =
        some (RdmaSession.Connected { sampleReceiverClosed with transferBuffers := some q2 }) ∧
      (∀ x, x ≠ 1 → m2.sessionMap.find x = sampleRegistryClosed.sessionMap.find x) ∧
      m2.deferredCloseSessionMap = sampleRegistryClosed.deferredCloseSessionMap ∧
      m2.GetOpenedSessions = sampleRegistryClosed.GetOpenedSessions ∧
      q2.Idle = ((sampleQueue Direction.Receive).after sampleCallsClosed).Idle ++ [0] ∧
      q2.User = ((sampleQueue Direction.Receive).after sampleCallsClosed).User.erase 0 ∧
      0 ∉ q2.User ∧
      q2.Queued = ((sampleQueue Direction.Receive).after sampleCallsClosed).Queued ∧
      q2.Completed = ((sampleQueue Direction.Receive).after sampleCallsClosed).Completed ∧
      q2.WaitingCredit =
        ((sampleQueue Direction.Receive).after sampleCallsClosed).WaitingCredit ∧
      easyrdma_ReleaseReceivedBufferRegion m2 1 (some ⟨1, some 0⟩) World.quiet =
        some ⟨m2, API_CATCH_EXCEPTION (RDMA_THROW easyrdma_Error_InvalidOperation 257), []⟩ ∧
      (API_CATCH_EXCEPTION (RDMA_THROW easyrdma_Error_InvalidOperation 257)).GetCode =
        easyrdma_Error_InvalidOperation :=
  ⟨sampleRegistryClosed_registry, rfl, sampleReceiverClosed_connected,
    sampleReceiverClosed_transfer, sampleReceiverClosed_Inv, by decide,
    C19_release_received_disconnected sampleRegistryClosed sampleRegistryClosed_registry 1
      sampleReceiverClosed _ 0 World.quiet World.quiet rfl sampleReceiverClosed_connected
      sampleReceiverClosed_transfer sampleReceiverClosed_Inv (by decide)⟩

/-- C20: on an uncontended access manager (nothing active, nothing pending, no reference;
the fresh manager is one), every sequence of at most 32 `Acquire` calls of one thread, in
any mix of shared and exclusive, returns without waiting and takes one reference per call;
the same number of `Release` calls then return the acquired modes in reverse order, true
for exclusive and false for shared, and after the last one the active shared count, the
active exclusive count and the reference count are zero and the all-references-released
event is signalled. -/
theorem C20_release_lifo (m : tAccessManager) (ourTid : Nat) (raw : tRequest)
    (modes : List Bool)
    (hm : m.activeRequests = tRequestList.empty ∧ m.pendingRequests = tRequestList.empty ∧
      m.refcount = 0)
    (hlen : modes.length ≤ kMaxNestLevel) :
    (∀ raw0, (tAccessManager.ctor raw0).activeRequests = tRequestList.empty ∧
      (tAccessManager.ctor raw0).pendingRequests = tRequestList.empty ∧ (tAccessManager.ctor raw0).refcount = 0) ∧
    ∃ m1 m2, acquires ourTid raw m modes = some m1 ∧ m1.DebugGetRefCount = modes.length ∧
      releases ourTid modes.length m1 = some (m2, modes.reverse) ∧
      m2.DebugGetActiveSharedCount = 0 ∧ m2.DebugGetActiveExclusiveCount = 0 ∧
      m2.DebugGetActiveCount = 0 ∧ m2.DebugGetRefCount = 0 ∧
      (modes ≠ [] → m2.allRefsReleased = true) := by
  refine ⟨fun raw0 => ?_, ?_⟩
  · obtain ⟨h1, h2, -, h4⟩ := ctor_Holds raw0 0
    exact ⟨h4, h1, h2⟩
  · have h0 : m.Holds ourTid [] := ⟨hm.2.1, hm.2.2, by simp, hm.1⟩
    obtain ⟨m1, h1, hh1⟩ := Holds.holds_acquires raw modes h0 (by simpa using hlen)
    simp only [List.append_nil] at hh1
    obtain ⟨m2, h2, hh2, ha⟩ := Holds.holds_releases modes.reverse hh1
    simp only [List.length_reverse] at h2
    obtain ⟨-, e2, -, e4⟩ := hh2
    simp only at e4
    refine ⟨m1, m2, h1, ?_, h2, ?_, ?_, ?_, e2, ?_⟩
    · simp only [DebugGetRefCount, hh1.2.1, List.length_reverse]
    · simp only [DebugGetActiveSharedCount, e4]; rfl
    · simp only [DebugGetActiveExclusiveCount, e4]; rfl
    · simp only [DebugGetActiveCount, e4]; rfl
    · intro hne
      exact ha (by simpa using hne)

/-- C20 at work: exclusive, shared, shared, exclusive on a fresh manager whose request
memory holds left-overs. -/
theorem C20_release_lifo_witness :
    ((tAccessManager.ctor sampleRawRequest).activeRequests = tRequestList.empty ∧
      (tAccessManager.ctor sampleRawRequest).pendingRequests = tRequestList.empty ∧
      (tAccessManager.ctor sampleRawRequest).refcount = 0) ∧
    [true, false, false, true].length ≤ kMaxNestLevel ∧
    ∃ m1 m2, acquires 5 (sampleRawRequest 99) (tAccessManager.ctor sampleRawRequest)
        [true, false, false, true] = some m1 ∧
      releases 5 4 m1 = some (m2, [true, false, false, true]) ∧ m2.DebugGetRefCount = 0 :=
  ⟨by decide, by decide,
    match (C20_release_lifo (tAccessManager.ctor sampleRawRequest) 5 (sampleRawRequest 99)
      [true, false, false, true] (by decide) (by decide)).2 with
    | ⟨m1, m2, h1, _, h3, _, _, _, h7, _⟩ => ⟨m1, m2, h1, h3, h7⟩⟩

end EasyRDMA

/-! ## The ring against the list-based queue -/

namespace EasyRDMA

theorem run_refines {α : Type} : ∀ (ops : List (RingOp α)) (r : tCircularFifo α), r.WF →
    (r.run ops).map (fun p => (p.1.toList, p.2)) = listFifo r.capacity r.toList ops ∧
    ∀ r2 outs, r.run ops = some (r2, outs) →
      r2.capacity = r.capacity ∧ r2.WF ∧ r2.size + pops ops = r.size + pushes ops
  | [], r, _ => by
    refine ⟨by simp only [tCircularFifo.run, listFifo, Option.map_some'], ?_⟩
    intro r2 outs h
    simp only [tCircularFifo.run, Option.some.injEq, Prod.mk.injEq] at h
    obtain ⟨rfl, -⟩ := h
    exact ⟨rfl, ‹_›, rfl⟩
  | RingOp.push x :: ops, r, hwf => by
    have hlen := tCircularFifo.toList_length r hwf
    by_cases hroom : r._size < r._buffer.length
    · obtain ⟨r1, hpush, hl, hc, hs⟩ := tCircularFifo.push_spec r x hroom
      have hwf1 : r1.WF := by unfold tCircularFifo.WF; omega
      obtain ⟨ih1, ih2⟩ := run_refines ops r1 hwf1
      constructor
      · simp only [tCircularFifo.run, hpush, listFifo, hlen, tCircularFifo.capacity, hroom,
          if_true]
        rw [ih1, hl]
        simp only [tCircularFifo.capacity, hc]
      · intro r2 outs h
        simp only [tCircularFifo.run, hpush] at h
        obtain ⟨a, b, c⟩ := ih2 r2 outs h
        refine ⟨by simp only [tCircularFifo.capacity] at a ⊢; omega, b, ?_⟩
        simp only [tCircularFifo.size, pops, pushes] at c ⊢
        omega
    · have hpush : r.push x = none := by
        simp only [tCircularFifo.push, tCircularFifo.capacity]
        rw [if_neg (by omega)]
      constructor
      · simp only [tCircularFifo.run, hpush, listFifo, hlen, tCircularFifo.capacity, hroom,
          if_false, Option.map_none']
      · intro r2 outs h
        simp only [tCircularFifo.run, hpush] at h
        cases h
  | RingOp.pop :: ops, r, hwf => by
    by_cases h0 : 0 < r._size
    · obtain ⟨r1, v, hpop, -, hl, hc, hs⟩ := tCircularFifo.pop_spec r h0 hwf
      have hwf1 : r1.WF := by unfold tCircularFifo.WF at hwf ⊢; omega
      obtain ⟨ih1, ih2⟩ := run_refines ops r1 hwf1
      constructor
      · simp only [tCircularFifo.run, hpop, hl, listFifo]
        rw [ih1]
        simp only [tCircularFifo.capacity, hc]
      · intro r2 outs h
        simp only [tCircularFifo.run, hpop] at h
        obtain ⟨a, b, c⟩ := ih2 r2 outs h
        refine ⟨by simp only [tCircularFifo.capacity] at a ⊢; omega, b, ?_⟩
        simp only [tCircularFifo.size, pops, pushes] at c ⊢
        omega
    · have hz : r._size = 0 := by omega
      have hpop : r.pop = none := by
        simp only [tCircularFifo.pop, tCircularFifo.size, hz]
        rfl
      constructor
      · simp only [tCircularFifo.run, hpop, tCircularFifo.toList_of_size_zero r hz, listFifo,
          Option.map_none']
      · intro r2 outs h
        simp only [tCircularFifo.run, hpop] at h
        cases h
  | RingOp.front :: ops, r, hwf => by
    by_cases h0 : 0 < r._size
    · obtain ⟨r1, v, -, hfront, hl, -, -⟩ := tCircularFifo.pop_spec r h0 hwf
      obtain ⟨ih1, ih2⟩ := run_refines ops r hwf
      constructor
      · simp only [tCircularFifo.run, hfront, hl, listFifo]
        rw [← hl, ← ih1]
        cases r.run ops <;> rfl
      · intro r2 outs h
        simp only [tCircularFifo.run, hfront, Option.map_eq_some', Prod.mk.injEq] at h
        obtain ⟨p, hp, rfl, -⟩ := h
        obtain ⟨a, b, c⟩ := ih2 p.1 p.2 hp
        exact ⟨a, b, by simpa only [pops, pushes] using c⟩
    · have hz : r._size = 0 := by omega
      have hfront := tCircularFifo.front_none_of_size_zero r hz
      constructor
      · simp only [tCircularFifo.run, hfront, tCircularFifo.toList_of_size_zero r hz,
          listFifo, Option.map_none']
      · intro r2 outs h
        simp only [tCircularFifo.run, hfront] at h
        cases h

end EasyRDMA

/-! ## The access manager: whole stacks, suspending, the reference count -/

namespace EasyRDMA

namespace tAccessManager

/-- The two queries of a thread whose request is the only active one change nothing. -/
theorem has_access_single (m : tAccessManager) (request : tRequest)
    (ha : m.activeRequests = ⟨[request], request.shared, request.exclusive⟩)
    (hs : request.shared < 2 ^ 32) (he : request.exclusive < 2 ^ 32) :
    m.HasExclusiveAccess request.tid = (m, decide (request.exclusive > 0)) ∧
    m.HasSharedAccess request.tid =
      (m, decide (request.exclusive = 0) && decide (request.shared > 0)) := by
  have hback : (tRequestList.empty.AddAtHead request) =
      ⟨[request], request.shared, request.exclusive⟩ := by
    simp only [tRequestList.AddAtHead, tRequestList.empty, tRequest.CountShared,
      tRequest.CountExclusive, Nat.zero_add, Nat.mod_eq_of_lt hs, Nat.mod_eq_of_lt he]
  have hm : { m with activeRequests := ⟨[request], request.shared, request.exclusive⟩ } = m := by
    cases m; simp only at ha; subst ha; rfl
  constructor
  · simp only [HasExclusiveAccess, ha, Remove_single request hs he, hback, hm,
      tRequestList.CountExclusive]
  · simp only [HasSharedAccess, ha, Remove_single request hs he, hback, hm,
      tRequestList.CountExclusive, tRequestList.CountShared]

theorem Holds.hasAccess_eq {m : tAccessManager} {ourTid : Nat} {stack : List Bool}
    (h : m.Holds ourTid stack) : m.hasAccess ourTid = (m, !stack.isEmpty) := by
  obtain ⟨hp, hr, hl, hact⟩ := h
  cases stack with
  | nil =>
    simp only at hact
    simp only [hasAccess, HasExclusiveAccess, HasSharedAccess, hact, Remove_empty]
    rfl
  | cons x stack =>
    obtain ⟨request, ha, htid, hy, hsh, hex, hsp⟩ := hact
    simp only [kMaxNestLevel, List.length_cons] at hl
    have hcx : (x :: stack).count false + (x :: stack).count true = stack.length + 1 := by
      rw [count_false_add_count_true]; rfl
    have hs : request.shared < 2 ^ 32 := by omega
    have he : request.exclusive < 2 ^ 32 := by omega
    subst htid
    obtain ⟨h1, h2⟩ := has_access_single m request ha hs he
    simp only [hasAccess, h1, h2, List.isEmpty_cons, Bool.not_false]
    by_cases h0 : request.exclusive = 0
    · have : 0 < request.shared := by omega
      simp [h0, this]
    · have : 0 < request.exclusive := by omega
      simp [this]

end tAccessManager

theorem take_drop_set (x : Bool) : ∀ (val : List Bool) (k : Nat), k < val.length →
    (val.set k x).take (k + 1) = val.take k ++ [x] ∧
    ∀ j, k < j → (val.set k x).drop j = val.drop j := by
  intro val
  induction val with
  | nil => intro k hk; simp at hk
  | cons a val ih =>
    intro k hk
    cases k with
    | zero =>
      refine ⟨by simp, fun j hj => ?_⟩
      obtain ⟨j, rfl⟩ : ∃ i, j = i + 1 := ⟨j - 1, by omega⟩
      simp
    | succ k =>
      simp only [List.length_cons, Nat.add_lt_add_iff_right] at hk
      obtain ⟨h1, h2⟩ := ih k hk
      refine ⟨by simp [h1], fun j hj => ?_⟩
      obtain ⟨j, rfl⟩ : ∃ i, j = i + 1 := ⟨j - 1, by omega⟩
      simpa using h2 j (by omega)

namespace tAccessManager

theorem Holds.holds_releaseAllLoop {ourTid : Nat} : ∀ (stack : List Bool) (n : Nat)
    (m : tAccessManager) (accessStack : tAccessStack), m.Holds ourTid stack →
    stack.length ≤ n → accessStack.size + stack.length ≤ accessStack.val.length →
    ∃ m', releaseAllLoop ourTid n m accessStack =
        some (m', ⟨accessStack.size + stack.length,
          accessStack.val.take accessStack.size ++ stack ++
            accessStack.val.drop (accessStack.size + stack.length)⟩) ∧
      m'.Holds ourTid [] ∧ (stack ≠ [] → m'.allRefsReleased = true) := by
  intro stack
  induction stack with
  | nil =>
    intro n m accessStack h _ _
    refine ⟨m, ?_, h, fun hc => absurd rfl hc⟩
    have e : (⟨accessStack.size + ([] : List Bool).length,
        accessStack.val.take accessStack.size ++ [] ++
          accessStack.val.drop (accessStack.size + ([] : List Bool).length)⟩ : tAccessStack) =
        accessStack := by
      cases accessStack
      simp
    rw [e]
    cases n <;> simp [releaseAllLoop, h.hasAccess_eq]
  | cons x stack ih =>
    intro n m accessStack h hn hval
    simp only [List.length_cons] at hn hval
    obtain ⟨n, rfl⟩ : ∃ i, n = i + 1 := ⟨n - 1, by omega⟩
    obtain ⟨m1, hrel, hm1, hall⟩ := h.holds_release
    obtain ⟨m2, hloop, hm2, -⟩ := ih n m1
      ⟨accessStack.size + 1, accessStack.val.set accessStack.size x⟩ hm1 (by omega)
      (by simp only [List.length_set]; omega)
    obtain ⟨t1, t2⟩ := take_drop_set x accessStack.val accessStack.size (by omega)
    refine ⟨m2, ?_, hm2, fun _ => ?_⟩
    · simp only [releaseAllLoop, h.hasAccess_eq, List.isEmpty_cons, Bool.not_false, if_true,
        hrel, hloop]
      simp only [t1, t2 _ (show accessStack.size < accessStack.size + 1 + stack.length by omega),
        List.length_cons, List.append_assoc, List.singleton_append, Option.some.injEq,
        Prod.mk.injEq, true_and, tAccessStack.mk.injEq]
      constructor
      · omega
      · congr 3; omega
    · cases stack with
      | nil =>
        have := hall rfl
        simp only [releaseAllLoop, h.hasAccess_eq, List.isEmpty_cons, Bool.not_false, if_true,
          hrel] at hloop
        cases n <;>
          simp only [releaseAllLoop, hm1.hasAccess_eq, List.isEmpty_nil, Bool.not_true,
            Bool.false_eq_true, if_false, Option.some.injEq, Prod.mk.injEq] at hloop <;>
          (rw [← hloop.1]; exact this)
      | cons y rest =>
        obtain ⟨m2', hloop', -, hall'⟩ := ih n m1
          ⟨accessStack.size + 1, accessStack.val.set accessStack.size x⟩ hm1 (by omega)
          (by simp only [List.length_set]; simp only [List.length_cons] at hval ⊢; omega)
        rw [hloop] at hloop'
        simp only [Option.some.injEq, Prod.mk.injEq] at hloop'
        rw [hloop'.1]
        exact hall' (by simp)

end tAccessManager

namespace tAccessManager

/-- What the debug counters show of the accesses a thread holds alone. -/
theorem Holds.holds_counts {m : tAccessManager} {ourTid : Nat} {stack : List Bool}
    (h : m.Holds ourTid stack) :
    m.DebugGetRefCount = stack.length ∧ m.DebugGetActiveSharedCount = stack.count false ∧
    m.DebugGetActiveExclusiveCount = stack.count true ∧
    m.DebugGetActiveCount = stack.length := by
  obtain ⟨-, hr, hl, hact⟩ := h
  simp only [kMaxNestLevel] at hl
  have hcnt := count_false_add_count_true stack
  cases stack with
  | nil =>
    simp only at hact
    simp only [DebugGetRefCount, DebugGetActiveSharedCount, DebugGetActiveExclusiveCount,
      DebugGetActiveCount, hact, hr]
    exact ⟨trivial, rfl, rfl, rfl⟩
  | cons x stack =>
    obtain ⟨request, ha, -, -, hsh, hex, -⟩ := hact
    simp only [DebugGetRefCount, DebugGetActiveSharedCount, DebugGetActiveExclusiveCount,
      DebugGetActiveCount, ha, hr, tRequestList.CountShared, tRequestList.CountExclusive,
      tRequestList.Count, hsh, hex, hcnt, true_and]
    exact Nat.mod_eq_of_lt (by omega)

end tAccessManager

namespace tAccessManager

/-- An exclusive access added and removed again leaves the low 31 bits of `nesting`. -/
theorem Spells.spells_add_remove {nesting : Nat} {stack : List Bool} (h : Spells nesting stack)
    (hlen : stack.length < 32) : Spells ((((nesting <<< 1) ||| 0) % 2 ^ 32) >>> 1) stack := by
  intro i hi
  rw [Nat.testBit_shiftRight, Nat.testBit_mod_two_pow, Nat.or_zero, Nat.testBit_shiftLeft]
  have h32 : 1 + i < 32 := by omega
  have h1 : 1 + i ≥ 1 := by omega
  simp only [h32, decide_True, Bool.true_and, h1, Nat.add_sub_cancel_left]
  exact h i hi

/-- The function `SuspendAccess` of the only thread with accesses, below the deepest
nesting or without an exclusive access: its request moves to the suspended list. -/
theorem Holds.holds_suspend {m : tAccessManager} {ourTid : Nat} {x : Bool} {stack : List Bool}
    (h : m.Holds ourTid (x :: stack))
    (hok : (x :: stack).length < kMaxNestLevel ∨ (x :: stack).count true = 0) :
    ∃ request : tRequest,
      m.SuspendAccess ourTid =
        some ({ m with activeRequests := tRequestList.empty
                       suspendedRequests := m.suspendedRequests.AddAtHead request } :
          tAccessManager) ∧
      request.tid = ourTid ∧ request.yieldedTo = false ∧
      request.shared = (x :: stack).count false ∧ request.exclusive = (x :: stack).count true ∧
      Spells request.nesting (x :: stack) := by
  obtain ⟨hp, hr, hl, request, ha, htid, hy, hsh, hex, hsp⟩ := h
  simp only [kMaxNestLevel, List.length_cons] at hl hok
  have hcx : (x :: stack).count false + (x :: stack).count true = stack.length + 1 := by
    rw [count_false_add_count_true]; rfl
  have hs : request.shared < 2 ^ 32 := by omega
  have he : request.exclusive < 2 ^ 32 := by omega
  subst htid
  by_cases h0 : request.exclusive = 0
  · refine ⟨request, ?_, rfl, hy, hsh, hex, hsp⟩
    unfold SuspendAccess
    rw [ha, Remove_single request hs he]
    simp only [tRequest.CountExclusive, h0, ne_eq, not_true_eq_false, if_false]
    exact congrArg some (SatisfyRequest_nobody
      { m with activeRequests := tRequestList.empty
               suspendedRequests := m.suspendedRequests.AddAtHead request } hp)
  · have hlt : stack.length + 1 < 32 := by omega
    have hsum : (request.shared + request.exclusive) % 2 ^ 32 < 32 := by
      rw [Nat.mod_eq_of_lt (by omega)]; omega
    have hadd : request.Add tRequestType.kExclusive =
        some { request with exclusive := (request.exclusive + 1) % 2 ^ 32,
                            nesting := ((request.nesting <<< 1) ||| 0) % 2 ^ 32,
                            yieldedTo := false } := by
      simp only [tRequest.Add, tRequest.AddExclusive, hy, Bool.false_eq_true, if_false, hsum,
        if_true]
      rfl
    have hz : (((request.nesting <<< 1) ||| 0) % 2 ^ 32) &&& 1 = 0 := by
      rw [Nat.or_zero, Nat.and_one_is_mod, Nat.shiftLeft_eq]
      omega
    have hback : ((request.exclusive + 1) % 2 ^ 32 + 2 ^ 32 - 1) % 2 ^ 32 = request.exclusive := by
      omega
    refine ⟨{ request with nesting := (((request.nesting <<< 1) ||| 0) % 2 ^ 32) >>> 1 },
      ?_, rfl, hy, hsh, hex, hsp.spells_add_remove (by simpa using hlt)⟩
    unfold SuspendAccess
    rw [ha, Remove_single request hs he]
    simp only [tRequest.CountExclusive, h0, ne_eq, not_false_eq_true, if_true, hadd,
      tRequest.RemoveLast, Bool.false_eq_true, if_false, hz, not_true_eq_false,
      Option.map_some', hback]
    have hreq : (⟨request.tid, request.shared, request.exclusive,
        (((request.nesting <<< 1) ||| 0) % 2 ^ 32) >>> 1, false, request.signal⟩ : tRequest) =
        { request with nesting := (((request.nesting <<< 1) ||| 0) % 2 ^ 32) >>> 1 } := by
      cases request
      simp only at hy
      subst hy
      rfl
    rw [hreq]
    exact congrArg some (SatisfyRequest_nobody
      { m with activeRequests := tRequestList.empty
               suspendedRequests := m.suspendedRequests.AddAtHead
                 { request with nesting := (((request.nesting <<< 1) ||| 0) % 2 ^ 32) >>> 1 } }
      hp)

/-- The function `SuspendAccess` on 32 accesses, one of them exclusive: the `assert` of
`Add` fails. -/
theorem Holds.holds_suspend_full {m : tAccessManager} {ourTid : Nat} {stack : List Bool}
    (h : m.Holds ourTid stack) (hlen : stack.length = kMaxNestLevel)
    (hex : stack.count true ≠ 0) : m.SuspendAccess ourTid = none := by
  cases stack with
  | nil => simp [kMaxNestLevel] at hlen
  | cons x stack =>
    obtain ⟨hp, hr, hl, request, ha, htid, hy, hsh, hexc, hsp⟩ := h
    simp only [kMaxNestLevel, List.length_cons] at hl hlen
    have hcx : (x :: stack).count false + (x :: stack).count true = stack.length + 1 := by
      rw [count_false_add_count_true]; rfl
    have hs : request.shared < 2 ^ 32 := by omega
    have he : request.exclusive < 2 ^ 32 := by omega
    subst htid
    have h0 : ¬ request.exclusive = 0 := by omega
    have hsum : ¬ (request.shared + request.exclusive) % 2 ^ 32 < 32 := by
      rw [Nat.mod_eq_of_lt (by omega)]; omega
    unfold SuspendAccess
    rw [ha, Remove_single request hs he]
    simp only [tRequest.CountExclusive, h0, ne_eq, not_false_eq_true, if_true, tRequest.Add,
      tRequest.AddExclusive, hy, Bool.false_eq_true, if_false, hsum]

/-- The function `ResumeAccess` of a thread whose request heads the suspended list, with
nothing active and nothing pending: the request is active again at once. -/
theorem holds_resume {m : tAccessManager} {ourTid : Nat} {stack : List Bool}
    (rest : tRequestList) (request : tRequest)
    (ha : m.activeRequests = tRequestList.empty) (hp : m.pendingRequests = tRequestList.empty)
    (hr : m.refcount = stack.length) (hl : stack.length ≤ kMaxNestLevel) (hne : stack ≠ [])
    (hsus : m.suspendedRequests = rest.AddAtHead request)
    (htid : request.tid = ourTid) (hy : request.yieldedTo = false)
    (hsh : request.shared = stack.count false) (hex : request.exclusive = stack.count true)
    (hsp : Spells request.nesting stack) :
    ∃ m', m.ResumeAccess ourTid = (m', false) ∧ m'.Holds ourTid stack ∧
      m'.suspendedRequests.head = rest.head := by
  have hcnt := count_false_add_count_true stack
  simp only [kMaxNestLevel] at hl
  have hs : request.shared < 2 ^ 32 := by omega
  have he : request.exclusive < 2 ^ 32 := by omega
  subst htid
  have hrem : (m.suspendedRequests.Remove request.tid).1 = some request ∧
      (m.suspendedRequests.Remove request.tid).2.head = rest.head := by
    simp only [hsus, tRequestList.Remove, tRequestList.AddAtHead, tRequest.GetTid,
      List.find?_cons, beq_self_eq_true, List.eraseP_cons, cond_true, and_self]
  obtain ⟨r1, r2⟩ := hrem
  have e : m.suspendedRequests.Remove request.tid =
      (some request, (m.suspendedRequests.Remove request.tid).2) := by
    rw [← r1]
  refine ⟨{ m with suspendedRequests := (m.suspendedRequests.Remove request.tid).2,
                   activeRequests := ⟨[request], request.shared, request.exclusive⟩ }, ?_, ?_, r2⟩
  · unfold ResumeAccess
    rw [e]
    simp only
    exact SatisfyRequest_free
      { m with suspendedRequests := (m.suspendedRequests.Remove request.tid).2 } request ha hp
      hs he
  · refine ⟨hp, hr, hl, ?_⟩
    cases stack with
    | nil => exact absurd rfl hne
    | cons x stack => exact ⟨request, rfl, rfl, hy, hsh, hex, hsp⟩

end tAccessManager

namespace tAccessManager

theorem sampleManagerFull_Holds :
    sampleManagerFull.Holds 5 (List.replicate 31 true ++ [false]) := by
  obtain ⟨m, h1, h2⟩ := Holds.holds_acquires (sampleRawRequest 99)
    (false :: List.replicate 31 true) (ctor_Holds sampleRawRequest 5) (by decide)
  have e : sampleManagerFull = m := by
    unfold sampleManagerFull
    rw [h1]
    rfl
  rw [e]
  have e2 : (false :: List.replicate 31 true).reverse ++ [] =
      List.replicate 31 true ++ [false] := by decide
  rw [← e2]
  exact h2

end tAccessManager

namespace tAccessManager

end tAccessManager

namespace tAccessManager

end tAccessManager

open tAccessManager in
theorem tRequest.Valid.bounds {r : tRequest} (h : r.Valid) :
    1 ≤ r.shared + r.exclusive ∧ r.shared + r.exclusive ≤ 32 := by
  obtain ⟨-, stack, hne, hl, hs, he, -⟩ := h
  have := count_false_add_count_true stack
  simp only [kMaxNestLevel] at hl
  have hpos : 0 < stack.length := List.length_pos.mpr hne
  omega

open tAccessManager in
theorem tRequest.Valid.valid_signal {r : tRequest} (h : r.Valid) (b : Bool) :
    ({ r with signal := b } : tRequest).Valid := h

open tAccessManager in
theorem tRequest.ctor_valid (block : tRequest) (tid : Nat) (exclusive : Bool) :
    ∃ r, tRequest.ctor block tid
        (if exclusive then tRequestType.kExclusive else tRequestType.kShared) = some r ∧
      r.Valid ∧ r.tid = tid ∧ r.exclusive = (if exclusive then 1 else 0) ∧
      r.shared = (if exclusive then 0 else 1) := by
  cases exclusive with
  | false =>
    refine ⟨⟨tid, 1, 0, ((block.nesting <<< 1) ||| 1) % 2 ^ 32, false, block.signal⟩,
      by simp [tRequest.ctor, tRequest.Add], ⟨rfl, [false], by simp, by simp [kMaxNestLevel],
      rfl, rfl, ?_⟩, rfl, rfl, rfl⟩
    have := @Spells.spells_push block.nesting [] (fun i hi => absurd hi (by simp)) (by simp) false
    simpa using this
  | true =>
    refine ⟨⟨tid, 0, 1, ((block.nesting <<< 1) ||| 0) % 2 ^ 32, false, block.signal⟩,
      by simp [tRequest.ctor, tRequest.Add, tRequest.AddExclusive],
      ⟨rfl, [true], by simp, by simp [kMaxNestLevel], rfl, rfl, ?_⟩, rfl, rfl, rfl⟩
    have := @Spells.spells_push block.nesting [] (fun i hi => absurd hi (by simp)) (by simp) true
    simpa using this

open tAccessManager in
theorem tRequest.Valid.valid_add {r r2 : tRequest} (h : r.Valid) (exclusive : Bool)
    (ha : r.Add (if exclusive then tRequestType.kExclusive else tRequestType.kShared) = some r2) :
    r2.Valid ∧ r2.tid = r.tid ∧
    r2.exclusive = r.exclusive + (if exclusive then 1 else 0) ∧
    r2.shared = r.shared + (if exclusive then 0 else 1) ∧
    r.shared + r.exclusive < 32 := by
  have hb := h.bounds
  obtain ⟨hy, stack, hne, hl, hs, he, hsp⟩ := h
  have hcnt := count_false_add_count_true stack
  simp only [kMaxNestLevel] at hl
  have hmod : (r.shared + r.exclusive) % 2 ^ 32 = r.shared + r.exclusive :=
    Nat.mod_eq_of_lt (by omega)
  cases exclusive with
  | false =>
    simp only [Bool.false_eq_true, if_false, tRequest.Add, hmod] at ha
    split_ifs at ha with hlt
    simp only [Option.some.injEq] at ha
    subst ha
    have hm1 : (r.shared + 1) % 2 ^ 32 = r.shared + 1 := Nat.mod_eq_of_lt (by omega)
    refine ⟨⟨hy, false :: stack, by simp, by simp [kMaxNestLevel]; omega, ?_, ?_, ?_⟩, rfl,
      rfl, by simp only [hm1, Bool.false_eq_true, if_false], hlt⟩
    · simp only [hm1]
      rw [hs, List.count_cons_self]
    · simp only [he]; simp [List.count_cons]
    · have := Spells.spells_push hsp (by omega) false
      simpa using this
  | true =>
    simp only [if_true, tRequest.Add, tRequest.AddExclusive, hy, Bool.false_eq_true, if_false,
      hmod] at ha
    split_ifs at ha with hlt
    simp only [Option.some.injEq] at ha
    subst ha
    have hm1 : (r.exclusive + 1) % 2 ^ 32 = r.exclusive + 1 := Nat.mod_eq_of_lt (by omega)
    refine ⟨⟨rfl, true :: stack, by simp, by simp [kMaxNestLevel]; omega, ?_, ?_, ?_⟩, rfl,
      by simp only [hm1, if_true], rfl, hlt⟩
    · simp only [hs]; simp [List.count_cons]
    · simp only [hm1]
      rw [he, List.count_cons_self]
    · have := Spells.spells_push hsp (by omega) true
      simpa using this

open tAccessManager in
theorem tRequest.Valid.valid_removeLast {r : tRequest} (h : r.Valid) :
    ∃ x r2, r.RemoveLast = some (x, r2) ∧ r2.tid = r.tid ∧
      r2.shared + (if x then 0 else 1) = r.shared ∧
      r2.exclusive + (if x then 1 else 0) = r.exclusive ∧
      (r2.Count ≠ 0 → r2.Valid) := by
  obtain ⟨hy, stack, hne, hl, hs, he, hsp⟩ := h
  have hcnt := count_false_add_count_true stack
  simp only [kMaxNestLevel] at hl
  cases stack with
  | nil => exact absurd rfl hne
  | cons x stack =>
    obtain ⟨hbit, hsp2⟩ := hsp.spells_pop
    have hcnt2 := count_false_add_count_true stack
    simp only [List.length_cons] at hl hcnt
    have hvalid : ∀ r2 : tRequest, r2.yieldedTo = false → r2.shared = stack.count false →
        r2.exclusive = stack.count true → r2.nesting = r.nesting >>> 1 → r2.Count ≠ 0 →
        r2.Valid := by
      intro r2 h1 h2 h3 h4 h5
      refine ⟨h1, stack, ?_, by simp [kMaxNestLevel]; omega, h2, h3, by rw [h4]; exact hsp2⟩
      intro hc
      subst hc
      simp [tRequest.Count, h2, h3] at h5
    cases x with
    | false =>
      have hb : r.nesting &&& 1 ≠ 0 := hbit.2 rfl
      have hsc : r.shared = stack.count false + 1 := by
        rw [hs, List.count_cons_self]
      have hec : r.exclusive = stack.count true := by
        rw [he]; simp [List.count_cons]
      have hm : (r.shared + 2 ^ 32 - 1) % 2 ^ 32 = stack.count false := by omega
      refine ⟨false, { r with shared := (r.shared + 2 ^ 32 - 1) % 2 ^ 32,
                              nesting := r.nesting >>> 1 },
        by simp only [tRequest.RemoveLast, hy, Bool.false_eq_true, if_false, hb,
          ne_eq, not_false_eq_true, if_true], rfl, ?_, ?_, ?_⟩
      · simp only [Bool.false_eq_true, if_false]
        omega
      · simp
      · exact hvalid _ hy hm hec rfl
    | true =>
      have hb : ¬ (r.nesting &&& 1 ≠ 0) := fun hc => absurd (hbit.1 hc) (by simp)
      have hsc : r.shared = stack.count false := by
        rw [hs]; simp [List.count_cons]
      have hec : r.exclusive = stack.count true + 1 := by
        rw [he, List.count_cons_self]
      have hm : (r.exclusive + 2 ^ 32 - 1) % 2 ^ 32 = stack.count true := by omega
      refine ⟨true, { r with exclusive := (r.exclusive + 2 ^ 32 - 1) % 2 ^ 32,
                             nesting := r.nesting >>> 1 },
        by simp only [tRequest.RemoveLast, hy, Bool.false_eq_true, if_false, hb,
          if_false], rfl, ?_, ?_, ?_⟩
      · simp
      · simp only [if_true]
        omega
      · exact hvalid _ hy hsc hm rfl

open tAccessManager in
/-- What `SuspendAccess` does to a request with exclusive access leaves it valid. -/
theorem tRequest.Valid.valid_purge {r a : tRequest} (h : r.Valid)
    (ha : r.Add tRequestType.kExclusive = some a) :
    ∃ r2, a.RemoveLast = some (true, r2) ∧ r2.Valid ∧ r2.tid = r.tid ∧
      r2.shared = r.shared ∧ r2.exclusive = r.exclusive := by
  have hb := h.bounds
  obtain ⟨hy, stack, hne, hl, hs, he, hsp⟩ := h
  have hcnt := count_false_add_count_true stack
  simp only [kMaxNestLevel] at hl
  have hmod : (r.shared + r.exclusive) % 2 ^ 32 = r.shared + r.exclusive :=
    Nat.mod_eq_of_lt (by omega)
  simp only [tRequest.Add, tRequest.AddExclusive, hy, Bool.false_eq_true, if_false,
    hmod] at ha
  split_ifs at ha with hlt
  simp only [Option.some.injEq] at ha
  subst ha
  have hz : (((r.nesting <<< 1) ||| 0) % 2 ^ 32) &&& 1 = 0 := by
    rw [Nat.or_zero, Nat.and_one_is_mod, Nat.shiftLeft_eq]
    omega
  have hback : ((r.exclusive + 1) % 2 ^ 32 + 2 ^ 32 - 1) % 2 ^ 32 = r.exclusive := by
    omega
  have hyt : (tRequestType.kExclusive == tRequestType.kYieldedTo) = false := rfl
  refine ⟨⟨r.tid, r.shared, r.exclusive, (((r.nesting <<< 1) ||| 0) % 2 ^ 32) >>> 1, false,
      r.signal⟩,
    by simp only [tRequest.RemoveLast, hyt, Bool.false_eq_true, if_false, hz, ne_eq,
      not_true_eq_false, hback],
    ⟨rfl, stack, hne, by simp [kMaxNestLevel]; omega, hs, he,
      hsp.spells_add_remove (by omega)⟩, rfl, rfl, rfl⟩

theorem sumShared_cons (r : tRequest) (rs : List tRequest) :
    sumShared (r :: rs) = r.shared + sumShared rs := by
  simp [sumShared]

theorem sumExclusive_cons (r : tRequest) (rs : List tRequest) :
    sumExclusive (r :: rs) = r.exclusive + sumExclusive rs := by
  simp [sumExclusive]

theorem sumShared_append (rs : List tRequest) (r : tRequest) :
    sumShared (rs ++ [r]) = sumShared rs + r.shared := by
  simp [sumShared]

theorem sumExclusive_append (rs : List tRequest) (r : tRequest) :
    sumExclusive (rs ++ [r]) = sumExclusive rs + r.exclusive := by
  simp [sumExclusive]

theorem sum_bounds : ∀ rs : List tRequest, (∀ r ∈ rs, r.Valid) →
    rs.length ≤ sumShared rs + sumExclusive rs ∧
    sumShared rs + sumExclusive rs ≤ 32 * rs.length := by
  intro rs
  induction rs with
  | nil => intro _; simp [sumShared, sumExclusive]
  | cons r rs ih =>
    intro h
    have hr := (h r (List.mem_cons_self _ _)).bounds
    have := ih (fun x hx => h x (List.mem_cons_of_mem _ hx))
    rw [sumShared_cons, sumExclusive_cons, List.length_cons]
    omega

theorem sum_eraseP (p : tRequest → Bool) : ∀ (rs : List tRequest) (r : tRequest),
    rs.find? p = some r →
    sumShared rs = sumShared (rs.eraseP p) + r.shared ∧
    sumExclusive rs = sumExclusive (rs.eraseP p) + r.exclusive ∧
    (rs.eraseP p).length + 1 = rs.length ∧ r ∈ rs ∧ p r = true ∧
    (∀ x ∈ rs.eraseP p, x ∈ rs) := by
  intro rs
  induction rs with
  | nil => intro r h; simp at h
  | cons a rs ih =>
    intro r h
    by_cases hp : p a = true
    · simp only [List.find?_cons, hp, Option.some.injEq] at h
      subst h
      simp only [List.eraseP_cons, hp, cond_true, sumShared_cons, sumExclusive_cons,
        List.length_cons, List.mem_cons, true_or, true_and]
      exact ⟨by omega, by omega, fun x hx => Or.inr hx⟩
    · simp only [Bool.not_eq_true] at hp
      simp only [List.find?_cons, hp] at h
      obtain ⟨h1, h2, h3, h4, h5, h6⟩ := ih r h
      simp only [List.eraseP_cons, hp, cond_false, sumShared_cons, sumExclusive_cons,
        List.length_cons, List.mem_cons]
      refine ⟨by omega, by omega, by omega, Or.inr h4, h5, fun x hx => ?_⟩
      rcases hx with hx | hx
      · exact Or.inl hx
      · exact Or.inr (h6 x hx)

namespace tRequestList

theorem OK.ok_bounds {l : tRequestList} (h : l.OK) (hb : l.head.length < 2 ^ 27) :
    l.shared + l.exclusive < 2 ^ 32 ∧ (l.Count = 0 ↔ l.head = []) ∧
    (l.exclusive ≠ 0 → l.head ≠ []) ∧ l.head.length ≤ l.shared + l.exclusive := by
  obtain ⟨hv, hs, he⟩ := h
  obtain ⟨b1, b2⟩ := sum_bounds l.head hv
  rw [← hs, ← he] at b1 b2
  have hlt : l.shared + l.exclusive < 2 ^ 32 := by omega
  refine ⟨hlt, ?_, ?_, b1⟩
  · simp only [Count, Nat.mod_eq_of_lt hlt]
    constructor
    · intro h0
      exact List.length_eq_zero.mp (by omega)
    · intro h0
      rw [h0] at b2
      simp only [List.length_nil] at b2
      omega
  · intro hne hc
    rw [hc] at b2
    simp only [List.length_nil] at b2
    omega

theorem OK.ok_AddAtHead {l : tRequestList} (h : l.OK) {r : tRequest} (hr : r.Valid)
    (hb : l.head.length + 1 < 2 ^ 27) :
    (l.AddAtHead r).OK ∧ (l.AddAtHead r).head = r :: l.head ∧
    (l.AddAtHead r).shared = l.shared + r.shared ∧
    (l.AddAtHead r).exclusive = l.exclusive + r.exclusive := by
  obtain ⟨b1, -, -, -⟩ := h.ok_bounds (by omega)
  obtain ⟨hv, hs, he⟩ := h
  obtain ⟨-, b2⟩ := sum_bounds l.head hv
  rw [← hs, ← he] at b2
  have hrb := hr.bounds
  have e1 : (l.shared + r.shared) % 2 ^ 32 = l.shared + r.shared :=
    Nat.mod_eq_of_lt (by omega)
  have e2 : (l.exclusive + r.exclusive) % 2 ^ 32 = l.exclusive + r.exclusive :=
    Nat.mod_eq_of_lt (by omega)
  simp only [AddAtHead, tRequest.CountShared, tRequest.CountExclusive, e1, e2, and_true]
  refine ⟨?_, ?_, ?_⟩
  · intro x hx
    simp only [List.mem_cons] at hx
    rcases hx with rfl | hx
    · exact hr
    · exact hv x hx
  · simp only [sumShared_cons, hs]; omega
  · simp only [sumExclusive_cons, he]; omega

theorem OK.ok_AddAtTail {l : tRequestList} (h : l.OK) {r : tRequest} (hr : r.Valid)
    (hb : l.head.length + 1 < 2 ^ 27) :
    (l.AddAtTail r).OK ∧ (l.AddAtTail r).head = l.head ++ [r] := by
  obtain ⟨b1, -, -, -⟩ := h.ok_bounds (by omega)
  obtain ⟨hv, hs, he⟩ := h
  obtain ⟨-, b2⟩ := sum_bounds l.head hv
  rw [← hs, ← he] at b2
  have hrb := hr.bounds
  have e1 : (l.shared + r.shared) % 2 ^ 32 = l.shared + r.shared :=
    Nat.mod_eq_of_lt (by omega)
  have e2 : (l.exclusive + r.exclusive) % 2 ^ 32 = l.exclusive + r.exclusive :=
    Nat.mod_eq_of_lt (by omega)
  simp only [AddAtTail, tRequest.CountShared, tRequest.CountExclusive, e1, e2, and_true]
  refine ⟨?_, ?_, ?_⟩
  · intro x hx
    simp only [List.mem_append, List.mem_singleton] at hx
    rcases hx with hx | rfl
    · exact hv x hx
    · exact hr
  · simp only [sumShared_append, hs]
  · simp only [sumExclusive_append, he]

theorem OK.ok_Remove {l : tRequestList} (h : l.OK) (hb : l.head.length < 2 ^ 27) (tid : Nat) :
    l.Remove tid = (none, l) ∨
    ∃ r l2, l.Remove tid = (some r, l2) ∧ r ∈ l.head ∧ r.tid = tid ∧ r.Valid ∧ l2.OK ∧
      l2.head.length + 1 = l.head.length ∧ l.shared = l2.shared + r.shared ∧
      l.exclusive = l2.exclusive + r.exclusive := by
  obtain ⟨b1, -, -, -⟩ := h.ok_bounds hb
  obtain ⟨hv, hs, he⟩ := h
  cases hf : l.head.find? (fun r => r.GetTid == tid) with
  | none => left; simp only [Remove, hf]
  | some r =>
    right
    obtain ⟨h1, h2, h3, h4, h5, h6⟩ := sum_eraseP _ l.head r hf
    have e1 : (l.shared + (2 ^ 32 - r.shared % 2 ^ 32)) % 2 ^ 32 = l.shared - r.shared := by
      omega
    have e2 : (l.exclusive + (2 ^ 32 - r.exclusive % 2 ^ 32)) % 2 ^ 32 =
        l.exclusive - r.exclusive := by
      omega
    refine ⟨r, ⟨l.head.eraseP (fun r => r.GetTid == tid), l.shared - r.shared,
        l.exclusive - r.exclusive⟩,
      by simp only [Remove, hf, tRequest.CountShared, tRequest.CountExclusive, e1, e2], h4,
      by simpa [tRequest.GetTid] using h5, hv r h4,
      ⟨fun x hx => hv x (h6 x hx), ?_, ?_⟩, h3, ?_, ?_⟩
    · simp only; omega
    · simp only; omega
    · simp only; omega
    · simp only; omega

theorem OK.ok_RemoveHead {l : tRequestList} (h : l.OK) (hb : l.head.length < 2 ^ 27) :
    (l.RemoveHead = (none, l) ∧ l.head = []) ∨
    ∃ r l2, l.RemoveHead = (some r, l2) ∧ r.Valid ∧ l2.OK ∧ l.head = r :: l2.head := by
  obtain ⟨b1, -, -, -⟩ := h.ok_bounds hb
  obtain ⟨hv, hs, he⟩ := h
  cases hh : l.head with
  | nil => left; simp only [RemoveHead, hh, and_self]
  | cons r rest =>
    right
    rw [hh, sumShared_cons] at hs
    rw [hh, sumExclusive_cons] at he
    have e1 : (l.shared + (2 ^ 32 - r.shared % 2 ^ 32)) % 2 ^ 32 = l.shared - r.shared := by
      omega
    have e2 : (l.exclusive + (2 ^ 32 - r.exclusive % 2 ^ 32)) % 2 ^ 32 =
        l.exclusive - r.exclusive := by
      omega
    refine ⟨r, ⟨rest, l.shared - r.shared, l.exclusive - r.exclusive⟩,
      by simp only [RemoveHead, hh, tRequest.CountShared, tRequest.CountExclusive, e1, e2],
      hv r (by rw [hh]; exact List.mem_cons_self _ _),
      ⟨fun x hx => hv x (by rw [hh]; exact List.mem_cons_of_mem _ hx), ?_, ?_⟩, rfl⟩
    · simp only; omega
    · simp only; omega

end tRequestList

namespace tAccessManager

/-- The two ways of `SatisfyRequest`: the request becomes active, signalled for a
different thread, or it is put on the pending list, at the head with high priority and at
the tail, after the head of the list has had its turn, without. -/
theorem SatisfyRequestWith_eq (recurse : tAccessManager → tAccessManager)
    (m : tAccessManager) (request : tRequest) (hp dt : Bool) :
    SatisfyRequestWith recurse m (some request) hp dt =
      if m.canBeSatisfied request hp then
        ({ m with
           activeRequests :=
             m.activeRequests.AddAtHead
               (if dt then { request with signal := true } else request) }, false)
      else
        (if hp then { m with pendingRequests := m.pendingRequests.AddAtHead request }
         else { recurse m with
                pendingRequests := (recurse m).pendingRequests.AddAtTail request }, !dt) := by
  simp only [SatisfyRequestWith, canBeSatisfied]
  cases hc : (!(!hp && m.pendingRequests.Count != 0) &&
      !(m.activeRequests.CountExclusive != 0) &&
      !(request.CountExclusive != 0 && m.activeRequests.Count != 0))
  · cases hp <;> cases dt <;> simp
  · cases dt <;> simp

theorem canBeSatisfied_iff (m : tAccessManager) (request : tRequest) (hp : Bool) :
    m.canBeSatisfied request hp = true ↔
      (hp = true ∨ m.pendingRequests.Count = 0) ∧ m.activeRequests.CountExclusive = 0 ∧
      (request.CountExclusive = 0 ∨ m.activeRequests.Count = 0) := by
  simp only [canBeSatisfied, Bool.and_eq_true, Bool.not_eq_true', Bool.and_eq_false_imp,
    Bool.not_eq_true', bne_eq_false_iff_eq, bne_iff_ne, ne_eq]
  cases hp <;> simp <;> tauto

theorem Sound.sound_satisfyWith {recurse : tAccessManager → tAccessManager} {m : tAccessManager}
    {hp : Bool}
    (hrec : hp = false → (recurse m).Sound ∧ (recurse m).requests = m.requests)
    (h : m.Sound) {request : tRequest} (hr : request.Valid) (hb : m.requests + 1 < 2 ^ 27)
    (dt : Bool) :
    (SatisfyRequestWith recurse m (some request) hp dt).1.Sound ∧
    (SatisfyRequestWith recurse m (some request) hp dt).1.requests = m.requests + 1 := by
  obtain ⟨hA, hP, hS, hex⟩ := h
  simp only [requests] at hb
  rw [SatisfyRequestWith_eq]
  by_cases hcan : m.canBeSatisfied request hp = true
  · rw [if_pos hcan]
    obtain ⟨-, c2, c3⟩ := (canBeSatisfied_iff m request hp).1 hcan
    have hr2 : (if dt then { request with signal := true } else request).Valid := by
      cases dt
      · exact hr
      · exact hr.valid_signal true
    have hce : (if dt then { request with signal := true } else request).exclusive =
        request.exclusive := by
      cases dt <;> rfl
    obtain ⟨o1, o2, -, o4⟩ := hA.ok_AddAtHead hr2 (by omega)
    obtain ⟨-, z, -, -⟩ := hA.ok_bounds (by omega)
    refine ⟨⟨o1, hP, hS, ?_⟩, ?_⟩
    · simp only [o4, o2, hce, List.length_cons]
      intro hne
      simp only [tRequestList.CountExclusive, tRequest.CountExclusive] at c2 c3
      have : m.activeRequests.head = [] := by
        rcases c3 with c3 | c3
        · omega
        · exact z.1 c3
      rw [this]
      rfl
    · simp only [requests, o2, List.length_cons]
      omega
  · rw [if_neg hcan]
    cases hp with
    | true =>
      obtain ⟨o1, o2, -, -⟩ := hP.ok_AddAtHead hr (by omega)
      refine ⟨⟨hA, o1, hS, hex⟩, ?_⟩
      simp only [requests, if_true, o2, List.length_cons]
      omega
    | false =>
      obtain ⟨⟨rA, rP, rS, rex⟩, rn⟩ := hrec rfl
      simp only [requests] at rn
      obtain ⟨o1, o2⟩ := rP.ok_AddAtTail hr (by omega)
      refine ⟨⟨rA, o1, rS, rex⟩, ?_⟩
      simp only [requests, Bool.false_eq_true, if_false, o2, List.length_append,
        List.length_singleton]
      omega

/-- The call `SatisfyRequest(pendingRequests.RemoveHead(), kHighPriority | kDifferentThread)`
keeps the lists in order and the number of requests. -/
theorem Sound.sound_pop (recurse : tAccessManager → tAccessManager) {m : tAccessManager}
    (h : m.Sound) (hb : m.requests < 2 ^ 27) :
    (SatisfyRequestWith recurse { m with pendingRequests := m.pendingRequests.RemoveHead.2 }
      m.pendingRequests.RemoveHead.1 true true).1.Sound ∧
    (SatisfyRequestWith recurse { m with pendingRequests := m.pendingRequests.RemoveHead.2 }
      m.pendingRequests.RemoveHead.1 true true).1.requests = m.requests := by
  obtain ⟨hA, hP, hS, hex⟩ := h
  have hb2 := hb
  simp only [requests] at hb2
  rcases hP.ok_RemoveHead (by omega) with ⟨e, -⟩ | ⟨r, l2, e, hr, hl2, hhead⟩
  · rw [e]
    exact ⟨⟨hA, hP, hS, hex⟩, rfl⟩
  · rw [e]
    have hs : ({ m with pendingRequests := l2 } : tAccessManager).Sound := ⟨hA, hl2, hS, hex⟩
    have hn : ({ m with pendingRequests := l2 } : tAccessManager).requests + 1 = m.requests := by
      simp only [requests, hhead, List.length_cons]
      omega
    obtain ⟨s1, s2⟩ := @Sound.sound_satisfyWith recurse _ true
      (fun hc => absurd hc (by simp)) hs _ hr (by omega) true
    exact ⟨s1, s2.trans hn⟩

theorem Sound.sound_satisfy {m : tAccessManager} (h : m.Sound) {request : tRequest}
    (hr : request.Valid) (hb : m.requests + 1 < 2 ^ 27) (hp dt : Bool) :
    (m.SatisfyRequest (some request) hp dt).1.Sound ∧
    (m.SatisfyRequest (some request) hp dt).1.requests = m.requests + 1 :=
  Sound.sound_satisfyWith (fun _ => h.sound_pop (fun m => m) (by omega)) h hr hb dt

theorem Sound.sound_satisfyPending {m : tAccessManager} (h : m.Sound)
    (hb : m.requests < 2 ^ 27) :
    ({ m with pendingRequests := m.pendingRequests.RemoveHead.2 }.SatisfyRequest
      m.pendingRequests.RemoveHead.1 true true).1.Sound ∧
    ({ m with pendingRequests := m.pendingRequests.RemoveHead.2 }.SatisfyRequest
      m.pendingRequests.RemoveHead.1 true true).1.requests = m.requests :=
  h.sound_pop _ hb

end tAccessManager

namespace tAccessManager

theorem Sound.of_lists {m m2 : tAccessManager} (h : m.Sound) (hl : SameLists m m2) :
    m2.Sound ∧ m2.requests = m.requests := by
  obtain ⟨l1, l2, l3⟩ := hl
  unfold Sound requests
  rw [l1, l2, l3]
  exact ⟨h, rfl⟩

theorem IncRef_lists (m : tAccessManager) : SameLists m m.IncRef := by
  unfold IncRef
  simp only
  split <;> exact ⟨rfl, rfl, rfl⟩

theorem DecRef_lists {m m2 : tAccessManager} (h : m.DecRef = some m2) : SameLists m m2 := by
  simp only [DecRef] at h
  split_ifs at h <;>
    (simp only [Option.some.injEq] at h
     subst h
     exact ⟨rfl, rfl, rfl⟩)

theorem operatorNew_lists (m : tAccessManager) (raw : tRequest) :
    SameLists m (m.operatorNew raw).2 := by
  unfold operatorNew
  split <;> exact ⟨rfl, rfl, rfl⟩

theorem Sound.sound_GetSharedAccess {m m2 : tAccessManager} {ourTid : Nat} {raw : tRequest}
    {waits : Bool} (h : m.Sound) (hb : m.requests + 1 < 2 ^ 27)
    (ha : m.GetSharedAccess ourTid raw = some (m2, waits)) :
    m2.Sound ∧ m2.requests ≤ m.requests + 1 := by
  have hb2 := hb
  simp only [requests] at hb2
  obtain ⟨hA, hP, hS, hex⟩ := h
  unfold GetSharedAccess at ha
  rcases hA.ok_Remove (by omega) ourTid with e | ⟨r, l2, e, hmem, htid, hr, hl2, hlen, hsh, hexc⟩
  · rw [e] at ha
    simp only at ha
    obtain ⟨r, hc, hr, -, -, -⟩ := tRequest.ctor_valid
      (({ m with activeRequests := m.activeRequests } : tAccessManager).operatorNew raw).1
      ourTid false
    simp only [Bool.false_eq_true, if_false] at hc
    rw [hc] at ha
    simp only [Option.some.injEq] at ha
    have h0 : ({ m with activeRequests := m.activeRequests } : tAccessManager).Sound :=
      ⟨hA, hP, hS, hex⟩
    obtain ⟨s1, s2⟩ := h0.of_lists (operatorNew_lists _ raw)
    obtain ⟨t1, t2⟩ := s1.sound_satisfy hr (by rw [s2]; exact hb) false false
    rw [ha] at t1 t2
    exact ⟨t1, by rw [t2, s2]⟩
  · rw [e] at ha
    simp only at ha
    cases hadd : r.Add tRequestType.kShared with
    | none => rw [hadd] at ha; simp at ha
    | some r2 =>
      rw [hadd] at ha
      simp only [Option.some.injEq, Prod.mk.injEq] at ha
      obtain ⟨rfl, -⟩ := ha
      obtain ⟨v1, -, v3, -, -⟩ := hr.valid_add false hadd
      simp only [Bool.false_eq_true, if_false, Nat.add_zero] at v3
      obtain ⟨o1, o2, -, o4⟩ := hl2.ok_AddAtHead v1 (by omega)
      refine ⟨⟨o1, hP, hS, ?_⟩, ?_⟩
      · simp only [o4, o2, v3, List.length_cons]
        intro hne
        have := hex (by omega)
        omega
      · simp only [requests, o2, List.length_cons]
        omega

theorem Sound.sound_GetExclusiveAccess {m m2 : tAccessManager} {ourTid : Nat}
    {raw : tRequest} {waits : Bool} (h : m.Sound) (hb : m.requests + 1 < 2 ^ 27)
    (ha : m.GetExclusiveAccess ourTid raw = some (m2, waits)) :
    m2.Sound ∧ m2.requests ≤ m.requests + 1 := by
  have hb2 := hb
  simp only [requests] at hb2
  obtain ⟨hA, hP, hS, hex⟩ := h
  unfold GetExclusiveAccess at ha
  rcases hA.ok_Remove (by omega) ourTid with e | ⟨r, l2, e, hmem, htid, hr, hl2, hlen, hsh, hexc⟩
  · rw [e] at ha
    simp only at ha
    obtain ⟨r, hc, hr, -, -, -⟩ := tRequest.ctor_valid
      (({ m with activeRequests := m.activeRequests } : tAccessManager).operatorNew raw).1
      ourTid true
    simp only [if_true] at hc
    rw [hc] at ha
    simp only [Option.some.injEq] at ha
    have h0 : ({ m with activeRequests := m.activeRequests } : tAccessManager).Sound :=
      ⟨hA, hP, hS, hex⟩
    obtain ⟨s1, s2⟩ := h0.of_lists (operatorNew_lists _ raw)
    obtain ⟨t1, t2⟩ := s1.sound_satisfy hr (by rw [s2]; exact hb) false false
    rw [ha] at t1 t2
    exact ⟨t1, by rw [t2, s2]⟩
  · rw [e] at ha
    simp only at ha
    cases hadd : r.Add tRequestType.kExclusive with
    | none => rw [hadd] at ha; simp at ha
    | some r2 =>
      rw [hadd] at ha
      obtain ⟨v1, -, v3, -, -⟩ := hr.valid_add true hadd
      simp only [if_true] at v3
      obtain ⟨o1, o2, -, o4⟩ := hl2.ok_AddAtHead v1 (by omega)
      by_cases h0 : r.CountExclusive ≠ 0
      · rw [if_pos h0] at ha
        simp only [Option.some.injEq, Prod.mk.injEq] at ha
        obtain ⟨rfl, -⟩ := ha
        simp only [tRequest.CountExclusive] at h0
        refine ⟨⟨o1, hP, hS, ?_⟩, ?_⟩
        · simp only [o2, List.length_cons]
          intro _
          have := hex (by omega)
          omega
        · simp only [requests, o2, List.length_cons]
          omega
      · rw [if_neg h0] at ha
        simp only [Option.some.injEq] at ha
        simp only [tRequest.CountExclusive, ne_eq, not_not] at h0
        have hs1 : ({ m with activeRequests := l2 } : tAccessManager).Sound := by
          refine ⟨hl2, hP, hS, ?_⟩
          intro hne
          simp only at hne
          have h1 := hex (by omega)
          have hemp : l2.head = [] := List.length_eq_zero.mp (by omega)
          have := (hl2.ok_bounds (by omega)).2.2.1 hne
          exact absurd hemp this
        have hn : ({ m with activeRequests := l2 } : tAccessManager).requests + 1 =
            m.requests := by
          simp only [requests]
          omega
        obtain ⟨t1, t2⟩ := hs1.sound_satisfy v1 (by omega) false false
        rw [ha] at t1 t2
        simp only at t1 t2
        exact ⟨t1, by omega⟩

theorem Sound.sound_Acquire {m m2 : tAccessManager} {ourTid : Nat} {exclusive : Bool}
    {raw : tRequest} {waits : Bool} (h : m.Sound) (hb : m.requests + 1 < 2 ^ 27)
    (ha : m.Acquire ourTid exclusive raw = some (m2, waits)) :
    m2.Sound ∧ m2.requests ≤ m.requests + 1 := by
  obtain ⟨s1, s2⟩ := h.of_lists (IncRef_lists m)
  unfold Acquire at ha
  split_ifs at ha
  · have := s1.sound_GetExclusiveAccess (by rw [s2]; exact hb) ha
    rwa [s2] at this
  · have := s1.sound_GetSharedAccess (by rw [s2]; exact hb) ha
    rwa [s2] at this

end tAccessManager

namespace tAccessManager

/-- The end of `Release`: the head of the pending list has its turn and the reference is
given back. -/
theorem Sound.sound_release_end {mi m2 : tAccessManager} (h : mi.Sound)
    (hb : mi.requests < 2 ^ 27)
    (hd : ({ mi with pendingRequests := mi.pendingRequests.RemoveHead.2 }.SatisfyRequest
      mi.pendingRequests.RemoveHead.1 true true).1.DecRef = some m2) :
    m2.Sound ∧ m2.requests = mi.requests := by
  obtain ⟨s1, s2⟩ := h.sound_satisfyPending hb
  obtain ⟨t1, t2⟩ := s1.of_lists (DecRef_lists hd)
  exact ⟨t1, t2.trans s2⟩

theorem Sound.sound_Release {m m2 : tAccessManager} {ourTid : Nat} {exclusive : Bool}
    (h : m.Sound) (hb : m.requests < 2 ^ 27)
    (hr : m.Release ourTid = some (m2, exclusive)) :
    m2.Sound ∧ m2.requests ≤ m.requests := by
  have hb2 := hb
  simp only [requests] at hb2
  obtain ⟨hA, hP, hS, hex⟩ := h
  unfold Release at hr
  rcases hA.ok_Remove (by omega) ourTid with e | ⟨r, l2, e, hmem, htid, hv, hl2, hlen, hsh, hexc⟩
  · rw [e] at hr
    simp at hr
  · rw [e] at hr
    simp only at hr
    obtain ⟨x, r2, hrl, -, hsh2, hex2, hval⟩ := hv.valid_removeLast
    rw [hrl] at hr
    simp only [Option.map_eq_some', Prod.mk.injEq] at hr
    obtain ⟨a, ha, rfl, -⟩ := hr
    have hl2s : ({ m with activeRequests := l2 } : tAccessManager).Sound := by
      refine ⟨hl2, hP, hS, ?_⟩
      intro hne
      simp only at hne
      have h1 := hex (by omega)
      have hemp : l2.head = [] := List.length_eq_zero.mp (by omega)
      exact absurd hemp ((hl2.ok_bounds (by omega)).2.2.1 hne)
    by_cases hcount : r2.Count ≠ 0
    · simp only [hcount, ne_eq, not_false_eq_true, if_true] at ha
      obtain ⟨o1, o2, -, o4⟩ := hl2.ok_AddAtHead (hval hcount) (by omega)
      have hmi : ({ m with activeRequests := l2.AddAtHead r2 } : tAccessManager).Sound := by
        refine ⟨o1, hP, hS, ?_⟩
        simp only [o4, o2, List.length_cons]
        intro hne
        have : x = true ∨ x = false := by cases x <;> simp
        have h1 := hex (by rcases this with rfl | rfl <;> simp at hex2 <;> omega)
        omega
      have hn : ({ m with activeRequests := l2.AddAtHead r2 } : tAccessManager).requests =
          m.requests := by
        simp only [requests, o2, List.length_cons]
        omega
      obtain ⟨t1, t2⟩ := hmi.sound_release_end (by rw [hn]; exact hb) ha
      exact ⟨t1, by rw [t2, hn]⟩
    · simp only [hcount, if_false] at ha
      have hmi : (({ m with activeRequests := l2 } : tAccessManager).operatorDelete r2).Sound :=
        hl2s
      have hn : (({ m with activeRequests := l2 } : tAccessManager).operatorDelete r2).requests
          + 1 = m.requests := by
        simp only [requests, operatorDelete]
        omega
      obtain ⟨t1, t2⟩ := hmi.sound_release_end (by omega) ha
      exact ⟨t1, by omega⟩

theorem Sound.sound_SuspendAccess {m m2 : tAccessManager} {ourTid : Nat}
    (h : m.Sound) (hb : m.requests < 2 ^ 27) (hs : m.SuspendAccess ourTid = some m2) :
    m2.Sound ∧ m2.requests = m.requests := by
  have hb2 := hb
  simp only [requests] at hb2
  obtain ⟨hA, hP, hS, hex⟩ := h
  unfold SuspendAccess at hs
  rcases hA.ok_Remove (by omega) ourTid with e | ⟨r, l2, e, hmem, htid, hv, hl2, hlen, hsh, hexc⟩
  · rw [e] at hs
    simp at hs
  · rw [e] at hs
    simp only at hs
    have hfin : ∀ r3 : tRequest, r3.Valid →
        ({ ({ m with activeRequests := l2,
                     suspendedRequests := m.suspendedRequests.AddAtHead r3 } :
              tAccessManager) with
           pendingRequests := m.pendingRequests.RemoveHead.2 }.SatisfyRequest
          m.pendingRequests.RemoveHead.1 true true).1 = m2 →
        m2.Sound ∧ m2.requests = m.requests := by
      intro r3 hv3 hs
      obtain ⟨o1, o2, -, -⟩ := hS.ok_AddAtHead hv3 (by omega)
      have hmi : ({ m with activeRequests := l2,
                           suspendedRequests := m.suspendedRequests.AddAtHead r3 } :
          tAccessManager).Sound := by
        refine ⟨hl2, hP, o1, ?_⟩
        intro hne
        simp only at hne
        have h1 := hex (by omega)
        have hemp : l2.head = [] := List.length_eq_zero.mp (by omega)
        exact absurd hemp ((hl2.ok_bounds (by omega)).2.2.1 hne)
      have hn : ({ m with activeRequests := l2,
                          suspendedRequests := m.suspendedRequests.AddAtHead r3 } :
          tAccessManager).requests = m.requests := by
        simp only [requests, o2, List.length_cons]
        omega
      obtain ⟨t1, t2⟩ := hmi.sound_satisfyPending (by rw [hn]; exact hb)
      rw [← hs]
      exact ⟨t1, t2.trans hn⟩
    by_cases h0 : r.CountExclusive ≠ 0
    · rw [if_pos h0] at hs
      cases hadd : r.Add tRequestType.kExclusive with
      | none => rw [hadd] at hs; simp at hs
      | some a =>
        obtain ⟨r4, h4, v4, -, -, -⟩ := hv.valid_purge hadd
        simp only [hadd, h4, Option.map_some', Option.some.injEq] at hs
        exact hfin r4 v4 hs
    · rw [if_neg h0] at hs
      simp only [Option.some.injEq] at hs
      exact hfin r hv hs

theorem Sound.sound_ResumeAccess {m : tAccessManager} (ourTid : Nat)
    (h : m.Sound) (hb : m.requests < 2 ^ 27) :
    (m.ResumeAccess ourTid).1.Sound ∧ (m.ResumeAccess ourTid).1.requests = m.requests := by
  have hb2 := hb
  simp only [requests] at hb2
  obtain ⟨hA, hP, hS, hex⟩ := h
  unfold ResumeAccess
  rcases hS.ok_Remove (by omega) ourTid with e | ⟨r, l2, e, hmem, htid, hv, hl2, hlen, hsh, hexc⟩
  · rw [e]
    exact ⟨⟨hA, hP, hS, hex⟩, rfl⟩
  · rw [e]
    simp only
    have hmi : ({ m with suspendedRequests := l2 } : tAccessManager).Sound := ⟨hA, hP, hl2, hex⟩
    have hn : ({ m with suspendedRequests := l2 } : tAccessManager).requests + 1 =
        m.requests := by
      simp only [requests]
      omega
    obtain ⟨t1, t2⟩ := hmi.sound_satisfy hv (by omega) false false
    exact ⟨t1, t2.trans hn⟩

theorem resetSignal_spec (tid : Nat) : ∀ (rs rs2 : List tRequest),
    resetSignal tid rs = some rs2 →
    rs2.length = rs.length ∧ sumShared rs2 = sumShared rs ∧
    sumExclusive rs2 = sumExclusive rs ∧ ((∀ r ∈ rs, r.Valid) → ∀ r ∈ rs2, r.Valid) := by
  intro rs
  induction rs with
  | nil => intro rs2 h; simp [resetSignal] at h
  | cons a rs ih =>
    intro rs2 h
    simp only [resetSignal] at h
    split_ifs at h with hc
    · simp only [Option.some.injEq] at h
      subst h
      refine ⟨rfl, rfl, rfl, fun hv r hr => ?_⟩
      simp only [List.mem_cons] at hr
      rcases hr with rfl | hr
      · exact (hv a (List.mem_cons_self _ _)).valid_signal false
      · exact hv r (List.mem_cons_of_mem _ hr)
    · simp only [Option.map_eq_some'] at h
      obtain ⟨rest, hrest, rfl⟩ := h
      obtain ⟨i1, i2, i3, i4⟩ := ih rest hrest
      refine ⟨by simp [i1], by simp [sumShared_cons, i2], by simp [sumExclusive_cons, i3],
        fun hv r hr => ?_⟩
      simp only [List.mem_cons] at hr
      rcases hr with rfl | hr
      · exact hv r (List.mem_cons_self _ _)
      · exact i4 (fun y hy => hv y (List.mem_cons_of_mem _ hy)) r hr

theorem Sound.sound_wake {m m2 : tAccessManager} {tid : Nat}
    (h : m.Sound) (hb : m.requests < 2 ^ 27) (hw : m.wake tid = some m2) :
    m2.Sound ∧ m2.requests = m.requests := by
  obtain ⟨hA, hP, hS, hex⟩ := h
  unfold wake at hw
  cases hreset : resetSignal tid m.activeRequests.head with
  | none => rw [hreset] at hw; simp at hw
  | some head =>
    rw [hreset] at hw
    simp only [Option.some.injEq] at hw
    obtain ⟨i1, i2, i3, i4⟩ := resetSignal_spec tid _ _ hreset
    have hmi : ({ m with activeRequests := { m.activeRequests with head := head } } :
        tAccessManager).Sound := by
      refine ⟨⟨i4 hA.1, ?_, ?_⟩, hP, hS, ?_⟩
      · simp only [i2]; exact hA.2.1
      · simp only [i3]; exact hA.2.2
      · simp only [i1]; exact hex
    have hn : ({ m with activeRequests := { m.activeRequests with head := head } } :
        tAccessManager).requests = m.requests := by
      simp only [requests, i1]
    obtain ⟨t1, t2⟩ := hmi.sound_satisfyPending (by rw [hn]; exact hb)
    rw [← hw]
    exact ⟨t1, t2.trans hn⟩

end tAccessManager

open tAccessManager in
theorem AccessState.call_sound {s s2 : AccessState} {c : AccessCall} {K : Nat}
    (h : s.manager.Sound) (hn : s.manager.requests ≤ K) (hlt : K + acquireCalls [c] < 2 ^ 27)
    (hc : s.call c = some s2) :
    s2.manager.Sound ∧ s2.manager.requests ≤ K + acquireCalls [c] := by
  cases c with
  | Acquire tid exclusive raw =>
    simp only [acquireCalls] at hlt ⊢
    simp only [AccessState.call] at hc
    split_ifs at hc
    split at hc
    · exact absurd hc (by simp)
    · simp only [Option.some.injEq] at hc
      subst hc
      obtain ⟨t1, t2⟩ := h.sound_Acquire (by omega) ‹_›
      exact ⟨t1, by simp only; omega⟩
  | Release tid =>
    simp only [acquireCalls] at hlt ⊢
    simp only [AccessState.call] at hc
    split_ifs at hc
    simp only [Option.map_eq_some'] at hc
    obtain ⟨⟨m2, e⟩, hr, rfl⟩ := hc
    obtain ⟨t1, t2⟩ := h.sound_Release (by omega) hr
    exact ⟨t1, by simp only; omega⟩
  | SuspendAccess tid =>
    simp only [acquireCalls] at hlt ⊢
    simp only [AccessState.call] at hc
    split_ifs at hc
    simp only [Option.map_eq_some'] at hc
    obtain ⟨m2, hr, rfl⟩ := hc
    obtain ⟨t1, t2⟩ := h.sound_SuspendAccess (by omega) hr
    exact ⟨t1, by simp only; omega⟩
  | ResumeAccess tid =>
    simp only [acquireCalls] at hlt ⊢
    simp only [AccessState.call] at hc
    obtain ⟨t1, t2⟩ := h.sound_ResumeAccess tid (by omega)
    split_ifs at hc <;>
      (simp only [Option.some.injEq] at hc
       subst hc
       exact ⟨t1, by simp only; omega⟩)
  | IncRef =>
    simp only [acquireCalls] at hlt ⊢
    simp only [AccessState.call, Option.some.injEq] at hc
    subst hc
    obtain ⟨t1, t2⟩ := h.of_lists (IncRef_lists s.manager)
    exact ⟨t1, by simp only; omega⟩
  | DecRef =>
    simp only [acquireCalls] at hlt ⊢
    simp only [AccessState.call, Option.map_eq_some'] at hc
    obtain ⟨m2, hr, rfl⟩ := hc
    obtain ⟨t1, t2⟩ := h.of_lists (DecRef_lists hr)
    exact ⟨t1, by simp only; omega⟩
  | Wake tid =>
    simp only [acquireCalls] at hlt ⊢
    simp only [AccessState.call] at hc
    split_ifs at hc
    simp only [Option.map_eq_some'] at hc
    obtain ⟨m2, hr, rfl⟩ := hc
    obtain ⟨t1, t2⟩ := h.sound_wake (by omega) hr
    exact ⟨t1, by simp only; omega⟩

theorem acquireCalls_cons (c : AccessCall) (cs : List AccessCall) :
    acquireCalls (c :: cs) = acquireCalls [c] + acquireCalls cs := by
  cases c <;> simp [acquireCalls]
  omega

open tAccessManager in
theorem AccessState.run_sound : ∀ (calls : List AccessCall) {s s2 : AccessState} {K : Nat},
    s.manager.Sound → s.manager.requests ≤ K → K + acquireCalls calls < 2 ^ 27 →
    s.run calls = some s2 →
    s2.manager.Sound ∧ s2.manager.requests ≤ K + acquireCalls calls := by
  intro calls
  induction calls with
  | nil =>
    intro s s2 K h hn _ hr
    simp only [AccessState.run, Option.some.injEq] at hr
    subst hr
    exact ⟨h, by simp only [acquireCalls]; omega⟩
  | cons c cs ih =>
    intro s s2 K h hn hlt hr
    rw [acquireCalls_cons] at hlt ⊢
    simp only [AccessState.run] at hr
    split at hr
    · exact absurd hr (by simp)
    · rename_i s1 hc
      obtain ⟨t1, t2⟩ := AccessState.call_sound h hn (by omega) hc
      have := ih t1 t2 (by omega) hr
      rwa [Nat.add_assoc] at this

open tAccessManager in
theorem ctor_Sound (raw : Nat → tRequest) : (ctor raw).Sound ∧ (ctor raw).requests = 0 := by
  obtain ⟨-, h2, h3, h4, -⟩ := ctorLoop_spec raw kInitialNumberOfRequestsInAccessManager 0
    { refcount := 0, activeRequests := tRequestList.empty,
      pendingRequests := tRequestList.empty, suspendedRequests := tRequestList.empty,
      emptyRequests := tRequestList.empty, allRefsReleased := true }
  have hok : tRequestList.empty.OK := ⟨fun r hr => absurd hr (by simp [tRequestList.empty]), rfl, rfl⟩
  unfold Sound requests ctor
  rw [h2, h3, h4]
  exact ⟨⟨hok, hok, hok, fun hc => absurd rfl hc⟩, rfl⟩

namespace tAccessManager

/-- With high priority the call `SatisfyRequest` makes to itself is not reached. -/
theorem SatisfyRequestWith_high (r1 r2 : tAccessManager → tAccessManager) (m : tAccessManager)
    (request : Option tRequest) (dt : Bool) :
    SatisfyRequestWith r1 m request true dt = SatisfyRequestWith r2 m request true dt := by
  cases request with
  | none => rfl
  | some request => simp only [SatisfyRequestWith_eq, if_true]

/-- The two ways of `SatisfyRequest`, by the value of `canBeSatisfied`. -/
theorem SatisfyRequest_eq (m : tAccessManager) (request : tRequest) (hp dt : Bool) :
    m.SatisfyRequest (some request) hp dt =
      if m.canBeSatisfied request hp then
        ({ m with
           activeRequests :=
             m.activeRequests.AddAtHead
               (if dt then { request with signal := true } else request) }, false)
      else
        (if hp then { m with pendingRequests := m.pendingRequests.AddAtHead request }
         else
           { ({ m with pendingRequests := m.pendingRequests.RemoveHead.2 }.SatisfyRequest
                m.pendingRequests.RemoveHead.1 true true).1 with
             pendingRequests :=
               ({ m with pendingRequests := m.pendingRequests.RemoveHead.2 }.SatisfyRequest
                 m.pendingRequests.RemoveHead.1 true true).1.pendingRequests.AddAtTail
                   request }, !dt) := by
  unfold SatisfyRequest
  rw [SatisfyRequestWith_eq]
  rw [SatisfyRequestWith_high (fun m => m)]

/-- On lists that are in order `canBeSatisfied` says: no active request holds exclusive
access, the request is not exclusive unless nothing is active, and nothing is pending
unless the request has high priority. -/
theorem Sound.canBeSatisfied_spec {m : tAccessManager} (h : m.Sound)
    (hb : m.requests < 2 ^ 27) (request : tRequest) (hp : Bool) :
    m.canBeSatisfied request hp = true ↔
      (∀ a ∈ m.activeRequests.head, a.CountExclusive = 0) ∧
      (request.CountExclusive = 0 ∨ m.activeRequests.head = []) ∧
      (hp = true ∨ m.pendingRequests.head = []) := by
  obtain ⟨hA, hP, -, -⟩ := h
  simp only [requests] at hb
  obtain ⟨-, a2, -, -⟩ := hA.ok_bounds (by omega)
  obtain ⟨-, p2, -, -⟩ := hP.ok_bounds (by omega)
  have hsum : m.activeRequests.CountExclusive = 0 ↔
      ∀ a ∈ m.activeRequests.head, a.CountExclusive = 0 := by
    simp only [tRequestList.CountExclusive, hA.2.2, sumExclusive, List.sum_eq_zero_iff,
      List.mem_map, forall_exists_index, and_imp, forall_apply_eq_imp_iff₂,
      tRequest.CountExclusive]
  rw [canBeSatisfied_iff, hsum, a2, p2]
  tauto

/-- A request with exclusive access is the only active request. -/
theorem Sound.exclusive_alone {m : tAccessManager} (h : m.Sound) (r : tRequest) (hr : r ∈ m.activeRequests.head) (hex : r.CountExclusive ≠ 0) :
    m.activeRequests.head = [r] := by
  obtain ⟨hA, -, -, hone⟩ := h
  have hne : m.activeRequests.exclusive ≠ 0 := by
    rw [hA.2.2]
    intro hc
    simp only [sumExclusive, List.sum_eq_zero_iff, List.mem_map, forall_exists_index, and_imp,
      forall_apply_eq_imp_iff₂] at hc
    exact hex (hc r hr)
  have h1 := hone hne
  match hh : m.activeRequests.head, h1, hr with
  | [a], _, hr =>
    simp only [List.mem_singleton] at hr
    rw [hr]

end tAccessManager

set_option maxRecDepth 100000 in
theorem sampleAccessHeld_run :
    sampleAccessStart.run sampleAccessCallsHeld = some sampleAccessHeld :=
  getD_of_isSome sampleAccessStart (by decide!)

set_option maxRecDepth 100000 in
theorem sampleAccessHeld_active : sampleAccessHeld.manager.activeRequests.head =
    [⟨5, 0, 1, (0xDEADBEEF <<< 1) % 2 ^ 32, false, false⟩] := by decide!

set_option maxRecDepth 100000 in
theorem sampleAccessHeld_waiting : sampleAccessHeld.waiting = [6] := by decide!

end EasyRDMA

namespace EasyRDMA
open RdmaBufferQueue RdmaConnectedSessionBase SessionManager

set_option maxRecDepth 100000 in
theorem sampleSenderConfigured_transfer :
    sampleSenderConfigured.session.transferBuffers = some (sampleQueue Direction.Send) := by
  decide!

theorem sampleQueue_Inv : (sampleQueue Direction.Send).Inv :=
  Reachable.inv ⟨sampleQueue Direction.Send, [],
    sampleQueue_constructed Direction.Send (by decide), rfl⟩

end EasyRDMA

/-! ## The claims C21 to C30 -/

namespace EasyRDMA

open RdmaBufferQueue RdmaConnectedSessionBase tAccessManager SessionManager

/-- C21, the code on the claim: one thread alone holds the accesses `stack`, newest first,
1 to 32 of them, with nothing pending, and calls `SuspendAccess` and then `ResumeAccess`.
With fewer than 32 accesses, or with none of them exclusive, `SuspendAccess` parks the
request of the thread at the head of the suspended list and leaves nothing active, with the
reference count as it was; `ResumeAccess` returns without waiting, the thread holds the
same stack again, the active shared and exclusive counts are those before the suspend, and
the calls of `Release` return the modes newest first, the same as without the suspend.
With 32 accesses, one of them exclusive, the `assert` of `Add` fails inside
`SuspendAccess`, which adds an exclusive access to the request before it removes it
again. -/
theorem C21_suspend_resume (m : tAccessManager) (ourTid : Nat) (stack : List Bool)
    (hm : m.Holds ourTid stack) (hne : stack ≠ []) :
    (stack.length < kMaxNestLevel ∨ stack.count true = 0 →
      ∃ m1 m2 m3 m4 request,
        m.SuspendAccess ourTid = some m1 ∧
        m1.suspendedRequests.head = request :: m.suspendedRequests.head ∧
        request.tid = ourTid ∧
        m1.DebugGetActiveCount = 0 ∧ m1.DebugGetActiveSharedCount = 0 ∧
        m1.DebugGetActiveExclusiveCount = 0 ∧ m1.DebugGetRefCount = m.DebugGetRefCount ∧
        m1.ResumeAccess ourTid = (m2, false) ∧
        m2.Holds ourTid stack ∧
        m2.suspendedRequests.head = m.suspendedRequests.head ∧
        m2.DebugGetActiveSharedCount = m.DebugGetActiveSharedCount ∧
        m2.DebugGetActiveExclusiveCount = m.DebugGetActiveExclusiveCount ∧
        m2.DebugGetRefCount = m.DebugGetRefCount ∧
        releases ourTid stack.length m2 = some (m3, stack) ∧
        releases ourTid stack.length m = some (m4, stack)) ∧
    (stack.length = kMaxNestLevel → stack.count true ≠ 0 → m.SuspendAccess ourTid = none) := by
  refine ⟨fun hok => ?_, fun hlen hex => hm.holds_suspend_full hlen hex⟩
  cases stack with
  | nil => exact absurd rfl hne
  | cons x stack =>
    obtain ⟨request, e1, htid, hy, hsh, hexc, hsp⟩ := hm.holds_suspend hok
    obtain ⟨m2, e2, hh2, hsus⟩ := holds_resume
      (m := { m with activeRequests := tRequestList.empty
                     suspendedRequests := m.suspendedRequests.AddAtHead request })
      m.suspendedRequests request rfl hm.1 hm.2.1 hm.2.2.1 hne rfl htid hy hsh hexc hsp
    obtain ⟨m3, e3, -, -⟩ := Holds.holds_releases (x :: stack) hh2
    obtain ⟨m4, e4, -, -⟩ := Holds.holds_releases (x :: stack) hm
    obtain ⟨c1, c2, c3, -⟩ := hm.holds_counts
    obtain ⟨d1, d2, d3, -⟩ := hh2.holds_counts
    exact ⟨_, m2, m3, m4, request, e1, rfl, htid, rfl, rfl, rfl, rfl, e2, hh2, hsus,
      d2.trans c2.symm, d3.trans c3.symm, d1.trans c1.symm, e3, e4⟩

/-- C21 at the failing input: thread 5 holds 32 accesses, the oldest shared and the others
exclusive, and `SuspendAccess` fails its `assert`. -/
theorem C21_suspend_resume_witness :
    sampleManagerFull.Holds 5 (List.replicate 31 true ++ [false]) ∧
    List.replicate 31 true ++ [false] ≠ [] ∧
    (List.replicate 31 true ++ [false]).length = kMaxNestLevel ∧
    (List.replicate 31 true ++ [false]).count true ≠ 0 ∧
    sampleManagerFull.SuspendAccess 5 = none :=
  ⟨sampleManagerFull_Holds, by decide, by decide, by decide,
    (C21_suspend_resume sampleManagerFull 5 (List.replicate 31 true ++ [false])
      sampleManagerFull_Holds (by decide)).2 (by decide) (by decide)⟩

/-- C22: after any steps of any threads on a fresh access manager (calls of `Acquire`,
`Release`, `SuspendAccess`, `ResumeAccess`, `IncRef` and `DecRef`, and threads that wake
up from their wait), fewer than 2^27 of them calls of `Acquire`, an active request that
holds exclusive access is the only active request, so every active access belongs to its
thread. In such a state `SatisfyRequest(request, flags)` makes the request active, and
signals it for a different thread, exactly when `canBeSatisfied` is true, which says: no
active request holds exclusive access, the request holds no exclusive access unless no
request at all is active, and no request is pending unless the flags carry
`kHighPriority`. Otherwise the request goes on the pending list and the caller waits
unless the flags carry `kDifferentThread`: with high priority at the head, without it at
the tail, after the head of the pending list has had its turn with high priority. -/
theorem C22_exclusive_is_alone (raw : Nat → tRequest) (calls : List AccessCall)
    (s : AccessState)
    (hrun : AccessState.run ⟨tAccessManager.ctor raw, []⟩ calls = some s)
    (hlt : acquireCalls calls < 2 ^ 27) :
    (∀ r ∈ s.manager.activeRequests.head, r.CountExclusive ≠ 0 →
      s.manager.activeRequests.head = [r] ∧
      ∀ r2 ∈ s.manager.activeRequests.head, r2.GetTid = r.GetTid) ∧
    (s.manager.DebugGetActiveExclusiveCount = sumExclusive s.manager.activeRequests.head ∧
      s.manager.DebugGetActiveSharedCount = sumShared s.manager.activeRequests.head) ∧
    ∀ (request : tRequest) (hp dt : Bool),
      (s.manager.canBeSatisfied request hp = true ↔
        (∀ a ∈ s.manager.activeRequests.head, a.CountExclusive = 0) ∧
        (request.CountExclusive = 0 ∨ s.manager.activeRequests.head = []) ∧
        (hp = true ∨ s.manager.pendingRequests.head = [])) ∧
      s.manager.SatisfyRequest (some request) hp dt =
        if s.manager.canBeSatisfied request hp then
          ({ s.manager with
             activeRequests :=
               s.manager.activeRequests.AddAtHead
                 (if dt then { request with signal := true } else request) }, false)
        else
          (if hp then
             { s.manager with
               pendingRequests := s.manager.pendingRequests.AddAtHead request }
           else
             { ({ s.manager with
                  pendingRequests := s.manager.pendingRequests.RemoveHead.2 }.SatisfyRequest
                  s.manager.pendingRequests.RemoveHead.1 true true).1 with
               pendingRequests :=
                 ({ s.manager with
                    pendingRequests :=
                      s.manager.pendingRequests.RemoveHead.2 }.SatisfyRequest
                   s.manager.pendingRequests.RemoveHead.1 true true).1.pendingRequests.AddAtTail
                     request }, !dt) := by
  obtain ⟨c1, c2⟩ := ctor_Sound raw
  obtain ⟨h1, h2⟩ := AccessState.run_sound calls (s := ⟨tAccessManager.ctor raw, []⟩) (K := 0)
    c1 (by rw [c2]) (by simpa using hlt) hrun
  simp only [Nat.zero_add] at h2
  refine ⟨fun r hr hex => ?_, ⟨h1.1.2.2, h1.1.2.1⟩, fun request hp dt =>
    ⟨h1.canBeSatisfied_spec (by omega) request hp, SatisfyRequest_eq _ request hp dt⟩⟩
  have hone := h1.exclusive_alone r hr hex
  refine ⟨hone, fun r2 hr2 => ?_⟩
  rw [hone] at hr2
  simp only [List.mem_singleton] at hr2
  rw [hr2]

/-- C22 at work: thread 5 holds exclusive access and thread 6 waits for shared access; the
request of thread 5 is the only active one, and a shared request of thread 7 cannot be
satisfied, not even with high priority. -/
theorem C22_exclusive_is_alone_witness :
    AccessState.run ⟨tAccessManager.ctor sampleRawRequest, []⟩ sampleAccessCallsHeld =
      some sampleAccessHeld ∧
    acquireCalls sampleAccessCallsHeld < 2 ^ 27 ∧
    sampleAccessHeld.waiting = [6] ∧
    sampleAccessHeld.manager.activeRequests.head =
      [⟨5, 0, 1, (0xDEADBEEF <<< 1) % 2 ^ 32, false, false⟩] ∧
    sampleAccessHeld.manager.canBeSatisfied ⟨7, 1, 0, 1, false, false⟩ true = false :=
  ⟨sampleAccessHeld_run, by decide, sampleAccessHeld_waiting,
    ((C22_exclusive_is_alone sampleRawRequest sampleAccessCallsHeld sampleAccessHeld
      sampleAccessHeld_run (by decide)).1 ⟨5, 0, 1, (0xDEADBEEF <<< 1) % 2 ^ 32, false, false⟩
      (by rw [sampleAccessHeld_active]; exact List.mem_singleton.2 rfl) (by decide)).1,
    by
      have h := ((C22_exclusive_is_alone sampleRawRequest sampleAccessCallsHeld
        sampleAccessHeld sampleAccessHeld_run (by decide)).2.2
          ⟨7, 1, 0, 1, false, false⟩ true false).1
      cases hc : sampleAccessHeld.manager.canBeSatisfied ⟨7, 1, 0, 1, false, false⟩ true with
      | false => rfl
      | true =>
        have h5 := (h.1 hc).1 ⟨5, 0, 1, (0xDEADBEEF <<< 1) % 2 ^ 32, false, false⟩
          (by rw [sampleAccessHeld_active]; exact List.mem_singleton.2 rfl)
        exact absurd h5 (by decide)⟩

/-- C24: on an uncontended access manager (nothing active, nothing pending, no reference),
after one thread has acquired the modes `modes`, 1 to 32 of them, `ReleaseAll` returns a
stack of that size whose entries are the modes newest first (the entries behind them keep
the false that `ReleaseAll` fills in), and leaves the active counts and the reference count
at zero with the all-references-released event signalled. `AcquireAll` of that stack
returns without waiting and gives the thread its stack of accesses back: the active shared
and exclusive counts and the reference count are those before `ReleaseAll`, and the calls
of `Release` that follow return the modes newest first and leave nothing active. -/
theorem C24_release_all_acquire_all (m : tAccessManager) (ourTid : Nat) (raw raw2 : tRequest)
    (modes : List Bool)
    (hm : m.activeRequests = tRequestList.empty ∧ m.pendingRequests = tRequestList.empty ∧
      m.refcount = 0)
    (h1 : 1 ≤ modes.length) (h32 : modes.length ≤ kMaxNestLevel) :
    ∃ m1 m2 m3 m4 accessStack,
      acquires ourTid raw m modes = some m1 ∧
      m1.ReleaseAll ourTid = some (m2, accessStack) ∧
      accessStack.size = modes.length ∧
      accessStack.val = modes.reverse ++ List.replicate (kMaxNestLevel - modes.length) false ∧
      m2.DebugGetActiveSharedCount = 0 ∧ m2.DebugGetActiveExclusiveCount = 0 ∧
      m2.DebugGetActiveCount = 0 ∧ m2.DebugGetRefCount = 0 ∧ m2.allRefsReleased = true ∧
      m2.AcquireAll ourTid accessStack raw2 = some m3 ∧
      m1.Holds ourTid modes.reverse ∧ m3.Holds ourTid modes.reverse ∧
      m3.DebugGetActiveSharedCount = m1.DebugGetActiveSharedCount ∧
      m3.DebugGetActiveExclusiveCount = m1.DebugGetActiveExclusiveCount ∧
      m3.DebugGetRefCount = m1.DebugGetRefCount ∧
      releases ourTid modes.length m3 = some (m4, modes.reverse) ∧
      m4.DebugGetActiveCount = 0 ∧ m4.DebugGetRefCount = 0 := by
  have h0 : m.Holds ourTid [] := ⟨hm.2.1, hm.2.2, by simp, hm.1⟩
  obtain ⟨m1, e1, hh1⟩ := Holds.holds_acquires raw modes h0 (by simpa using h32)
  simp only [List.append_nil] at hh1
  simp only [kMaxNestLevel] at h32
  obtain ⟨m2, e2, hh2, hall⟩ := Holds.holds_releaseAllLoop modes.reverse kMaxNestLevel m1
    ⟨0, List.replicate kMaxNestLevel false⟩ hh1
    (by simp only [List.length_reverse, kMaxNestLevel]; exact h32)
    (by simp only [List.length_reverse, List.length_replicate, kMaxNestLevel]; omega)
  simp only [List.take_zero, List.nil_append, Nat.zero_add, List.length_reverse,
    List.drop_replicate] at e2
  have hacq : m2.AcquireAll ourTid
      ⟨modes.length, modes.reverse ++ List.replicate (kMaxNestLevel - modes.length) false⟩ raw2 =
      acquires ourTid raw2 m2 modes := by
    have ht : (modes.reverse ++ List.replicate (kMaxNestLevel - modes.length) false).take
        modes.length = modes.reverse := by
      rw [List.take_append_of_le_length (by simp)]
      exact List.take_of_length_le (by simp)
    simp only [AcquireAll, ht, List.reverse_reverse]
    rw [if_pos ⟨by omega, h32⟩]
  obtain ⟨m3, e3, hh3⟩ := Holds.holds_acquires raw2 modes hh2
    (by simpa [kMaxNestLevel] using h32)
  simp only [List.append_nil] at hh3
  obtain ⟨m4, e4, hh4, -⟩ := Holds.holds_releases modes.reverse hh3
  simp only [List.length_reverse] at e4
  obtain ⟨c1, c2, c3, -⟩ := hh1.holds_counts
  obtain ⟨d1, d2, d3, -⟩ := hh3.holds_counts
  obtain ⟨r1, r2, r3, r4⟩ := hh2.holds_counts
  obtain ⟨s1, -, -, s4⟩ := hh4.holds_counts
  have hne : modes.reverse ≠ [] := by
    intro hc
    have := congrArg List.length hc
    simp only [List.length_reverse, List.length_nil] at this
    omega
  exact ⟨m1, m2, m3, m4, _, e1, e2, rfl, rfl, r2, r3, r4, r1, hall hne, hacq.trans e3, hh1, hh3,
    d2.trans c2.symm, d3.trans c3.symm, d1.trans c1.symm, e4, s4, s1⟩

/-- C24 at work: exclusive, shared, shared on a fresh manager whose request memory holds
left-overs. -/
theorem C24_release_all_acquire_all_witness :
    ((tAccessManager.ctor sampleRawRequest).activeRequests = tRequestList.empty ∧
      (tAccessManager.ctor sampleRawRequest).pendingRequests = tRequestList.empty ∧
      (tAccessManager.ctor sampleRawRequest).refcount = 0) ∧
    1 ≤ [true, false, false].length ∧ [true, false, false].length ≤ kMaxNestLevel ∧
    ∃ m1 m2 m3 m4 accessStack,
      acquires 5 (sampleRawRequest 99) (tAccessManager.ctor sampleRawRequest)
        [true, false, false] = some m1 ∧
      m1.ReleaseAll 5 = some (m2, accessStack) ∧
      accessStack.size = 3 ∧
      accessStack.val = [false, false, true] ++ List.replicate 29 false ∧
      m2.AcquireAll 5 accessStack (sampleRawRequest 98) = some m3 ∧
      releases 5 3 m3 = some (m4, [false, false, true]) :=
  ⟨by decide, by decide, by decide,
    match C24_release_all_acquire_all (tAccessManager.ctor sampleRawRequest) 5
      (sampleRawRequest 99) (sampleRawRequest 98) [true, false, false] (by decide) (by decide)
      (by decide) with
    | ⟨m1, m2, m3, m4, accessStack, h1, h2, h3, h4, _, _, _, _, _, h10, _, _, _, _, _, h16, _, _⟩ =>
      ⟨m1, m2, m3, m4, accessStack, h1, h2, h3, h4, h10, h16⟩⟩

/-- C25, as stated, fails: 0x999 is no property of easyrdma.h, and setting it on the
connected sender that is handle 1 ends with ReadOnlyProperty, not with InvalidProperty. -/
theorem C25_counterexample :
    (0x999 : Nat) ∉ easyrdma_Properties ∧
    sampleRegistryOpen.sessionMap.find 1 =
      some (RdmaSession.Connected sampleSenderHolding) ∧
    sampleSenderHolding.connected = true ∧
    (easyrdma_SetProperty sampleRegistryOpen 1 0x999 [] 0).map (fun r => r.status) =
      some ⟨easyrdma_Error_ReadOnlyProperty, 0, fileRdmaConnectedSessionBase, 344⟩ ∧
    easyrdma_Error_ReadOnlyProperty ≠ easyrdma_Error_InvalidProperty := by
  refine ⟨by decide, rfl, by decide!, by decide!, by decide⟩

/-- C25, amended: on a connected session (a session of class `RdmaConnectedSessionBase`
in the open table of a registry that calls of the API reached) the three property failures
are distinct error kinds: getting the write-only property ConnectionData (0x202) ends with
WriteOnlyProperty; setting a read-only property (QueuedBuffers, Connected, UserBuffers,
NumOpenedSessions, NumPendingDestructionSessions) ends with ReadOnlyProperty; getting a
property id that is not in the property table ends with InvalidProperty, and setting a
property id that is not in the property table ends with ReadOnlyProperty. The read-only
properties and the ids outside the table are together the ids other than ConnectionData
and UseRxPolling. Each of these calls leaves the registry, the session and the output
arguments as they were. -/
theorem C25_property_errors (m : SessionManager) (hm : Registry m) (h : Nat)
    (s : RdmaConnectedSessionBase)
    (hopen : m.sessionMap.find h = some (RdmaSession.Connected s)) :
    (∀ value size, easyrdma_GetProperty m h easyrdma_Property_ConnectionData value
        (some size) =
      some ⟨API_CATCH_EXCEPTION ⟨easyrdma_Error_WriteOnlyProperty, 0, fileRdmaApiC, 398⟩,
        value, some size⟩) ∧
    (∀ propertyId value valueSize, propertyId ≠ easyrdma_Property_ConnectionData →
      propertyId ≠ easyrdma_Property_UseRxPolling →
      easyrdma_SetProperty m h propertyId value valueSize =
        some ⟨m, API_CATCH_EXCEPTION ⟨easyrdma_Error_ReadOnlyProperty, 0,
          fileRdmaConnectedSessionBase, 344⟩, []⟩) ∧
    (∀ propertyId ∈ [easyrdma_Property_QueuedBuffers, easyrdma_Property_Connected,
        easyrdma_Property_UserBuffers, easyrdma_Property_NumOpenedSessions,
        easyrdma_Property_NumPendingDestructionSessions],
      propertyId ≠ easyrdma_Property_ConnectionData ∧
      propertyId ≠ easyrdma_Property_UseRxPolling) ∧
    (∀ propertyId, propertyId ∉ easyrdma_Properties →
      propertyId ≠ easyrdma_Property_ConnectionData ∧
      propertyId ≠ easyrdma_Property_UseRxPolling) ∧
    (∀ propertyId value valueSize, propertyId ∉ easyrdma_Properties →
      easyrdma_SetProperty m h propertyId value valueSize =
        some ⟨m, API_CATCH_EXCEPTION ⟨easyrdma_Error_ReadOnlyProperty, 0,
          fileRdmaConnectedSessionBase, 344⟩, []⟩) ∧
    (∀ propertyId value size, propertyId ∉ easyrdma_Properties →
      easyrdma_GetProperty m h propertyId value (some size) =
        some ⟨API_CATCH_EXCEPTION ⟨easyrdma_Error_InvalidProperty, 0,
          fileRdmaConnectedSessionBase, 312⟩, value, some size⟩) ∧
    (API_CATCH_EXCEPTION ⟨easyrdma_Error_WriteOnlyProperty, 0, fileRdmaApiC, 398⟩).GetCode =
      easyrdma_Error_WriteOnlyProperty ∧
    (API_CATCH_EXCEPTION ⟨easyrdma_Error_ReadOnlyProperty, 0, fileRdmaConnectedSessionBase,
      344⟩).GetCode = easyrdma_Error_ReadOnlyProperty ∧
    (API_CATCH_EXCEPTION ⟨easyrdma_Error_InvalidProperty, 0, fileRdmaConnectedSessionBase,
      312⟩).GetCode = easyrdma_Error_InvalidProperty ∧
    easyrdma_Error_WriteOnlyProperty ≠ easyrdma_Error_ReadOnlyProperty ∧
    easyrdma_Error_WriteOnlyProperty ≠ easyrdma_Error_InvalidProperty ∧
    easyrdma_Error_ReadOnlyProperty ≠ easyrdma_Error_InvalidProperty := by
  have hI := hm.registry_inv
  have hget : m.GetSession h false = Except.ok (RdmaSession.Connected s, false) := by
    simp only [GetSession, hopen]
  have hstore : m.store h false (RdmaSession.Connected s) = m := by
    simp only [store, Bool.false_eq_true, if_false, tMap.assign_self hI.sortedOpen hopen]
  have hout : ∀ propertyId, propertyId ∉ easyrdma_Properties →
      propertyId ≠ easyrdma_Property_ConnectionData ∧
      propertyId ≠ easyrdma_Property_UseRxPolling := by
    intro propertyId hnot
    simp only [easyrdma_Properties, List.mem_cons, List.mem_singleton, not_or,
      List.not_mem_nil, or_false] at hnot
    exact ⟨hnot.2.2.2.2.2.2, hnot.2.2.2.1⟩
  have hset : ∀ propertyId value valueSize, propertyId ≠ easyrdma_Property_ConnectionData →
      propertyId ≠ easyrdma_Property_UseRxPolling →
      easyrdma_SetProperty m h propertyId value valueSize =
        some ⟨m, API_CATCH_EXCEPTION ⟨easyrdma_Error_ReadOnlyProperty, 0,
          fileRdmaConnectedSessionBase, 344⟩, []⟩ := by
    intro propertyId value valueSize h1 h2
    simp only [easyrdma_SetProperty, hget, RdmaSession.SetProperty,
      RdmaConnectedSessionBase.SetProperty, h1, h2, if_false, Option.map_some', hstore]
  refine ⟨?_, hset, by decide, hout,
    fun propertyId value valueSize hnot =>
      hset propertyId value valueSize (hout propertyId hnot).1 (hout propertyId hnot).2,
    ?_, rfl, rfl, rfl, by decide, by decide, by decide⟩
  · intro value size
    simp only [easyrdma_GetProperty, if_true]
  · intro propertyId value size hnot
    simp only [easyrdma_Properties, List.mem_cons, List.mem_singleton, not_or,
      List.not_mem_nil, or_false] at hnot
    obtain ⟨n1, n2, n3, n4, n5, n6, n7⟩ := hnot
    simp only [easyrdma_GetProperty, n7, n5, n6, if_false, hget, RdmaSession.GetProperty,
      RdmaConnectedSessionBase.GetProperty, n1, n3, or_self, n2, n4]

/-- C25 at work on the connected sender that is handle 1: setting QueuedBuffers ends with
ReadOnlyProperty. -/
theorem C25_property_errors_witness :
    Registry sampleRegistryOpen ∧
    sampleRegistryOpen.sessionMap.find 1 =
      some (RdmaSession.Connected sampleSenderHolding) ∧
    easyrdma_SetProperty sampleRegistryOpen 1 easyrdma_Property_QueuedBuffers
        [1, 0, 0, 0, 0, 0, 0, 0] 8 =
      some ⟨sampleRegistryOpen, API_CATCH_EXCEPTION ⟨easyrdma_Error_ReadOnlyProperty, 0,
        fileRdmaConnectedSessionBase, 344⟩, []⟩ :=
  ⟨sampleRegistryOpen_registry, rfl,
    (C25_property_errors sampleRegistryOpen sampleRegistryOpen_registry 1 sampleSenderHolding
      rfl).2.1 easyrdma_Property_QueuedBuffers [1, 0, 0, 0, 0, 0, 0, 0] 8 (by decide)
      (by decide)⟩

/-- C26, what the code does: with a null buffer `easyrdma_GetLastErrorString` returns
InvalidArgument. With a buffer of at least `bufferSize` bytes it returns InvalidSize and
leaves the buffer alone whenever `bufferSize` is at most the length of the description
plus one, so also when the buffer has exactly the room for the description and its
terminating null; only for a larger `bufferSize` it returns Success, and the first
`bufferSize` bytes of the buffer are the description filled up with nulls. -/
theorem C26_last_error_string (lastRdmaError : RdmaError) (memory : List Nat)
    (bufferSize : Nat) (hmem : bufferSize ≤ memory.length) :
    easyrdma_GetLastErrorString lastRdmaError none bufferSize =
      some (easyrdma_Error_InvalidArgument, none) ∧
    (bufferSize ≤ (GetErrorDescription lastRdmaError).length + 1 →
      easyrdma_GetLastErrorString lastRdmaError (some memory) bufferSize =
        some (easyrdma_Error_InvalidSize, some memory)) ∧
    ((GetErrorDescription lastRdmaError).length + 1 < bufferSize →
      easyrdma_GetLastErrorString lastRdmaError (some memory) bufferSize =
        some (easyrdma_Error_Success,
          some (c_str (GetErrorDescription lastRdmaError) ++
            List.replicate (bufferSize - (GetErrorDescription lastRdmaError).length) 0 ++
            memory.drop bufferSize))) := by
  have hlast : GetLastRdmaError lastRdmaError RdmaError.success = lastRdmaError := rfl
  refine ⟨rfl, ?_, ?_⟩
  · intro h
    simp only [easyrdma_GetLastErrorString, hlast, gt_iff_lt, Nat.not_lt.mpr h, if_false]
  · intro h
    have hlen : (c_str (GetErrorDescription lastRdmaError)).length =
        (GetErrorDescription lastRdmaError).length := by
      simp only [c_str, List.length_map, String.length]
      rfl
    have htake : (c_str (GetErrorDescription lastRdmaError)).take bufferSize =
        c_str (GetErrorDescription lastRdmaError) := List.take_of_length_le (by omega)
    simp only [easyrdma_GetLastErrorString, hlast, gt_iff_lt, h, if_true, strncpy, hmem,
      Option.map_some', htake, hlen]

/-- C26 at the failing input: the description of `sampleLastError` has 73 chars and the
buffer 74 bytes, enough for the description and its terminating null, and the call
returns InvalidSize. -/
theorem C26_last_error_string_witness :
    (74 : Nat) ≤ sampleErrorBuffer.length ∧
    (GetErrorDescription sampleLastError).length + 1 = 74 ∧
    easyrdma_GetLastErrorString sampleLastError (some sampleErrorBuffer) 74 =
      some (easyrdma_Error_InvalidSize, some sampleErrorBuffer) :=
  ⟨by decide, by decide,
    (C26_last_error_string sampleLastError sampleErrorBuffer 74 (by decide)).2.1 (by decide)⟩

/-- C27: `GetErrorDescription(status)` is the empty string when `status` is no error. For an
error it is the text of `ConvertToErrorString` for the code, a newline, then, only when
the subcode is not zero, `Subcode: ` with the subcode in decimal and a newline, then
`Location: `, the file name (`Unknown` for a null pointer), a colon, the line in decimal and
a last newline. `ConvertToErrorString` gives every error code that easyrdma.h defines the
description of its comment, and no two codes have the same description; `to_string`
writes the decimal digits, after a minus sign for a negative number. -/
theorem C27_error_description (status : RdmaError) :
    (status.IsError = false → GetErrorDescription status = "") ∧
    (status.IsError = true → GetErrorDescription status =
      ConvertToErrorString status.GetCode ++ "\n" ++
        (if status.errorSubCode ≠ 0 then "Subcode: " ++ to_string status.errorSubCode ++ "\n"
         else "") ++
        "Location: " ++ status.filename.getD "Unknown" ++ ":" ++
        to_string status.fileLineNumber ++ "\n") ∧
    (∀ p ∈ easyrdma_Errors, ConvertToErrorString p.1 = p.2) ∧
    (easyrdma_Errors.map Prod.fst).Nodup ∧ (easyrdma_Errors.map Prod.snd).Nodup ∧
    (∀ n : Nat, to_string (Int.ofNat n) = Nat.repr n ∧
      to_string (Int.negSucc n) = "-" ++ Nat.repr (n + 1)) := by
  refine ⟨?_, ?_, by decide, by decide, by decide, fun n => ⟨rfl, rfl⟩⟩
  · intro h
    simp only [GetErrorDescription, h, Bool.false_eq_true, if_false]
  · intro h
    have hne : ¬ status.GetCode = easyrdma_Error_Success := by
      simpa [RdmaError.IsError, RdmaError.GetCode, easyrdma_Error_Success] using h
    have e1 : "\nSubcode: " = "\n" ++ "Subcode: " := by decide
    have e2 : "\nLocation: " = "\n" ++ "Location: " := by decide
    have e3 : ∀ s : String, "" ++ s = s := fun s => String.empty_append s
    simp only [GetErrorDescription, h, if_true, hne, if_false]
    by_cases hsub : status.errorSubCode = 0
    · cases status.filename <;>
        simp only [hsub, ne_eq, not_true_eq_false, if_false, e2, String.append_assoc, e3,
          Option.getD_some, Option.getD_none]
    · cases status.filename <;>
        simp only [hsub, ne_eq, not_false_eq_true, if_true, e1, e2, String.append_assoc,
          Option.getD_some, Option.getD_none]

/-- C27 at work: the description of an operating system error with subcode 8. -/
theorem C27_error_description_witness :
    (⟨easyrdma_Error_OperatingSystemError, 8, some "RdmaCommon.cpp", 12⟩ :
      RdmaError).IsError = true ∧
    GetErrorDescription ⟨easyrdma_Error_OperatingSystemError, 8, some "RdmaCommon.cpp", 12⟩ =
      "Operating system error.\nSubcode: 8\nLocation: RdmaCommon.cpp:12\n" :=
  ⟨rfl, ((C27_error_description
    ⟨easyrdma_Error_OperatingSystemError, 8, some "RdmaCommon.cpp", 12⟩).2.1 rfl).trans
    (by decide)⟩

/-- C28: a well-formed ring (it holds no more elements than it has slots) of any capacity
run through any calls of `push`, `pop` and `front` does what the list-based FIFO queue of
that capacity does on the elements of the ring, oldest first: the run fails an `assert`
exactly when a call is outside the conditions of the queue (`push` on a full ring, `pop` or
`front` on an empty one), otherwise the elements left and the values that `front` returned
are those of the queue. The capacity stays, the ring stays well formed, and its size is the
size at the start plus the number of pushes minus the number of pops. -/
theorem C28_ring_refines_fifo {α : Type} (r : tCircularFifo α) (hwf : r.WF)
    (ops : List (RingOp α)) :
    (r.run ops).map (fun p => (p.1.toList, p.2)) = listFifo r.capacity r.toList ops ∧
    ∀ r2 outs, r.run ops = some (r2, outs) →
      r2.capacity = r.capacity ∧ r2.WF ∧ r2.size + pops ops = r.size + pushes ops ∧
      r2.toList.length = r2.size := by
  obtain ⟨h1, h2⟩ := run_refines ops r hwf
  refine ⟨h1, ?_⟩
  intro r2 outs h
  obtain ⟨a, b, c⟩ := h2 r2 outs h
  exact ⟨a, b, c, tCircularFifo.toList_length r2 b⟩

/-- C28 at work: a ring of two slots wraps around and still hands out 5, 6, 7 in order. -/
theorem C28_ring_refines_fifo_witness :
    (tCircularFifo.ofSize 2 : tCircularFifo Nat).WF ∧
    ((tCircularFifo.ofSize 2 : tCircularFifo Nat).run sampleRingOps).map
        (fun p => (p.1.toList, p.2)) = some ([7], [5, 6, 7]) ∧
    listFifo 2 [] sampleRingOps = some ([7], [5, 6, 7]) ∧
    ((tCircularFifo.ofSize 2 : tCircularFifo Nat).run sampleRingOps).map
        (fun p => (p.1.toList, p.2)) =
      listFifo (tCircularFifo.ofSize 2 : tCircularFifo Nat).capacity
        (tCircularFifo.ofSize 2 : tCircularFifo Nat).toList sampleRingOps :=
  ⟨Nat.zero_le _, by decide, by decide,
    (C28_ring_refines_fifo (tCircularFifo.ofSize 2) (Nat.zero_le _) sampleRingOps).1⟩

/-- C29: let a `QueueBuffer` call on a queue reached from a construction fail with an
error of code SendTooLargeForRecvBuffer, where the provider call `QueueToQp` throws no
error of that code (no provider does). Then the queue after the call is the queue before
it with the sticky status assigned that error, and there is no effect: User, the hooks,
`availableCredits`, Idle, Queued, WaitingCredit and Completed are as before. When the
status was no error before the call, the failure is the credit check of a Send queue: the
buffer is held by the user and larger than the oldest credit, which stays. A buffer that
the user holds can still be released to Idle afterwards. -/
theorem C29_too_large_keeps_buffer (N : Nat) (q : RdmaBufferQueue) (h : Reachable N q)
    (b : Nat) (ignoreCredits : IgnoreCredits) (qp : Option RdmaError)
    (hqp : ∀ e, qp = some e → e.GetCode ≠ easyrdma_Error_SendTooLargeForRecvBuffer)
    (r : Ret Unit) (hrun : q.QueueBuffer b ignoreCredits qp = some r) (e : RdmaError)
    (hres : r.result = Except.error e)
    (he : e.GetCode = easyrdma_Error_SendTooLargeForRecvBuffer) :
    r.queue = { q with queueStatus := q.queueStatus.Assign e } ∧ r.effects = [] ∧
    r.queue.queueStatus.GetCode = easyrdma_Error_SendTooLargeForRecvBuffer ∧
    r.queue.User = q.User ∧ (∀ c, r.queue.linked c = q.linked c) ∧
    r.queue.availableCredits = q.availableCredits ∧ r.queue.Idle = q.Idle ∧
    r.queue.Queued = q.Queued ∧ r.queue.WaitingCredit = q.WaitingCredit ∧
    r.queue.Completed = q.Completed ∧
    (q.queueStatus.IsError = false →
      q.direction = Direction.Send ∧ ignoreCredits = IgnoreCredits.No ∧ b ∈ q.User ∧
      ∃ c rest, q.availableCredits = c :: rest ∧ c < q.used b) ∧
    (b ∈ q.User → ∃ r2, r.queue.ReleaseBuffer b = some r2 ∧ r2.result = Except.ok () ∧
      r2.queue.Idle = q.Idle ++ [b] ∧ r2.queue.User = q.User.erase b) := by
  have hI : q.Inv := Reachable.inv h
  have hI2 : r.queue.Inv := QueueBuffer_Inv hI hrun
  have key : r.queue = { q with queueStatus := q.queueStatus.Assign e } ∧ r.effects = [] ∧
      r.queue.queueStatus.GetCode = easyrdma_Error_SendTooLargeForRecvBuffer ∧
      (q.queueStatus.IsError = false →
        q.direction = Direction.Send ∧ ignoreCredits = IgnoreCredits.No ∧ b ∈ q.User ∧
        ∃ c rest, q.availableCredits = c :: rest ∧ c < q.used b) := by
    unfold RdmaBufferQueue.QueueBuffer at hrun
    split at hrun
    · rename_i hs
      cases hrun
      simp only [Except.error.injEq] at hres
      subst hres
      refine ⟨?_, rfl, he, fun hn => by rw [hs] at hn; cases hn⟩
      rw [Assign_of_isError hs]
    rename_i hs
    have hs' : q.queueStatus.IsError = false := by simpa using hs
    split at hrun
    · cases hrun
    rename_i buf hbuf
    split at hrun
    · cases hrun
      simp only [Except.error.injEq] at hres
      subst hres
      exact absurd he (by decide)
    rename_i hl
    have hl' : buf.userBufferListNode = true := by simpa using hl
    have hmem : b ∈ q.User := mem_user_of_linked hI hbuf hl'
    have toQp : ∀ q2 : RdmaBufferQueue,
        (match q2.queuedBuffers.push b with
          | none => none
          | some queued =>
            some (⟨{ q2 with queuedBuffers := queued }.userUnlink b, QueueToQp qp,
              [Effect.QueueToQp q2.direction b]⟩ : Ret Unit)) = some r → False := by
      intro q2 h2
      split at h2
      · cases h2
      cases h2
      cases hq : qp with
      | none => rw [hq] at hres; cases hres
      | some e2 =>
        rw [hq] at hres
        simp only [QueueToQp, Except.error.injEq] at hres
        subst hres
        exact hqp e2 hq he
    split at hrun
    · rename_i hsend
      split at hrun
      · rename_i c rest hc
        split at hrun
        · rename_i hbig
          cases hrun
          simp only [Except.error.injEq] at hres
          subst hres
          refine ⟨rfl, rfl, ?_, fun _ => ⟨hsend.1, hsend.2, hmem, c, rest, hc, ?_⟩⟩
          · have h0 : q.queueStatus.errorCode = 0 := (not_isError_iff _).mp hs'
            simp only [RdmaError.Assign, h0, if_true]
            rfl
          · rw [used_of_getElem? hbuf]
            exact hbig
        · exact (toQp _ hrun).elim
      · split at hrun
        · cases hrun
        · cases hrun
          cases hres
    · exact (toQp _ hrun).elim
  obtain ⟨k1, k2, k3, k4⟩ := key
  refine ⟨k1, k2, k3, by rw [k1]; rfl, fun c => by rw [k1]; rfl, by rw [k1], by rw [k1]; rfl,
    by rw [k1]; rfl, by rw [k1]; rfl, by rw [k1]; rfl, k4, ?_⟩
  intro hb
  have hb2 : b ∈ r.queue.userBuffers := by rw [k1]; exact hb
  obtain ⟨r2, hr2, hok, -, -, hu, hi, -⟩ := ReleaseBuffer_user hI2 hb2
  refine ⟨r2, hr2, hok, ?_, ?_⟩
  · rw [hi, k1]; rfl
  · rw [hu, k1]; rfl

/-- C29 at work: a send of 100 bytes against a credit of 50 bytes. -/
theorem C29_too_large_keeps_buffer_witness :
    Reachable 2 ((sampleQueue Direction.Send).after sampleCallsC2) ∧
    ((sampleQueue Direction.Send).after sampleCallsC2).QueueBuffer 0 IgnoreCredits.No none =
      some ⟨{ (sampleQueue Direction.Send).after sampleCallsC2 with
              queueStatus := RDMA_THROW easyrdma_Error_SendTooLargeForRecvBuffer 197 },
        Except.error (RDMA_THROW easyrdma_Error_SendTooLargeForRecvBuffer 197), []⟩ ∧
    ({ (sampleQueue Direction.Send).after sampleCallsC2 with
        queueStatus := RDMA_THROW easyrdma_Error_SendTooLargeForRecvBuffer 197 } :
      RdmaBufferQueue).User = ((sampleQueue Direction.Send).after sampleCallsC2).User ∧
    ({ (sampleQueue Direction.Send).after sampleCallsC2 with
        queueStatus := RDMA_THROW easyrdma_Error_SendTooLargeForRecvBuffer 197 } :
      RdmaBufferQueue).availableCredits = [50] :=
  ⟨⟨sampleQueue Direction.Send, sampleCallsC2,
      sampleQueue_constructed Direction.Send (by decide), by decide⟩,
    rfl,
    (C29_too_large_keeps_buffer 2 ((sampleQueue Direction.Send).after sampleCallsC2)
      ⟨sampleQueue Direction.Send, sampleCallsC2,
        sampleQueue_constructed Direction.Send (by decide), by decide⟩
      0 IgnoreCredits.No none (fun e he => Option.noConfusion he)
      ⟨{ (sampleQueue Direction.Send).after sampleCallsC2 with
          queueStatus := RDMA_THROW easyrdma_Error_SendTooLargeForRecvBuffer 197 },
        Except.error (RDMA_THROW easyrdma_Error_SendTooLargeForRecvBuffer 197), []⟩
      rfl (RDMA_THROW easyrdma_Error_SendTooLargeForRecvBuffer 197) rfl
      rfl).2.2.2.1,
    by decide⟩

/-- C30, what the code does: on a session with internally allocated buffers (the buffer
ownership that `ConfigureBuffers` sets), with no buffer wait in progress, a well-formed
transfer queue without sticky error and an idle buffer `b` at the front of Idle,
`QueueExternalBufferRegion` throws InvalidOperation (line 287) only after
`WaitForIdleBuffer` has handed out `b`: the buffer has left Idle and is at the back of
User, so the user-buffer count is one more than before the call. -/
theorem C30_external_region_on_internal_buffers (s : RdmaConnectedSessionBase)
    (q : RdmaBufferQueue) (htb : s.transferBuffers = some q) (hI : q.Inv)
    (hw : s.bufferWaitInProgress = false)
    (hown : s.bufferOwnership = BufferOwnership.Internal)
    (hs : q.queueStatus.IsError = false) (b : Nat) (rest : List Nat)
    (hidle : q.Idle = b :: rest) (size : Nat) (callbackData : BufferCompletionCallbackData)
    (timeoutMs : Int) (world : World) :
    ∃ q2, s.QueueExternalBufferRegion size callbackData timeoutMs world =
        some ⟨{ s with transferBuffers := some q2 },
          Except.error ⟨easyrdma_Error_InvalidOperation, 0, fileRdmaConnectedSessionBase,
            287⟩, []⟩ ∧
      q2.Idle = rest ∧ q2.User = q.User ++ [b] ∧ q2.User.length = q.User.length + 1 ∧
      q2.linked b = true ∧ q2.Queued = q.Queued ∧ q2.WaitingCredit = q.WaitingCredit ∧
      q2.Completed = q.Completed := by
  obtain ⟨idle, hwait, hl, hlink⟩ := WaitForIdleBuffer_ok hI hs hidle timeoutMs world.wait
  refine ⟨({ q with idleBuffers := idle } : RdmaBufferQueue).userPushBack b, ?_, hl, rfl, ?_,
    hlink, rfl, rfl, rfl⟩
  · unfold QueueExternalBufferRegion
    simp only [hw, Bool.false_eq_true, if_false, onTransfer, htb, hwait, Option.map_some',
      SessionRet.andThen, hown, ne_eq, reduceCtorEq, not_false_eq_true, or_true, if_true,
      List.append_nil]
  · simp only [User, userPushBack, List.length_append, List.length_singleton]

/-- C30 at the failing input: the sender configured with `ConfigureBuffers(100, 2)` has
both buffers idle and none with the user; after the failed `QueueExternalBufferRegion`
buffer 0 is with the user. -/
theorem C30_external_region_on_internal_buffers_witness :
    sampleSenderConfigured.session.transferBuffers = some (sampleQueue Direction.Send) ∧
    (sampleQueue Direction.Send).Inv ∧
    sampleSenderConfigured.session.bufferWaitInProgress = false ∧
    sampleSenderConfigured.session.bufferOwnership = BufferOwnership.Internal ∧
    (sampleQueue Direction.Send).queueStatus.IsError = false ∧
    (sampleQueue Direction.Send).Idle = [0, 1] ∧ (sampleQueue Direction.Send).User = [] ∧
    ∃ q2, sampleSenderConfigured.session.QueueExternalBufferRegion 10
          BufferCompletionCallbackData.unset 0 World.quiet =
        some ⟨{ sampleSenderConfigured.session with transferBuffers := some q2 },
          Except.error ⟨easyrdma_Error_InvalidOperation, 0, fileRdmaConnectedSessionBase,
            287⟩, []⟩ ∧
      q2.Idle = [1] ∧ q2.User = (sampleQueue Direction.Send).User ++ [0] ∧
      q2.User.length = (sampleQueue Direction.Send).User.length + 1 ∧
      q2.linked 0 = true ∧ q2.Queued = (sampleQueue Direction.Send).Queued ∧
      q2.WaitingCredit = (sampleQueue Direction.Send).WaitingCredit ∧
      q2.Completed = (sampleQueue Direction.Send).Completed :=
  ⟨sampleSenderConfigured_transfer, sampleQueue_Inv, by decide!, by decide!, by decide,
    by decide, by decide,
    C30_external_region_on_internal_buffers sampleSenderConfigured.session
      (sampleQueue Direction.Send) sampleSenderConfigured_transfer sampleQueue_Inv
      (by decide!) (by decide!) (by decide) 0 [1] (by decide) 10
      BufferCompletionCallbackData.unset 0 World.quiet⟩

end EasyRDMA
